import Mathlib

/-! DTrackSDK: the frame decoder `DTrackSDK::receive`, the session snapshot with its
accessors, and the command exchange `DTrackSDK::sendDTrack2Command`.

A shallow embedding of `Project/Project/DTrackSDK.cpp` (class `DTrackSDK`), of the record
types of `Project/Project/Lib/DTrackDataTypes.h` and of `tcp_send` / `tcp_receive` of
`Project/Project/Lib/DTrackNet.cpp`.

* C++ `int` / `unsigned int` values are `Int` / `Nat` (no wrap-around is modelled: the
  decoder only stores, compares and adds one to them); of a button word it takes the low
  bit `k & 0x01` (`k % 2`) and the shift `k >>= 1` (`k / 2`, rounding down as an arithmetic
  shift does).
* C++ `double` values are only stored and compared by the decoder; they are modelled by the
  exact decimal value of the literal they were read from (`Dbl`).
* `std::vector` tables are lists; an access outside the vector, outside a fixed-size member
  array, or a `resize` with a negative length is the outcome `undefined`.
* The `memset` calls that disable a body or a hand clear `sizeof` of the `float` record
  inside the larger `double` record; which members that covers is computed for 4-byte `int`
  and `float` and 8-byte aligned `double` (`memset_body`, `memset_hand`).
* The tokenizer (`Lib/DTrackParse`) is not part of the sources at hand and is modelled from
  the specification.
* What the operating system does in a call (`select`, `send`, `recv` and the bytes
  received) is an argument of the call (`UdpResult`, `TcpWire`).
-/

namespace DTrack

/-! ## Values -/

/-- A decimal value `mant / 10 ^ scale`, kept normalised (`scale = 0` or `10 ∤ mant`):
the model of a C++ `double` read from a decimal literal. -/
structure Dbl where
  mant : Int
  scale : Nat
deriving DecidableEq, Repr

/-- Normal form of `m / 10 ^ k`. -/
def Dbl.normalize : Int → Nat → Dbl
  | m, 0 => ⟨m, 0⟩
  | m, k + 1 => if m % 10 = 0 then Dbl.normalize (m / 10) k else ⟨m, k + 1⟩

/-- The double with an integral value. -/
def Dbl.ofInt (i : Int) : Dbl := ⟨i, 0⟩

/-- The value `m * 10 ^ e`. -/
def Dbl.ofDecimal (m : Int) (e : Int) : Dbl :=
  if 0 ≤ e then ⟨m * 10 ^ e.toNat, 0⟩ else Dbl.normalize m (-e).toNat

instance : OfNat Dbl 0 := ⟨Dbl.ofInt 0⟩
instance : OfNat Dbl 1 := ⟨Dbl.ofInt 1⟩
instance : Inhabited Dbl := ⟨Dbl.ofInt 0⟩

/-- The sentinel `-1` ("not tracked" quality, "not available" timestamp). -/
def Dbl.minusOne : Dbl := Dbl.ofInt (-1)

/-- An array of `n` zero doubles (the result of `memset` or value-initialisation). -/
def zeros (n : Nat) : List Dbl := List.replicate n 0

/-- Error codes `DTrackSDK::Errors`. -/
inductive Errors
  | ERR_NONE
  | ERR_TIMEOUT
  | ERR_NET
  | ERR_PARSE
deriving DecidableEq, Repr

/-- System types `DTrackSDK::RemoteSystemType`. -/
inductive RemoteSystemType
  | SYS_DTRACK_UNKNOWN
  | SYS_DTRACK
  | SYS_DTRACK_2
deriving DecidableEq, Repr

/-! ## Record types (`DTrackDataTypes.h`) -/

/-- Single marker data, `DTrack_Marker_Type_d`. -/
structure DTrack_Marker_Type_d where
  id : Int
  quality : Dbl
  loc : List Dbl
deriving DecidableEq, Repr

/-- Standard body data, `DTrack_Body_Type_d`. -/
structure DTrack_Body_Type_d where
  id : Int
  quality : Dbl
  loc : List Dbl
  rot : List Dbl
deriving DecidableEq, Repr

def DTRACK_FLYSTICK_MAX_BUTTON : Int := 16
def DTRACK_FLYSTICK_MAX_JOYSTICK : Int := 8

/-- Flystick data, `DTrack_FlyStick_Type_d`. -/
structure DTrack_FlyStick_Type_d where
  id : Int
  quality : Dbl
  num_button : Int
  button : List Int
  num_joystick : Int
  joystick : List Dbl
  loc : List Dbl
  rot : List Dbl
deriving DecidableEq, Repr

def DTRACK_MEATOOL_MAX_BUTTON : Int := 1

/-- Measurement tool data, `DTrack_MeaTool_Type_d`. -/
structure DTrack_MeaTool_Type_d where
  id : Int
  quality : Dbl
  num_button : Int
  button : List Int
  loc : List Dbl
  rot : List Dbl
deriving DecidableEq, Repr

/-- Measurement reference data, `DTrack_MeaRef_Type_d`. -/
structure DTrack_MeaRef_Type_d where
  id : Int
  quality : Dbl
  loc : List Dbl
  rot : List Dbl
deriving DecidableEq, Repr

def DTRACK_HAND_MAX_FINGER : Int := 5

/-- One finger of `DTrack_Hand_Type_d`. -/
structure DTrack_Finger_d where
  loc : List Dbl
  rot : List Dbl
  radiustip : Dbl
  lengthphalanx : List Dbl
  anglephalanx : List Dbl
deriving DecidableEq, Repr

/-- Fingertracking hand data, `DTrack_Hand_Type_d`. -/
structure DTrack_Hand_Type_d where
  id : Int
  quality : Dbl
  lr : Int
  nfinger : Int
  loc : List Dbl
  rot : List Dbl
  finger : List DTrack_Finger_d
deriving DecidableEq, Repr

def DTRACK_HUMAN_MAX_JOINTS : Int := 20

/-- One joint of `DTrack_Human_Type_d`. -/
structure DTrack_Joint_d where
  id : Int
  quality : Dbl
  loc : List Dbl
  ang : List Dbl
  rot : List Dbl
deriving DecidableEq, Repr

/-- Human model data, `DTrack_Human_Type_d`. -/
structure DTrack_Human_Type where
  id : Int
  num_joints : Int
  joint : List DTrack_Joint_d
deriving DecidableEq, Repr

/-! Value-initialised records (what `std::vector::resize` appends). -/

def marker_zero : DTrack_Marker_Type_d := ⟨0, 0, zeros 3⟩
def body_zero : DTrack_Body_Type_d := ⟨0, 0, zeros 3, zeros 9⟩
def flystick_zero : DTrack_FlyStick_Type_d :=
  ⟨0, 0, 0, List.replicate 16 0, 0, zeros 8, zeros 3, zeros 9⟩
def meatool_zero : DTrack_MeaTool_Type_d := ⟨0, 0, 0, List.replicate 1 0, zeros 3, zeros 9⟩
def mearef_zero : DTrack_MeaRef_Type_d := ⟨0, 0, zeros 3, zeros 9⟩
def finger_zero : DTrack_Finger_d := ⟨zeros 3, zeros 9, 0, zeros 3, zeros 2⟩
def hand_zero : DTrack_Hand_Type_d :=
  ⟨0, 0, 0, 0, zeros 3, zeros 9, List.replicate 5 finger_zero⟩
def joint_zero : DTrack_Joint_d := ⟨0, 0, zeros 3, zeros 3, zeros 9⟩
def human_zero : DTrack_Human_Type := ⟨0, 0, List.replicate 20 joint_zero⟩

/-- The element of `act_body` after `memset(&act_body[j], 0, sizeof(DTrack_Body_Type))`.
`DTrack_Body_Type` is the `float` record (`typedef DTrack_Body_Type_f DTrack_Body_Type`, 56
bytes), the element is the `double` record (112 bytes).  With 4-byte `int` and `float` and
8-byte aligned `double` the cleared bytes are those of `id`, `quality`, `loc`, `rot[0]` and
`rot[1]`; `rot[2] .. rot[8]` keep their values. -/
def memset_body (b : DTrack_Body_Type_d) : DTrack_Body_Type_d :=
  { id := 0, quality := 0, loc := zeros 3, rot := 0 :: 0 :: b.rot.drop 2 }

/-- The "not tracked" body left by `memset(&act_body[j], 0, sizeof(DTrack_Body_Type));
act_body[j].id = j; act_body[j].quality = -1;` in the place of `b`. -/
def body_disabled (j : Int) (b : DTrack_Body_Type_d) : DTrack_Body_Type_d :=
  { memset_body b with id := j, quality := Dbl.minusOne }

/-- The element of `act_hand` after `memset(&act_hand[j], 0, sizeof(DTrack_Hand_Type))`.
`DTrack_Hand_Type` is the `float` record (424 bytes), the element is the `double` record
(840 bytes, a finger taking 144 of them from offset 120 on).  With 4-byte `int` and `float`
and 8-byte aligned `double` the cleared bytes are those of `id`, `quality`, `lr`, `nfinger`,
`loc`, `rot`, `finger[0]`, `finger[1]` and `loc[0]`, `loc[1]` of `finger[2]`; the rest of
`finger[2]` and `finger[3]`, `finger[4]` keep their values. -/
def memset_hand (h : DTrack_Hand_Type_d) : DTrack_Hand_Type_d :=
  { id := 0, quality := 0, lr := 0, nfinger := 0, loc := zeros 3, rot := zeros 9,
    finger := (h.finger.take 2).map (fun _ => finger_zero) ++
      (match h.finger.drop 2 with
        | [] => []
        | f :: fs => { f with loc := 0 :: 0 :: f.loc.drop 2 } :: fs) }

/-- The "not tracked" hand left by `memset(&act_hand[j], 0, sizeof(DTrack_Hand_Type));
act_hand[j].id = j; act_hand[j].quality = -1;` in the place of `h`. -/
def hand_disabled (j : Int) (h : DTrack_Hand_Type_d) : DTrack_Hand_Type_d :=
  { memset_hand h with id := j, quality := Dbl.minusOne }

/-- The cleared human model left by `memset(&act_human[i], 0, sizeof(DTrack_Human_Type));
act_human[i].id = i; act_human[i].num_joints = 0;` (`DTrack_Human_Type` is the `double`
record itself, so the whole element is cleared). -/
def human_cleared (i : Int) (_h : DTrack_Human_Type) : DTrack_Human_Type :=
  { human_zero with id := i, num_joints := 0 }

/-! ## Session state (the data members of `class DTrackSDK`) -/

/-- A table of the snapshot: the pair of members `act_num_X` (`num`) and `act_X` (`vec`, a
`std::vector`). -/
structure Table (α : Type) where
  num : Int
  vec : List α
deriving DecidableEq, Repr

/-- The table after a complete `init`: `act_num_X = 0` and an empty vector. -/
def Table.empty {α : Type} : Table α := ⟨0, []⟩

/-- The members of `class DTrackSDK` that the decoder and the command channel read or write.
`d_udpsock` / `d_tcpsock` record whether the socket pointer is non-`NULL`; `act_body.num`
is the member `act_num_body`, `act_body.vec` the member `act_body`, and likewise for the
other tables.  `act_framecounter` is an `unsigned int` of 32 bits in the source: every
assignment to it stores a value below `2^32` (0, or the number of an `fr ` line modulo
`2^32`), so the sessions reached from `init` have a counter below `2^32`. -/
structure DTrackSDK where
  rsType : RemoteSystemType
  d_udpsock : Bool
  d_tcpsock : Bool
  lastDataError : Errors
  lastServerError : Errors
  lastDTrackError : Int
  lastDTrackErrorString : List Char
  act_framecounter : Nat
  act_timestamp : Dbl
  act_body : Table DTrack_Body_Type_d
  act_flystick : Table DTrack_FlyStick_Type_d
  act_meatool : Table DTrack_MeaTool_Type_d
  act_mearef : Table DTrack_MeaRef_Type_d
  act_hand : Table DTrack_Hand_Type_d
  act_human : Table DTrack_Human_Type
  act_marker : Table DTrack_Marker_Type_d
deriving DecidableEq, Repr

/-- The values that the members `act_framecounter`, `act_timestamp` and `act_num_body` ..
`act_num_marker` hold before `init` assigns them.  The constructors assign no member
themselves, so on the paths of `init` that return before the reset at lines 179-184 these
values are what the getters read (`framecounter` is taken modulo `2^32`, the member being an
`unsigned int`). -/
structure Unassigned where
  framecounter : Nat
  timestamp : Dbl
  num_body : Int
  num_flystick : Int
  num_meatool : Int
  num_mearef : Int
  num_hand : Int
  num_human : Int
  num_marker : Int
deriving DecidableEq, Repr

/-- The state `DTrackSDK::init` leaves behind.  `udp` tells whether the data socket and its
buffer could be set up, `tcp` whether the command socket could be opened; `remote_type` is
the value of `rsType` at the end.  With `udp = true` the function runs to its end: errors
cleared, frame data reset (lines 179-184), every vector empty.  With `udp = false` it
returns at line 146 (`udp_init` failed) or line 156 (`malloc` failed): both sockets are
`NULL`, the errors are cleared, the vectors are empty as constructed, and the frame counter,
the time stamp and the seven counts were never assigned: they hold the values `u`. -/
def DTrackSDK.init (remote_type : RemoteSystemType) (udp tcp : Bool) (u : Unassigned) :
    DTrackSDK :=
  if udp then
    { rsType := remote_type, d_udpsock := true, d_tcpsock := tcp,
      lastDataError := .ERR_NONE, lastServerError := .ERR_NONE,
      lastDTrackError := 0, lastDTrackErrorString := [],
      act_framecounter := 0, act_timestamp := Dbl.minusOne,
      act_body := Table.empty, act_flystick := Table.empty, act_meatool := Table.empty,
      act_mearef := Table.empty, act_hand := Table.empty, act_human := Table.empty,
      act_marker := Table.empty }
  else
    { rsType := remote_type, d_udpsock := false, d_tcpsock := false,
      lastDataError := .ERR_NONE, lastServerError := .ERR_NONE,
      lastDTrackError := 0, lastDTrackErrorString := [],
      act_framecounter := u.framecounter % 4294967296, act_timestamp := u.timestamp,
      act_body := ⟨u.num_body, []⟩, act_flystick := ⟨u.num_flystick, []⟩,
      act_meatool := ⟨u.num_meatool, []⟩, act_mearef := ⟨u.num_mearef, []⟩,
      act_hand := ⟨u.num_hand, []⟩, act_human := ⟨u.num_human, []⟩,
      act_marker := ⟨u.num_marker, []⟩ }

/-- `DTrackSDK::isLocalDataPortValid`. -/
def DTrackSDK.isLocalDataPortValid (self : DTrackSDK) : Bool := self.d_udpsock

/-- `DTrackSDK::isCommandInterfaceValid`. -/
def DTrackSDK.isCommandInterfaceValid (self : DTrackSDK) : Bool := self.d_tcpsock

/-- `DTrackSDK::getLastDataError`. -/
def DTrackSDK.getLastDataError (self : DTrackSDK) : Errors := self.lastDataError

/-- `DTrackSDK::getLastServerError`. -/
def DTrackSDK.getLastServerError (self : DTrackSDK) : Errors := self.lastServerError

/-- `DTrackSDK::getFrameCounter` (`unsigned int`). -/
def DTrackSDK.getFrameCounter (self : DTrackSDK) : Nat := self.act_framecounter

/-- `DTrackSDK::getTimeStamp`. -/
def DTrackSDK.getTimeStamp (self : DTrackSDK) : Dbl := self.act_timestamp

/-- The accessor pattern `if ((id >= 0) && (id < act_num_X)) return &act_X.at(id);
return NULL;` (`none` is `NULL`).  `at` throws when `id` is not below the size of the
vector; that case has the result `none` here too, and `Table.Answers` tells the two apart:
it asks for the entry to exist whenever `id` is below the count. -/
def Table.at {α : Type} (t : Table α) (id : Int) : Option α :=
  if 0 ≤ id ∧ id < t.num then t.vec[id.toNat]? else none

def DTrackSDK.getNumBody (self : DTrackSDK) : Int := self.act_body.num
def DTrackSDK.getBody (self : DTrackSDK) (id : Int) : Option DTrack_Body_Type_d :=
  self.act_body.at id
def DTrackSDK.getNumFlyStick (self : DTrackSDK) : Int := self.act_flystick.num
def DTrackSDK.getFlyStick (self : DTrackSDK) (id : Int) : Option DTrack_FlyStick_Type_d :=
  self.act_flystick.at id
def DTrackSDK.getNumMeaTool (self : DTrackSDK) : Int := self.act_meatool.num
def DTrackSDK.getMeaTool (self : DTrackSDK) (id : Int) : Option DTrack_MeaTool_Type_d :=
  self.act_meatool.at id
def DTrackSDK.getNumMeaRef (self : DTrackSDK) : Int := self.act_mearef.num
def DTrackSDK.getMeaRef (self : DTrackSDK) (id : Int) : Option DTrack_MeaRef_Type_d :=
  self.act_mearef.at id
def DTrackSDK.getNumHand (self : DTrackSDK) : Int := self.act_hand.num
def DTrackSDK.getHand (self : DTrackSDK) (id : Int) : Option DTrack_Hand_Type_d :=
  self.act_hand.at id
def DTrackSDK.getNumHuman (self : DTrackSDK) : Int := self.act_human.num
def DTrackSDK.getHuman (self : DTrackSDK) (id : Int) : Option DTrack_Human_Type :=
  self.act_human.at id
def DTrackSDK.getNumMarker (self : DTrackSDK) : Int := self.act_marker.num
def DTrackSDK.getMarker (self : DTrackSDK) (index : Int) : Option DTrack_Marker_Type_d :=
  self.act_marker.at index

/-! ## Tokenizer -/

/-- Modelled from the spec: the tokenizer's delimiter of "whitespace-delimited tokens" inside
one line slice (`Lib/DTrackParse` is not among the sources). -/
def isBlank (c : Char) : Bool := c == ' ' || c == '\t' || c == '\r'

/-- Modelled from the spec: the packet text is cut into "newline-delimited lines";
`next_line() -> line_slice | end` hands the decoder one line slice after the other
(`string_nextline` of `Lib/DTrackParse`, which is not among the sources). -/
def string_lines : List Char → List (List Char)
  | [] => [[]]
  | c :: cs =>
    if c = '\n' then [] :: string_lines cs
    else match string_lines cs with
      | [] => [[c]]
      | l :: ls => (c :: l) :: ls

/-- Modelled from the spec: the leading token at the cursor and the cursor behind it
(`Lib/DTrackParse` is not among the sources). -/
def nextToken (s : List Char) : List Char × List Char :=
  ((s.dropWhile isBlank).takeWhile (fun c => !isBlank c),
   (s.dropWhile isBlank).dropWhile (fun c => !isBlank c))

/-- Value of a decimal digit. -/
def digitVal (c : Char) : Option Nat :=
  if '0'.toNat ≤ c.toNat ∧ c.toNat ≤ '9'.toNat then some (c.toNat - '0'.toNat) else none

/-- Value of a run of decimal digits, continuing from `acc`. -/
def digitsVal : List Char → Nat → Option Nat
  | [], acc => some acc
  | c :: cs, acc =>
    match digitVal c with
    | some d => digitsVal cs (acc * 10 + d)
    | none => none

/-- Modelled from the spec: an unsigned token is "ASCII decimal", a non-empty run of digits. -/
def uintOfToken (t : List Char) : Option Nat :=
  if t = [] then none else digitsVal t 0

/-- Modelled from the spec: an integer token is "ASCII decimal" with an optional sign. -/
def intOfToken (t : List Char) : Option Int :=
  match t with
  | '-' :: ds => (uintOfToken ds).map fun n => -(n : Int)
  | '+' :: ds => (uintOfToken ds).map fun n => (n : Int)
  | ds => (uintOfToken ds).map fun n => (n : Int)

/-- Mantissa of a double token: digits with an optional decimal point; the result is the
digits read as an integer and the number of digits behind the point. -/
def mantissaOfToken (t : List Char) : Option (Nat × Nat) :=
  let ip := t.takeWhile (fun c => c != '.')
  let fp := (t.dropWhile (fun c => c != '.')).drop 1
  (uintOfToken (ip ++ fp)).map fun m => (m, fp.length)

/-- Modelled from the spec: a double token is "decimal-with-optional-exponent". -/
def dblOfToken (t : List Char) : Option Dbl :=
  let neg := t.head? = some '-'
  let body := if t.head? = some '-' ∨ t.head? = some '+' then t.drop 1 else t
  let mpart := body.takeWhile (fun c => c != 'e' && c != 'E')
  let epart := body.dropWhile (fun c => c != 'e' && c != 'E')
  match mantissaOfToken mpart, (if epart = [] then some 0 else intOfToken (epart.drop 1)) with
  | some (m, k), some e => some (Dbl.ofDecimal (if neg then -(m : Int) else (m : Int)) (e - k))
  | _, _ => none

/-- Modelled from the spec: `parse_uint` "fail if the leading token is not numeric"; on
success the value and the advanced cursor (`string_get_ui` of `Lib/DTrackParse`). -/
def string_get_ui (s : List Char) : Option (Nat × List Char) :=
  (uintOfToken (nextToken s).1).map fun v => (v, (nextToken s).2)

/-- Modelled from the spec: `parse_int` (`string_get_i` of `Lib/DTrackParse`). -/
def string_get_i (s : List Char) : Option (Int × List Char) :=
  (intOfToken (nextToken s).1).map fun v => (v, (nextToken s).2)

/-- Modelled from the spec: `parse_double` (`string_get_d` of `Lib/DTrackParse`). -/
def string_get_d (s : List Char) : Option (Dbl × List Char) :=
  (dblOfToken (nextToken s).1).map fun v => (v, (nextToken s).2)

/-- Modelled from the spec: `parse_fixed_block(format_spec, into)` "consumes a sequence of
tokens typed by `format_spec` (e.g. "id" = int then double, "ddd" = three doubles) into
caller-provided storage, returns updated cursor or failure" (`string_get_block` of
`Lib/DTrackParse`).  The integers and the doubles read are returned in order; the storage is
written by the caller only when the whole block was read. -/
def string_get_block : List Char → List Char → Option (List Int × List Dbl × List Char)
  | s, [] => some ([], [], s)
  | s, f :: fmt =>
    if f = 'i' then
      match string_get_i s with
      | none => none
      | some (v, s1) =>
        match string_get_block s1 fmt with
        | none => none
        | some (is, ds, s2) => some (v :: is, ds, s2)
    else if f = 'd' then
      match string_get_d s with
      | none => none
      | some (v, s1) =>
        match string_get_block s1 fmt with
        | none => none
        | some (is, ds, s2) => some (is, v :: ds, s2)
    else none

/-- The test `!strncmp(s, kw, strlen(kw))`: the text at the cursor starts with `kw`. -/
def strncmp_eq (s kw : List Char) : Bool := kw.isPrefixOf s


/-! ## Vectors and control flow -/

/-- The `std::vector::resize(n)` call: truncates or appends value-initialised elements; a
negative `n` (converted to a huge `size_t`) has no defined result. -/
def vec_resize {α : Type} (zero : α) (v : List α) (n : Int) : Option (List α) :=
  if n < 0 then none else some (v.take n.toNat ++ List.replicate (n.toNat - v.length) zero)

/-- The element update `v[i].field = ..` : defined only for `0 <= i < v.size()`. -/
def vec_update {α : Type} (v : List α) (i : Int) (f : α → α) : Option (List α) :=
  if h : 0 ≤ i ∧ i.toNat < v.length then some (v.set i.toNat (f (v.get ⟨i.toNat, h.2⟩)))
  else none

/-- The loop `for (j = lo; j < lo + cnt; j++) { memset(&v[j], 0, ..); v[j].id = j; .. }` that
turns slots into "not tracked" records; `mk j` is what the loop body makes of `v[j]`. -/
def fill_loop {α : Type} (mk : Int → α → α) : Nat → Int → List α → Option (List α)
  | 0, _, v => some v
  | k + 1, j, v =>
    match vec_update v j (mk j) with
    | none => none
    | some v1 => fill_loop mk k (j + 1) v1

/-- Why the decoder executed `return false`: a call of `string_get_ui`, `string_get_i`,
`string_get_d` or `string_get_block` did not find the number(s) it was asked for
(`number`), or a check of a value read failed (`check`: an id that is not the expected
index, a count above a capacity). -/
inductive Stop
  | number
  | check
deriving DecidableEq, Repr

/-- Where control is after a piece of the decoder ran; `σ` is the part of the session the
piece works on. -/
inductive Flow (σ : Type) (α : Type)
  -- the piece ran to its end
  | next (a : α)
  -- the decoder executed `return false`, leaving its part of the session as given
  | fail (why : Stop) (st : σ)
  -- an access outside a table or a member array: no defined behaviour
  | undefined
deriving DecidableEq, Repr

/-- Sequencing of decoder pieces. -/
def Flow.bind {σ α β : Type} (x : Flow σ α) (f : α → Flow σ β) : Flow σ β :=
  match x with
  | .next a => f a
  | .fail w st => .fail w st
  | .undefined => .undefined

instance {σ : Type} : Monad (Flow σ) where
  pure := Flow.next
  bind := Flow.bind

/-- A table access: no defined behaviour when it is out of range. -/
def Flow.mem {σ α : Type} (o : Option α) : Flow σ α :=
  match o with
  | some a => .next a
  | none => .undefined

/-- The pattern `if (!(s = string_get_..(s, ..))) return false;` in state `st`. -/
def Flow.parse {σ α : Type} (o : Option α) (st : σ) : Flow σ α :=
  match o with
  | some a => .next a
  | none => .fail .number st

/-- The loop `for (i = 0; i < n; i++) body`, run for the `k` remaining rounds from index `i`;
the body moves the cursor and the state. -/
def for_loop {σ : Type} (body : Int → List Char → σ → Flow σ (List Char × σ)) :
    Nat → Int → List Char → σ → Flow σ (List Char × σ)
  | 0, _, s, st => .next (s, st)
  | k + 1, i, s, st =>
    match body i s st with
    | .next (s1, st1) => for_loop body k (i + 1) s1 st1
    | .fail w st1 => .fail w st1
    | .undefined => .undefined

/-- The adjustment `if (n != act_num_X) { act_X.resize(n); act_num_X = n; }`. -/
def Table.adjust {α : Type} (zero : α) (n : Int) (t : Table α) : Flow (Table α) (Table α) :=
  if n ≠ t.num then do
    let v ← Flow.mem (vec_resize zero t.vec n)
    pure { t with vec := v, num := n }
  else pure t

/-- The growth `if (id >= act_num_X) { act_X.resize(id + 1); for (j = act_num_X; j <= id;
j++) { memset(..); act_X[j].id = j; act_X[j].quality = -1; } act_num_X = id + 1; }`. -/
def Table.grow {α : Type} (zero : α) (disabled : Int → α → α) (id : Int) (t : Table α) :
    Flow (Table α) (Table α) :=
  if id ≥ t.num then do
    let v ← Flow.mem (vec_resize zero t.vec (id + 1))
    let v ← Flow.mem (fill_loop disabled (id + 1 - t.num).toNat t.num v)
    pure { t with vec := v, num := id + 1 }
  else pure t

/-- The loop `for (i = 0; i < act_num_X; i++) { memset(..); act_X[i].id = i; .. }` that
disables all existing data. -/
def Table.disable_all {α : Type} (disabled : Int → α → α) (t : Table α) :
    Flow (Table α) (Table α) := do
  let v ← Flow.mem (fill_loop disabled t.num.toNat 0 t.vec)
  pure { t with vec := v }

/-- The write `act_X[i].field = ..`. -/
def Table.update {α : Type} (t : Table α) (i : Int) (f : α → α) : Flow (Table α) (Table α) := do
  let v ← Flow.mem (vec_update t.vec i f)
  pure { t with vec := v }

/-- The write `arr[j] = ..` into a member array of fixed size; used where the index is
within the array. -/
def arr_set {α : Type} (arr : List α) (j : Int) (x : α) : List α :=
  (vec_update arr j fun _ => x).getD arr

/-! ## The decoder `DTrackSDK::receive` -/

/-- The local variables of `receive` that outlive a line: `loc_num_bodycal`,
`loc_num_handcal` (`-1`: not available), `loc_num_flystick1`, `loc_num_meatool`. -/
structure Locals where
  loc_num_bodycal : Int
  loc_num_handcal : Int
  loc_num_flystick1 : Int
  loc_num_meatool : Int
deriving DecidableEq, Repr

/-- The defaults `loc_num_bodycal = loc_num_handcal = -1; loc_num_flystick1 =
loc_num_meatool = 0`. -/
def Locals.defaults : Locals := ⟨-1, -1, 0, 0⟩

def kw_fr : List Char := ['f', 'r', ' ']
def kw_ts : List Char := ['t', 's', ' ']
def kw_6dcal : List Char := ['6', 'd', 'c', 'a', 'l', ' ']
def kw_6d : List Char := ['6', 'd', ' ']
def kw_6df : List Char := ['6', 'd', 'f', ' ']
def kw_6df2 : List Char := ['6', 'd', 'f', '2', ' ']
def kw_6dmt : List Char := ['6', 'd', 'm', 't', ' ']
def kw_6dmtr : List Char := ['6', 'd', 'm', 't', 'r', ' ']
def kw_glcal : List Char := ['g', 'l', 'c', 'a', 'l', ' ']
def kw_gl : List Char := ['g', 'l', ' ']
def kw_6dj : List Char := ['6', 'd', 'j', ' ']
def kw_3d : List Char := ['3', 'd', ' ']

def fmt_id : List Char := ['i', 'd']
def fmt_idi : List Char := ['i', 'd', 'i']
def fmt_idii : List Char := ['i', 'd', 'i', 'i']
def fmt_ii : List Char := ['i', 'i']
def fmt_ddd : List Char := ['d', 'd', 'd']
def fmt_dddddd : List Char := ['d', 'd', 'd', 'd', 'd', 'd']
def fmt_ddddddddd : List Char := ['d', 'd', 'd', 'd', 'd', 'd', 'd', 'd', 'd']

/-- The value `k & 0x01` of a two's complement integer. -/
def low_bit (k : Int) : Int := k % 2

/-- The test `w & (1 << j)` of a two's complement integer. -/
def test_bit (w : Int) (j : Nat) : Bool := decide ((w / 2 ^ j) % 2 = 1)

/-- Line `fr `: frame counter (`act_framecounter`).  `string_get_ui` writes through a
pointer to the member, an `unsigned int` of 32 bits (`DTrackSDK.hpp`, line 537): the member
holds the number read modulo `2^32`. -/
def line_fr (s : List Char) : Flow Nat Nat :=
  match string_get_ui s with
  | none => .fail .number 0
  | some (v, _) => .next (v % 4294967296)

/-- Line `ts `: timestamp (`act_timestamp`). -/
def line_ts (s : List Char) : Flow Dbl Dbl :=
  match string_get_d s with
  | none => .fail .number Dbl.minusOne
  | some (v, _) => .next v

/-- Line `6dcal `: number of calibrated bodies (`loc_num_bodycal`). -/
def line_6dcal (s : List Char) : Flow Unit Int :=
  match string_get_i s with
  | none => .fail .number ()
  | some (v, _) => .next v

/-- One record of line `6d ` (the body of the loop at lines 421-443). -/
def record_6d (_i : Int) (s : List Char) (t : Table DTrack_Body_Type_d) :
    Flow (Table DTrack_Body_Type_d) (List Char × Table DTrack_Body_Type_d) := do
  let (is, ds, s) ← Flow.parse (string_get_block s fmt_id) t
  let id := is.getD 0 0
  let d := ds.getD 0 0
  -- adjust length of vector
  let t ← t.grow body_zero body_disabled id
  let t ← t.update id fun b => { b with id := id, quality := d }
  let (_, ds, s) ← Flow.parse (string_get_block s fmt_ddd) t
  let t ← t.update id fun b => { b with loc := ds }
  let (_, ds, s) ← Flow.parse (string_get_block s fmt_ddddddddd) t
  let t ← t.update id fun b => { b with rot := ds }
  pure (s, t)

/-- Line `6d `: standard body data. -/
def line_6d (s : List Char) (t : Table DTrack_Body_Type_d) :
    Flow (Table DTrack_Body_Type_d) (Table DTrack_Body_Type_d) := do
  -- disable all existing data
  let t ← t.disable_all body_disabled
  let (n, s) ← Flow.parse (string_get_i s) t
  let (_, t) ← for_loop record_6d n.toNat 0 s t
  pure t

/-- The eight buttons of the older Flystick format: `for (j=0; j<8; j++) { button[j] =
k & 0x01; k >>= 1; }`, for the `cnt` remaining rounds. -/
def buttons_6df : Nat → Nat → Int → List Int → List Int
  | 0, _, _, b => b
  | cnt + 1, j, k, b => buttons_6df cnt (j + 1) (k / 2) (arr_set b j (low_bit k))

/-- One record of line `6df ` (the body of the loop at lines 461-498). -/
def record_6df (i : Int) (s : List Char) (t : Table DTrack_FlyStick_Type_d) :
    Flow (Table DTrack_FlyStick_Type_d) (List Char × Table DTrack_FlyStick_Type_d) := do
  let (iarr, ds, s) ← Flow.parse (string_get_block s fmt_idi) t
  let d := ds.getD 0 0
  if iarr.getD 0 0 ≠ i then Flow.fail .check t else
  let w := iarr.getD 1 0
  let x : Dbl := if test_bit w 5 then Dbl.minusOne else if test_bit w 7 then 1 else 0
  let y : Dbl := if test_bit w 4 then Dbl.minusOne else if test_bit w 6 then 1 else 0
  let t ← t.update i fun f =>
    { f with id := iarr.getD 0 0, quality := d, num_button := 8,
             button := buttons_6df 8 0 w f.button, num_joystick := 2,
             joystick := arr_set (arr_set f.joystick 0 x) 1 y }
  let (_, ds, s) ← Flow.parse (string_get_block s fmt_ddd) t
  let t ← t.update i fun f => { f with loc := ds }
  let (_, ds, s) ← Flow.parse (string_get_block s fmt_ddddddddd) t
  let t ← t.update i fun f => { f with rot := ds }
  pure (s, t)

/-- Line `6df `: Flystick data (older format); the count read is also kept in
`loc_num_flystick1`. -/
def line_6df (s : List Char) (t : Table DTrack_FlyStick_Type_d) :
    Flow (Table DTrack_FlyStick_Type_d) (Int × Table DTrack_FlyStick_Type_d) := do
  let (n, s) ← Flow.parse (string_get_i s) t
  let t ← t.adjust flystick_zero n
  let (_, t) ← for_loop record_6df n.toNat 0 s t
  pure (n, t)

/-- The format string built in `sfmt`: one `i` per started 32 buttons, one `d` per joystick
value. -/
def sfmt_6df2 (num_button num_joystick : Int) : List Char :=
  List.replicate ((num_button.toNat + 31) / 32) 'i' ++ List.replicate num_joystick.toNat 'd'

/-- The unpacking loop `for (j=0; j<num_button; j++) { button[j] = iarr[k] & 0x01;
iarr[k] >>= 1; l++; if (l == 32) { k++; l = 0; } }`, for the `cnt` remaining rounds. -/
def buttons_6df2 : Nat → Nat → List Int → Nat → Nat → List Int → List Int
  | 0, _, _, _, _, b => b
  | cnt + 1, j, iarr, k, l, b =>
    let b1 := arr_set b j (low_bit (iarr.getD k 0))
    let iarr1 := iarr.set k (iarr.getD k 0 / 2)
    if l + 1 = 32 then buttons_6df2 cnt (j + 1) iarr1 (k + 1) 0 b1
    else buttons_6df2 cnt (j + 1) iarr1 k (l + 1) b1

/-- Storing the joystick values read by `string_get_block` into `joystick[0 ..]`. -/
def store_joysticks : List Dbl → Nat → List Dbl → List Dbl
  | [], _, js => js
  | d :: ds, j, js => store_joysticks ds (j + 1) (arr_set js j d)

/-- One record of line `6df2 ` (the body of the loop at lines 519-563). -/
def record_6df2 (i : Int) (s : List Char) (t : Table DTrack_FlyStick_Type_d) :
    Flow (Table DTrack_FlyStick_Type_d) (List Char × Table DTrack_FlyStick_Type_d) := do
  let (iarr, ds, s) ← Flow.parse (string_get_block s fmt_idii) t
  let d := ds.getD 0 0
  if iarr.getD 0 0 ≠ i then Flow.fail .check t else
  let t ← t.update i fun f => { f with id := iarr.getD 0 0, quality := d }
  if iarr.getD 1 0 > DTRACK_FLYSTICK_MAX_BUTTON ∨
      iarr.getD 1 0 > DTRACK_FLYSTICK_MAX_JOYSTICK then Flow.fail .check t else
  let nb := iarr.getD 1 0
  let nj := iarr.getD 2 0
  let t ← t.update i fun f => { f with num_button := nb, num_joystick := nj }
  let (_, ds, s) ← Flow.parse (string_get_block s fmt_ddd) t
  let t ← t.update i fun f => { f with loc := ds }
  let (_, ds, s) ← Flow.parse (string_get_block s fmt_ddddddddd) t
  let t ← t.update i fun f => { f with rot := ds }
  -- `char sfmt[20]` and `joystick[DTRACK_FLYSTICK_MAX_JOYSTICK]` bound what can be read
  if (sfmt_6df2 nb nj).length ≥ 20 ∨ nj > DTRACK_FLYSTICK_MAX_JOYSTICK then Flow.undefined else
  let (words, js, s) ← Flow.parse (string_get_block s (sfmt_6df2 nb nj)) t
  let t ← t.update i fun f =>
    { f with joystick := store_joysticks js 0 f.joystick,
             button := buttons_6df2 nb.toNat 0 words 0 0 f.button }
  pure (s, t)

/-- Line `6df2 `: Flystick data (newer format). -/
def line_6df2 (s : List Char) (t : Table DTrack_FlyStick_Type_d) :
    Flow (Table DTrack_FlyStick_Type_d) (Table DTrack_FlyStick_Type_d) := do
  let (n, s) ← Flow.parse (string_get_i s) t
  let t ← t.adjust flystick_zero n
  let (n, s) ← Flow.parse (string_get_i s) t
  let (_, t) ← for_loop record_6df2 n.toNat 0 s t
  pure t

/-- One record of line `6dmt ` (the body of the loop at lines 581-598). -/
def record_6dmt (i : Int) (s : List Char) (t : Table DTrack_MeaTool_Type_d) :
    Flow (Table DTrack_MeaTool_Type_d) (List Char × Table DTrack_MeaTool_Type_d) := do
  let (iarr, ds, s) ← Flow.parse (string_get_block s fmt_idi) t
  let d := ds.getD 0 0
  if iarr.getD 0 0 ≠ i then Flow.fail .check t else
  let t ← t.update i fun m =>
    { m with id := iarr.getD 0 0, quality := d, num_button := 1,
             button := arr_set m.button 0 (low_bit (iarr.getD 1 0)) }
  let (_, ds, s) ← Flow.parse (string_get_block s fmt_ddd) t
  let t ← t.update i fun m => { m with loc := ds }
  let (_, ds, s) ← Flow.parse (string_get_block s fmt_ddddddddd) t
  let t ← t.update i fun m => { m with rot := ds }
  pure (s, t)

/-- Line `6dmt `: measurement tool data; the count read is also kept in
`loc_num_meatool`. -/
def line_6dmt (s : List Char) (t : Table DTrack_MeaTool_Type_d) :
    Flow (Table DTrack_MeaTool_Type_d) (Int × Table DTrack_MeaTool_Type_d) := do
  let (n, s) ← Flow.parse (string_get_i s) t
  let t ← t.adjust meatool_zero n
  let (_, t) ← for_loop record_6dmt n.toNat 0 s t
  pure (n, t)

/-- One record of line `6dmtr ` (the body of the loop at lines 620-632). -/
def record_6dmtr (i : Int) (s : List Char) (t : Table DTrack_MeaRef_Type_d) :
    Flow (Table DTrack_MeaRef_Type_d) (List Char × Table DTrack_MeaRef_Type_d) := do
  let (is, ds, s) ← Flow.parse (string_get_block s fmt_id) t
  let t ← t.update i fun r => { r with id := is.getD 0 0, quality := ds.getD 0 0 }
  let (_, ds, s) ← Flow.parse (string_get_block s fmt_ddd) t
  let t ← t.update i fun r => { r with loc := ds }
  let (_, ds, s) ← Flow.parse (string_get_block s fmt_ddddddddd) t
  let t ← t.update i fun r => { r with rot := ds }
  pure (s, t)

/-- Line `6dmtr `: measurement reference data. -/
def line_6dmtr (s : List Char) (t : Table DTrack_MeaRef_Type_d) :
    Flow (Table DTrack_MeaRef_Type_d) (Table DTrack_MeaRef_Type_d) := do
  let (_, s) ← Flow.parse (string_get_i s) t
  let (n, s) ← Flow.parse (string_get_i s) t
  let t ← t.adjust mearef_zero n
  let (_, t) ← for_loop record_6dmtr n.toNat 0 s t
  pure t

/-- Line `glcal `: number of calibrated Fingertracking hands (`loc_num_handcal`) and the
advanced cursor.  The source has no `continue` here: control goes on to the following tests
with that cursor. -/
def line_glcal (s : List Char) : Flow Unit (Int × List Char) :=
  match string_get_i s with
  | none => .fail .number ()
  | some (v, s1) => .next (v, s1)

/-- One finger of a `gl ` record (the body of the loop at lines 687-703). -/
def finger_gl (id : Int) (j : Int) (s : List Char) (t : Table DTrack_Hand_Type_d) :
    Flow (Table DTrack_Hand_Type_d) (List Char × Table DTrack_Hand_Type_d) := do
  let (_, ds, s) ← Flow.parse (string_get_block s fmt_ddd) t
  let t ← t.update id fun h =>
    { h with finger := (vec_update h.finger j fun f => { f with loc := ds }).getD h.finger }
  let (_, ds, s) ← Flow.parse (string_get_block s fmt_ddddddddd) t
  let t ← t.update id fun h =>
    { h with finger := (vec_update h.finger j fun f => { f with rot := ds }).getD h.finger }
  let (_, darr, s) ← Flow.parse (string_get_block s fmt_dddddd) t
  let t ← t.update id fun h =>
    { h with finger := (vec_update h.finger j fun f =>
        { f with radiustip := darr.getD 0 0,
                 lengthphalanx := [darr.getD 1 0, darr.getD 3 0, darr.getD 5 0],
                 anglephalanx := [darr.getD 2 0, darr.getD 4 0] }).getD h.finger }
  pure (s, t)

/-- One record of line `gl ` (the body of the loop at lines 658-704). -/
def record_gl (_i : Int) (s : List Char) (t : Table DTrack_Hand_Type_d) :
    Flow (Table DTrack_Hand_Type_d) (List Char × Table DTrack_Hand_Type_d) := do
  let (iarr, ds, s) ← Flow.parse (string_get_block s fmt_idii) t
  let d := ds.getD 0 0
  let id := iarr.getD 0 0
  -- adjust length of vector
  let t ← t.grow hand_zero hand_disabled id
  let t ← t.update id fun h => { h with id := iarr.getD 0 0, lr := iarr.getD 1 0, quality := d }
  if iarr.getD 2 0 > DTRACK_HAND_MAX_FINGER then Flow.fail .check t else
  let t ← t.update id fun h => { h with nfinger := iarr.getD 2 0 }
  let (_, ds, s) ← Flow.parse (string_get_block s fmt_ddd) t
  let t ← t.update id fun h => { h with loc := ds }
  let (_, ds, s) ← Flow.parse (string_get_block s fmt_ddddddddd) t
  let t ← t.update id fun h => { h with rot := ds }
  -- get data of fingers
  for_loop (finger_gl id) (iarr.getD 2 0).toNat 0 s t

/-- Line `gl `: A.R.T. Fingertracking hand data. -/
def line_gl (s : List Char) (t : Table DTrack_Hand_Type_d) :
    Flow (Table DTrack_Hand_Type_d) (Table DTrack_Hand_Type_d) := do
  -- disable all existing data
  let t ← t.disable_all hand_disabled
  let (n, s) ← Flow.parse (string_get_i s) t
  let (_, t) ← for_loop record_gl n.toNat 0 s t
  pure t

/-- One joint of a `6dj ` model (the body of the loop at lines 743-759). -/
def joint_6dj (id_human : Int) (j : Int) (s : List Char) (t : Table DTrack_Human_Type) :
    Flow (Table DTrack_Human_Type) (List Char × Table DTrack_Human_Type) := do
  let (is, ds, s) ← Flow.parse (string_get_block s fmt_id) t
  -- `joint[DTRACK_HUMAN_MAX_JOINTS]` bounds what can be written
  if j ≥ DTRACK_HUMAN_MAX_JOINTS then Flow.undefined else
  let t ← t.update id_human fun h =>
    { h with joint := (vec_update h.joint j fun x =>
        { x with id := is.getD 0 0, quality := ds.getD 0 0 }).getD h.joint }
  let (_, darr, s) ← Flow.parse (string_get_block s fmt_dddddd) t
  let t ← t.update id_human fun h =>
    { h with joint := (vec_update h.joint j fun x =>
        { x with loc := darr.take 3, ang := darr.drop 3 }).getD h.joint }
  let (_, ds, s) ← Flow.parse (string_get_block s fmt_ddddddddd) t
  let t ← t.update id_human fun h =>
    { h with joint := (vec_update h.joint j fun x => { x with rot := ds }).getD h.joint }
  pure (s, t)

/-- One model of line `6dj ` (the body of the loop at lines 732-760). -/
def record_6dj (_i : Int) (s : List Char) (t : Table DTrack_Human_Type) :
    Flow (Table DTrack_Human_Type) (List Char × Table DTrack_Human_Type) := do
  let (iarr, _, s) ← Flow.parse (string_get_block s fmt_ii) t
  if iarr.getD 0 0 > t.num - 1 then Flow.fail .check t else
  let id_human := iarr.getD 0 0
  let t ← t.update id_human fun h => { h with id := iarr.getD 0 0, num_joints := iarr.getD 1 0 }
  for_loop (joint_6dj id_human) (iarr.getD 1 0).toNat 0 s t

/-- Line `6dj `: human model data. -/
def line_6dj (s : List Char) (t : Table DTrack_Human_Type) :
    Flow (Table DTrack_Human_Type) (Table DTrack_Human_Type) := do
  let (n, s) ← Flow.parse (string_get_i s) t
  let t ← t.adjust human_zero n
  let t ← t.disable_all human_cleared
  let (n, s) ← Flow.parse (string_get_i s) t
  let (_, t) ← for_loop record_6dj n.toNat 0 s t
  pure t

/-- One record of line `3d ` (the body of the loop at lines 776-783). -/
def record_3d (i : Int) (s : List Char) (t : Table DTrack_Marker_Type_d) :
    Flow (Table DTrack_Marker_Type_d) (List Char × Table DTrack_Marker_Type_d) := do
  let (is, ds, s) ← Flow.parse (string_get_block s fmt_id) t
  let t ← t.update i fun m => { m with id := is.getD 0 0, quality := ds.getD 0 0 }
  let (_, ds, s) ← Flow.parse (string_get_block s fmt_ddd) t
  let t ← t.update i fun m => { m with loc := ds }
  pure (s, t)

/-- Line `3d `: single marker data. -/
def line_3d (s : List Char) (t : Table DTrack_Marker_Type_d) :
    Flow (Table DTrack_Marker_Type_d) (Table DTrack_Marker_Type_d) :=
  match string_get_i s with
  | none => .fail .number { t with num := 0 }
  | some (n, s1) => do
    let t := { t with num := n }
    let t ← (if t.num > (t.vec.length : Int) then do
        let v ← Flow.mem (vec_resize marker_zero t.vec t.num)
        pure { t with vec := v }
      else pure t)
    let (_, t) ← for_loop record_3d t.num.toNat 0 s1 t
    pure t

/-- The assignments to the members of the snapshot, one per member. -/
def DTrackSDK.set_framecounter (st : DTrackSDK) (v : Nat) : DTrackSDK :=
  { st with act_framecounter := v }
def DTrackSDK.set_timestamp (st : DTrackSDK) (v : Dbl) : DTrackSDK :=
  { st with act_timestamp := v }
def DTrackSDK.set_body (st : DTrackSDK) (t : Table DTrack_Body_Type_d) : DTrackSDK :=
  { st with act_body := t }
def DTrackSDK.set_flystick (st : DTrackSDK) (t : Table DTrack_FlyStick_Type_d) : DTrackSDK :=
  { st with act_flystick := t }
def DTrackSDK.set_meatool (st : DTrackSDK) (t : Table DTrack_MeaTool_Type_d) : DTrackSDK :=
  { st with act_meatool := t }
def DTrackSDK.set_mearef (st : DTrackSDK) (t : Table DTrack_MeaRef_Type_d) : DTrackSDK :=
  { st with act_mearef := t }
def DTrackSDK.set_hand (st : DTrackSDK) (t : Table DTrack_Hand_Type_d) : DTrackSDK :=
  { st with act_hand := t }
def DTrackSDK.set_human (st : DTrackSDK) (t : Table DTrack_Human_Type) : DTrackSDK :=
  { st with act_human := t }
def DTrackSDK.set_marker (st : DTrackSDK) (t : Table DTrack_Marker_Type_d) : DTrackSDK :=
  { st with act_marker := t }

/-- Puts the outcome of a line handler that works on one member back into the session:
`put` stores the member after `return false`, `upd` stores the result of a handler that ran
to its end. -/
def Flow.within {σ α : Type} (x : Flow σ α)
    (put : σ → DTrackSDK) (upd : α → Locals × DTrackSDK) :
    Flow DTrackSDK (Locals × DTrackSDK) :=
  match x with
  | .next a => .next (upd a)
  | .fail w t => .fail w (put t)
  | .undefined => .undefined

/-- The tests of the loop body behind the `glcal ` block: `gl `, `6dj `, `3d `; any other
line identifier is ignored. -/
def line_tail (s : List Char) (lc : Locals) (st : DTrackSDK) :
    Flow DTrackSDK (Locals × DTrackSDK) :=
  if strncmp_eq s kw_gl then
    (line_gl (s.drop 3) st.act_hand).within st.set_hand (fun t => (lc, st.set_hand t))
  else if strncmp_eq s kw_6dj then
    (line_6dj (s.drop 4) st.act_human).within st.set_human (fun t => (lc, st.set_human t))
  else if strncmp_eq s kw_3d then
    (line_3d (s.drop 3) st.act_marker).within st.set_marker (fun t => (lc, st.set_marker t))
  else .next (lc, st)

/-- The `glcal ` block followed by the rest of the loop body. -/
def line_glcal_tail (s : List Char) (lc : Locals) (st : DTrackSDK) :
    Flow DTrackSDK (Locals × DTrackSDK) :=
  match line_glcal s with
  | .next (v, s1) => line_tail s1 { lc with loc_num_handcal := v } st
  | .fail w _ => .fail w st
  | .undefined => .undefined

/-- The body of the `do .. while` loop of `receive` (lines 380-787) for the line at cursor
`s`: the keyword tests in source order. -/
def line_body (s : List Char) (lc : Locals) (st : DTrackSDK) :
    Flow DTrackSDK (Locals × DTrackSDK) :=
  if strncmp_eq s kw_fr then
    (line_fr (s.drop 3)).within st.set_framecounter (fun v => (lc, st.set_framecounter v))
  else if strncmp_eq s kw_ts then
    (line_ts (s.drop 3)).within st.set_timestamp (fun v => (lc, st.set_timestamp v))
  else if strncmp_eq s kw_6dcal then
    (line_6dcal (s.drop 6)).within (fun _ => st) (fun v => ({ lc with loc_num_bodycal := v }, st))
  else if strncmp_eq s kw_6d then
    (line_6d (s.drop 3) st.act_body).within st.set_body (fun t => (lc, st.set_body t))
  else if strncmp_eq s kw_6df then
    (line_6df (s.drop 4) st.act_flystick).within st.set_flystick
      (fun r => ({ lc with loc_num_flystick1 := r.1 }, st.set_flystick r.2))
  else if strncmp_eq s kw_6df2 then
    (line_6df2 (s.drop 5) st.act_flystick).within st.set_flystick
      (fun t => (lc, st.set_flystick t))
  else if strncmp_eq s kw_6dmt then
    (line_6dmt (s.drop 5) st.act_meatool).within st.set_meatool
      (fun r => ({ lc with loc_num_meatool := r.1 }, st.set_meatool r.2))
  else if strncmp_eq s kw_6dmtr then
    (line_6dmtr (s.drop 6) st.act_mearef).within st.set_mearef (fun t => (lc, st.set_mearef t))
  else if strncmp_eq s kw_glcal then line_glcal_tail (s.drop 6) lc st
  else line_tail s lc st

/-- The `do .. while ((s = string_nextline(..)))` loop over the line slices of the packet. -/
def line_loop : List (List Char) → Locals → DTrackSDK → Flow DTrackSDK (Locals × DTrackSDK)
  | [], lc, st => .next (lc, st)
  | l :: ls, lc, st =>
    match line_body l lc st with
    | .next (lc1, st1) => line_loop ls lc1 st1
    | .fail w st1 => .fail w st1
    | .undefined => .undefined

/-- The reconciliation `if (n > act_num_X) { act_X.resize(n); for (j = act_num_X; j < n;
j++) { memset(..); act_X[j].id = j; act_X[j].quality = -1; } } act_num_X = n;`. -/
def Table.reconcile {α : Type} (zero : α) (disabled : Int → α → α) (n : Int) (t : Table α) :
    Flow (Table α) (Table α) := do
  let t ← (if n > t.num then do
      let v ← Flow.mem (vec_resize zero t.vec n)
      let v ← Flow.mem (fill_loop disabled (n - t.num).toNat t.num v)
      pure { t with vec := v }
    else pure t)
  pure { t with num := n }

/-- The block "set number of calibrated standard bodies, if necessary" (lines 790-802). -/
def reconcile_body (lc : Locals) (t : Table DTrack_Body_Type_d) :
    Flow (Table DTrack_Body_Type_d) (Table DTrack_Body_Type_d) :=
  if lc.loc_num_bodycal ≥ 0 then
    t.reconcile body_zero body_disabled
      (lc.loc_num_bodycal - lc.loc_num_flystick1 - lc.loc_num_meatool)
  else pure t

/-- The block "set number of calibrated Fingertracking hands, if necessary" (lines
804-815). -/
def reconcile_hand (lc : Locals) (t : Table DTrack_Hand_Type_d) :
    Flow (Table DTrack_Hand_Type_d) (Table DTrack_Hand_Type_d) :=
  if lc.loc_num_handcal ≥ 0 then t.reconcile hand_zero hand_disabled lc.loc_num_handcal
  else pure t

/-- What the transport call `udp_receive(d_udpsock, d_udpbuf, d_udpbufsize-1,
d_udptimeout_us)` delivered: its return value and the bytes now in `d_udpbuf`. -/
structure UdpResult where
  len : Int
  buf : List Char
deriving DecidableEq, Repr

/-- The C string in the buffer after `s[len] = 0`. -/
def UdpResult.text (udp : UdpResult) : List Char :=
  (udp.buf.take udp.len.toNat).takeWhile (fun c => c != Char.ofNat 0)

/-- A packet of `text.length` bytes delivered by the transport. -/
def UdpResult.packet (text : List Char) : UdpResult := ⟨text.length, text⟩

/-- Result of a member function that returns `bool` and changes the session. -/
inductive Outcome
  -- the call returned `b` and left the session in state `st`
  | ret (b : Bool) (st : DTrackSDK)
  -- the call ran into an access without defined behaviour
  | undefined
deriving DecidableEq, Repr

/-- The session when the line loop of `receive` starts (lines 349-378): both errors
cleared, frame counter and timestamp set to their defaults, then `lastDataError =
ERR_PARSE`. -/
def DTrackSDK.frame_start (self : DTrackSDK) : DTrackSDK :=
  { self with lastServerError := .ERR_NONE, act_framecounter := 0,
              act_timestamp := Dbl.minusOne, lastDataError := .ERR_PARSE }

/-- The end of `receive` (lines 790-818): the two reconciliation blocks, then
`lastDataError = ERR_NONE; return true;`. -/
def frame_end (lc : Locals) (st : DTrackSDK) : Outcome :=
  match reconcile_body lc st.act_body with
  | .next b =>
    match reconcile_hand lc st.act_hand with
    | .next h => .ret true { (st.set_body b).set_hand h with lastDataError := .ERR_NONE }
    | _ => .undefined
  | _ => .undefined

/-- The decoding part of `receive` (lines 377-818) on the line slices `ls`. -/
def decode (ls : List (List Char)) (st : DTrackSDK) : Outcome :=
  match line_loop ls Locals.defaults st with
  | .next (lc, st1) => frame_end lc st1
  | .fail _ st1 => .ret false st1
  | .undefined => .undefined

/-- `DTrackSDK::receive`: receive and process one tracking data packet; `udp` is what the
transport delivers to this call. -/
def DTrackSDK.receive (self : DTrackSDK) (udp : UdpResult) : Outcome :=
  let st := { self with lastDataError := .ERR_NONE, lastServerError := .ERR_NONE }
  if !st.isLocalDataPortValid then .ret false { st with lastDataError := .ERR_NET } else
  -- defaults
  let st := { st with act_framecounter := 0, act_timestamp := Dbl.minusOne }
  if udp.len = -1 then .ret false { st with lastDataError := .ERR_TIMEOUT } else
  if udp.len ≤ 0 then .ret false { st with lastDataError := .ERR_NET } else
  decode (string_lines udp.text) self.frame_start

/-! ## Views of the session -/

/-- The members outside the frame snapshot: system type, sockets, the three error
records. -/
structure Session where
  rsType : RemoteSystemType
  d_udpsock : Bool
  d_tcpsock : Bool
  lastDataError : Errors
  lastServerError : Errors
  lastDTrackError : Int
  lastDTrackErrorString : List Char
deriving DecidableEq, Repr

/-- The seven entity tables with their counts. -/
structure Tables where
  body : Table DTrack_Body_Type_d
  flystick : Table DTrack_FlyStick_Type_d
  meatool : Table DTrack_MeaTool_Type_d
  mearef : Table DTrack_MeaRef_Type_d
  hand : Table DTrack_Hand_Type_d
  human : Table DTrack_Human_Type
  marker : Table DTrack_Marker_Type_d
deriving DecidableEq, Repr

/-- The whole frame snapshot: frame counter, timestamp and the entity tables. -/
structure Snapshot where
  framecounter : Nat
  timestamp : Dbl
  tables : Tables
deriving DecidableEq, Repr

/-- The members of a session outside the frame snapshot. -/
def DTrackSDK.session (self : DTrackSDK) : Session :=
  ⟨self.rsType, self.d_udpsock, self.d_tcpsock, self.lastDataError, self.lastServerError,
    self.lastDTrackError, self.lastDTrackErrorString⟩

/-- The entity tables of a session. -/
def DTrackSDK.tables (self : DTrackSDK) : Tables :=
  ⟨self.act_body, self.act_flystick, self.act_meatool, self.act_mearef, self.act_hand,
    self.act_human, self.act_marker⟩

/-- The frame snapshot of a session. -/
def DTrackSDK.snapshot (self : DTrackSDK) : Snapshot :=
  ⟨self.act_framecounter, self.act_timestamp, self.tables⟩

/-- The value a call returned (`none`: no defined behaviour). -/
def Outcome.returned (o : Outcome) : Option Bool :=
  match o with
  | .ret b _ => some b
  | .undefined => none

/-- The session a call left behind (`none`: no defined behaviour). -/
def Outcome.state (o : Outcome) : Option DTrackSDK :=
  match o with
  | .ret _ st => some st
  | .undefined => none

/-- The call `receive` made on the session an earlier call left behind (`undefined` when
the earlier call has no defined behaviour). -/
def Outcome.then_receive (o : Outcome) (udp : UdpResult) : Outcome :=
  match o with
  | .ret _ st => st.receive udp
  | .undefined => .undefined

/-- The session a call left behind, or `dflt` when the call has no defined behaviour. -/
def Outcome.state_or (o : Outcome) (dflt : DTrackSDK) : DTrackSDK :=
  match o with
  | .ret _ st => st
  | .undefined => dflt

/-! ## Well-formed wire text

Token texts together with the value the tokenizer reads from them, and the text of lines
and packets built from tokens: a line is its keyword followed by tokens, each preceded by
one blank; a packet is a sequence of lines, each ended by a newline. -/

/-- An unsigned token: a text that `string_get_ui` reads as `val`. -/
structure UIntTok where
  text : List Char
  val : Nat
  ok : uintOfToken text = some val

/-- An integer token: a text that `string_get_i` reads as `val`. -/
structure IntTok where
  text : List Char
  val : Int
  ok : intOfToken text = some val

/-- A double token: a text that `string_get_d` reads as `val`. -/
structure DblTok where
  text : List Char
  val : Dbl
  ok : dblOfToken text = some val

/-- A token of a block, by the format character that reads it. -/
inductive Tok
  | i (t : IntTok)
  | d (t : DblTok)

/-- The text of a block token. -/
def Tok.text : Tok → List Char
  | .i t => t.text
  | .d t => t.text

/-- The format character that reads a block token. -/
def Tok.fmt : Tok → Char
  | .i _ => 'i'
  | .d _ => 'd'

/-- The integers among block tokens, in order. -/
def Tok.ints : List Tok → List Int
  | [] => []
  | .i t :: ts => t.val :: Tok.ints ts
  | .d _ :: ts => Tok.ints ts

/-- The doubles among block tokens, in order. -/
def Tok.dbls : List Tok → List Dbl
  | [] => []
  | .i _ :: ts => Tok.dbls ts
  | .d t :: ts => t.val :: Tok.dbls ts

/-- The text of a sequence of tokens, each preceded by one blank. -/
def render : List (List Char) → List Char
  | [] => []
  | t :: ts => ' ' :: (t ++ render ts)

/-- The text of a packet: its lines, each ended by a newline. -/
def packet_text : List (List Char) → List Char
  | [] => []
  | l :: ls => l ++ '\n' :: packet_text ls

/-- A character that can stand inside a token of a packet: no blank, no newline, no NUL. -/
def tokChar (c : Char) : Bool := !isBlank c && c != '\n' && c != Char.ofNat 0

/-- A character that can stand inside a line of a packet: no newline, no NUL. -/
def lineChar (c : Char) : Bool := c != '\n' && c != Char.ofNat 0

/-- A single marker record on the wire: id, quality and three location doubles. -/
structure MarkerWire where
  id : IntTok
  quality : DblTok
  loc : List DblTok
  loc_len : loc.length = 3

/-- The tokens of a marker record in wire order. -/
def MarkerWire.tokens (r : MarkerWire) : List (List Char) :=
  r.id.text :: r.quality.text :: r.loc.map (·.text)

/-- The marker a record describes. -/
def MarkerWire.value (r : MarkerWire) : DTrack_Marker_Type_d :=
  ⟨r.id.val, r.quality.val, r.loc.map (·.val)⟩

/-- The tokens of a sequence of marker records. -/
def MarkerWire.all_tokens : List MarkerWire → List (List Char)
  | [] => []
  | r :: rs => r.tokens ++ MarkerWire.all_tokens rs

/-- The line `fr N`. -/
def wire_fr (n : UIntTok) : List Char := 'f' :: 'r' :: render [n.text]

/-- The line `ts T`. -/
def wire_ts (t : DblTok) : List Char := 't' :: 's' :: render [t.text]

/-- The line `3d n` followed by the records `recs`. -/
def wire_3d (n : IntTok) (recs : List MarkerWire) : List Char :=
  '3' :: 'd' :: render (n.text :: MarkerWire.all_tokens recs)

/-! ## What a packet says: counts and record ids read off the text -/

/-- The count on the last line of `ls` that starts with the keyword `kw` and gives a
count. -/
def last_count (kw : List Char) : List (List Char) → Option Int
  | [] => none
  | l :: ls =>
    match last_count kw ls with
    | some v => some v
    | none => if strncmp_eq l kw then (string_get_i (l.drop kw.length)).map (·.1) else none

/-- The ids of the (at most `k`) records that stand at cursor `s` of a `6d ` line: each
record is an `id` block (its first integer is the id), a block of 3 and a block of 9
doubles; the list ends where a record is incomplete. -/
def ids_6d : Nat → List Char → List Int
  | 0, _ => []
  | k + 1, s =>
    match string_get_block s fmt_id with
    | none => []
    | some (is, _, s1) =>
      is.getD 0 0 ::
        (match string_get_block s1 fmt_ddd with
          | none => []
          | some (_, _, s2) =>
            match string_get_block s2 fmt_ddddddddd with
            | none => []
            | some (_, _, s3) => ids_6d k s3)

/-- The ids of the records of a `6d ` line, `x` being the text behind the keyword. -/
def ids_6d_line (x : List Char) : List Int :=
  match string_get_i x with
  | none => []
  | some (n, s) => ids_6d n.toNat s

/-- The cursor behind `k` fingers, each a block of 3, of 9 and of 6 doubles. -/
def skip_fingers : Nat → List Char → Option (List Char)
  | 0, s => some s
  | k + 1, s =>
    match string_get_block s fmt_ddd with
    | none => none
    | some (_, _, s1) =>
      match string_get_block s1 fmt_ddddddddd with
      | none => none
      | some (_, _, s2) =>
        match string_get_block s2 fmt_dddddd with
        | none => none
        | some (_, _, s3) => skip_fingers k s3

/-- The ids of the (at most `k`) records that stand at cursor `s` of a `gl ` line: each
record is an `idii` block (first integer the id, third the number of fingers, at most 5), a
block of 3 and a block of 9 doubles and the fingers; the list ends where a record is
incomplete. -/
def ids_gl : Nat → List Char → List Int
  | 0, _ => []
  | k + 1, s =>
    match string_get_block s fmt_idii with
    | none => []
    | some (iarr, _, s1) =>
      iarr.getD 0 0 ::
        (if iarr.getD 2 0 > DTRACK_HAND_MAX_FINGER then [] else
          match string_get_block s1 fmt_ddd with
          | none => []
          | some (_, _, s2) =>
            match string_get_block s2 fmt_ddddddddd with
            | none => []
            | some (_, _, s3) =>
              match skip_fingers (iarr.getD 2 0).toNat s3 with
              | none => []
              | some s4 => ids_gl k s4)

/-- The ids of the records of a `gl ` line, `x` being the text behind the keyword. -/
def ids_gl_line (x : List Char) : List Int :=
  match string_get_i x with
  | none => []
  | some (n, s) => ids_gl n.toNat s

/-- The ids of all body records of a packet: the records of its `6d ` lines. -/
def body_ids : List (List Char) → List Int
  | [] => []
  | l :: ls => (if strncmp_eq l kw_6d then ids_6d_line (l.drop 3) else []) ++ body_ids ls

/-- The ids of all hand records of a packet: the records of its `gl ` lines. -/
def hand_ids : List (List Char) → List Int
  | [] => []
  | l :: ls => (if strncmp_eq l kw_gl then ids_gl_line (l.drop 3) else []) ++ hand_ids ls

/-- A body slot that is "not tracked": its id is its index and its quality is -1. -/
def body_untracked (j : Int) (b : DTrack_Body_Type_d) : Prop :=
  b.id = j ∧ b.quality = Dbl.minusOne

/-- A hand slot that is "not tracked": its id is its index and its quality is -1. -/
def hand_untracked (j : Int) (h : DTrack_Hand_Type_d) : Prop :=
  h.id = j ∧ h.quality = Dbl.minusOne

/-- Every slot `j` with `lo <= j < act_num_X` exists and is "not tracked" (`D j`), unless
`j` is one of `ids`. -/
def Table.Covered {α : Type} (D : Int → α → Prop) (lo : Int) (ids : List Int) (t : Table α) :
    Prop :=
  ∀ j : Nat, lo ≤ (j : Int) → (j : Int) < t.num →
    ∃ b, t.vec[j]? = some b ∧ (D j b ∨ (j : Int) ∈ ids)

/-- The table `t1` has the count and the length of `t` and differs from it at most in
slot `i`. -/
def Table.SameBut {α : Type} (i : Int) (t t1 : Table α) : Prop :=
  t1.num = t.num ∧ t1.vec.length = t.vec.length ∧
    ∀ j : Nat, (j : Int) ≠ i → t1.vec[j]? = t.vec[j]?

/-- A property of every state a decoder piece can end in: at its end (`next`) and at a
`return false` (`fail`). -/
def Flow.Ends {σ α : Type} (R : σ → Prop) (proj : α → σ) (x : Flow σ α) : Prop :=
  match x with
  | .next a => R (proj a)
  | .fail _ t => R t
  | .undefined => True

/-! ## Well-formed lines of every recognised kind

The records of each line kind as sequences of number tokens in wire order, the lines built
from them, and the counts such a packet lets a fresh session report. -/

/-- A block of `n` doubles on the wire. -/
structure Dbls (n : Nat) where
  toks : List DblTok
  len : toks.length = n

/-- The tokens of a block of doubles. -/
def Dbls.tokens {n : Nat} (d : Dbls n) : List Tok := d.toks.map Tok.d

/-- The tokens of a sequence of records. -/
def Tok.all {ρ : Type} (toks : ρ → List Tok) : List ρ → List Tok
  | [] => []
  | r :: rs => toks r ++ Tok.all toks rs

/-- The check `P i r` for every record `r` of a sequence, `i` counting up from `i0`. -/
def all_from {ρ : Type} (P : Nat → ρ → Bool) : Nat → List ρ → Bool
  | _, [] => true
  | i, r :: rs => P i r && all_from P (i + 1) rs

/-- A record of a `6d ` or `6dmtr ` line: id, quality, location, rotation. -/
structure PoseWire where
  id : IntTok
  quality : DblTok
  loc : Dbls 3
  rot : Dbls 9

def PoseWire.tokens (r : PoseWire) : List Tok :=
  [.i r.id, .d r.quality] ++ (r.loc.tokens ++ r.rot.tokens)

/-- A record of a `6df ` or `6dmt ` line: id, quality, button bits, location, rotation. -/
structure ButtonWire where
  id : IntTok
  quality : DblTok
  bits : IntTok
  loc : Dbls 3
  rot : Dbls 9

def ButtonWire.tokens (r : ButtonWire) : List Tok :=
  [.i r.id, .d r.quality, .i r.bits] ++ (r.loc.tokens ++ r.rot.tokens)

/-- A record of a `6df2 ` line: id, quality, number of buttons, number of joystick values,
location, rotation, the packed button words and the joystick values. -/
structure Fly2Wire where
  id : IntTok
  quality : DblTok
  num_button : IntTok
  num_joystick : IntTok
  loc : Dbls 3
  rot : Dbls 9
  words : List IntTok
  joysticks : List DblTok

def Fly2Wire.tokens (r : Fly2Wire) : List Tok :=
  [.i r.id, .d r.quality, .i r.num_button, .i r.num_joystick] ++
    (r.loc.tokens ++ (r.rot.tokens ++ (r.words.map Tok.i ++ r.joysticks.map Tok.d)))

/-- A `6df2 ` record the decoder takes: at most 8 buttons and 8 joystick values, one button
word per started 32 buttons, one double per joystick value. -/
def Fly2Wire.wf (r : Fly2Wire) : Bool :=
  decide (0 ≤ r.num_button.val) && decide (r.num_button.val ≤ 8) &&
  decide (0 ≤ r.num_joystick.val) && decide (r.num_joystick.val ≤ 8) &&
  decide (r.words.length = (r.num_button.val.toNat + 31) / 32) &&
  decide (r.joysticks.length = r.num_joystick.val.toNat)

/-- A finger of a `gl ` record: location, rotation, and six doubles (tip radius, phalanx
lengths interleaved with angles). -/
structure FingerWire where
  loc : Dbls 3
  rot : Dbls 9
  six : Dbls 6

def FingerWire.tokens (f : FingerWire) : List Tok :=
  f.loc.tokens ++ (f.rot.tokens ++ f.six.tokens)

/-- A record of a `gl ` line: id, quality, left/right, number of fingers, location, rotation,
fingers. -/
structure HandWire where
  id : IntTok
  quality : DblTok
  lr : IntTok
  nfinger : IntTok
  loc : Dbls 3
  rot : Dbls 9
  fingers : List FingerWire

def HandWire.tokens (r : HandWire) : List Tok :=
  [.i r.id, .d r.quality, .i r.lr, .i r.nfinger] ++
    (r.loc.tokens ++ (r.rot.tokens ++ Tok.all FingerWire.tokens r.fingers))

/-- A `gl ` record the decoder takes: a non-negative id and as many fingers as announced, at
most `DTRACK_HAND_MAX_FINGER`. -/
def HandWire.wf (r : HandWire) : Bool :=
  decide (0 ≤ r.id.val) && decide (r.nfinger.val = r.fingers.length) &&
  decide (r.fingers.length ≤ 5)

/-- A joint of a `6dj ` model: id, quality, location and angles (six doubles), rotation. -/
structure JointWire where
  id : IntTok
  quality : DblTok
  six : Dbls 6
  rot : Dbls 9

def JointWire.tokens (j : JointWire) : List Tok :=
  [.i j.id, .d j.quality] ++ (j.six.tokens ++ j.rot.tokens)

/-- A model of a `6dj ` line: id, number of joints, joints. -/
structure HumanWire where
  id : IntTok
  num_joints : IntTok
  joints : List JointWire

def HumanWire.tokens (r : HumanWire) : List Tok :=
  [.i r.id, .i r.num_joints] ++ Tok.all JointWire.tokens r.joints

/-- A `6dj ` model the decoder takes when `n` models are calibrated: an id in `0 .. n-1` and
as many joints as announced, at most `DTRACK_HUMAN_MAX_JOINTS`. -/
def HumanWire.wf (n : Int) (r : HumanWire) : Bool :=
  decide (0 ≤ r.id.val) && decide (r.id.val < n) &&
  decide (r.num_joints.val = r.joints.length) && decide (r.joints.length ≤ 20)

/-- A line of one of the twelve recognised kinds, made of number tokens. -/
inductive WireLine
  | fr (n : UIntTok)
  | ts (t : DblTok)
  | bodycal (n : IntTok)
  | body (n : IntTok) (recs : List PoseWire)
  | flystick1 (n : IntTok) (recs : List ButtonWire)
  | flystick2 (n1 n2 : IntTok) (recs : List Fly2Wire)
  | meatool (n : IntTok) (recs : List ButtonWire)
  | mearef (n1 n2 : IntTok) (recs : List PoseWire)
  | handcal (n : IntTok)
  | hand (n : IntTok) (recs : List HandWire)
  | human (n1 n2 : IntTok) (recs : List HumanWire)
  | marker (n : IntTok) (recs : List MarkerWire)

/-- The line identifier, without the blank behind it. -/
def WireLine.keyword : WireLine → List Char
  | .fr _ => ['f', 'r']
  | .ts _ => ['t', 's']
  | .bodycal _ => ['6', 'd', 'c', 'a', 'l']
  | .body _ _ => ['6', 'd']
  | .flystick1 _ _ => ['6', 'd', 'f']
  | .flystick2 _ _ _ => ['6', 'd', 'f', '2']
  | .meatool _ _ => ['6', 'd', 'm', 't']
  | .mearef _ _ _ => ['6', 'd', 'm', 't', 'r']
  | .handcal _ => ['g', 'l', 'c', 'a', 'l']
  | .hand _ _ => ['g', 'l']
  | .human _ _ _ => ['6', 'd', 'j']
  | .marker _ _ => ['3', 'd']

/-- The texts of the tokens behind the line identifier. -/
def WireLine.texts : WireLine → List (List Char)
  | .fr n => [n.text]
  | .ts t => [t.text]
  | .bodycal n => [n.text]
  | .body n recs => n.text :: (Tok.all PoseWire.tokens recs).map Tok.text
  | .flystick1 n recs => n.text :: (Tok.all ButtonWire.tokens recs).map Tok.text
  | .flystick2 n1 n2 recs => n1.text :: n2.text :: (Tok.all Fly2Wire.tokens recs).map Tok.text
  | .meatool n recs => n.text :: (Tok.all ButtonWire.tokens recs).map Tok.text
  | .mearef n1 n2 recs => n1.text :: n2.text :: (Tok.all PoseWire.tokens recs).map Tok.text
  | .handcal n => [n.text]
  | .hand n recs => n.text :: (Tok.all HandWire.tokens recs).map Tok.text
  | .human n1 n2 recs => n1.text :: n2.text :: (Tok.all HumanWire.tokens recs).map Tok.text
  | .marker n recs => n.text :: MarkerWire.all_tokens recs

/-- The text of a line: the identifier and the tokens, each preceded by one blank. -/
def WireLine.text (l : WireLine) : List Char := l.keyword ++ render l.texts

/-- A line the decoder takes: the announced number of records follows; body and hand ids
are not negative; Flystick and measurement tool ids are the index of the record; a `6df2 `
line announces no more records than calibrated Flysticks; the models of a `6dj ` line have
ids below the number of calibrated models. -/
def WireLine.wf : WireLine → Bool
  | .fr _ => true
  | .ts _ => true
  | .bodycal _ => true
  | .body n recs => decide (n.val = recs.length) && recs.all fun r => decide (0 ≤ r.id.val)
  | .flystick1 n recs =>
    decide (n.val = recs.length) && all_from (fun (i : Nat) (r : ButtonWire) => decide (r.id.val = (i : Int))) 0 recs
  | .flystick2 n1 n2 recs =>
    decide (n2.val = recs.length) && decide ((recs.length : Int) ≤ n1.val) &&
      all_from (fun (i : Nat) (r : Fly2Wire) => decide (r.id.val = (i : Int)) && r.wf) 0 recs
  | .meatool n recs =>
    decide (n.val = recs.length) && all_from (fun (i : Nat) (r : ButtonWire) => decide (r.id.val = (i : Int))) 0 recs
  | .mearef _ n2 recs => decide (n2.val = recs.length)
  | .handcal _ => true
  | .hand n recs => decide (n.val = recs.length) && recs.all HandWire.wf
  | .human n1 n2 recs =>
    decide (0 ≤ n1.val) && decide (n2.val = recs.length) && recs.all (HumanWire.wf n1.val)
  | .marker n recs => decide (n.val = recs.length)

/-- The count a line declares for `loc_num_bodycal`. -/
def WireLine.body_cal : WireLine → Option Int
  | .bodycal n => some n.val
  | _ => none

/-- The count a line declares for `loc_num_handcal`. -/
def WireLine.hand_cal : WireLine → Option Int
  | .handcal n => some n.val
  | _ => none

/-- The count a line declares for `loc_num_flystick1`. -/
def WireLine.flystick1_count : WireLine → Option Int
  | .flystick1 n _ => some n.val
  | _ => none

/-- The Flystick count a line declares: the count of a `6df ` line, the number of calibrated
Flysticks of a `6df2 ` line. -/
def WireLine.flystick_count : WireLine → Option Int
  | .flystick1 n _ => some n.val
  | .flystick2 n1 _ _ => some n1.val
  | _ => none

/-- The measurement tool count a line declares. -/
def WireLine.meatool_count : WireLine → Option Int
  | .meatool n _ => some n.val
  | _ => none

/-- The measurement reference count a line declares: the second count of a `6dmtr ` line. -/
def WireLine.mearef_count : WireLine → Option Int
  | .mearef _ n2 _ => some n2.val
  | _ => none

/-- The human model count a line declares: the first count of a `6dj ` line. -/
def WireLine.human_count : WireLine → Option Int
  | .human n1 _ _ => some n1.val
  | _ => none

/-- The marker count a line declares. -/
def WireLine.marker_count : WireLine → Option Int
  | .marker n _ => some n.val
  | _ => none

/-- The larger of `m` and the greatest `id + 1` of the body records of a line. -/
def WireLine.body_top (l : WireLine) (m : Int) : Int :=
  match l with
  | .body _ recs => recs.foldl (fun m r => max m (r.id.val + 1)) m
  | _ => m

/-- The larger of `m` and the greatest `id + 1` of the hand records of a line. -/
def WireLine.hand_top (l : WireLine) (m : Int) : Int :=
  match l with
  | .hand _ recs => recs.foldl (fun m r => max m (r.id.val + 1)) m
  | _ => m

/-- The count the last declaring line of a packet declares, `dflt` when none does. -/
def last_of (f : WireLine → Option Int) (ls : List WireLine) (dflt : Int) : Int :=
  ls.foldl (fun v l => (f l).getD v) dflt

/-- The greatest `id + 1` over the records of a packet, at least `start`. -/
def top_of (f : WireLine → Int → Int) (ls : List WireLine) (start : Int) : Int :=
  ls.foldl (fun m l => f l m) start

/-- The tables of a session are in step with their counts: no body or hand count is
negative or beyond its vector, and the vectors of Flysticks, measurement tools, measurement
references and human models have exactly the counted length. -/
def DTrackSDK.in_step (st : DTrackSDK) : Prop :=
  (0 ≤ st.act_body.num ∧ st.act_body.num ≤ st.act_body.vec.length) ∧
  (0 ≤ st.act_hand.num ∧ st.act_hand.num ≤ st.act_hand.vec.length) ∧
  (st.act_flystick.vec.length : Int) = st.act_flystick.num ∧
  (st.act_meatool.vec.length : Int) = st.act_meatool.num ∧
  (st.act_mearef.vec.length : Int) = st.act_mearef.num ∧
  (st.act_human.vec.length : Int) = st.act_human.num

/-- The piece `x` runs to its end, with a result that satisfies `R`. -/
def Flow.Succeeds {σ α : Type} (R : α → Prop) (x : Flow σ α) : Prop :=
  ∃ a, x = .next a ∧ R a

/-- What one well-formed line does to the variables that outlive it and to the counts. -/
def WireLine.Step (l : WireLine) (lc : Locals) (st : DTrackSDK) (a : Locals × DTrackSDK) :
    Prop :=
  a.2.in_step ∧
  a.1.loc_num_bodycal = l.body_cal.getD lc.loc_num_bodycal ∧
  a.1.loc_num_handcal = l.hand_cal.getD lc.loc_num_handcal ∧
  a.1.loc_num_flystick1 = l.flystick1_count.getD lc.loc_num_flystick1 ∧
  a.1.loc_num_meatool = l.meatool_count.getD lc.loc_num_meatool ∧
  a.2.act_body.num = l.body_top st.act_body.num ∧
  a.2.act_hand.num = l.hand_top st.act_hand.num ∧
  a.2.act_flystick.num = l.flystick_count.getD st.act_flystick.num ∧
  a.2.act_meatool.num = l.meatool_count.getD st.act_meatool.num ∧
  a.2.act_mearef.num = l.mearef_count.getD st.act_mearef.num ∧
  a.2.act_human.num = l.human_count.getD st.act_human.num ∧
  a.2.act_marker.num = l.marker_count.getD st.act_marker.num

/-! ## Where a piece of the decoder ends, and what a record says -/

/-- What holds where a piece of the decoder can end: `F` of the state at a `return false`,
`N` of the result at its end. -/
def Flow.Post {σ α : Type} (F : σ → Prop) (N : α → Prop) (x : Flow σ α) : Prop :=
  match x with
  | .next a => N a
  | .fail _ s => F s
  | .undefined => True

/-- The table `t1` is `t` with slot `i` (an existing one) changed by `g`. -/
def Table.Wrote {α : Type} (i : Int) (g : α → α) (t t1 : Table α) : Prop :=
  t1.num = t.num ∧ t1.vec.length = t.vec.length ∧ 0 ≤ i ∧
    (∃ a, t.vec[i.toNat]? = some a ∧ t1.vec[i.toNat]? = some (g a)) ∧
    ∀ j : Nat, (j : Int) ≠ i → t1.vec[j]? = t.vec[j]?

/-- The values of a block of doubles. -/
def Dbls.vals {n : Nat} (d : Dbls n) : List Dbl := d.toks.map (·.val)

/-- The body a `6d ` record describes. -/
def PoseWire.body (r : PoseWire) : DTrack_Body_Type_d :=
  ⟨r.id.val, r.quality.val, r.loc.vals, r.rot.vals⟩

/-- The finger a finger block of a `gl ` record describes: location, rotation, and of the
six further doubles `d0 .. d5` the tip radius `d0`, the phalanx lengths `d1, d3, d5` and the
phalanx angles `d2, d4`. -/
def FingerWire.finger (f : FingerWire) : DTrack_Finger_d :=
  ⟨f.loc.vals, f.rot.vals, f.six.vals.getD 0 0,
    [f.six.vals.getD 1 0, f.six.vals.getD 3 0, f.six.vals.getD 5 0],
    [f.six.vals.getD 2 0, f.six.vals.getD 4 0]⟩


/-! ## The command channel (`sendDTrack2Command`) -/

/-- Maximum length of a command or an answer, `DTRACK_PROT_MAXLEN`. -/
def DTRACK_PROT_MAXLEN : Int := 200

/-- The function `tcp_send` of `Lib/DTrackNet.cpp`: `sel` is what `select` returns, `nbytes`
what `send` returns for the `len` bytes handed over. -/
def tcp_send (sel nbytes len : Int) : Int :=
  if sel = 1 then (if nbytes < len then -3 else 0)
  else if sel = 0 then -1
  else -2

/-- The function `tcp_receive` of `Lib/DTrackNet.cpp`: `sel` is what `select` returns,
`nbytes` what `recv` returns for a buffer of `maxlen` bytes. -/
def tcp_receive (sel nbytes maxlen : Int) : Int :=
  if sel = 1 then
    (if nbytes = 0 then -9
     else if nbytes < 0 then -3
     else if nbytes ≥ maxlen then -4
     else nbytes)
  else if sel = 0 then -1
  else -2

/-- What the operating system does during one command exchange: the results of `select`
and `send` for the command, the results of `select` and `recv` for the answer, and the bytes
`recv` stored at the start of the buffer `ans`. -/
structure TcpWire where
  send_select : Int
  send_nbytes : Int
  recv_select : Int
  recv_nbytes : Int
  recv_bytes : List Char
deriving DecidableEq, Repr

/-- The C string at `ans` after `recv` stored `recv_nbytes` bytes there.  The buffer is a
local array that is not initialised and the code appends no terminator, so there is a
defined C string only when a NUL is among the bytes received. -/
def TcpWire.ans (w : TcpWire) : Option (List Char) :=
  let got := w.recv_bytes.take w.recv_nbytes.toNat
  if got.contains (Char.ofNat 0) then some (got.takeWhile (fun c => c != Char.ofNat 0))
  else none

/-- An exchange in which the command is sent and the bytes of `reply`, followed by a NUL,
are received. -/
def TcpWire.reply (cmd_len : Nat) (reply : List Char) : TcpWire :=
  ⟨1, cmd_len + 1, 1, reply.length + 1, reply ++ [Char.ofNat 0]⟩

/-- Modelled from the spec: `parse_quoted_text` "consumes a double-quote-delimited string
honoring no escape sequences" (`string_get_quoted_text` of `Lib/DTrackParse`, which is not
among the sources); on success the text between the quotes and the cursor behind the closing
quote. -/
def string_get_quoted_text (s : List Char) : Option (List Char × List Char) :=
  match s.dropWhile isBlank with
  | '"' :: r =>
    if r.contains '"' then
      some (r.takeWhile (fun c => c != '"'), (r.dropWhile (fun c => c != '"')).drop 1)
    else none
  | _ => none

/-- `DTrackSDK::setLastDTrackError`. -/
def DTrackSDK.setLastDTrackError (self : DTrackSDK) (newError : Int)
    (newErrorString : List Char) : DTrackSDK :=
  { self with lastDTrackError := newError, lastDTrackErrorString := newErrorString }

/-- `DTrackSDK::getLastDTrackError`. -/
def DTrackSDK.getLastDTrackError (self : DTrackSDK) : Int := self.lastDTrackError

/-- `DTrackSDK::getLastDTrackErrorDescription`. -/
def DTrackSDK.getLastDTrackErrorDescription (self : DTrackSDK) : List Char :=
  self.lastDTrackErrorString

/-- The answer `"dtrack2 ok"`. -/
def ans_ok : List Char := ['d', 't', 'r', 'a', 'c', 'k', '2', ' ', 'o', 'k']

/-- The prefix `"dtrack2 err "` of an error answer. -/
def ans_err : List Char := ['d', 't', 'r', 'a', 'c', 'k', '2', ' ', 'e', 'r', 'r', ' ']

/-- The text `"SDK error -1100"`. -/
def sdk_error_1100 : List Char := "SDK error -1100".toList

/-- Result of `sendDTrack2Command`. -/
inductive CmdOutcome
  -- the call returned `code`, left the session in state `st` and the caller's answer
  -- buffer (if one was given) with the content `answer`
  | ret (code : Int) (st : DTrackSDK) (answer : Option (List Char))
  -- the call read bytes of `ans` that were never written
  | undefined
deriving DecidableEq, Repr

/-- The value returned by the call, if it returned. -/
def CmdOutcome.code : CmdOutcome → Option Int
  | .ret c _ _ => some c
  | .undefined => none

/-- The session after the call, `d` if it did not return. -/
def CmdOutcome.state_or (o : CmdOutcome) (d : DTrackSDK) : DTrackSDK :=
  match o with
  | .ret _ st _ => st
  | .undefined => d

/-- The caller's answer buffer after the call. -/
def CmdOutcome.answer : CmdOutcome → Option (List Char)
  | .ret _ _ a => a
  | .undefined => none

/-- `DTrackSDK::sendDTrack2Command(command, answer)` (lines 1097-1181); `answer` is the
content of the caller's answer buffer, `none` for `NULL`, and `w` what the operating system
does during the exchange. -/
def DTrackSDK.sendDTrack2Command (self : DTrackSDK) (command : List Char)
    (answer : Option (List Char)) (w : TcpWire) : CmdOutcome :=
  -- Params via TCP are not supported in DTrack
  if self.rsType ≠ .SYS_DTRACK_2 then .ret (-2) self answer else
  -- reset dtrack error
  let st := self.setLastDTrackError 0 []
  -- command too long?
  if (command.length : Int) > DTRACK_PROT_MAXLEN then
    .ret (-3) { st with lastServerError := .ERR_NET } answer else
  -- connection invalid
  if !st.isCommandInterfaceValid then
    .ret (-10) { st with lastServerError := .ERR_NET } answer else
  -- send TCP command string
  if tcp_send w.send_select w.send_nbytes (command.length + 1) ≠ 0 then
    .ret (-11) { st with lastServerError := .ERR_NET } answer else
  -- receive TCP response string
  let err := tcp_receive w.recv_select w.recv_nbytes DTRACK_PROT_MAXLEN
  if err < 0 then
    let st1 :=
      if err = -1 then { st with lastServerError := .ERR_TIMEOUT }
      else if err = -9 then { st with d_tcpsock := false }
      else { st with lastServerError := .ERR_NET }
    .ret err st1 (answer.map fun _ => [])
  else
  match w.ans with
  | none => .undefined
  | some ans =>
    -- check for "dtrack2 ok" / no error
    if ans = ans_ok then .ret 1 st answer else
    -- got error msg?
    if strncmp_eq ans ans_err then
      -- parse error code
      match string_get_i (ans.drop 12) with
      | none =>
        .ret (-1100) { st.setLastDTrackError (-1100) sdk_error_1100 with
                       lastServerError := .ERR_PARSE } answer
      | some (i, s) =>
        -- parse error string
        match string_get_quoted_text s with
        | none =>
          .ret (-1101) { st.setLastDTrackError (-1100) sdk_error_1100 with
                         lastServerError := .ERR_PARSE } answer
        | some (qt, _) =>
          .ret 2 { st with lastDTrackError := i, lastDTrackErrorString := qt } answer
    else
    -- not 'dtrack2 ok'/'dtrack2 err ..' -> return msg
    .ret 0 { st with lastServerError := .ERR_NONE } (answer.map fun _ => ans)

/-! ## Sessions that the modelled member functions can produce -/

/-- The member arrays of a Flystick record have their declared sizes: `button[16]` and
`joystick[8]`. -/
def flystick_shaped (f : DTrack_FlyStick_Type_d) : Prop :=
  f.button.length = 16 ∧ f.joystick.length = 8

/-- The member array of a measurement tool record has its declared size: `button[1]`. -/
def meatool_shaped (m : DTrack_MeaTool_Type_d) : Prop := m.button.length = 1

/-- The member array of a hand record has its declared size: `finger[5]`. -/
def hand_shaped (h : DTrack_Hand_Type_d) : Prop := h.finger.length = 5

/-- The member array of a human model has its declared size: `joint[20]`. -/
def human_shaped (h : DTrack_Human_Type) : Prop := h.joint.length = 20

instance (f : DTrack_FlyStick_Type_d) : Decidable (flystick_shaped f) :=
  inferInstanceAs (Decidable (f.button.length = 16 ∧ f.joystick.length = 8))

instance (m : DTrack_MeaTool_Type_d) : Decidable (meatool_shaped m) :=
  inferInstanceAs (Decidable (m.button.length = 1))

instance (h : DTrack_Hand_Type_d) : Decidable (hand_shaped h) :=
  inferInstanceAs (Decidable (h.finger.length = 5))

instance (h : DTrack_Human_Type) : Decidable (human_shaped h) :=
  inferInstanceAs (Decidable (h.joint.length = 20))

/-- The count of a table is not beyond its vector, and every element of the vector
satisfies `P`. -/
def Table.Inv {α : Type} (P : α → Prop) (t : Table α) : Prop :=
  t.num ≤ t.vec.length ∧ ∀ x ∈ t.vec, P x

/-- No count of the session is beyond its vector, and all member arrays have their declared
sizes. -/
def DTrackSDK.Inv (st : DTrackSDK) : Prop :=
  st.act_body.Inv (fun _ => True) ∧ st.act_flystick.Inv flystick_shaped ∧
  st.act_meatool.Inv meatool_shaped ∧ st.act_mearef.Inv (fun _ => True) ∧
  st.act_hand.Inv hand_shaped ∧ st.act_human.Inv human_shaped ∧
  st.act_marker.Inv (fun _ => True)

/-- The sessions reached from `init` by calls of `receive` and `sendDTrack2Command` that
return. -/
inductive DTrackSDK.Reachable : DTrackSDK → Prop
  | init (rs : RemoteSystemType) (udp tcp : Bool) (u : Unassigned) :
    Reachable (DTrackSDK.init rs udp tcp u)
  | receive {st st1 : DTrackSDK} (udp : UdpResult) (b : Bool) :
    Reachable st → st.receive udp = .ret b st1 → Reachable st1
  | command {st st1 : DTrackSDK} (cmd : List Char) (answer answer1 : Option (List Char))
    (w : TcpWire) (code : Int) :
    Reachable st → st.sendDTrack2Command cmd answer w = .ret code st1 answer1 →
    Reachable st1

/-- The accessor `get` of the table `t` with count `num` does what is expected of it: for
an `id` with `0 <= id < num` the vector has an `id`-th entry and `get id` is that entry, for
every other `id` the result is `NULL`. -/
def Table.Answers {α : Type} (t : Table α) (num : Int) (get : Int → Option α) : Prop :=
  ∀ id : Int,
    (0 ≤ id ∧ id < num → ∃ r, t.vec[id.toNat]? = some r ∧ get id = some r) ∧
    (¬(0 ≤ id ∧ id < num) → get id = none)

/-! ## What a record leaves in its slot, and lines that a check of a record header stops -/

/-- The piece `x` ends with a `return false`. -/
def Flow.Fails {σ α : Type} (x : Flow σ α) : Prop := ∃ w s, x = .fail w s

/-- The Flystick record that a `6df ` record leaves in the slot that held `f` (the
assignments at lines 467-497). -/
def ButtonWire.flystick (r : ButtonWire) (f : DTrack_FlyStick_Type_d) :
    DTrack_FlyStick_Type_d :=
  { id := r.id.val, quality := r.quality.val, num_button := 8,
    button := buttons_6df 8 0 r.bits.val f.button, num_joystick := 2,
    joystick := arr_set (arr_set f.joystick 0
        (if test_bit r.bits.val 5 then Dbl.minusOne
         else if test_bit r.bits.val 7 then 1 else 0)) 1
      (if test_bit r.bits.val 4 then Dbl.minusOne else if test_bit r.bits.val 6 then 1 else 0),
    loc := r.loc.vals, rot := r.rot.vals }

/-- The measurement tool record that a `6dmt ` record leaves in the slot that held `m` (the
assignments at lines 587-597). -/
def ButtonWire.meatool (r : ButtonWire) (m : DTrack_MeaTool_Type_d) : DTrack_MeaTool_Type_d :=
  { id := r.id.val, quality := r.quality.val, num_button := 1,
    button := arr_set m.button 0 (low_bit r.bits.val), loc := r.loc.vals, rot := r.rot.vals }

/-- The Flystick record that a `6df2 ` record leaves in the slot that held `f` (the
assignments at lines 526-560). -/
def Fly2Wire.flystick (r : Fly2Wire) (f : DTrack_FlyStick_Type_d) : DTrack_FlyStick_Type_d :=
  { id := r.id.val, quality := r.quality.val, num_button := r.num_button.val,
    button := buttons_6df2 r.num_button.val.toNat 0 (r.words.map (·.val)) 0 0 f.button,
    num_joystick := r.num_joystick.val,
    joystick := store_joysticks (r.joysticks.map (·.val)) 0 f.joystick,
    loc := r.loc.vals, rot := r.rot.vals }

/-- The table the records of a line go to: 0 body, 1 Flystick, 2 measurement tool,
3 measurement reference, 4 hand, 5 human model, 6 marker; `none` for a line without
records. -/
def WireLine.table : WireLine → Option Nat
  | .body _ _ => some 0
  | .flystick1 _ _ => some 1
  | .flystick2 _ _ _ => some 1
  | .meatool _ _ => some 2
  | .mearef _ _ _ => some 3
  | .hand _ _ => some 4
  | .human _ _ _ => some 5
  | .marker _ _ => some 6
  | _ => none

/-- A `6df `, `6df2 `, `6dmt ` or `gl ` line that announces more records than the records
`good` and goes on, behind them, with the header `id quality i1 ..` of one more record and
whatever texts `rest`. -/
inductive BadLine
  | flystick1 (n : IntTok) (good : List ButtonWire) (id : IntTok) (quality : DblTok)
    (bits : IntTok) (rest : List (List Char))
  | flystick2 (n1 n2 : IntTok) (good : List Fly2Wire) (id : IntTok) (quality : DblTok)
    (num_button num_joystick : IntTok) (rest : List (List Char))
  | meatool (n : IntTok) (good : List ButtonWire) (id : IntTok) (quality : DblTok)
    (bits : IntTok) (rest : List (List Char))
  | hand (n : IntTok) (good : List HandWire) (id : IntTok) (quality : DblTok)
    (lr nfinger : IntTok) (rest : List (List Char))

/-- The text of such a line. -/
def BadLine.text : BadLine → List Char
  | .flystick1 n good id q b rest =>
    ['6', 'd', 'f'] ++ render (n.text :: ((Tok.all ButtonWire.tokens good ++
      [Tok.i id, Tok.d q, Tok.i b]).map Tok.text ++ rest))
  | .flystick2 n1 n2 good id q nb nj rest =>
    ['6', 'd', 'f', '2'] ++ render (n1.text :: n2.text :: ((Tok.all Fly2Wire.tokens good ++
      [Tok.i id, Tok.d q, Tok.i nb, Tok.i nj]).map Tok.text ++ rest))
  | .meatool n good id q b rest =>
    ['6', 'd', 'm', 't'] ++ render (n.text :: ((Tok.all ButtonWire.tokens good ++
      [Tok.i id, Tok.d q, Tok.i b]).map Tok.text ++ rest))
  | .hand n good id q lr nf rest =>
    ['g', 'l'] ++ render (n.text :: ((Tok.all HandWire.tokens good ++
      [Tok.i id, Tok.d q, Tok.i lr, Tok.i nf]).map Tok.text ++ rest))

/-- The records `good` are taken by the decoder and one more record is announced. -/
def BadLine.wf : BadLine → Bool
  | .flystick1 n good _ _ _ _ =>
    decide ((good.length : Int) < n.val) &&
      all_from (fun (i : Nat) (r : ButtonWire) => decide (r.id.val = (i : Int))) 0 good
  | .flystick2 n1 n2 good _ _ _ _ _ =>
    decide ((good.length : Int) < n2.val) && decide ((good.length : Int) ≤ n1.val) &&
      all_from (fun (i : Nat) (r : Fly2Wire) => decide (r.id.val = (i : Int)) && r.wf) 0 good
  | .meatool n good _ _ _ _ =>
    decide ((good.length : Int) < n.val) &&
      all_from (fun (i : Nat) (r : ButtonWire) => decide (r.id.val = (i : Int))) 0 good
  | .hand n good _ _ _ _ _ => decide ((good.length : Int) < n.val) && good.all HandWire.wf

/-- The function `udp_send` of `Lib/DTrackNet.cpp`: `sel` is what `select` returns, `nbytes`
what `sendto` returns for the `len` bytes handed over. -/
def udp_send (sel nbytes len : Int) : Int :=
  if sel = 1 then (if nbytes < len then -3 else 0)
  else if sel = 0 then -1
  else -2

/-- What the operating system does during one call of `udp_send`: the results of `select`
and `sendto`. -/
structure UdpWire where
  send_select : Int
  send_nbytes : Int
deriving DecidableEq, Repr

/-- A call a command function makes into the transport layer, with the bytes and the length
handed over, or the call of `sleep(1)` (`Sleep(1000)`). -/
inductive NetCall
  | udp_send (buffer : List Char) (len : Int)
  | tcp_send (buffer : List Char) (len : Int)
  | tcp_receive (maxlen : Int)
  | sleep
deriving DecidableEq, Repr

/-- The bytes at `s.c_str()` up to and with the terminator, which is what a transport call
gets with the length `s.length() + 1`. -/
def c_str_bytes (s : List Char) : List Char := s ++ [Char.ofNat 0]

/-- The C string the C library sees at `s.c_str()`: the characters before the first NUL. -/
def c_str (s : List Char) : List Char := s.takeWhile (fun c => c != Char.ofNat 0)

/-- The transport calls `sendDTrack2Command` makes (lines 1097-1127), in order: none when one
of the three checks at its start returns, `tcp_send` otherwise, and `tcp_receive` when
`tcp_send` returned 0. -/
def DTrackSDK.sendDTrack2Command_calls (self : DTrackSDK) (command : List Char)
    (w : TcpWire) : List NetCall :=
  if self.rsType ≠ .SYS_DTRACK_2 then [] else
  if (command.length : Int) > DTRACK_PROT_MAXLEN then [] else
  if !self.isCommandInterfaceValid then [] else
  if tcp_send w.send_select w.send_nbytes (command.length + 1) ≠ 0 then
    [.tcp_send (c_str_bytes command) (command.length + 1)] else
  [.tcp_send (c_str_bytes command) (command.length + 1), .tcp_receive DTRACK_PROT_MAXLEN]

/-- What the operating system does while a command function runs: `udp k` at a call of
`udp_send` made when `k` calls are on record, `tcp` at the exchange over the command
connection. -/
structure CmdNet where
  udp : Nat → UdpWire
  tcp : TcpWire

/-- Result of a command function that returns `bool`: the value, the session, and the
transport calls made up to the return. -/
inductive SendOutcome
  -- the call returned `b` and left the session in state `st`
  | ret (b : Bool) (st : DTrackSDK) (calls : List NetCall)
  -- the call ran into an access without defined behaviour
  | undefined
  -- the bound on the nesting of calls was reached
  | unfinished
deriving DecidableEq, Repr

/-- The value a command function returned. -/
def SendOutcome.returned : SendOutcome → Option Bool
  | .ret b _ _ => some b
  | _ => none

/-- The transport calls a command function made. -/
def SendOutcome.calls : SendOutcome → Option (List NetCall)
  | .ret _ _ c => some c
  | _ => none

/-- The session a command function left behind, or `d` when it did not return. -/
def SendOutcome.state_or (o : SendOutcome) (d : DTrackSDK) : DTrackSDK :=
  match o with
  | .ret _ st _ => st
  | _ => d

/-- The start of an old-style command, `"dtrack "`. -/
def kw_dtrack : List Char := ['d', 't', 'r', 'a', 'c', 'k', ' ']

/-- The arguments of the old-style commands that start (`10 3`) and stop (`10 0`, `10 1`)
the measurement. -/
def kw_10_3 : List Char := ['1', '0', ' ', '3']

/-- See `kw_10_3`. -/
def kw_10_0 : List Char := ['1', '0', ' ', '0']

/-- See `kw_10_3`. -/
def kw_10_1 : List Char := ['1', '0', ' ', '1']

/-- The two commands of a legacy `startMeasurement`. -/
def cmd_dtrack_10_3 : List Char := "dtrack 10 3".toList

/-- See `cmd_dtrack_10_3`. -/
def cmd_dtrack_31 : List Char := "dtrack 31".toList

/-- The two commands of a legacy `stopMeasurement`. -/
def cmd_dtrack_32 : List Char := "dtrack 32".toList

/-- See `cmd_dtrack_32`. -/
def cmd_dtrack_10_0 : List Char := "dtrack 10 0".toList

/-- The DTrack2 command of `startMeasurement`. -/
def cmd_tracking_start : List Char := "dtrack2 tracking start".toList

/-- The DTrack2 command of `stopMeasurement`. -/
def cmd_tracking_stop : List Char := "dtrack2 tracking stop".toList

/-- The end of `sendCommand` (lines 1066-1080): the command goes out by `udp_send`, and
after `dtrack 10 3` the function sleeps for a second. -/
def DTrackSDK.sendCommand_udp (st : DTrackSDK) (command : List Char) (net : CmdNet)
    (calls : List NetCall) : SendOutcome :=
  let w := net.udp calls.length
  let calls := calls ++ [.udp_send (c_str_bytes command) (command.length + 1)]
  if udp_send w.send_select w.send_nbytes (command.length + 1) ≠ 0 then
    .ret false { st with lastDataError := .ERR_NET } calls
  else if c_str command = cmd_dtrack_10_3 then .ret true st (calls ++ [.sleep])
  else .ret true st calls

/-- The return `1 == sendDTrack2Command(command)` of `startMeasurement` and
`stopMeasurement`, with the transport calls of the exchange. -/
def DTrackSDK.tracking_command (self : DTrackSDK) (command : List Char) (net : CmdNet)
    (calls : List NetCall) : SendOutcome :=
  match self.sendDTrack2Command command none net.tcp with
  | .ret code st _ =>
    .ret (code == 1) st (calls ++ self.sendDTrack2Command_calls command net.tcp)
  | .undefined => .undefined

mutual
/-- `DTrackSDK::sendCommand` (lines 1042-1080): `calls` are the transport calls made so
far, `depth` bounds the nesting of calls of member functions. -/
def DTrackSDK.sendCommand (self : DTrackSDK) (command : List Char) (net : CmdNet)
    (calls : List NetCall) (depth : Nat) : SendOutcome :=
  match depth with
  | 0 => .unfinished
  | depth + 1 =>
    if !self.isLocalDataPortValid then .ret false self calls else
    let st := { self with lastDataError := .ERR_NONE }
    -- dest is dtrack2
    if st.rsType = .SYS_DTRACK_2 then
      -- command style is dtrack?
      if strncmp_eq command kw_dtrack then
        let c := command.drop 7
        -- start measurement
        if strncmp_eq c kw_10_3 then st.startMeasurement net calls depth
        -- stop measurement
        else if strncmp_eq c kw_10_0 || strncmp_eq c kw_10_1 then
          st.stopMeasurement net calls depth
        -- simulate success of other old commands
        else .ret true st calls
      else st.sendCommand_udp command net calls
    else st.sendCommand_udp command net calls

/-- `DTrackSDK::startMeasurement` (lines 1388-1397). -/
def DTrackSDK.startMeasurement (self : DTrackSDK) (net : CmdNet) (calls : List NetCall)
    (depth : Nat) : SendOutcome :=
  match depth with
  | 0 => .unfinished
  | depth + 1 =>
    -- Check for special DTrack handling
    if self.rsType = .SYS_DTRACK then
      match self.sendCommand cmd_dtrack_10_3 net calls depth with
      | .ret true st calls1 => st.sendCommand cmd_dtrack_31 net calls1 depth
      | r => r
    -- start tracking, 1 means answer "dtrack2 ok"
    else self.tracking_command cmd_tracking_start net calls

/-- `DTrackSDK::stopMeasurement` (lines 1405-1414). -/
def DTrackSDK.stopMeasurement (self : DTrackSDK) (net : CmdNet) (calls : List NetCall)
    (depth : Nat) : SendOutcome :=
  match depth with
  | 0 => .unfinished
  | depth + 1 =>
    -- Check for special DTrack handling
    if self.rsType = .SYS_DTRACK then
      match self.sendCommand cmd_dtrack_32 net calls depth with
      | .ret true st calls1 => st.sendCommand cmd_dtrack_10_0 net calls1 depth
      | r => r
    -- stop tracking, 1 means answer "dtrack2 ok"
    else self.tracking_command cmd_tracking_stop net calls
end
/-! ## Later calls on a session -/

/-- The sessions a session gets into by later calls of its member functions that return:
`receive`, `sendDTrack2Command`, `sendCommand`, `startMeasurement` and `stopMeasurement`.
The functions `setParam`, `getParam` and `getMessage` act on the members of the session
through their call of `sendDTrack2Command`; behind it `getParam` can store
`lastServerError = ERR_PARSE` (line 1249), which is the last constructor. -/
inductive DTrackSDK.Later : DTrackSDK → DTrackSDK → Prop
  | same (st : DTrackSDK) : Later st st
  | receive {st st1 st2 : DTrackSDK} (udp : UdpResult) (b : Bool) :
    Later st st1 → st1.receive udp = .ret b st2 → Later st st2
  | command {st st1 st2 : DTrackSDK} (cmd : List Char) (answer answer1 : Option (List Char))
    (w : TcpWire) (code : Int) :
    Later st st1 → st1.sendDTrack2Command cmd answer w = .ret code st2 answer1 → Later st st2
  | sendCommand {st st1 st2 : DTrackSDK} (cmd : List Char) (net : CmdNet)
    (calls calls1 : List NetCall) (depth : Nat) (b : Bool) :
    Later st st1 → st1.sendCommand cmd net calls depth = .ret b st2 calls1 → Later st st2
  | startMeasurement {st st1 st2 : DTrackSDK} (net : CmdNet)
    (calls calls1 : List NetCall) (depth : Nat) (b : Bool) :
    Later st st1 → st1.startMeasurement net calls depth = .ret b st2 calls1 → Later st st2
  | stopMeasurement {st st1 st2 : DTrackSDK} (net : CmdNet)
    (calls calls1 : List NetCall) (depth : Nat) (b : Bool) :
    Later st st1 → st1.stopMeasurement net calls depth = .ret b st2 calls1 → Later st st2
  | getParam {st st1 : DTrackSDK} :
    Later st st1 → Later st { st1 with lastServerError := .ERR_PARSE }

/-- The command `command` is sent over the command connection of a DTrack2 session and
answered with `dtrack2 ok`. -/
def DTrackSDK.answered_ok (self : DTrackSDK) (command : List Char) (w : TcpWire) : Prop :=
  self.rsType = .SYS_DTRACK_2 ∧ (command.length : Int) ≤ DTRACK_PROT_MAXLEN ∧
  self.isCommandInterfaceValid = true ∧
  tcp_send w.send_select w.send_nbytes (command.length + 1) = 0 ∧
  0 ≤ tcp_receive w.recv_select w.recv_nbytes DTRACK_PROT_MAXLEN ∧
  w.ans = some ans_ok

/-! ## Lines with an unrecognized keyword -/

/-- The line identifiers the loop body of `receive` tests for, in source order. -/
def keywords : List (List Char) :=
  [kw_fr, kw_ts, kw_6dcal, kw_6d, kw_6df, kw_6df2, kw_6dmt, kw_6dmtr, kw_glcal, kw_gl,
    kw_6dj, kw_3d]

/-- The line `l` starts with none of the line identifiers. -/
def unrecognized (l : List Char) : Bool := keywords.all fun kw => !strncmp_eq l kw

/-! ## The id of a slot is its index -/

/-- Every slot below the count of the table exists, and the id stored there is its
index. -/
def Table.Indexed {α : Type} (idof : α → Int) (t : Table α) : Prop :=
  ∀ j : Nat, (j : Int) < t.num → ∃ x, t.vec[j]? = some x ∧ idof x = j

/-- The slots of the body table and of the hand table below the counts hold their index as
id. -/
def DTrackSDK.Indexed (st : DTrackSDK) : Prop :=
  st.act_body.Indexed (·.id) ∧ st.act_hand.Indexed (·.id)

/-! ## Lines with a missing or non-numeric token -/

/-- A token that is no number: a non-empty text without blanks that neither
`string_get_ui` nor `string_get_i` nor `string_get_d` reads. -/
structure NoNumTok where
  text : List Char
  nonempty : text ≠ []
  chars : text.all tokChar = true
  no_ui : uintOfToken text = none
  no_i : intOfToken text = none
  no_d : dblOfToken text = none

/-- What a line has where its next number is required: nothing (the line ends there), or a
token that is no number, followed by whatever texts. -/
inductive CutTail
  | missing
  | other (t : NoNumTok) (rest : List (List Char))

/-- The texts of the tokens that stand where the number is required. -/
def CutTail.texts : CutTail → List (List Char)
  | .missing => []
  | .other t rest => t.text :: rest

/-- The text of the line that starts as the line `l` does, with its identifier and its first
`k` number tokens, and has `c` where the next number of `l` stands: the identifier, a blank,
and the tokens with one blank between them. -/
def WireLine.cut (l : WireLine) (k : Nat) (c : CutTail) : List Char :=
  l.keyword ++ ' ' :: (render (l.texts.take k ++ c.texts)).drop 1

/-- The tokens of a `3d ` record, each with the format character that reads it. -/
def MarkerWire.toks (r : MarkerWire) : List Tok :=
  [Tok.i r.id, Tok.d r.quality] ++ r.loc.map Tok.d
/-! ## Concrete sessions and packets used as test inputs -/

/-- Values found in the memory of a session object before `init` runs: frame counter 7,
time stamp 3, a body count 1 and a hand count 2, the other counts 0. -/
def leftover : Unassigned := ⟨7, Dbl.ofInt 3, 1, 0, 0, 0, 2, 0, 0⟩

/-- A freshly constructed listening session whose UDP socket could be opened. -/
def fresh : DTrackSDK := DTrackSDK.init .SYS_DTRACK_UNKNOWN true false leftover

/-- The transport outcome "timeout": `udp_receive` returned `-1`. -/
def udp_timeout : UdpResult := ⟨-1, []⟩

/-- The packet `"fr 10\n"`. -/
def pkt_fr10 : List Char := "fr 10\n".toList

/-- The fresh session after it decoded `"fr 10\n"`. -/
def st_fr10 : DTrackSDK := { fresh with act_framecounter := 10 }

/-- The session `st_fr10` after a receive timeout. -/
def st_fr10_timeout : DTrackSDK :=
  { fresh with act_framecounter := 0, lastDataError := .ERR_TIMEOUT }

/-- A packet with one `6d ` line that describes body 0 with quality 1. -/
def pkt_6d_one : List Char := "6d 1 0 1.0 1 2 3 1 0 0 0 1 0 0 0 1\n".toList

/-- The packet `pkt_6d_one` followed by the truncated line `6d 1 0` and an intact `3d` line. -/
def pkt_6d_one_then_cut : List Char :=
  "6d 1 0 1.0 1 2 3 1 0 0 0 1 0 0 0 1\n6d 1 0\n3d 1 7 0.5 1 2 3\n".toList

/-- A packet with a frame counter line, the truncated line `6d 1 0` and an intact `3d`
line. -/
def pkt_fr_cut_3d : List Char := "fr 10\n6d 1 0\n3d 1 7 0.5 1 2 3\n".toList

/-- A packet with an intact `3d` line followed by the truncated line `6d 1 0`. -/
def pkt_3d_then_cut : List Char := "3d 1 7 0.5 1 2 3\n6d 1 0\n".toList

/-- The fresh session in the middle of a frame, after the line `3d 1 7 0.5 1 2 3`. -/
def st_marker7 : DTrackSDK :=
  { fresh with lastDataError := .ERR_PARSE,
               act_marker := ⟨1, [⟨7, ⟨5, 1⟩, [⟨1, 0⟩, ⟨2, 0⟩, ⟨3, 0⟩]⟩]⟩ }

/-- The tokens of the round-trip packet of the specification,
`"fr 10\nts 1.500\n3d 2 0 0.900 1.0 2.0 3.0 1 0.800 4.0 5.0 6.0\n"`. -/
def tok_10 : UIntTok := ⟨"10".toList, 10, by decide⟩
def tok_0 : IntTok := ⟨"0".toList, 0, by decide⟩
def tok_1 : IntTok := ⟨"1".toList, 1, by decide⟩
def tok_0_900 : DblTok := ⟨"0.900".toList, ⟨9, 1⟩, by decide⟩
def tok_1_0 : DblTok := ⟨"1.0".toList, ⟨1, 0⟩, by decide⟩
def tok_2_0 : DblTok := ⟨"2.0".toList, ⟨2, 0⟩, by decide⟩
def tok_3_0 : DblTok := ⟨"3.0".toList, ⟨3, 0⟩, by decide⟩
/-- A packet whose calibrated-body count 0 is smaller than the count 1 of its `6df ` line,
with one body record: a Flystick line, a body line, the line `6dcal 0`. -/
def pkt_cal_below_flysticks : List Char :=
  ("6df 1 0 1.0 5 1 2 3 1 0 0 0 1 0 0 0 1\n" ++
   "6d 1 0 1.0 1 2 3 1 0 0 0 1 0 0 0 1\n" ++ "6dcal 0\n").toList

/-- A packet with one body record of id 4 and no count line. -/
def pkt_body4 : List Char := "6d 1 4 1.0 1 2 3 1 0 0 0 1 0 0 0 1\n".toList

/-- The packet `pkt_body4` followed by the line `6dcal 2`. -/
def pkt_body4_cal2 : List Char := "6d 1 4 1.0 1 2 3 1 0 0 0 1 0 0 0 1\n6dcal 2\n".toList

/-- The fresh session after it decoded `pkt_body4_cal2`. -/
def st_body4_cal2 : DTrackSDK := (fresh.receive (.packet pkt_body4_cal2)).state_or fresh

/-- A packet with nothing but the line `6dcal 1`. -/
def pkt_cal1 : List Char := "6dcal 1\n".toList

/-- The fresh session after it decoded `pkt_body4`. -/
def st_body4 : DTrackSDK := (fresh.receive (.packet pkt_body4)).state_or fresh

/-- The fresh session after it decoded `pkt_6d_one`: body 0 is tracked with quality 1. -/
def st_6d_one : DTrackSDK := (fresh.receive (.packet pkt_6d_one)).state_or fresh

def tok_5 : IntTok := ⟨"5".toList, 5, by decide⟩
def dtok_0 : DblTok := ⟨"0".toList, ⟨0, 0⟩, by decide⟩
def dtok_1 : DblTok := ⟨"1".toList, ⟨1, 0⟩, by decide⟩

/-- The location `1.0 2.0 3.0` and the rotation `1 0 0 0 1 0 0 0 1` on the wire. -/
def loc_123 : Dbls 3 := ⟨[tok_1_0, tok_2_0, tok_3_0], rfl⟩
def rot_unit : Dbls 9 :=
  ⟨[dtok_1, dtok_0, dtok_0, dtok_0, dtok_1, dtok_0, dtok_0, dtok_0, dtok_1], rfl⟩

/-- The body record `0 1.0 1.0 2.0 3.0 1 0 0 0 1 0 0 0 1`. -/
def body_rec_0 : PoseWire := ⟨tok_0, tok_1_0, loc_123, rot_unit⟩

/-- The Flystick record `0 1.0 5 1.0 2.0 3.0 1 0 0 0 1 0 0 0 1` of the older format. -/
def fly_rec_0 : ButtonWire := ⟨tok_0, tok_1_0, tok_5, loc_123, rot_unit⟩

/-- The body record `1 0.900 1.0 2.0 3.0 1 0 0 0 1 0 0 0 1`. -/
def body_rec_1 : PoseWire := ⟨tok_1, tok_0_900, loc_123, rot_unit⟩

/-- The packet `6d 1 1 0.900 1.0 2.0 3.0 1 0 0 0 1 0 0 0 1`: one line, one body with id 1. -/
def udp_body1 : UdpResult := .packet (packet_text [(WireLine.body tok_1 [body_rec_1]).text])

/-- The session in which body 0 is tracked, after it decoded `udp_body1`. -/
def st_6d_one_body1 : DTrackSDK := (st_6d_one.receive udp_body1).state_or fresh

/-- A DTrack2 session with both sockets open. -/
def fresh2 : DTrackSDK := DTrackSDK.init .SYS_DTRACK_2 true true leftover

/-- The command `dtrack2 get status active`. -/
def cmd_get : List Char := "dtrack2 get status active".toList

/-- The exchange in which `cmd_get` is answered by `dtrack2 err abc`. -/
def wire_err_abc : TcpWire := TcpWire.reply cmd_get.length "dtrack2 err abc".toList

/-- The exchange in which `cmd_get` is answered by `dtrack2 err 5`. -/
def wire_err_5 : TcpWire := TcpWire.reply cmd_get.length "dtrack2 err 5".toList

/-- The exchange in which `cmd_get` is answered by `dtrack2 status active mea`. -/
def wire_status : TcpWire := TcpWire.reply cmd_get.length "dtrack2 status active mea".toList

/-- The packet with one `6df2 ` record that declares 10 buttons and 2 joystick values. -/
def pkt_6df2_buttons10 : List Char :=
  "6df2 1 1 0 1.0 10 2 1 2 3 1 0 0 0 1 0 0 0 1 5 0.5 0.5\n".toList

/-- The packet with one `6df2 ` record that declares 8 buttons and 9 joystick values. -/
def pkt_6df2_joysticks9 : List Char :=
  "6df2 1 1 0 1.0 8 9 1 2 3 1 0 0 0 1 0 0 0 1 5 0.1 0.2 0.3 0.4 0.5 0.6 0.7 0.8 0.9\n".toList

/-- The text of one joint of a `6dj ` model: id 0, quality 0, six and nine doubles 0. -/
def joint_text : List Char := " 0 0 0 0 0 0 0 0 0 0 0 0 0 0 0 0 0".toList

/-- The text `s`, `n` times. -/
def text_times : Nat → List Char → List Char
  | 0, _ => []
  | n + 1, s => s ++ text_times n s

/-- The packet with one `6dj ` line: one calibrated model, one model with id 0 that declares
21 joints, followed by the data of 21 joints. -/
def pkt_6dj_joints21 : List Char :=
  "6dj 1 1 0 21".toList ++ text_times 21 joint_text ++ ['\n']

/-- The packet with one `6dj ` line: one calibrated model, one model with id 0 that declares
20 joints, followed by the data of 20 joints. -/
def pkt_6dj_joints20 : List Char :=
  "6dj 1 1 0 20".toList ++ text_times 20 joint_text ++ ['\n']

/-- The line `6df 1 0 1.0 5 1.0 2.0 3.0 1 0 0 0 1 0 0 0 1`: one Flystick with the button word
5. -/
def fly_line_5 : WireLine := .flystick1 tok_1 [fly_rec_0]

/-- An exchange in which `select` finds no answer within the timeout. -/
def wire_timeout : TcpWire := ⟨1, cmd_get.length + 1, 0, 0, []⟩

/-- An exchange in which `select` for the answer fails. -/
def wire_select_error : TcpWire := ⟨1, cmd_get.length + 1, -1, 0, []⟩

/-- An exchange in which `recv` returns 0: the connection is broken. -/
def wire_broken : TcpWire := ⟨1, cmd_get.length + 1, 1, 0, []⟩

/-- An exchange in which `recv` fills all 200 bytes of the buffer. -/
def wire_overflow : TcpWire := ⟨1, cmd_get.length + 1, 1, 200, List.replicate 200 'x'⟩

/-- An exchange in which the command cannot be sent within the timeout. -/
def wire_not_sent : TcpWire := ⟨0, 0, 0, 0, []⟩

/-- An exchange in which the answer is `dtrack2 ok`. -/
def wire_ok : TcpWire := TcpWire.reply cmd_get.length ans_ok

/-- A command of 201 characters. -/
def cmd_long : List Char := List.replicate 201 'x'

/-- A DTrack2 session whose command connection could not be opened. -/
def fresh2_no_tcp : DTrackSDK := DTrackSDK.init .SYS_DTRACK_2 true false leftover

/-- The DTrack2 session after a command that ran into the timeout. -/
def st_timeout : DTrackSDK :=
  (fresh2.sendDTrack2Command cmd_get none wire_timeout).state_or fresh2

/-- The DTrack2 session after a command that found the connection broken. -/
def st_broken : DTrackSDK :=
  (fresh2.sendDTrack2Command cmd_get none wire_broken).state_or fresh2

/-- The session with the timed-out command after it decoded the packet `"fr 10\n"`. -/
def st_timeout_fr10 : DTrackSDK := (st_timeout.receive (.packet pkt_fr10)).state_or fresh

/-- The DTrack2 session after a `receive` that ran into the timeout. -/
def st2_data_timeout : DTrackSDK := (fresh2.receive udp_timeout).state_or fresh2

/-- The session `st2_data_timeout` after a command that was answered with `dtrack2 ok`. -/
def st2_data_timeout_ok : DTrackSDK :=
  (st2_data_timeout.sendDTrack2Command cmd_get none wire_ok).state_or fresh2

/-- The session with the timed-out command after a command that was answered with
`dtrack2 status active mea`. -/
def st_timeout_status : DTrackSDK :=
  (st_timeout.sendDTrack2Command cmd_get none wire_status).state_or fresh2

/-- A freshly initialised legacy session (DTrack) with a valid data port. -/
def fresh1 : DTrackSDK := DTrackSDK.init .SYS_DTRACK true false leftover

/-- An operating system that sends every datagram (`sendto` reports 12 bytes) and delivers
the answer `dtrack2 ok` to the command `dtrack2 tracking start`. -/
def net_ok : CmdNet := ⟨fun _ => ⟨1, 12⟩, TcpWire.reply cmd_tracking_start.length ans_ok⟩

/-- An operating system that sends every datagram and delivers the answer
`dtrack2 err 5 "busy"` to the command `dtrack2 tracking start`. -/
def net_err : CmdNet :=
  ⟨fun _ => ⟨1, 12⟩,
    TcpWire.reply cmd_tracking_start.length "dtrack2 err 5 \"busy\"".toList⟩

/-- An operating system that sends the first datagram and none after it. -/
def net_first_only : CmdNet :=
  ⟨fun k => if k = 0 then ⟨1, 12⟩ else ⟨0, 0⟩, TcpWire.reply cmd_tracking_start.length ans_ok⟩

/-- A line that starts with none of the line identifiers. -/
def line_xyz : List Char := "xyz 1 2".toList

/-- The packet with one `6d ` record of id -1. -/
def pkt_6d_neg : List Char := "6d 1 -1 1.0 1 2 3 1 0 0 0 1 0 0 0 1\n".toList

/-- The packet with one `gl ` record of id -1 (left hand, no fingers). -/
def pkt_gl_neg : List Char := "gl 1 -1 1.0 0 0 1 2 3 1 0 0 0 1 0 0 0 1\n".toList

/-- The packet with a `6dj ` line for one calibrated model and one model of id -1 without
joints. -/
def pkt_6dj_neg : List Char := "6dj 1 1 -1 0\n".toList

/-- The packet with a `6dj ` line for one calibrated model and one model of id 1 without
joints. -/
def pkt_6dj_high : List Char := "6dj 1 1 1 0\n".toList

/-- The packet with a `6df2 ` line for one calibrated Flystick and two records, of the ids
0 and 1, without buttons and joysticks. -/
def pkt_6df2_two_of_one : List Char :=
  ("6df2 1 2 0 1.0 0 0 1 2 3 1 0 0 0 1 0 0 0 1" ++
   " 1 1.0 0 0 1 2 3 1 0 0 0 1 0 0 0 1\n").toList

/-- The packet with a `6df2 ` line for one calibrated Flystick and one record of id 0. -/
def pkt_6df2_one_of_one : List Char :=
  "6df2 1 1 0 1.0 0 0 1 2 3 1 0 0 0 1 0 0 0 1\n".toList

/-- A session whose `init` could not open the data socket, constructed in memory that held
the values `leftover`. -/
def failed : DTrackSDK := DTrackSDK.init .SYS_DTRACK_2 false false leftover

/-- The token `x`, which is no number. -/
def tok_x : NoNumTok := ⟨"x".toList, by decide, by decide, by decide, by decide, by decide⟩

/-- A packet with a frame counter line, the line `6d 1 x 1.0`, whose record starts with a
token that is no number, and an intact `3d` line. -/
def pkt_fr_x_3d : List Char := "fr 10\n6d 1 x 1.0\n3d 1 7 0.5 1 2 3\n".toList

/-! ## What a line can change -/

theorem Flow.within_next {σ α : Type} {x : Flow σ α} {put : σ → DTrackSDK}
    {upd : α → Locals × DTrackSDK} {r : Locals × DTrackSDK}
    (h : x.within put upd = .next r) : ∃ a, x = .next a ∧ r = upd a := by
  cases x <;> simp [Flow.within] at h
  exact ⟨_, rfl, h.symm⟩

theorem Flow.within_fail {σ α : Type} {x : Flow σ α} {put : σ → DTrackSDK}
    {upd : α → Locals × DTrackSDK} {w : Stop} {s : DTrackSDK}
    (h : x.within put upd = .fail w s) : ∃ t, x = .fail w t ∧ s = put t := by
  cases x <;> simp [Flow.within] at h
  obtain ⟨rfl, rfl⟩ := h
  exact ⟨_, rfl, rfl⟩

/-- The cursor behind a token is at the end of the line slice or on a blank. -/
theorem nextToken_snd (s : List Char) :
    (nextToken s).2 = [] ∨ ∃ c r, (nextToken s).2 = c :: r ∧ isBlank c = true := by
  unfold nextToken
  simp only
  generalize s.dropWhile isBlank = u
  induction u with
  | nil => left; rfl
  | cons c r ih =>
    by_cases hc : isBlank c = true
    · right; exact ⟨c, r, by simp [List.dropWhile, hc], hc⟩
    · have : (!isBlank c) = true := by simpa using hc
      simpa [List.dropWhile, this] using ih

theorem strncmp_eq_after_token (s : List Char) (kw : List Char)
    (hkw : ∃ c r, kw = c :: r ∧ isBlank c = false) :
    strncmp_eq (nextToken s).2 kw = false := by
  obtain ⟨c, r, rfl, hc⟩ := hkw
  rcases nextToken_snd s with h | ⟨d, u, h, hd⟩
  · simp [h, strncmp_eq, List.isPrefixOf]
  · rw [h]
    simp only [strncmp_eq, List.isPrefixOf, Bool.and_eq_false_imp, beq_iff_eq]
    intro hcd
    subst hcd
    rw [hc] at hd
    exact absurd hd (by decide)

/-- Behind the count of a `glcal ` line none of the following keyword tests matches: the
missing `continue` has no effect. -/
theorem line_tail_after_token (s : List Char) (lc : Locals) (st : DTrackSDK) :
    line_tail (nextToken s).2 lc st = .next (lc, st) := by
  have h1 := strncmp_eq_after_token s kw_gl ⟨'g', _, rfl, by decide⟩
  have h2 := strncmp_eq_after_token s kw_6dj ⟨'6', _, rfl, by decide⟩
  have h3 := strncmp_eq_after_token s kw_3d ⟨'3', _, rfl, by decide⟩
  simp [line_tail, h1, h2, h3]

theorem line_glcal_eq (s : List Char) :
    line_glcal s = (match string_get_i s with
      | none => .fail .number ()
      | some (v, _) => .next (v, (nextToken s).2)) := by
  unfold line_glcal string_get_i
  cases intOfToken (nextToken s).1 <;> rfl

/-- The `glcal ` branch of the loop body: a failure, or the count stored in
`loc_num_handcal`. -/
theorem line_glcal_tail_eq (s : List Char) (lc : Locals) (st : DTrackSDK) :
    line_glcal_tail s lc st =
    (match string_get_i s with
      | none => .fail .number st
      | some (v, _) => .next ({ lc with loc_num_handcal := v }, st)) := by
  unfold line_glcal_tail
  rw [line_glcal_eq]
  cases h : string_get_i s with
  | none => rfl
  | some p => obtain ⟨v, r⟩ := p; simp only [line_tail_after_token]

/-- Case analysis over the keyword tests of the loop body. -/
theorem line_body_cases (P : Flow DTrackSDK (Locals × DTrackSDK) → Prop)
    (l : List Char) (lc : Locals) (st : DTrackSDK)
    (h_fr : strncmp_eq l kw_fr = true → P ((line_fr (l.drop 3)).within st.set_framecounter
      (fun v => (lc, st.set_framecounter v))))
    (h_ts : strncmp_eq l kw_ts = true → P ((line_ts (l.drop 3)).within st.set_timestamp
      (fun v => (lc, st.set_timestamp v))))
    (h_6dcal : strncmp_eq l kw_6dcal = true → P ((line_6dcal (l.drop 6)).within (fun _ => st)
      (fun v => ({ lc with loc_num_bodycal := v }, st))))
    (h_6d : strncmp_eq l kw_6d = true → P ((line_6d (l.drop 3) st.act_body).within st.set_body
      (fun t => (lc, st.set_body t))))
    (h_6df : strncmp_eq l kw_6df = true →
      P ((line_6df (l.drop 4) st.act_flystick).within st.set_flystick
      (fun r => ({ lc with loc_num_flystick1 := r.1 }, st.set_flystick r.2))))
    (h_6df2 : strncmp_eq l kw_6df2 = true →
      P ((line_6df2 (l.drop 5) st.act_flystick).within st.set_flystick
      (fun t => (lc, st.set_flystick t))))
    (h_6dmt : strncmp_eq l kw_6dmt = true →
      P ((line_6dmt (l.drop 5) st.act_meatool).within st.set_meatool
      (fun r => ({ lc with loc_num_meatool := r.1 }, st.set_meatool r.2))))
    (h_6dmtr : strncmp_eq l kw_6dmtr = true →
      P ((line_6dmtr (l.drop 6) st.act_mearef).within st.set_mearef
      (fun t => (lc, st.set_mearef t))))
    (h_glcal : strncmp_eq l kw_glcal = true → P (line_glcal_tail (l.drop 6) lc st))
    (h_gl : strncmp_eq l kw_gl = true → P ((line_gl (l.drop 3) st.act_hand).within st.set_hand
      (fun t => (lc, st.set_hand t))))
    (h_6dj : strncmp_eq l kw_6dj = true →
      P ((line_6dj (l.drop 4) st.act_human).within st.set_human
      (fun t => (lc, st.set_human t))))
    (h_3d : strncmp_eq l kw_3d = true →
      P ((line_3d (l.drop 3) st.act_marker).within st.set_marker
      (fun t => (lc, st.set_marker t))))
    (h_other : P (.next (lc, st))) :
    P (line_body l lc st) := by
  unfold line_body
  by_cases c1 : strncmp_eq l kw_fr = true
  · rw [if_pos c1]; exact h_fr c1
  rw [if_neg c1]
  by_cases c2 : strncmp_eq l kw_ts = true
  · rw [if_pos c2]; exact h_ts c2
  rw [if_neg c2]
  by_cases c3 : strncmp_eq l kw_6dcal = true
  · rw [if_pos c3]; exact h_6dcal c3
  rw [if_neg c3]
  by_cases c4 : strncmp_eq l kw_6d = true
  · rw [if_pos c4]; exact h_6d c4
  rw [if_neg c4]
  by_cases c5 : strncmp_eq l kw_6df = true
  · rw [if_pos c5]; exact h_6df c5
  rw [if_neg c5]
  by_cases c6 : strncmp_eq l kw_6df2 = true
  · rw [if_pos c6]; exact h_6df2 c6
  rw [if_neg c6]
  by_cases c7 : strncmp_eq l kw_6dmt = true
  · rw [if_pos c7]; exact h_6dmt c7
  rw [if_neg c7]
  by_cases c8 : strncmp_eq l kw_6dmtr = true
  · rw [if_pos c8]; exact h_6dmtr c8
  rw [if_neg c8]
  by_cases c9 : strncmp_eq l kw_glcal = true
  · rw [if_pos c9]; exact h_glcal c9
  rw [if_neg c9]
  unfold line_tail
  by_cases c10 : strncmp_eq l kw_gl = true
  · rw [if_pos c10]; exact h_gl c10
  rw [if_neg c10]
  by_cases c11 : strncmp_eq l kw_6dj = true
  · rw [if_pos c11]; exact h_6dj c11
  rw [if_neg c11]
  by_cases c12 : strncmp_eq l kw_3d = true
  · rw [if_pos c12]; exact h_3d c12
  rw [if_neg c12]
  exact h_other

theorem Flow.within_session {σ α : Type} (x : Flow σ α) (put : σ → DTrackSDK)
    (upd : α → Locals × DTrackSDK) (st : DTrackSDK)
    (hput : ∀ t, (put t).session = st.session) (hupd : ∀ a, (upd a).2.session = st.session) :
    (∀ lc1 st1, x.within put upd = .next (lc1, st1) → st1.session = st.session) ∧
    (∀ w st1, x.within put upd = .fail w st1 → st1.session = st.session) := by
  constructor
  · intro lc1 st1 h
    obtain ⟨a, -, ha⟩ := Flow.within_next h
    rw [← hupd a, ← ha]
  · intro w st1 h
    obtain ⟨t, -, ht⟩ := Flow.within_fail h
    rw [ht, hput t]

/-- A line leaves the members outside the frame snapshot alone, whether it ends normally or
in `return false`. -/
theorem line_body_session (l : List Char) (lc : Locals) (st : DTrackSDK) :
    (∀ lc1 st1, line_body l lc st = .next (lc1, st1) → st1.session = st.session) ∧
    (∀ w st1, line_body l lc st = .fail w st1 → st1.session = st.session) := by
  refine line_body_cases (fun r => (∀ lc1 st1, r = .next (lc1, st1) → st1.session = st.session) ∧
    (∀ w st1, r = .fail w st1 → st1.session = st.session)) l lc st
    ?h_fr ?h_ts ?h_6dcal ?h_6d ?h_6df ?h_6df2 ?h_6dmt ?h_6dmtr ?h_glcal ?h_gl ?h_6dj ?h_3d ?h_other
  case h_glcal =>
    intro _
    rw [line_glcal_tail_eq]
    cases string_get_i (l.drop 6) with
    | none => exact ⟨by simp, by simp⟩
    | some p => exact ⟨by simp, by simp⟩
  case h_other => exact ⟨by simp, by simp⟩
  all_goals
    intro _
    exact Flow.within_session _ _ _ _ (fun _ => rfl) (fun _ => rfl)

/-- The line loop over a concatenation. -/
theorem line_loop_append (ls1 ls2 : List (List Char)) (lc : Locals) (st : DTrackSDK) :
    line_loop (ls1 ++ ls2) lc st =
      (match line_loop ls1 lc st with
        | .next (lc1, st1) => line_loop ls2 lc1 st1
        | .fail w st1 => .fail w st1
        | .undefined => .undefined) := by
  induction ls1 generalizing lc st with
  | nil => rfl
  | cons l ls ih =>
    simp only [List.cons_append, line_loop]
    cases h : line_body l lc st with
    | next r => obtain ⟨lc1, st1⟩ := r; exact ih lc1 st1
    | fail w s => rfl
    | undefined => rfl

/-- The line loop leaves the members outside the frame snapshot alone. -/
theorem line_loop_session (ls : List (List Char)) (lc : Locals) (st : DTrackSDK) :
    (∀ lc1 st1, line_loop ls lc st = .next (lc1, st1) → st1.session = st.session) ∧
    (∀ w st1, line_loop ls lc st = .fail w st1 → st1.session = st.session) := by
  induction ls generalizing lc st with
  | nil =>
    refine ⟨?_, by simp [line_loop]⟩
    intro lc1 st1 h
    simp only [line_loop, Flow.next.injEq, Prod.mk.injEq] at h
    rw [h.2]
  | cons l ls ih =>
    have hb := line_body_session l lc st
    simp only [line_loop]
    cases h : line_body l lc st with
    | next r =>
      obtain ⟨lc1, st1⟩ := r
      have e := hb.1 lc1 st1 h
      exact ⟨fun a b hh => ((ih lc1 st1).1 a b hh).trans e,
        fun w b hh => ((ih lc1 st1).2 w b hh).trans e⟩
    | fail w s =>
      refine ⟨by simp, ?_⟩
      intro w1 st1 hh
      simp only [Flow.fail.injEq] at hh
      obtain ⟨rfl, rfl⟩ := hh
      exact hb.2 _ _ h
    | undefined => exact ⟨by simp, by simp⟩


/-! ## The tokenizer on well-formed wire text -/

theorem digitVal_tokChar (c : Char) (d : Nat) (h : digitVal c = some d) : tokChar c = true := by
  unfold digitVal at h
  split at h
  · rename_i hc
    have e1 : ' '.toNat = 32 := by decide
    have e2 : '\t'.toNat = 9 := by decide
    have e3 : '\r'.toNat = 13 := by decide
    have e4 : '\n'.toNat = 10 := by decide
    have e5 : (Char.ofNat 0).toNat = 0 := by decide
    have e6 : '0'.toNat = 48 := by decide
    simp only [tokChar, isBlank, Bool.and_eq_true, Bool.not_eq_true', Bool.or_eq_false_iff,
      beq_eq_false_iff_ne, ne_eq, bne_iff_ne]
    refine ⟨⟨⟨⟨?_, ?_⟩, ?_⟩, ?_⟩, ?_⟩ <;> rintro rfl <;> omega
  · simp at h

theorem digitsVal_tokChar (t : List Char) (acc v : Nat) (h : digitsVal t acc = some v) :
    ∀ c ∈ t, tokChar c = true := by
  induction t generalizing acc with
  | nil => simp
  | cons a t ih =>
    unfold digitsVal at h
    cases hd : digitVal a with
    | none => rw [hd] at h; simp at h
    | some d =>
      rw [hd] at h
      intro c hc
      rcases List.mem_cons.1 hc with rfl | hc
      · exact digitVal_tokChar _ _ hd
      · exact ih _ h c hc

theorem uintOfToken_ok (t : List Char) (v : Nat) (h : uintOfToken t = some v) :
    t ≠ [] ∧ ∀ c ∈ t, tokChar c = true := by
  unfold uintOfToken at h
  split at h
  · simp at h
  · rename_i hne
    exact ⟨hne, digitsVal_tokChar t 0 v h⟩

theorem intOfToken_ok (t : List Char) (v : Int) (h : intOfToken t = some v) :
    t ≠ [] ∧ ∀ c ∈ t, tokChar c = true := by
  unfold intOfToken at h
  split at h
  · rename_i ds
    cases hu : uintOfToken ds with
    | none => rw [hu] at h; simp at h
    | some n =>
      refine ⟨by simp, ?_⟩
      intro c hc
      rcases List.mem_cons.1 hc with rfl | hc
      · decide
      · exact (uintOfToken_ok _ _ hu).2 c hc
  · rename_i ds
    cases hu : uintOfToken ds with
    | none => rw [hu] at h; simp at h
    | some n =>
      refine ⟨by simp, ?_⟩
      intro c hc
      rcases List.mem_cons.1 hc with rfl | hc
      · decide
      · exact (uintOfToken_ok _ _ hu).2 c hc
  · cases hu : uintOfToken t with
    | none => rw [hu] at h; simp at h
    | some n => exact uintOfToken_ok _ _ hu

theorem dropWhile_head_not {α : Type} (p : α → Bool) (l : List α) (c : α) (r : List α)
    (h : l.dropWhile p = c :: r) : p c = false := by
  induction l with
  | nil => simp at h
  | cons a l ih =>
    by_cases ha : p a = true
    · rw [List.dropWhile_cons_of_pos ha] at h; exact ih h
    · rw [List.dropWhile_cons_of_neg ha] at h
      simp only [List.cons.injEq] at h
      obtain ⟨rfl, -⟩ := h
      simpa using ha

theorem mantissaOfToken_ok (t : List Char) (r : Nat × Nat) (h : mantissaOfToken t = some r) :
    t ≠ [] ∧ ∀ c ∈ t, tokChar c = true := by
  unfold mantissaOfToken at h
  simp only at h
  cases hm : uintOfToken (t.takeWhile (fun c => c != '.') ++
      (t.dropWhile (fun c => c != '.')).drop 1) with
  | none => rw [hm] at h; simp at h
  | some m =>
  have hu := uintOfToken_ok _ _ hm
  have hsplit := List.takeWhile_append_dropWhile (fun c => c != '.') t
  constructor
  · rintro rfl
    simp at hu
  · intro c hc
    rw [← hsplit] at hc
    rcases List.mem_append.1 hc with hc | hc
    · exact hu.2 c (List.mem_append_left _ hc)
    · cases hr : t.dropWhile (fun c => c != '.') with
      | nil => rw [hr] at hc; simp at hc
      | cons a r =>
        rw [hr] at hc
        rcases List.mem_cons.1 hc with rfl | hc
        · have := dropWhile_head_not _ _ _ _ hr
          simp only [bne_eq_false_iff_eq] at this
          subst this
          decide
        · refine hu.2 c (List.mem_append_right _ ?_)
          rw [hr]
          simpa using hc

theorem dblOfToken_ok (t : List Char) (v : Dbl) (h : dblOfToken t = some v) :
    t ≠ [] ∧ ∀ c ∈ t, tokChar c = true := by
  unfold dblOfToken at h
  simp only at h
  split at h
  · rename_i m k e hm he
    have hm' := mantissaOfToken_ok _ _ hm
    -- the body of the token: mantissa part followed by exponent part
    have key : ∀ body : List Char,
        mantissaOfToken (body.takeWhile (fun c => c != 'e' && c != 'E')) = some (m, k) →
        (if body.dropWhile (fun c => c != 'e' && c != 'E') = [] then some 0
          else intOfToken ((body.dropWhile (fun c => c != 'e' && c != 'E')).drop 1)) = some e →
        body ≠ [] ∧ ∀ c ∈ body, tokChar c = true := by
      intro body h1 h2
      have hb := mantissaOfToken_ok _ _ h1
      have hsplit := List.takeWhile_append_dropWhile (fun c => c != 'e' && c != 'E') body
      constructor
      · rintro rfl
        simp at hb
      · intro c hc
        rw [← hsplit] at hc
        rcases List.mem_append.1 hc with hc | hc
        · exact hb.2 c hc
        · cases hr : body.dropWhile (fun c => c != 'e' && c != 'E') with
          | nil => rw [hr] at hc; simp at hc
          | cons a r =>
            rw [hr] at hc h2
            simp only [reduceCtorEq, if_false, List.drop_succ_cons, List.drop_zero] at h2
            rcases List.mem_cons.1 hc with rfl | hc
            · have := dropWhile_head_not _ _ _ _ hr
              simp only [Bool.and_eq_false_imp, bne_iff_ne, ne_eq, bne_eq_false_iff_eq] at this
              by_cases hce : c = 'e'
              · subst hce; decide
              · rw [this hce]; decide
            · exact (intOfToken_ok _ _ h2).2 c hc
    by_cases hs : t.head? = some '-' ∨ t.head? = some '+'
    · simp only [hs, if_true] at hm he
      have hb := key (t.drop 1) hm he
      cases t with
      | nil => simp at hs
      | cons a t =>
        simp only [List.drop_succ_cons, List.drop_zero] at hb
        refine ⟨by simp, ?_⟩
        intro c hc
        rcases List.mem_cons.1 hc with rfl | hc
        · simp only [List.head?_cons, Option.some.injEq] at hs
          rcases hs with rfl | rfl <;> decide
        · exact hb.2 c hc
    · simp only [hs, if_false] at hm he
      exact key t hm he
  · simp at h

theorem tokChar_not_blank {c : Char} (h : tokChar c = true) : isBlank c = false := by
  simp only [tokChar, Bool.and_eq_true, Bool.not_eq_true'] at h
  exact h.1.1

theorem tokChar_lineChar {c : Char} (h : tokChar c = true) : lineChar c = true := by
  simp only [tokChar, Bool.and_eq_true, Bool.not_eq_true'] at h
  simp only [lineChar, Bool.and_eq_true]
  exact ⟨h.1.2, h.2⟩

/-- The cursor "tokens, each preceded by one blank" starts with a blank or is empty. -/
theorem render_takeWhile (ts : List (List Char)) :
    (render ts).takeWhile (fun c => !isBlank c) = [] := by
  cases ts with
  | nil => rfl
  | cons t ts =>
    have : isBlank ' ' = true := by decide
    simp [render, List.takeWhile, this]

theorem render_dropWhile (ts : List (List Char)) :
    (render ts).dropWhile (fun c => !isBlank c) = render ts := by
  cases ts with
  | nil => rfl
  | cons t ts =>
    have : isBlank ' ' = true := by decide
    simp [render, List.dropWhile, this]

/-- Reading the token `t` that stands at the cursor, with or without a blank before it. -/
theorem nextToken_tok (t : List Char) (ts : List (List Char)) (hne : t ≠ [])
    (ht : ∀ c ∈ t, tokChar c = true) :
    nextToken (t ++ render ts) = (t, render ts) ∧
    nextToken (render (t :: ts)) = (t, render ts) := by
  have hnb : ∀ c ∈ t, (!isBlank c) = true := by
    intro c hc
    simp [tokChar_not_blank (ht c hc)]
  have hd : (t ++ render ts).dropWhile isBlank = t ++ render ts := by
    cases t with
    | nil => exact absurd rfl hne
    | cons a t =>
      have : ¬ isBlank a = true := by
        simp [tokChar_not_blank (ht a (List.mem_cons_self _ _))]
      simp [List.dropWhile, this]
  have h1 : nextToken (t ++ render ts) = (t, render ts) := by
    unfold nextToken
    rw [hd, List.takeWhile_append_of_pos hnb, List.dropWhile_append_of_pos hnb,
      render_takeWhile, render_dropWhile, List.append_nil]
  refine ⟨h1, ?_⟩
  have hb : isBlank ' ' = true := by decide
  have : nextToken (render (t :: ts)) = nextToken (t ++ render ts) := by
    unfold nextToken
    simp only [render, List.dropWhile_cons_of_pos hb]
  rw [this, h1]

theorem string_get_ui_tok (t : UIntTok) (ts : List (List Char)) :
    string_get_ui (t.text ++ render ts) = some (t.val, render ts) ∧
    string_get_ui (render (t.text :: ts)) = some (t.val, render ts) := by
  have h := uintOfToken_ok _ _ t.ok
  have hn := nextToken_tok t.text ts h.1 h.2
  unfold string_get_ui
  rw [hn.1, hn.2]
  simp [t.ok]

theorem string_get_i_tok (t : IntTok) (ts : List (List Char)) :
    string_get_i (t.text ++ render ts) = some (t.val, render ts) ∧
    string_get_i (render (t.text :: ts)) = some (t.val, render ts) := by
  have h := intOfToken_ok _ _ t.ok
  have hn := nextToken_tok t.text ts h.1 h.2
  unfold string_get_i
  rw [hn.1, hn.2]
  simp [t.ok]

theorem string_get_d_tok (t : DblTok) (ts : List (List Char)) :
    string_get_d (t.text ++ render ts) = some (t.val, render ts) ∧
    string_get_d (render (t.text :: ts)) = some (t.val, render ts) := by
  have h := dblOfToken_ok _ _ t.ok
  have hn := nextToken_tok t.text ts h.1 h.2
  unfold string_get_d
  rw [hn.1, hn.2]
  simp [t.ok]

/-- Reading a block of well-formed tokens by the format that fits them. -/
theorem string_get_block_render (toks : List Tok) (ts : List (List Char)) :
    string_get_block (render (toks.map Tok.text ++ ts)) (toks.map Tok.fmt) =
      some (Tok.ints toks, Tok.dbls toks, render ts) := by
  induction toks with
  | nil => rfl
  | cons a toks ih =>
    cases a with
    | i t =>
      simp only [List.map_cons, List.cons_append, Tok.text, Tok.fmt, string_get_block, if_true,
        (string_get_i_tok t _).2, ih, Tok.ints, Tok.dbls]
    | d t =>
      have : ¬ ('d' = 'i') := by decide
      simp only [List.map_cons, List.cons_append, Tok.text, Tok.fmt, string_get_block, this,
        if_false, if_true, (string_get_d_tok t _).2, ih, Tok.ints, Tok.dbls]


/-! ## Packets made of well-formed lines -/

theorem string_lines_line (l rest : List Char) (hl : ∀ c ∈ l, lineChar c = true) :
    string_lines (l ++ '\n' :: rest) = l :: string_lines rest := by
  induction l with
  | nil => simp [string_lines]
  | cons a l ih =>
    have ha : a ≠ '\n' := by
      have := hl a (List.mem_cons_self _ _)
      simp only [lineChar, Bool.and_eq_true, bne_iff_ne, ne_eq] at this
      exact this.1
    have ih' := ih (fun c hc => hl c (List.mem_cons_of_mem _ hc))
    simp only [List.cons_append, string_lines, ha, if_false]
    rw [show l.append ('\n' :: rest) = l ++ '\n' :: rest from rfl, ih']

theorem string_lines_packet_text (ls : List (List Char))
    (hls : ∀ l ∈ ls, ∀ c ∈ l, lineChar c = true) :
    string_lines (packet_text ls) = ls ++ [[]] := by
  induction ls with
  | nil => rfl
  | cons l ls ih =>
    simp only [packet_text, List.cons_append]
    rw [string_lines_line l _ (hls l (List.mem_cons_self _ _)),
      ih (fun l' hl' => hls l' (List.mem_cons_of_mem _ hl'))]

theorem packet_text_no_nul (ls : List (List Char))
    (hls : ∀ l ∈ ls, ∀ c ∈ l, lineChar c = true) :
    ∀ c ∈ packet_text ls, (c != Char.ofNat 0) = true := by
  induction ls with
  | nil => simp [packet_text]
  | cons l ls ih =>
    intro c hc
    simp only [packet_text, List.mem_append, List.mem_cons] at hc
    rcases hc with hc | rfl | hc
    · have := hls l (List.mem_cons_self _ _) c hc
      simp only [lineChar, Bool.and_eq_true] at this
      exact this.2
    · decide
    · exact ih (fun l' hl' => hls l' (List.mem_cons_of_mem _ hl')) c hc

/-- The text the decoder sees of a packet made of lines without newline and NUL. -/
theorem packet_text_seen (ls : List (List Char))
    (hls : ∀ l ∈ ls, ∀ c ∈ l, lineChar c = true) :
    (UdpResult.packet (packet_text ls)).text = packet_text ls := by
  unfold UdpResult.text UdpResult.packet
  simp only [Int.toNat_ofNat, List.take_length]
  exact List.takeWhile_eq_self_iff.2 (packet_text_no_nul ls hls)

/-- What `receive` does with a packet made of lines without newline and NUL, on a session
with a valid data port: it decodes the lines (and the empty rest behind the last newline). -/
theorem receive_packet_text (st : DTrackSDK) (hport : st.isLocalDataPortValid = true)
    (l : List Char) (ls : List (List Char))
    (hls : ∀ l' ∈ l :: ls, ∀ c ∈ l', lineChar c = true) :
    st.receive (.packet (packet_text (l :: ls))) = decode (l :: ls ++ [[]]) st.frame_start := by
  unfold DTrackSDK.receive
  rw [packet_text_seen _ hls, string_lines_packet_text _ hls]
  simp only [DTrackSDK.isLocalDataPortValid] at hport
  have hlen : (UdpResult.packet (packet_text (l :: ls))).len > 0 := by
    simp only [UdpResult.packet, packet_text, List.length_append, List.length_cons]
    omega
  have h1 : ¬ (UdpResult.packet (packet_text (l :: ls))).len = -1 := by omega
  have h2 : ¬ (UdpResult.packet (packet_text (l :: ls))).len ≤ 0 := by omega
  simp only [DTrackSDK.isLocalDataPortValid, hport, Bool.not_true, Bool.false_eq_true,
    if_false, h1, h2, List.cons_append]

theorem render_lineChar (ts : List (List Char))
    (hts : ∀ t ∈ ts, ∀ c ∈ t, tokChar c = true) : ∀ c ∈ render ts, lineChar c = true := by
  induction ts with
  | nil => simp [render]
  | cons t ts ih =>
    intro c hc
    simp only [render, List.mem_cons, List.mem_append] at hc
    rcases hc with rfl | hc | hc
    · decide
    · exact tokChar_lineChar (hts t (List.mem_cons_self _ _) c hc)
    · exact ih (fun t' ht' => hts t' (List.mem_cons_of_mem _ ht')) c hc

/-! ## Reading blocks of doubles and writing table slots -/

theorem Tok.map_d_fmt (ds : List DblTok) :
    (ds.map Tok.d).map Tok.fmt = List.replicate ds.length 'd' := by
  induction ds with
  | nil => rfl
  | cons a ds ih =>
    simp only [List.map_cons, List.length_cons, List.replicate_succ, Tok.fmt, ih]

theorem Tok.map_d_ints (ds : List DblTok) : Tok.ints (ds.map Tok.d) = [] := by
  induction ds with
  | nil => rfl
  | cons a ds ih => simpa only [List.map_cons, Tok.ints] using ih

theorem Tok.map_d_dbls (ds : List DblTok) : Tok.dbls (ds.map Tok.d) = ds.map (·.val) := by
  induction ds with
  | nil => rfl
  | cons a ds ih => simp only [List.map_cons, Tok.dbls, ih]

theorem Tok.map_d_text (ds : List DblTok) :
    (ds.map Tok.d).map Tok.text = ds.map (·.text) := by
  induction ds with
  | nil => rfl
  | cons a ds ih => simp only [List.map_cons, Tok.text, ih]

theorem string_get_block_dbls (ds : List DblTok) (ts : List (List Char)) :
    string_get_block (render (ds.map (·.text) ++ ts)) (List.replicate ds.length 'd') =
      some ([], ds.map (·.val), render ts) := by
  have h := string_get_block_render (ds.map Tok.d) ts
  rw [Tok.map_d_text, Tok.map_d_fmt, Tok.map_d_ints, Tok.map_d_dbls] at h
  exact h

theorem vec_update_nat {α : Type} (v : List α) (i : Nat) (f : α → α) (h : i < v.length) :
    vec_update v (i : Int) f = some (v.set i (f (v.get ⟨i, h⟩))) := by
  unfold vec_update
  have : 0 ≤ (i : Int) ∧ (i : Int).toNat < v.length := ⟨by omega, by simpa using h⟩
  rw [dif_pos this]
  simp

theorem Table.update_nat {α : Type} (t : Table α) (i : Nat) (f : α → α)
    (h : i < t.vec.length) :
    t.update (i : Int) f = .next { t with vec := t.vec.set i (f (t.vec.get ⟨i, h⟩)) } := by
  unfold Table.update
  rw [vec_update_nat _ _ _ h]
  rfl


/-! ## The keyword tests on lines that start with a keyword -/

theorem line_body_kw_fr (x : List Char) (lc : Locals) (st : DTrackSDK) :
    line_body ('f' :: 'r' :: ' ' :: x) lc st =
      (line_fr x).within st.set_framecounter (fun v => (lc, st.set_framecounter v)) := by
  simp [line_body, strncmp_eq, kw_fr]

theorem line_body_kw_ts (x : List Char) (lc : Locals) (st : DTrackSDK) :
    line_body ('t' :: 's' :: ' ' :: x) lc st =
      (line_ts x).within st.set_timestamp (fun v => (lc, st.set_timestamp v)) := by
  simp [line_body, strncmp_eq, kw_fr, kw_ts]

theorem line_body_kw_6dcal (x : List Char) (lc : Locals) (st : DTrackSDK) :
    line_body ('6' :: 'd' :: 'c' :: 'a' :: 'l' :: ' ' :: x) lc st =
      (line_6dcal x).within (fun _ => st) (fun v => ({ lc with loc_num_bodycal := v }, st)) := by
  simp [line_body, strncmp_eq, kw_fr, kw_ts, kw_6dcal]

theorem line_body_kw_6d (x : List Char) (lc : Locals) (st : DTrackSDK) :
    line_body ('6' :: 'd' :: ' ' :: x) lc st =
      (line_6d x st.act_body).within st.set_body (fun t => (lc, st.set_body t)) := by
  simp [line_body, strncmp_eq, kw_fr, kw_ts, kw_6dcal, kw_6d]

theorem line_body_kw_6df (x : List Char) (lc : Locals) (st : DTrackSDK) :
    line_body ('6' :: 'd' :: 'f' :: ' ' :: x) lc st =
      (line_6df x st.act_flystick).within st.set_flystick
        (fun r => ({ lc with loc_num_flystick1 := r.1 }, st.set_flystick r.2)) := by
  simp [line_body, strncmp_eq, kw_fr, kw_ts, kw_6dcal, kw_6d, kw_6df]

theorem line_body_kw_6df2 (x : List Char) (lc : Locals) (st : DTrackSDK) :
    line_body ('6' :: 'd' :: 'f' :: '2' :: ' ' :: x) lc st =
      (line_6df2 x st.act_flystick).within st.set_flystick
        (fun t => (lc, st.set_flystick t)) := by
  simp [line_body, strncmp_eq, kw_fr, kw_ts, kw_6dcal, kw_6d, kw_6df, kw_6df2]

theorem line_body_kw_6dmt (x : List Char) (lc : Locals) (st : DTrackSDK) :
    line_body ('6' :: 'd' :: 'm' :: 't' :: ' ' :: x) lc st =
      (line_6dmt x st.act_meatool).within st.set_meatool
        (fun r => ({ lc with loc_num_meatool := r.1 }, st.set_meatool r.2)) := by
  simp [line_body, strncmp_eq, kw_fr, kw_ts, kw_6dcal, kw_6d, kw_6df, kw_6df2, kw_6dmt]

theorem line_body_kw_6dmtr (x : List Char) (lc : Locals) (st : DTrackSDK) :
    line_body ('6' :: 'd' :: 'm' :: 't' :: 'r' :: ' ' :: x) lc st =
      (line_6dmtr x st.act_mearef).within st.set_mearef (fun t => (lc, st.set_mearef t)) := by
  simp [line_body, strncmp_eq, kw_fr, kw_ts, kw_6dcal, kw_6d, kw_6df, kw_6df2, kw_6dmt,
    kw_6dmtr]

theorem line_body_kw_glcal (x : List Char) (lc : Locals) (st : DTrackSDK) :
    line_body ('g' :: 'l' :: 'c' :: 'a' :: 'l' :: ' ' :: x) lc st =
      line_glcal_tail x lc st := by
  simp [line_body, strncmp_eq, kw_fr, kw_ts, kw_6dcal, kw_6d, kw_6df, kw_6df2, kw_6dmt,
    kw_6dmtr, kw_glcal]

theorem line_body_kw_gl (x : List Char) (lc : Locals) (st : DTrackSDK) :
    line_body ('g' :: 'l' :: ' ' :: x) lc st =
      (line_gl x st.act_hand).within st.set_hand (fun t => (lc, st.set_hand t)) := by
  simp [line_body, line_tail, strncmp_eq, kw_fr, kw_ts, kw_6dcal, kw_6d, kw_6df, kw_6df2,
    kw_6dmt, kw_6dmtr, kw_glcal, kw_gl]

theorem line_body_kw_6dj (x : List Char) (lc : Locals) (st : DTrackSDK) :
    line_body ('6' :: 'd' :: 'j' :: ' ' :: x) lc st =
      (line_6dj x st.act_human).within st.set_human (fun t => (lc, st.set_human t)) := by
  simp [line_body, line_tail, strncmp_eq, kw_fr, kw_ts, kw_6dcal, kw_6d, kw_6df, kw_6df2,
    kw_6dmt, kw_6dmtr, kw_glcal, kw_gl, kw_6dj]

theorem line_body_kw_3d (x : List Char) (lc : Locals) (st : DTrackSDK) :
    line_body ('3' :: 'd' :: ' ' :: x) lc st =
      (line_3d x st.act_marker).within st.set_marker (fun t => (lc, st.set_marker t)) := by
  simp [line_body, line_tail, strncmp_eq, kw_fr, kw_ts, kw_6dcal, kw_6d, kw_6df, kw_6df2,
    kw_6dmt, kw_6dmtr, kw_glcal, kw_gl, kw_6dj, kw_3d]


/-! ## Writing table slots -/

theorem body_disabled_untracked (j : Int) (b : DTrack_Body_Type_d) :
    body_untracked j (body_disabled j b) :=
  ⟨rfl, rfl⟩

theorem hand_disabled_untracked (j : Int) (h : DTrack_Hand_Type_d) :
    hand_untracked j (hand_disabled j h) :=
  ⟨rfl, rfl⟩

theorem vec_update_some {α : Type} {v v1 : List α} {i : Int} {f : α → α}
    (h : vec_update v i f = some v1) :
    0 ≤ i ∧ i.toNat < v.length ∧ v1.length = v.length ∧
    (∀ a, v[i.toNat]? = some a → v1[i.toNat]? = some (f a)) ∧
    (∀ j : Nat, (j : Int) ≠ i → v1[j]? = v[j]?) := by
  unfold vec_update at h
  split at h
  · rename_i hc
    simp only [Option.some.injEq] at h
    subst h
    refine ⟨hc.1, hc.2, by simp, ?_, ?_⟩
    · intro a ha
      simp only [List.getElem?_eq_getElem hc.2, Option.some.injEq] at ha
      simp [List.getElem?_set, hc.2, ha]
    · intro j hj
      have : ¬ i.toNat = j := by omega
      simp [List.getElem?_set, this]
  · simp at h

theorem fill_loop_some {α : Type} (mk : Int → α → α) (k : Nat) (j : Int) (v v1 : List α)
    (h : fill_loop mk k j v = some v1) :
    v1.length = v.length ∧
    (∀ i : Nat, j ≤ (i : Int) → (i : Int) < j + k →
      ∃ a, v[i]? = some a ∧ v1[i]? = some (mk i a)) ∧
    (∀ i : Nat, ((i : Int) < j ∨ j + k ≤ (i : Int)) → v1[i]? = v[i]?) := by
  induction k generalizing j v with
  | zero =>
    simp only [fill_loop, Option.some.injEq] at h
    subst h
    exact ⟨rfl, fun i h1 h2 => absurd h2 (by simp; omega), fun _ _ => rfl⟩
  | succ k ih =>
    unfold fill_loop at h
    cases hu : vec_update v j (mk j) with
    | none => rw [hu] at h; simp at h
    | some v2 =>
      rw [hu] at h
      simp only at h
      obtain ⟨h0, hlt, hlen, hat, hoth⟩ := vec_update_some hu
      obtain ⟨ilen, iin, iout⟩ := ih (j + 1) v2 h
      refine ⟨ilen.trans hlen, ?_, ?_⟩
      · intro i h1 h2
        by_cases hij : (i : Int) = j
        · rw [iout i (Or.inl (by omega))]
          have hi : i = j.toNat := by omega
          subst hi
          have := hat _ (List.getElem?_eq_getElem hlt)
          rw [this, hij]
          exact ⟨_, List.getElem?_eq_getElem hlt, rfl⟩
        · obtain ⟨a, ha, ha1⟩ := iin i (by omega) (by push_cast at h2 ⊢; omega)
          exact ⟨a, (hoth i hij).symm.trans ha, ha1⟩
      · intro i hi
        rw [iout i (by push_cast at hi ⊢; omega)]
        exact hoth i (by push_cast at hi; omega)

theorem Table.update_next {α : Type} {t t1 : Table α} {i : Int} {f : α → α}
    (h : t.update i f = .next t1) : 0 ≤ i ∧ i < t.vec.length ∧ Table.SameBut i t t1 := by
  unfold Table.update at h
  cases hu : vec_update t.vec i f with
  | none => rw [hu] at h; simp [Flow.mem, bind, Flow.bind] at h
  | some v =>
    rw [hu] at h
    simp only [Flow.mem, bind, Flow.bind, pure, Flow.next.injEq] at h
    subst h
    obtain ⟨h0, hlt, hlen, -, hoth⟩ := vec_update_some hu
    exact ⟨h0, by omega, rfl, hlen, hoth⟩

theorem Table.update_not_fail {α : Type} (t : Table α) (i : Int) (f : α → α) (w : Stop)
    (t1 : Table α) : t.update i f ≠ .fail w t1 := by
  unfold Table.update
  cases vec_update t.vec i f <;> simp [Flow.mem, bind, Flow.bind, pure]

theorem Table.SameBut.refl {α : Type} (i : Int) (t : Table α) : Table.SameBut i t t :=
  ⟨rfl, rfl, fun _ _ => rfl⟩

theorem Table.SameBut.trans {α : Type} {i : Int} {t t1 t2 : Table α}
    (h1 : Table.SameBut i t t1) (h2 : Table.SameBut i t1 t2) : Table.SameBut i t t2 :=
  ⟨h2.1.trans h1.1, h2.2.1.trans h1.2.1, fun j hj => (h2.2.2 j hj).trans (h1.2.2 j hj)⟩

theorem Table.Covered.mono {α : Type} {d : Int → α → Prop} {lo : Int} {ids ids1 : List Int}
    {t : Table α} (h : Table.Covered d lo ids t) (hsub : ∀ x ∈ ids, x ∈ ids1) :
    Table.Covered d lo ids1 t := by
  intro j h1 h2
  obtain ⟨b, hb, hd⟩ := h j h1 h2
  exact ⟨b, hb, hd.imp id (hsub _)⟩

/-- Writing slot `i` keeps the cover when `i` is one of the ids (and within the table). -/
theorem Table.Covered.sameBut {α : Type} {d : Int → α → Prop} {lo : Int} {ids : List Int}
    {t t1 : Table α} {i : Int} (h : Table.Covered d lo ids t) (hs : Table.SameBut i t t1)
    (hi : i ∈ ids) : Table.Covered d lo ids t1 := by
  intro j h1 h2
  rw [hs.1] at h2
  obtain ⟨b, hb, hd⟩ := h j h1 h2
  by_cases hji : (j : Int) = i
  · have hlt : j < t1.vec.length := by
      rw [hs.2.1]
      exact (List.getElem?_eq_some_iff.1 hb).1
    exact ⟨t1.vec[j], List.getElem?_eq_getElem hlt, Or.inr (hji ▸ hi)⟩
  · exact ⟨b, (hs.2.2 j hji).trans hb, hd⟩

theorem Table.disable_all_next {α : Type} {d : Int → α → α} {D : Int → α → Prop}
    (hD : ∀ j a, D j (d j a)) {t t1 : Table α}
    (h : t.disable_all d = .next t1) (lo : Int) (ids : List Int) :
    t1.num = t.num ∧ t1.vec.length = t.vec.length ∧ Table.Covered D lo ids t1 := by
  unfold Table.disable_all at h
  cases hf : fill_loop d t.num.toNat 0 t.vec with
  | none => rw [hf] at h; simp [Flow.mem, bind, Flow.bind] at h
  | some v =>
    rw [hf] at h
    simp only [Flow.mem, bind, Flow.bind, pure, Flow.next.injEq] at h
    subst h
    obtain ⟨hlen, hin, -⟩ := fill_loop_some d _ _ _ _ hf
    refine ⟨rfl, hlen, ?_⟩
    intro j _ h2
    obtain ⟨a, -, ha⟩ := hin j (by omega) (by simp only at h2; omega)
    exact ⟨_, ha, Or.inl (hD _ a)⟩

theorem Table.disable_all_not_fail {α : Type} (d : Int → α → α) (t : Table α) (w : Stop)
    (t1 : Table α) : t.disable_all d ≠ .fail w t1 := by
  unfold Table.disable_all
  cases fill_loop d t.num.toNat 0 t.vec <;> simp [Flow.mem, bind, Flow.bind, pure]

theorem vec_resize_some {α : Type} {z : α} {v v1 : List α} {n : Int}
    (h : vec_resize z v n = some v1) :
    0 ≤ n ∧ v1.length = n.toNat ∧ ∀ j : Nat, j < n.toNat → j < v.length → v1[j]? = v[j]? := by
  unfold vec_resize at h
  split at h
  · simp at h
  · rename_i hn
    simp only [Option.some.injEq] at h
    subst h
    refine ⟨by omega, ?_, ?_⟩
    · simp only [List.length_append, List.length_take, List.length_replicate]
      omega
    · intro j h1 h2
      rw [List.getElem?_append_left (by simp; omega), List.getElem?_take_of_lt h1]

/-- The growth for a record id: the count does not fall, the id is below the new count,
and the cover is kept. -/
theorem Table.grow_next {α : Type} {z : α} {d : Int → α → α} {D : Int → α → Prop}
    (hD : ∀ j a, D j (d j a)) {t t1 : Table α} {id : Int}
    (h : t.grow z d id = .next t1) {lo : Int} {ids : List Int}
    (hc : Table.Covered D lo ids t) :
    t.num ≤ t1.num ∧ id < t1.num ∧ (t1.num = t.num ∨ t1.num = id + 1) ∧
      Table.Covered D lo ids t1 := by
  unfold Table.grow at h
  split at h
  · rename_i hge
    cases hr : vec_resize z t.vec (id + 1) with
    | none => rw [hr] at h; simp [Flow.mem, bind, Flow.bind] at h
    | some v =>
      rw [hr] at h
      simp only [Flow.mem, bind, Flow.bind] at h
      cases hf : fill_loop d (id + 1 - t.num).toNat t.num v with
      | none => rw [hf] at h; simp at h
      | some v2 =>
        rw [hf] at h
        simp only [pure, Flow.next.injEq] at h
        subst h
        obtain ⟨hn, hlen, hkeep⟩ := vec_resize_some hr
        obtain ⟨flen, fin, fout⟩ := fill_loop_some d _ _ _ _ hf
        refine ⟨by simp only; omega, by simp only; omega, Or.inr rfl, ?_⟩
        intro j h1 h2
        simp only at h2
        by_cases hj : (j : Int) < t.num
        · obtain ⟨b, hb, hd⟩ := hc j h1 hj
          refine ⟨b, ?_, hd⟩
          simp only
          rw [fout j (Or.inl hj), hkeep j (by omega) (List.getElem?_eq_some_iff.1 hb).1]
          exact hb
        · obtain ⟨a, -, ha⟩ := fin j (by omega) (by omega)
          exact ⟨_, ha, Or.inl (hD _ a)⟩
  · rename_i hlt
    simp only [pure, Flow.next.injEq] at h
    subst h
    exact ⟨le_refl _, by omega, Or.inl rfl, hc⟩

theorem Table.grow_not_fail {α : Type} (z : α) (d : Int → α → α) (t : Table α) (id : Int)
    (w : Stop) (t1 : Table α) : t.grow z d id ≠ .fail w t1 := by
  unfold Table.grow
  split
  · cases vec_resize z t.vec (id + 1) with
    | none => simp [Flow.mem, bind, Flow.bind]
    | some v =>
      cases hf : fill_loop d (id + 1 - t.num).toNat t.num v <;>
        simp [Flow.mem, bind, Flow.bind, pure, hf]
  · simp [pure]

/-- The reconciliation with a calibrated count `n`: the count becomes `n` and the cover is
kept. -/
theorem Table.reconcile_next {α : Type} {z : α} {d : Int → α → α} {D : Int → α → Prop}
    (hD : ∀ j a, D j (d j a)) {t t1 : Table α} {n : Int}
    (h : t.reconcile z d n = .next t1) {lo : Int} {ids : List Int}
    (hc : Table.Covered D lo ids t) :
    t1.num = n ∧ Table.Covered D lo ids t1 := by
  unfold Table.reconcile at h
  split at h
  · rename_i hgt
    cases hr : vec_resize z t.vec n with
    | none => rw [hr] at h; simp [Flow.mem, bind, Flow.bind] at h
    | some v =>
      rw [hr] at h
      simp only [Flow.mem, bind, Flow.bind] at h
      cases hf : fill_loop d (n - t.num).toNat t.num v with
      | none => rw [hf] at h; simp at h
      | some v2 =>
        rw [hf] at h
        simp only [pure, Flow.next.injEq] at h
        subst h
        obtain ⟨hn, hlen, hkeep⟩ := vec_resize_some hr
        obtain ⟨flen, fin, fout⟩ := fill_loop_some d _ _ _ _ hf
        refine ⟨rfl, ?_⟩
        intro j h1 h2
        simp only at h2
        by_cases hj : (j : Int) < t.num
        · obtain ⟨b, hb, hd⟩ := hc j h1 hj
          refine ⟨b, ?_, hd⟩
          simp only
          rw [fout j (Or.inl hj), hkeep j (by omega) (List.getElem?_eq_some_iff.1 hb).1]
          exact hb
        · obtain ⟨a, -, ha⟩ := fin j (by omega) (by omega)
          exact ⟨_, ha, Or.inl (hD _ a)⟩
  · rename_i hle
    simp only [pure, bind, Flow.bind, Flow.next.injEq] at h
    subst h
    refine ⟨rfl, ?_⟩
    intro j h1 h2
    exact hc j h1 (by simp only at h2; omega)


/-! ## Body and hand lines: which slots are "not tracked" afterwards -/

theorem record_6d_ends (i : Int) (s : List Char) (t : Table DTrack_Body_Type_d) (lo : Int)
    (ids : List Int) (hc : Table.Covered body_untracked lo ids t) (k : Nat) :
    match record_6d i s t with
    | .next (s1, t1) => ∃ id, ids_6d (k + 1) s = id :: ids_6d k s1 ∧ t.num ≤ t1.num ∧
        Table.Covered body_untracked lo (ids ++ [id]) t1
    | .fail _ t1 => t.num ≤ t1.num ∧ Table.Covered body_untracked lo (ids ++ ids_6d (k + 1) s) t1
    | .undefined => True := by
  unfold record_6d
  cases h1 : string_get_block s fmt_id with
  | none =>
    simp only [Flow.parse, bind, Flow.bind, ids_6d, h1, List.append_nil]
    exact ⟨le_refl _, hc⟩
  | some r =>
    obtain ⟨is, ds, s1⟩ := r
    simp only [Flow.parse, bind, Flow.bind]
    cases h2 : t.grow body_zero body_disabled (is.getD 0 0) with
    | fail w t1 => exact absurd h2 (Table.grow_not_fail _ _ _ _ _ _)
    | undefined => trivial
    | next t1 =>
      obtain ⟨hle, hlt, -, hc1⟩ := Table.grow_next body_disabled_untracked h2 hc
      have hc1' : Table.Covered body_untracked lo (ids ++ [is.getD 0 0]) t1 :=
        hc1.mono (fun x hx => List.mem_append_left _ hx)
      have hmem : is.getD 0 0 ∈ ids ++ [is.getD 0 0] := by simp
      simp only
      cases h3 : t1.update (is.getD 0 0)
          (fun b => { b with id := is.getD 0 0, quality := ds.getD 0 0 }) with
      | fail w t2 => exact absurd h3 (Table.update_not_fail _ _ _ _ _)
      | undefined => trivial
      | next t2 =>
        obtain ⟨-, -, hs2⟩ := Table.update_next h3
        have hc2 := hc1'.sameBut hs2 hmem
        simp only
        cases h4 : string_get_block s1 fmt_ddd with
        | none =>
          simp only [ids_6d, h1, h4]
          exact ⟨by rw [hs2.1]; exact hle, hc2⟩
        | some r4 =>
          obtain ⟨is4, ds4, s2⟩ := r4
          simp only
          cases h5 : t2.update (is.getD 0 0) (fun b => { b with loc := ds4 }) with
          | fail w t3 => exact absurd h5 (Table.update_not_fail _ _ _ _ _)
          | undefined => trivial
          | next t3 =>
            obtain ⟨-, -, hs3⟩ := Table.update_next h5
            have hc3 := hc2.sameBut hs3 hmem
            simp only
            cases h6 : string_get_block s2 fmt_ddddddddd with
            | none =>
              simp only [ids_6d, h1, h4, h6]
              exact ⟨by rw [hs3.1, hs2.1]; exact hle, hc3⟩
            | some r6 =>
              obtain ⟨is6, ds6, s3⟩ := r6
              simp only
              cases h7 : t3.update (is.getD 0 0) (fun b => { b with rot := ds6 }) with
              | fail w t4 => exact absurd h7 (Table.update_not_fail _ _ _ _ _)
              | undefined => trivial
              | next t4 =>
                obtain ⟨-, -, hs4⟩ := Table.update_next h7
                have hc4 := hc3.sameBut hs4 hmem
                simp only [pure]
                refine ⟨is.getD 0 0, ?_, by rw [hs4.1, hs3.1, hs2.1]; exact hle, hc4⟩
                simp only [ids_6d, h1, h4, h6]

theorem for_loop_6d_ends (k : Nat) (i : Int) (s : List Char) (t : Table DTrack_Body_Type_d)
    (lo : Int) (ids : List Int) (hc : Table.Covered body_untracked lo ids t) :
    Flow.Ends (fun t1 => t.num ≤ t1.num ∧ Table.Covered body_untracked lo (ids ++ ids_6d k s) t1)
      Prod.snd (for_loop record_6d k i s t) := by
  induction k generalizing i s t ids with
  | zero =>
    simp only [for_loop, Flow.Ends, ids_6d, List.append_nil]
    exact ⟨le_refl _, hc⟩
  | succ k ih =>
    have hr := record_6d_ends i s t lo ids hc k
    unfold for_loop
    cases h : record_6d i s t with
    | next r =>
      obtain ⟨s1, t1⟩ := r
      rw [h] at hr
      obtain ⟨id, hid, hle, hc1⟩ := hr
      have := ih (i + 1) s1 t1 (ids ++ [id]) hc1
      simp only
      rw [hid]
      cases hf : for_loop record_6d k (i + 1) s1 t1 with
      | next r2 =>
        rw [hf] at this
        simp only [Flow.Ends, List.append_assoc, List.singleton_append] at this ⊢
        exact ⟨le_trans hle this.1, this.2⟩
      | fail w t2 =>
        rw [hf] at this
        simp only [Flow.Ends, List.append_assoc, List.singleton_append] at this ⊢
        exact ⟨le_trans hle this.1, this.2⟩
      | undefined => trivial
    | fail w t1 =>
      rw [h] at hr
      exact hr
    | undefined => trivial

/-- After a `6d ` line, whether it ran to its end or stopped: the body count has not
fallen, and every slot below the count is "not tracked" unless a record of the line names
it. -/
theorem line_6d_ends (s : List Char) (t : Table DTrack_Body_Type_d) (lo : Int) :
    Flow.Ends (fun t1 => t.num ≤ t1.num ∧ Table.Covered body_untracked lo (ids_6d_line s) t1) id
      (line_6d s t) := by
  unfold line_6d
  cases h1 : t.disable_all body_disabled with
  | fail w t1 => exact absurd h1 (Table.disable_all_not_fail _ _ _ _)
  | undefined => trivial
  | next t1 =>
    obtain ⟨hnum, -, hc⟩ := Table.disable_all_next body_disabled_untracked h1 lo []
    simp only [bind, Flow.bind, Flow.parse]
    cases h2 : string_get_i s with
    | none =>
      simp only [Flow.Ends, ids_6d_line, h2]
      exact ⟨by rw [hnum], hc⟩
    | some r =>
      obtain ⟨n, s1⟩ := r
      have hl := for_loop_6d_ends n.toNat 0 s1 t1 lo [] hc
      simp only [ids_6d_line, h2]
      cases hf : for_loop record_6d n.toNat 0 s1 t1 with
      | next r2 =>
        rw [hf] at hl
        simp only [Flow.Ends, List.nil_append, pure, id] at hl ⊢
        exact ⟨by rw [← hnum]; exact hl.1, hl.2⟩
      | fail w t2 =>
        rw [hf] at hl
        simp only [Flow.Ends, List.nil_append] at hl ⊢
        exact ⟨by rw [← hnum]; exact hl.1, hl.2⟩
      | undefined => trivial

/-- One finger of a hand record touches at most the record's slot. -/
theorem finger_gl_ends (id : Int) (j : Int) (s : List Char) (t : Table DTrack_Hand_Type_d) :
    Flow.Ends (fun t1 => Table.SameBut id t t1) Prod.snd (finger_gl id j s t) ∧
    ∀ s1 t1, finger_gl id j s t = .next (s1, t1) → skip_fingers 1 s = some s1 := by
  unfold finger_gl
  cases h1 : string_get_block s fmt_ddd with
  | none =>
    simp only [Flow.parse, bind, Flow.bind, Flow.Ends]
    exact ⟨Table.SameBut.refl _ _, fun _ _ h => by simp at h⟩
  | some r1 =>
    obtain ⟨is1, ds1, s1⟩ := r1
    simp only [Flow.parse, bind, Flow.bind]
    cases h2 : t.update id (fun h => { h with finger :=
        (vec_update h.finger j fun f => { f with loc := ds1 }).getD h.finger }) with
    | fail w t1 => exact absurd h2 (Table.update_not_fail _ _ _ _ _)
    | undefined => exact ⟨trivial, fun _ _ h => by simp at h⟩
    | next t1 =>
      obtain ⟨-, -, hs1⟩ := Table.update_next h2
      simp only
      cases h3 : string_get_block s1 fmt_ddddddddd with
      | none =>
        simp only [Flow.Ends]
        exact ⟨hs1, fun _ _ h => by simp at h⟩
      | some r3 =>
        obtain ⟨is3, ds3, s2⟩ := r3
        simp only
        cases h4 : t1.update id (fun h => { h with finger :=
            (vec_update h.finger j fun f => { f with rot := ds3 }).getD h.finger }) with
        | fail w t2 => exact absurd h4 (Table.update_not_fail _ _ _ _ _)
        | undefined => exact ⟨trivial, fun _ _ h => by simp at h⟩
        | next t2 =>
          obtain ⟨-, -, hs2⟩ := Table.update_next h4
          simp only
          cases h5 : string_get_block s2 fmt_dddddd with
          | none =>
            simp only [Flow.Ends]
            exact ⟨hs1.trans hs2, fun _ _ h => by simp at h⟩
          | some r5 =>
            obtain ⟨is5, darr, s3⟩ := r5
            simp only
            cases h6 : t2.update id (fun h => { h with finger :=
                (vec_update h.finger j fun f =>
                  { f with radiustip := darr.getD 0 0,
                           lengthphalanx := [darr.getD 1 0, darr.getD 3 0, darr.getD 5 0],
                           anglephalanx := [darr.getD 2 0, darr.getD 4 0] }).getD h.finger }) with
            | fail w t3 => exact absurd h6 (Table.update_not_fail _ _ _ _ _)
            | undefined => exact ⟨trivial, fun _ _ h => by simp at h⟩
            | next t3 =>
              obtain ⟨-, -, hs3⟩ := Table.update_next h6
              simp only [pure, Flow.Ends]
              refine ⟨(hs1.trans hs2).trans hs3, ?_⟩
              intro s' t' h
              simp only [Flow.next.injEq, Prod.mk.injEq] at h
              simp only [skip_fingers, h1, h3, h5, h.1]

theorem for_loop_finger_gl_ends (id : Int) (k : Nat) (j : Int) (s : List Char)
    (t : Table DTrack_Hand_Type_d) :
    Flow.Ends (fun t1 => Table.SameBut id t t1) Prod.snd (for_loop (finger_gl id) k j s t) ∧
    ∀ s1 t1, for_loop (finger_gl id) k j s t = .next (s1, t1) → skip_fingers k s = some s1 := by
  induction k generalizing j s t with
  | zero =>
    simp only [for_loop, Flow.Ends, skip_fingers]
    exact ⟨Table.SameBut.refl _ _, fun _ _ h => by
      simp only [Flow.next.injEq, Prod.mk.injEq] at h; rw [h.1]⟩
  | succ k ih =>
    have hr := finger_gl_ends id j s t
    unfold for_loop
    cases h : finger_gl id j s t with
    | next r =>
      obtain ⟨s1, t1⟩ := r
      rw [h] at hr
      have hs1 : Table.SameBut id t t1 := hr.1
      have hk1 := hr.2 s1 t1 rfl
      have := ih (j + 1) s1 t1
      simp only
      have hskip : skip_fingers (k + 1) s = skip_fingers k s1 := by
        simp only [skip_fingers] at hk1 ⊢
        cases a1 : string_get_block s fmt_ddd with
        | none => rw [a1] at hk1; simp at hk1
        | some r1 =>
          rw [a1] at hk1
          simp only at hk1 ⊢
          cases a2 : string_get_block r1.2.2 fmt_ddddddddd with
          | none => rw [a2] at hk1; simp at hk1
          | some r2 =>
            rw [a2] at hk1
            simp only at hk1 ⊢
            cases a3 : string_get_block r2.2.2 fmt_dddddd with
            | none => rw [a3] at hk1; simp at hk1
            | some r3 =>
              rw [a3] at hk1
              simp only [Option.some.injEq] at hk1 ⊢
              rw [hk1]
      cases hf : for_loop (finger_gl id) k (j + 1) s1 t1 with
      | next r2 =>
        rw [hf] at this
        refine ⟨hs1.trans this.1, ?_⟩
        intro s' t' h'
        rw [hskip]
        exact this.2 s' t' h'
      | fail w t2 =>
        rw [hf] at this
        exact ⟨hs1.trans this.1, fun _ _ h' => by simp at h'⟩
      | undefined => exact ⟨trivial, fun _ _ h' => by simp at h'⟩
    | fail w t1 =>
      rw [h] at hr
      exact ⟨hr.1, fun _ _ h' => by simp at h'⟩
    | undefined => exact ⟨trivial, fun _ _ h' => by simp at h'⟩

theorem record_gl_ends (i : Int) (s : List Char) (t : Table DTrack_Hand_Type_d) (lo : Int)
    (ids : List Int) (hc : Table.Covered hand_untracked lo ids t) (k : Nat) :
    match record_gl i s t with
    | .next (s1, t1) => ∃ id, ids_gl (k + 1) s = id :: ids_gl k s1 ∧ t.num ≤ t1.num ∧
        Table.Covered hand_untracked lo (ids ++ [id]) t1
    | .fail _ t1 => t.num ≤ t1.num ∧ Table.Covered hand_untracked lo (ids ++ ids_gl (k + 1) s) t1
    | .undefined => True := by
  unfold record_gl
  cases h1 : string_get_block s fmt_idii with
  | none =>
    simp only [Flow.parse, bind, Flow.bind, ids_gl, h1, List.append_nil]
    exact ⟨le_refl _, hc⟩
  | some r =>
    obtain ⟨iarr, ds, s1⟩ := r
    simp only [Flow.parse, bind, Flow.bind]
    cases h2 : t.grow hand_zero hand_disabled (iarr.getD 0 0) with
    | fail w t1 => exact absurd h2 (Table.grow_not_fail _ _ _ _ _ _)
    | undefined => trivial
    | next t1 =>
      obtain ⟨hle, hlt, -, hc1⟩ := Table.grow_next hand_disabled_untracked h2 hc
      have hc1' : Table.Covered hand_untracked lo (ids ++ [iarr.getD 0 0]) t1 :=
        hc1.mono (fun x hx => List.mem_append_left _ hx)
      have hmem : iarr.getD 0 0 ∈ ids ++ [iarr.getD 0 0] := by simp
      simp only
      cases h3 : t1.update (iarr.getD 0 0)
          (fun h => { h with id := iarr.getD 0 0, lr := iarr.getD 1 0, quality := ds.getD 0 0 }) with
      | fail w t2 => exact absurd h3 (Table.update_not_fail _ _ _ _ _)
      | undefined => trivial
      | next t2 =>
        obtain ⟨-, -, hs2⟩ := Table.update_next h3
        have hc2 := hc1'.sameBut hs2 hmem
        have hn2 : t.num ≤ t2.num := by rw [hs2.1]; exact hle
        simp only
        by_cases hfin : iarr.getD 2 0 > DTRACK_HAND_MAX_FINGER
        · simp only [hfin, if_true, ids_gl, h1]
          exact ⟨hn2, hc2⟩
        · simp only [hfin, if_false]
          cases h4 : t2.update (iarr.getD 0 0) (fun h => { h with nfinger := iarr.getD 2 0 }) with
          | fail w t3 => exact absurd h4 (Table.update_not_fail _ _ _ _ _)
          | undefined => trivial
          | next t3 =>
            obtain ⟨-, -, hs3⟩ := Table.update_next h4
            have hc3 := hc2.sameBut hs3 hmem
            have hn3 : t.num ≤ t3.num := by rw [hs3.1]; exact hn2
            simp only
            cases h5 : string_get_block s1 fmt_ddd with
            | none =>
              simp only [ids_gl, h1, hfin, if_false, h5]
              exact ⟨hn3, hc3⟩
            | some r5 =>
              obtain ⟨is5, ds5, s2⟩ := r5
              simp only
              cases h6 : t3.update (iarr.getD 0 0) (fun h => { h with loc := ds5 }) with
              | fail w t4 => exact absurd h6 (Table.update_not_fail _ _ _ _ _)
              | undefined => trivial
              | next t4 =>
                obtain ⟨-, -, hs4⟩ := Table.update_next h6
                have hc4 := hc3.sameBut hs4 hmem
                have hn4 : t.num ≤ t4.num := by rw [hs4.1]; exact hn3
                simp only
                cases h7 : string_get_block s2 fmt_ddddddddd with
                | none =>
                  simp only [ids_gl, h1, hfin, if_false, h5, h7]
                  exact ⟨hn4, hc4⟩
                | some r7 =>
                  obtain ⟨is7, ds7, s3⟩ := r7
                  simp only
                  cases h8 : t4.update (iarr.getD 0 0) (fun h => { h with rot := ds7 }) with
                  | fail w t5 => exact absurd h8 (Table.update_not_fail _ _ _ _ _)
                  | undefined => trivial
                  | next t5 =>
                    obtain ⟨-, -, hs5⟩ := Table.update_next h8
                    have hc5 := hc4.sameBut hs5 hmem
                    have hn5 : t.num ≤ t5.num := by rw [hs5.1]; exact hn4
                    simp only
                    have hfl := for_loop_finger_gl_ends (iarr.getD 0 0) (iarr.getD 2 0).toNat 0
                      s3 t5
                    cases h9 : for_loop (finger_gl (iarr.getD 0 0)) (iarr.getD 2 0).toNat 0
                        s3 t5 with
                    | next r9 =>
                      obtain ⟨s4, t6⟩ := r9
                      rw [h9] at hfl
                      have hs6 : Table.SameBut (iarr.getD 0 0) t5 t6 := hfl.1
                      have hsk := hfl.2 s4 t6 rfl
                      refine ⟨iarr.getD 0 0, ?_, by rw [hs6.1]; exact hn5,
                        hc5.sameBut hs6 hmem⟩
                      simp only [ids_gl, h1, hfin, if_false, h5, h7, hsk]
                    | fail w t6 =>
                      rw [h9] at hfl
                      have hs6 : Table.SameBut (iarr.getD 0 0) t5 t6 := hfl.1
                      refine ⟨by rw [hs6.1]; exact hn5, ?_⟩
                      refine (hc5.sameBut hs6 hmem).mono ?_
                      intro x hx
                      rcases List.mem_append.1 hx with hx | hx
                      · exact List.mem_append_left _ hx
                      · refine List.mem_append_right _ ?_
                        simp only [ids_gl, h1]
                        simp only [List.mem_singleton] at hx
                        rw [hx]
                        exact List.mem_cons_self _ _
                    | undefined => trivial

theorem for_loop_gl_ends (k : Nat) (i : Int) (s : List Char) (t : Table DTrack_Hand_Type_d)
    (lo : Int) (ids : List Int) (hc : Table.Covered hand_untracked lo ids t) :
    Flow.Ends (fun t1 => t.num ≤ t1.num ∧ Table.Covered hand_untracked lo (ids ++ ids_gl k s) t1)
      Prod.snd (for_loop record_gl k i s t) := by
  induction k generalizing i s t ids with
  | zero =>
    simp only [for_loop, Flow.Ends, ids_gl, List.append_nil]
    exact ⟨le_refl _, hc⟩
  | succ k ih =>
    have hr := record_gl_ends i s t lo ids hc k
    unfold for_loop
    cases h : record_gl i s t with
    | next r =>
      obtain ⟨s1, t1⟩ := r
      rw [h] at hr
      obtain ⟨id, hid, hle, hc1⟩ := hr
      have := ih (i + 1) s1 t1 (ids ++ [id]) hc1
      simp only
      rw [hid]
      cases hf : for_loop record_gl k (i + 1) s1 t1 with
      | next r2 =>
        rw [hf] at this
        simp only [Flow.Ends, List.append_assoc, List.singleton_append] at this ⊢
        exact ⟨le_trans hle this.1, this.2⟩
      | fail w t2 =>
        rw [hf] at this
        simp only [Flow.Ends, List.append_assoc, List.singleton_append] at this ⊢
        exact ⟨le_trans hle this.1, this.2⟩
      | undefined => trivial
    | fail w t1 =>
      rw [h] at hr
      exact hr
    | undefined => trivial

/-- After a `gl ` line, whether it ran to its end or stopped: the hand count has not
fallen, and every slot below the count is "not tracked" unless a record of the line names
it. -/
theorem line_gl_ends (s : List Char) (t : Table DTrack_Hand_Type_d) (lo : Int) :
    Flow.Ends (fun t1 => t.num ≤ t1.num ∧ Table.Covered hand_untracked lo (ids_gl_line s) t1) id
      (line_gl s t) := by
  unfold line_gl
  cases h1 : t.disable_all hand_disabled with
  | fail w t1 => exact absurd h1 (Table.disable_all_not_fail _ _ _ _)
  | undefined => trivial
  | next t1 =>
    obtain ⟨hnum, -, hc⟩ := Table.disable_all_next hand_disabled_untracked h1 lo []
    simp only [bind, Flow.bind, Flow.parse]
    cases h2 : string_get_i s with
    | none =>
      simp only [Flow.Ends, ids_gl_line, h2]
      exact ⟨by rw [hnum], hc⟩
    | some r =>
      obtain ⟨n, s1⟩ := r
      have hl := for_loop_gl_ends n.toNat 0 s1 t1 lo [] hc
      simp only [ids_gl_line, h2]
      cases hf : for_loop record_gl n.toNat 0 s1 t1 with
      | next r2 =>
        rw [hf] at hl
        simp only [Flow.Ends, List.nil_append, pure, id] at hl ⊢
        exact ⟨by rw [← hnum]; exact hl.1, hl.2⟩
      | fail w t2 =>
        rw [hf] at hl
        simp only [Flow.Ends, List.nil_append] at hl ⊢
        exact ⟨by rw [← hnum]; exact hl.1, hl.2⟩
      | undefined => trivial


/-! ## Lines and the members they leave alone -/

theorem strncmp_eq_split (l kw : List Char) (h : strncmp_eq l kw = true) :
    l = kw ++ l.drop kw.length := by
  unfold strncmp_eq at h
  obtain ⟨t, ht⟩ := List.isPrefixOf_iff_prefix.1 h
  rw [← ht]
  simp

theorem Flow.within_ends {σ α : Type} (R : DTrackSDK → Prop) (x : Flow σ α)
    (put : σ → DTrackSDK) (upd : α → Locals × DTrackSDK)
    (hnext : ∀ a, x = .next a → R (upd a).2) (hfail : ∀ w t, x = .fail w t → R (put t)) :
    Flow.Ends R Prod.snd (x.within put upd) := by
  cases x with
  | next a => exact hnext a rfl
  | fail w t => exact hfail w t rfl
  | undefined => trivial

/-- A line changes at most the member its keyword addresses, whether it runs to its end or
stops. -/
theorem line_body_frame (l : List Char) (lc : Locals) (st : DTrackSDK) :
    Flow.Ends (fun st1 =>
      (strncmp_eq l kw_fr = false → st1.act_framecounter = st.act_framecounter) ∧
      (strncmp_eq l kw_ts = false → st1.act_timestamp = st.act_timestamp) ∧
      (strncmp_eq l kw_6d = false → st1.act_body = st.act_body) ∧
      (strncmp_eq l kw_6df = false → strncmp_eq l kw_6df2 = false →
        st1.act_flystick = st.act_flystick) ∧
      (strncmp_eq l kw_6dmt = false → st1.act_meatool = st.act_meatool) ∧
      (strncmp_eq l kw_6dmtr = false → st1.act_mearef = st.act_mearef) ∧
      (strncmp_eq l kw_gl = false → st1.act_hand = st.act_hand) ∧
      (strncmp_eq l kw_6dj = false → st1.act_human = st.act_human) ∧
      (strncmp_eq l kw_3d = false → st1.act_marker = st.act_marker)) Prod.snd
      (line_body l lc st) := by
  refine line_body_cases (fun r => Flow.Ends _ Prod.snd r) l lc st
    ?h_fr ?h_ts ?h_6dcal ?h_6d ?h_6df ?h_6df2 ?h_6dmt ?h_6dmtr ?h_glcal ?h_gl ?h_6dj ?h_3d ?h_other
  case h_glcal =>
    intro _
    rw [line_glcal_tail_eq]
    cases string_get_i (l.drop 6) with
    | none => simp [Flow.Ends]
    | some p => simp [Flow.Ends]
  case h_other => simp [Flow.Ends]
  all_goals
    intro hk
    refine Flow.within_ends _ _ _ _ ?_ ?_
    · intro a _
      simp [hk, DTrackSDK.set_framecounter, DTrackSDK.set_timestamp, DTrackSDK.set_body,
        DTrackSDK.set_flystick, DTrackSDK.set_meatool, DTrackSDK.set_mearef,
        DTrackSDK.set_hand, DTrackSDK.set_human, DTrackSDK.set_marker]
    · intro w t _
      simp [hk, DTrackSDK.set_framecounter, DTrackSDK.set_timestamp, DTrackSDK.set_body,
        DTrackSDK.set_flystick, DTrackSDK.set_meatool, DTrackSDK.set_mearef,
        DTrackSDK.set_hand, DTrackSDK.set_human, DTrackSDK.set_marker]

/-- The body table over one line: the count does not fall, and the cover is kept, extended
by the ids of the line's records when it is a `6d ` line. -/
theorem line_body_body_ends (l : List Char) (lc : Locals) (st : DTrackSDK) (lo : Int)
    (ids : List Int) (hc : Table.Covered body_untracked lo ids st.act_body) :
    Flow.Ends (fun st1 => st.act_body.num ≤ st1.act_body.num ∧
      Table.Covered body_untracked lo
        (ids ++ (if strncmp_eq l kw_6d then ids_6d_line (l.drop 3) else [])) st1.act_body)
      Prod.snd (line_body l lc st) := by
  by_cases h : strncmp_eq l kw_6d = true
  · have hl := strncmp_eq_split l kw_6d h
    have hd : l.drop 3 = l.drop kw_6d.length := rfl
    rw [hd]
    generalize l.drop kw_6d.length = x at hl ⊢
    subst hl
    have h' : strncmp_eq (kw_6d ++ x) kw_6d = true := h
    rw [show kw_6d ++ x = '6' :: 'd' :: ' ' :: x from rfl] at h' ⊢
    rw [line_body_kw_6d]
    simp only [h', if_true]
    have := line_6d_ends x st.act_body lo
    refine Flow.within_ends _ _ _ _ ?_ ?_
    · intro a ha
      rw [ha] at this
      exact ⟨this.1, this.2.mono (fun y hy => List.mem_append_right _ hy)⟩
    · intro w t ht
      rw [ht] at this
      exact ⟨this.1, this.2.mono (fun y hy => List.mem_append_right _ hy)⟩
  · have hf : strncmp_eq l kw_6d = false := by simpa using h
    have := line_body_frame l lc st
    simp only [hf, Bool.false_eq_true, if_false, List.append_nil]
    cases hb : line_body l lc st with
    | next r =>
      rw [hb] at this
      have e : r.2.act_body = st.act_body := this.2.2.1 hf
      simp only [Flow.Ends, e]
      exact ⟨le_refl _, hc⟩
    | fail w st1 =>
      rw [hb] at this
      have e : st1.act_body = st.act_body := this.2.2.1 hf
      simp only [Flow.Ends, e]
      exact ⟨le_refl _, hc⟩
    | undefined => trivial

/-- The hand table over one line: the count does not fall, and the cover is kept, extended
by the ids of the line's records when it is a `gl ` line. -/
theorem line_body_hand_ends (l : List Char) (lc : Locals) (st : DTrackSDK) (lo : Int)
    (ids : List Int) (hc : Table.Covered hand_untracked lo ids st.act_hand) :
    Flow.Ends (fun st1 => st.act_hand.num ≤ st1.act_hand.num ∧
      Table.Covered hand_untracked lo
        (ids ++ (if strncmp_eq l kw_gl then ids_gl_line (l.drop 3) else [])) st1.act_hand)
      Prod.snd (line_body l lc st) := by
  by_cases h : strncmp_eq l kw_gl = true
  · have hl := strncmp_eq_split l kw_gl h
    have hd : l.drop 3 = l.drop kw_gl.length := rfl
    rw [hd]
    generalize l.drop kw_gl.length = x at hl ⊢
    subst hl
    have h' : strncmp_eq (kw_gl ++ x) kw_gl = true := h
    rw [show kw_gl ++ x = 'g' :: 'l' :: ' ' :: x from rfl] at h' ⊢
    rw [line_body_kw_gl]
    simp only [h', if_true]
    have := line_gl_ends x st.act_hand lo
    refine Flow.within_ends _ _ _ _ ?_ ?_
    · intro a ha
      rw [ha] at this
      exact ⟨this.1, this.2.mono (fun y hy => List.mem_append_right _ hy)⟩
    · intro w t ht
      rw [ht] at this
      exact ⟨this.1, this.2.mono (fun y hy => List.mem_append_right _ hy)⟩
  · have hf : strncmp_eq l kw_gl = false := by simpa using h
    have := line_body_frame l lc st
    simp only [hf, Bool.false_eq_true, if_false, List.append_nil]
    cases hb : line_body l lc st with
    | next r =>
      rw [hb] at this
      have e : r.2.act_hand = st.act_hand := this.2.2.2.2.2.2.1 hf
      simp only [Flow.Ends, e]
      exact ⟨le_refl _, hc⟩
    | fail w st1 =>
      rw [hb] at this
      have e : st1.act_hand = st.act_hand := this.2.2.2.2.2.2.1 hf
      simp only [Flow.Ends, e]
      exact ⟨le_refl _, hc⟩
    | undefined => trivial

theorem line_loop_body_ends (ls : List (List Char)) (lc : Locals) (st : DTrackSDK) (lo : Int)
    (ids : List Int) (hc : Table.Covered body_untracked lo ids st.act_body) :
    Flow.Ends (fun st1 => st.act_body.num ≤ st1.act_body.num ∧
      Table.Covered body_untracked lo (ids ++ body_ids ls) st1.act_body)
      Prod.snd (line_loop ls lc st) := by
  induction ls generalizing lc st ids with
  | nil =>
    simp only [line_loop, Flow.Ends, body_ids, List.append_nil]
    exact ⟨le_refl _, hc⟩
  | cons l ls ih =>
    have hb := line_body_body_ends l lc st lo ids hc
    unfold line_loop
    cases h : line_body l lc st with
    | next r =>
      obtain ⟨lc1, st1⟩ := r
      rw [h] at hb
      have := ih lc1 st1 _ hb.2
      simp only [body_ids]
      cases hl : line_loop ls lc1 st1 with
      | next r2 =>
        rw [hl] at this
        simp only [Flow.Ends, List.append_assoc] at this ⊢
        exact ⟨le_trans hb.1 this.1, this.2⟩
      | fail w st2 =>
        rw [hl] at this
        simp only [Flow.Ends, List.append_assoc] at this ⊢
        exact ⟨le_trans hb.1 this.1, this.2⟩
      | undefined => trivial
    | fail w st1 =>
      rw [h] at hb
      simp only [Flow.Ends, body_ids] at hb ⊢
      exact ⟨hb.1, hb.2.mono (fun y hy => by
        rcases List.mem_append.1 hy with hy | hy
        · exact List.mem_append_left _ hy
        · exact List.mem_append_right _ (List.mem_append_left _ hy))⟩
    | undefined => trivial

theorem line_loop_hand_ends (ls : List (List Char)) (lc : Locals) (st : DTrackSDK) (lo : Int)
    (ids : List Int) (hc : Table.Covered hand_untracked lo ids st.act_hand) :
    Flow.Ends (fun st1 => st.act_hand.num ≤ st1.act_hand.num ∧
      Table.Covered hand_untracked lo (ids ++ hand_ids ls) st1.act_hand)
      Prod.snd (line_loop ls lc st) := by
  induction ls generalizing lc st ids with
  | nil =>
    simp only [line_loop, Flow.Ends, hand_ids, List.append_nil]
    exact ⟨le_refl _, hc⟩
  | cons l ls ih =>
    have hb := line_body_hand_ends l lc st lo ids hc
    unfold line_loop
    cases h : line_body l lc st with
    | next r =>
      obtain ⟨lc1, st1⟩ := r
      rw [h] at hb
      have := ih lc1 st1 _ hb.2
      simp only [hand_ids]
      cases hl : line_loop ls lc1 st1 with
      | next r2 =>
        rw [hl] at this
        simp only [Flow.Ends, List.append_assoc] at this ⊢
        exact ⟨le_trans hb.1 this.1, this.2⟩
      | fail w st2 =>
        rw [hl] at this
        simp only [Flow.Ends, List.append_assoc] at this ⊢
        exact ⟨le_trans hb.1 this.1, this.2⟩
      | undefined => trivial
    | fail w st1 =>
      rw [h] at hb
      simp only [Flow.Ends, hand_ids] at hb ⊢
      exact ⟨hb.1, hb.2.mono (fun y hy => by
        rcases List.mem_append.1 hy with hy | hy
        · exact List.mem_append_left _ hy
        · exact List.mem_append_right _ (List.mem_append_left _ hy))⟩
    | undefined => trivial


/-! ## The count lines and the local variables of `receive` -/

/-- The count a line gives for the keyword `kw` (`none` when it is not such a line). -/
theorem last_count_cons (kw l : List Char) (ls : List (List Char)) :
    last_count kw (l :: ls) =
      (match last_count kw ls with
        | some v => some v
        | none => if strncmp_eq l kw then (string_get_i (l.drop kw.length)).map (·.1) else none) :=
  rfl

theorem line_body_next_glcal (x : List Char) (lc lc1 : Locals) (st st1 : DTrackSDK)
    (h : line_glcal_tail x lc st = .next (lc1, st1)) :
    ∃ v r, string_get_i x = some (v, r) ∧ lc1 = { lc with loc_num_handcal := v } ∧ st1 = st := by
  rw [line_glcal_tail_eq] at h
  cases hg : string_get_i x with
  | none => rw [hg] at h; simp at h
  | some p =>
    obtain ⟨v, r⟩ := p
    rw [hg] at h
    simp only [Flow.next.injEq, Prod.mk.injEq] at h
    exact ⟨v, r, rfl, h.1.symm, h.2.symm⟩

/-- What one line does to `loc_num_bodycal`: a `6dcal ` line sets it to its count, no other
line touches it. -/
theorem line_body_bodycal (l : List Char) (lc lc1 : Locals) (st st1 : DTrackSDK)
    (h : line_body l lc st = .next (lc1, st1)) :
    lc1.loc_num_bodycal =
      (if strncmp_eq l kw_6dcal then (string_get_i (l.drop kw_6dcal.length)).map (·.1)
        else none).getD lc.loc_num_bodycal := by
  by_cases hk : strncmp_eq l kw_6dcal = true
  · have hl := strncmp_eq_split l kw_6dcal hk
    simp only [hk, if_true]
    generalize l.drop kw_6dcal.length = x at hl ⊢
    subst hl
    rw [show kw_6dcal ++ x = '6' :: 'd' :: 'c' :: 'a' :: 'l' :: ' ' :: x from rfl,
      line_body_kw_6dcal] at h
    obtain ⟨a, ha, hr⟩ := Flow.within_next h
    unfold line_6dcal at ha
    cases hg : string_get_i x with
    | none => rw [hg] at ha; simp at ha
    | some p =>
      rw [hg] at ha
      simp only [Flow.next.injEq] at ha
      simp only [Prod.mk.injEq] at hr
      rw [hr.1, ← ha]
      rfl
  · have hf : strncmp_eq l kw_6dcal = false := by simpa using hk
    simp only [hf, Bool.false_eq_true, if_false, Option.getD_none]
    revert h
    refine line_body_cases (fun r => r = .next (lc1, st1) → _) l lc st
      ?h_fr ?h_ts ?h_6dcal ?h_6d ?h_6df ?h_6df2 ?h_6dmt ?h_6dmtr ?h_glcal ?h_gl ?h_6dj ?h_3d
      ?h_other
    case h_6dcal => intro hk2; rw [hk2] at hf; cases hf
    case h_glcal =>
      intro _ h
      obtain ⟨v, r, -, rfl, -⟩ := line_body_next_glcal _ _ _ _ _ h
      rfl
    case h_other =>
      intro h
      simp only [Flow.next.injEq, Prod.mk.injEq] at h
      rw [h.1]
    all_goals
      intro _ h
      obtain ⟨a, -, ha⟩ := Flow.within_next h
      simp only [Prod.mk.injEq] at ha
      rw [ha.1]

/-- What one line does to `loc_num_flystick1`: a `6df ` line sets it to its count, no other
line touches it. -/
theorem line_body_flystick1 (l : List Char) (lc lc1 : Locals) (st st1 : DTrackSDK)
    (h : line_body l lc st = .next (lc1, st1)) :
    lc1.loc_num_flystick1 =
      (if strncmp_eq l kw_6df then (string_get_i (l.drop kw_6df.length)).map (·.1)
        else none).getD lc.loc_num_flystick1 := by
  by_cases hk : strncmp_eq l kw_6df = true
  · have hl := strncmp_eq_split l kw_6df hk
    simp only [hk, if_true]
    generalize l.drop kw_6df.length = x at hl ⊢
    subst hl
    rw [show kw_6df ++ x = '6' :: 'd' :: 'f' :: ' ' :: x from rfl, line_body_kw_6df] at h
    obtain ⟨a, ha, hr⟩ := Flow.within_next h
    unfold line_6df at ha
    cases hg : string_get_i x with
    | none => rw [hg] at ha; simp [Flow.parse, bind, Flow.bind] at ha
    | some p =>
      obtain ⟨n, s1⟩ := p
      rw [hg] at ha
      simp only [Flow.parse, bind, Flow.bind] at ha
      cases h2 : Table.adjust flystick_zero n st.act_flystick with
      | fail w t => rw [h2] at ha; simp at ha
      | undefined => rw [h2] at ha; simp at ha
      | next t1 =>
        rw [h2] at ha
        simp only at ha
        cases h3 : for_loop record_6df n.toNat 0 s1 t1 with
        | fail w t => rw [h3] at ha; simp at ha
        | undefined => rw [h3] at ha; simp at ha
        | next r =>
          rw [h3] at ha
          simp only [pure, Flow.next.injEq] at ha
          simp only [Prod.mk.injEq] at hr
          rw [hr.1, ← ha]
          rfl
  · have hf : strncmp_eq l kw_6df = false := by simpa using hk
    simp only [hf, Bool.false_eq_true, if_false, Option.getD_none]
    revert h
    refine line_body_cases (fun r => r = .next (lc1, st1) → _) l lc st
      ?h_fr ?h_ts ?h_6dcal ?h_6d ?h_6df ?h_6df2 ?h_6dmt ?h_6dmtr ?h_glcal ?h_gl ?h_6dj ?h_3d
      ?h_other
    case h_6df => intro hk2; rw [hk2] at hf; cases hf
    case h_glcal =>
      intro _ h
      obtain ⟨v, r, -, rfl, -⟩ := line_body_next_glcal _ _ _ _ _ h
      rfl
    case h_other =>
      intro h
      simp only [Flow.next.injEq, Prod.mk.injEq] at h
      rw [h.1]
    all_goals
      intro _ h
      obtain ⟨a, -, ha⟩ := Flow.within_next h
      simp only [Prod.mk.injEq] at ha
      rw [ha.1]

/-- What one line does to `loc_num_meatool`: a `6dmt ` line sets it to its count, no other
line touches it. -/
theorem line_body_meatool (l : List Char) (lc lc1 : Locals) (st st1 : DTrackSDK)
    (h : line_body l lc st = .next (lc1, st1)) :
    lc1.loc_num_meatool =
      (if strncmp_eq l kw_6dmt then (string_get_i (l.drop kw_6dmt.length)).map (·.1)
        else none).getD lc.loc_num_meatool := by
  by_cases hk : strncmp_eq l kw_6dmt = true
  · have hl := strncmp_eq_split l kw_6dmt hk
    simp only [hk, if_true]
    generalize l.drop kw_6dmt.length = x at hl ⊢
    subst hl
    rw [show kw_6dmt ++ x = '6' :: 'd' :: 'm' :: 't' :: ' ' :: x from rfl,
      line_body_kw_6dmt] at h
    obtain ⟨a, ha, hr⟩ := Flow.within_next h
    unfold line_6dmt at ha
    cases hg : string_get_i x with
    | none => rw [hg] at ha; simp [Flow.parse, bind, Flow.bind] at ha
    | some p =>
      obtain ⟨n, s1⟩ := p
      rw [hg] at ha
      simp only [Flow.parse, bind, Flow.bind] at ha
      cases h2 : Table.adjust meatool_zero n st.act_meatool with
      | fail w t => rw [h2] at ha; simp at ha
      | undefined => rw [h2] at ha; simp at ha
      | next t1 =>
        rw [h2] at ha
        simp only at ha
        cases h3 : for_loop record_6dmt n.toNat 0 s1 t1 with
        | fail w t => rw [h3] at ha; simp at ha
        | undefined => rw [h3] at ha; simp at ha
        | next r =>
          rw [h3] at ha
          simp only [pure, Flow.next.injEq] at ha
          simp only [Prod.mk.injEq] at hr
          rw [hr.1, ← ha]
          rfl
  · have hf : strncmp_eq l kw_6dmt = false := by simpa using hk
    simp only [hf, Bool.false_eq_true, if_false, Option.getD_none]
    revert h
    refine line_body_cases (fun r => r = .next (lc1, st1) → _) l lc st
      ?h_fr ?h_ts ?h_6dcal ?h_6d ?h_6df ?h_6df2 ?h_6dmt ?h_6dmtr ?h_glcal ?h_gl ?h_6dj ?h_3d
      ?h_other
    case h_6dmt => intro hk2; rw [hk2] at hf; cases hf
    case h_glcal =>
      intro _ h
      obtain ⟨v, r, -, rfl, -⟩ := line_body_next_glcal _ _ _ _ _ h
      rfl
    case h_other =>
      intro h
      simp only [Flow.next.injEq, Prod.mk.injEq] at h
      rw [h.1]
    all_goals
      intro _ h
      obtain ⟨a, -, ha⟩ := Flow.within_next h
      simp only [Prod.mk.injEq] at ha
      rw [ha.1]

/-- What one line does to `loc_num_handcal`: a `glcal ` line sets it to its count, no other
line touches it. -/
theorem line_body_handcal (l : List Char) (lc lc1 : Locals) (st st1 : DTrackSDK)
    (h : line_body l lc st = .next (lc1, st1)) :
    lc1.loc_num_handcal =
      (if strncmp_eq l kw_glcal then (string_get_i (l.drop kw_glcal.length)).map (·.1)
        else none).getD lc.loc_num_handcal := by
  by_cases hk : strncmp_eq l kw_glcal = true
  · have hl := strncmp_eq_split l kw_glcal hk
    simp only [hk, if_true]
    generalize l.drop kw_glcal.length = x at hl ⊢
    subst hl
    rw [show kw_glcal ++ x = 'g' :: 'l' :: 'c' :: 'a' :: 'l' :: ' ' :: x from rfl,
      line_body_kw_glcal] at h
    obtain ⟨v, r, hg, rfl, -⟩ := line_body_next_glcal _ _ _ _ _ h
    rw [hg]
    rfl
  · have hf : strncmp_eq l kw_glcal = false := by simpa using hk
    simp only [hf, Bool.false_eq_true, if_false, Option.getD_none]
    revert h
    refine line_body_cases (fun r => r = .next (lc1, st1) → _) l lc st
      ?h_fr ?h_ts ?h_6dcal ?h_6d ?h_6df ?h_6df2 ?h_6dmt ?h_6dmtr ?h_glcal ?h_gl ?h_6dj ?h_3d
      ?h_other
    case h_glcal => intro hk2; rw [hk2] at hf; cases hf
    case h_other =>
      intro h
      simp only [Flow.next.injEq, Prod.mk.injEq] at h
      rw [h.1]
    all_goals
      intro _ h
      obtain ⟨a, -, ha⟩ := Flow.within_next h
      simp only [Prod.mk.injEq] at ha
      rw [ha.1]

/-- The local variables behind the line loop: each is the count of the last line of its
keyword, or still its start value. -/
theorem line_loop_locals (ls : List (List Char)) (lc lc1 : Locals) (st st1 : DTrackSDK)
    (h : line_loop ls lc st = .next (lc1, st1)) :
    lc1.loc_num_bodycal = (last_count kw_6dcal ls).getD lc.loc_num_bodycal ∧
    lc1.loc_num_flystick1 = (last_count kw_6df ls).getD lc.loc_num_flystick1 ∧
    lc1.loc_num_meatool = (last_count kw_6dmt ls).getD lc.loc_num_meatool ∧
    lc1.loc_num_handcal = (last_count kw_glcal ls).getD lc.loc_num_handcal := by
  induction ls generalizing lc st with
  | nil =>
    simp only [line_loop, Flow.next.injEq, Prod.mk.injEq] at h
    rw [h.1]
    exact ⟨rfl, rfl, rfl, rfl⟩
  | cons l ls ih =>
    unfold line_loop at h
    cases hb : line_body l lc st with
    | fail w s => rw [hb] at h; simp at h
    | undefined => rw [hb] at h; simp at h
    | next r =>
      obtain ⟨lc2, st2⟩ := r
      rw [hb] at h
      obtain ⟨i1, i2, i3, i4⟩ := ih lc2 st2 h
      have b1 := line_body_bodycal l lc lc2 st st2 hb
      have b2 := line_body_flystick1 l lc lc2 st st2 hb
      have b3 := line_body_meatool l lc lc2 st st2 hb
      have b4 := line_body_handcal l lc lc2 st st2 hb
      simp only [last_count_cons]
      refine ⟨?_, ?_, ?_, ?_⟩
      · rw [i1]
        cases last_count kw_6dcal ls with
        | none => simpa using b1
        | some v => rfl
      · rw [i2]
        cases last_count kw_6df ls with
        | none => simpa using b2
        | some v => rfl
      · rw [i3]
        cases last_count kw_6dmt ls with
        | none => simpa using b3
        | some v => rfl
      · rw [i4]
        cases last_count kw_glcal ls with
        | none => simpa using b4
        | some v => rfl


/-! ## Transport failures and the data-path error (C4, C5) -/

/-- C4, as stated, fails: a session that has decoded the frame counter 10 from the packet
`"fr 10\n"` and then runs into a receive timeout reports frame counter 0 afterwards; the
snapshot is not what it was before the call. -/
theorem C4_counterexample_timeout_resets_frame_counter :
    fresh.receive (.packet pkt_fr10) = .ret true st_fr10 ∧
      st_fr10.receive udp_timeout = .ret false st_fr10_timeout ∧
      st_fr10.getFrameCounter = 10 ∧ st_fr10_timeout.getFrameCounter = 0 ∧
      st_fr10_timeout.snapshot ≠ st_fr10.snapshot := by
  decide

/-- C4, amended: if the transport read inside `receive` times out or fails (return value
`<= 0`), `receive` returns false, every entity table and its count is what it was before the
call and the data error is not `ERR_NONE`; the frame counter and the timestamp have been
reset to their defaults 0 and -1. -/
theorem C4_transport_failure_keeps_tables (st : DTrackSDK) (udp : UdpResult)
    (hport : st.isLocalDataPortValid = true) (hlen : udp.len ≤ 0) :
    ∃ st1, st.receive udp = .ret false st1 ∧ st1.tables = st.tables ∧
      st1.getLastDataError ≠ .ERR_NONE ∧
      st1.getFrameCounter = 0 ∧ st1.getTimeStamp = Dbl.minusOne := by
  unfold DTrackSDK.receive
  simp only [DTrackSDK.isLocalDataPortValid] at hport ⊢
  by_cases h1 : udp.len = -1
  · simp [hport, h1, DTrackSDK.tables, DTrackSDK.getLastDataError, DTrackSDK.getFrameCounter,
      DTrackSDK.getTimeStamp]
  · simp [hport, h1, hlen, DTrackSDK.tables, DTrackSDK.getLastDataError,
      DTrackSDK.getFrameCounter, DTrackSDK.getTimeStamp]

/-- C4 (amended), at a concrete input: the session that decoded `"fr 10\n"` meets a
timeout. -/
theorem C4_transport_failure_keeps_tables_witness :
    ∃ st1, st_fr10.receive udp_timeout = .ret false st1 ∧ st1.tables = st_fr10.tables ∧
        st1.getLastDataError ≠ .ERR_NONE ∧
        st1.getFrameCounter = 0 ∧ st1.getTimeStamp = Dbl.minusOne :=
  C4_transport_failure_keeps_tables st_fr10 udp_timeout (by decide) (by decide)

theorem frame_end_cases (lc : Locals) (st : DTrackSDK) :
    frame_end lc st = .undefined ∨
    ∃ b h, frame_end lc st =
      .ret true { (st.set_body b).set_hand h with lastDataError := .ERR_NONE } := by
  unfold frame_end
  cases reconcile_body lc st.act_body with
  | next b =>
    cases reconcile_hand lc st.act_hand with
    | next h => right; exact ⟨b, h, rfl⟩
    | fail _ _ => left; rfl
    | undefined => left; rfl
  | fail _ _ => left; rfl
  | undefined => left; rfl

/-- What `decode` returns, by the result of the line loop. -/
theorem decode_ret (ls : List (List Char)) (st : DTrackSDK) (b : Bool) (st1 : DTrackSDK)
    (h : decode ls st = .ret b st1) :
    (b = true ∧ st1.lastDataError = .ERR_NONE ∧
      ∃ lc st2, line_loop ls Locals.defaults st = .next (lc, st2)) ∨
    (b = false ∧ st1.lastDataError = st.lastDataError ∧
      ∃ w, line_loop ls Locals.defaults st = .fail w st1) := by
  unfold decode at h
  cases hl : line_loop ls Locals.defaults st with
  | next r =>
    obtain ⟨lc, st2⟩ := r
    rw [hl] at h
    simp only at h
    rcases frame_end_cases lc st2 with hu | ⟨bb, hh, he⟩
    · rw [hu] at h; simp at h
    · rw [he] at h
      simp only [Outcome.ret.injEq] at h
      obtain ⟨rfl, rfl⟩ := h
      exact Or.inl ⟨rfl, rfl, lc, st2, rfl⟩
  | fail w s =>
    rw [hl] at h
    simp only [Outcome.ret.injEq] at h
    obtain ⟨rfl, rfl⟩ := h
    have := (line_loop_session ls Locals.defaults st).2 _ _ hl
    simp only [DTrackSDK.session, Session.mk.injEq] at this
    exact Or.inr ⟨rfl, this.2.2.2.1, w, rfl⟩
  | undefined => rw [hl] at h; simp at h

/-- C5: whenever `receive` returns, it returns true exactly when the data error is
`ERR_NONE` afterwards; the error is `ERR_TIMEOUT` exactly when the transport was asked and
returned -1, `ERR_NET` exactly when the local data port is invalid or the transport returned
another value `<= 0`, and `ERR_PARSE` exactly when a packet of positive length was read and
the line loop stopped at a failing line. -/
theorem C5_receive_error_reporting (st : DTrackSDK) (udp : UdpResult) (b : Bool)
    (st1 : DTrackSDK) (h : st.receive udp = .ret b st1) :
    (b = true ↔ st1.getLastDataError = .ERR_NONE) ∧
    (st1.getLastDataError = .ERR_TIMEOUT ↔
      st.isLocalDataPortValid = true ∧ udp.len = -1) ∧
    (st1.getLastDataError = .ERR_NET ↔
      st.isLocalDataPortValid = false ∨ (udp.len ≠ -1 ∧ udp.len ≤ 0)) ∧
    (st1.getLastDataError = .ERR_PARSE ↔
      st.isLocalDataPortValid = true ∧ 0 < udp.len ∧
      ∃ w stF, line_loop (string_lines udp.text) Locals.defaults st.frame_start = .fail w stF) := by
  unfold DTrackSDK.receive at h
  simp only [DTrackSDK.isLocalDataPortValid, DTrackSDK.getLastDataError] at h ⊢
  by_cases hp : st.d_udpsock = true
  · simp only [hp, Bool.not_true, Bool.false_eq_true, if_false] at h
    by_cases h1 : udp.len = -1
    · simp only [h1, if_true, Outcome.ret.injEq] at h
      obtain ⟨rfl, rfl⟩ := h
      simp [hp, h1]
    · simp only [h1, if_false] at h
      by_cases h2 : udp.len ≤ 0
      · simp only [h2, if_true, Outcome.ret.injEq] at h
        obtain ⟨rfl, rfl⟩ := h
        simp [hp, h1, h2]
      · simp only [h2, if_false] at h
        have hpos : 0 < udp.len := by omega
        rcases decode_ret _ _ _ _ h with ⟨rfl, he, lc, st2, hl⟩ | ⟨rfl, he, w, hl⟩
        · simp [he, hp, h1, h2, hl]
        · have he2 : st1.lastDataError = .ERR_PARSE := by rw [he]; rfl
          simp only [he2, hp, h1, h2, hpos, true_and, false_and, or_false]
          simp
          exact ⟨_, _, hl⟩
  · have hp2 : st.d_udpsock = false := by simpa using hp
    simp only [hp2, Bool.not_false, if_true, Outcome.ret.injEq] at h
    obtain ⟨rfl, rfl⟩ := h
    simp [hp2]

/-- C5 at a concrete input: the fresh session decodes the packet `"fr 10\n"`. -/
theorem C5_receive_error_reporting_witness :
    fresh.receive (.packet pkt_fr10) = .ret true st_fr10 ∧
      ((true = true ↔ st_fr10.getLastDataError = .ERR_NONE) ∧
      (st_fr10.getLastDataError = .ERR_TIMEOUT ↔
        fresh.isLocalDataPortValid = true ∧ (UdpResult.packet pkt_fr10).len = -1) ∧
      (st_fr10.getLastDataError = .ERR_NET ↔
        fresh.isLocalDataPortValid = false ∨
          ((UdpResult.packet pkt_fr10).len ≠ -1 ∧ (UdpResult.packet pkt_fr10).len ≤ 0)) ∧
      (st_fr10.getLastDataError = .ERR_PARSE ↔
        fresh.isLocalDataPortValid = true ∧ 0 < (UdpResult.packet pkt_fr10).len ∧
        ∃ w stF, line_loop (string_lines (UdpResult.packet pkt_fr10).text) Locals.defaults
          fresh.frame_start = .fail w stF)) :=
  ⟨by decide, C5_receive_error_reporting fresh (.packet pkt_fr10) true st_fr10 (by decide)⟩

/-! ## The frame counter, timestamp and single marker lines (C1) -/

theorem line_body_wire_fr (n : UIntTok) (lc : Locals) (st : DTrackSDK) :
    line_body (wire_fr n) lc st = .next (lc, st.set_framecounter (n.val % 4294967296)) := by
  rw [wire_fr, render, line_body_kw_fr, line_fr, (string_get_ui_tok n []).1]
  rfl

theorem line_body_wire_ts (t : DblTok) (lc : Locals) (st : DTrackSDK) :
    line_body (wire_ts t) lc st = .next (lc, st.set_timestamp t.val) := by
  rw [wire_ts, render, line_body_kw_ts, line_ts, (string_get_d_tok t []).1]
  rfl

/-- One well-formed marker record is stored in slot `i`. -/
theorem record_3d_wire (r : MarkerWire) (ts : List (List Char)) (i : Nat)
    (t : Table DTrack_Marker_Type_d) (hi : i < t.vec.length) :
    record_3d (i : Int) (render (r.tokens ++ ts)) t =
      .next (render ts, { t with vec := t.vec.set i r.value }) := by
  have hb1 := string_get_block_render [Tok.i r.id, Tok.d r.quality] (r.loc.map (·.text) ++ ts)
  have hb2 := string_get_block_dbls r.loc ts
  rw [r.loc_len] at hb2
  simp only [List.map_cons, List.map_nil, Tok.text, Tok.fmt, List.cons_append,
    List.nil_append, Tok.ints, Tok.dbls] at hb1
  rw [show (List.replicate 3 'd') = ['d', 'd', 'd'] from rfl] at hb2
  unfold record_3d
  simp only [MarkerWire.tokens, List.cons_append, fmt_id, fmt_ddd, hb1, Flow.parse, bind,
    Flow.bind, List.getD_cons_zero, Table.update_nat t i _ hi, hb2]
  rw [Table.update_nat _ i _ (by simpa using hi)]
  simp only [List.get_eq_getElem, List.getElem_set_self, List.set_set, pure,
    MarkerWire.value]

/-- The marker loop on `recs.length` well-formed records, from slot `i`. -/
theorem for_loop_record_3d_wire (recs : List MarkerWire) (ts : List (List Char)) (i : Nat)
    (t : Table DTrack_Marker_Type_d) (hsz : i + recs.length ≤ t.vec.length) :
    ∃ v, for_loop record_3d recs.length (i : Int)
        (render (MarkerWire.all_tokens recs ++ ts)) t = .next (render ts, { t with vec := v }) ∧
      v.length = t.vec.length ∧
      (∀ j, j < i → v[j]? = t.vec[j]?) ∧
      (∀ k (hk : k < recs.length), v[i + k]? = some (recs[k].value)) := by
  induction recs generalizing i t with
  | nil =>
    exact ⟨t.vec, rfl, rfl, fun _ _ => rfl, fun k hk => absurd hk (by simp)⟩
  | cons r recs ih =>
    have hi : i < t.vec.length := by simp only [List.length_cons] at hsz; omega
    have hstep := record_3d_wire r (MarkerWire.all_tokens recs ++ ts) i t hi
    have hsz' : (i + 1) + recs.length ≤ ({ t with vec := t.vec.set i r.value } :
        Table DTrack_Marker_Type_d).vec.length := by
      simp only [List.length_cons, List.length_set] at hsz ⊢
      omega
    obtain ⟨v, hv, hlen, hlow, hrec⟩ := ih (i + 1) _ hsz'
    refine ⟨v, ?_, ?_, ?_, ?_⟩
    · simp only [List.length_cons, for_loop, MarkerWire.all_tokens, List.append_assoc, hstep]
      have e : ((i : Int) + 1) = ((i + 1 : Nat) : Int) := by omega
      rw [e]
      exact hv
    · simpa using hlen
    · intro j hj
      rw [hlow j (by omega)]
      simp only [List.getElem?_set]
      have : ¬ i = j := by omega
      simp [this]
    · intro k hk
      cases k with
      | zero =>
        rw [Nat.add_zero, hlow i (by omega)]
        simp [List.getElem?_set, hi]
      | succ k =>
        have := hrec k (by simpa using hk)
        rw [show i + (k + 1) = i + 1 + k by omega, this]
        simp

/-- The line `3d n` with `n` well-formed records: the marker count is `n` and slot `k` holds
the `k`-th record. -/
theorem line_body_wire_3d (n : IntTok) (recs : List MarkerWire) (hn : n.val = recs.length)
    (lc : Locals) (st : DTrackSDK) :
    ∃ v, line_body (wire_3d n recs) lc st = .next (lc, st.set_marker ⟨n.val, v⟩) ∧
      ∀ k (hk : k < recs.length), v[k]? = some (recs[k].value) := by
  rw [wire_3d, render, line_body_kw_3d]
  unfold line_3d
  rw [(string_get_i_tok n _).1]
  simp only [hn]
  by_cases hgt : (recs.length : Int) > (st.act_marker.vec.length : Int)
  · have hlen : recs.length ≤ (st.act_marker.vec.take recs.length ++
        List.replicate (recs.length - st.act_marker.vec.length) marker_zero).length := by
      simp only [List.length_append, List.length_take, List.length_replicate]
      omega
    obtain ⟨v, hv, -, -, hrec⟩ := for_loop_record_3d_wire recs [] 0
      ⟨recs.length, st.act_marker.vec.take recs.length ++
        List.replicate (recs.length - st.act_marker.vec.length) marker_zero⟩
      (by simpa using hlen)
    refine ⟨v, ?_, fun k hk => by simpa using hrec k hk⟩
    simp only [List.append_nil, Nat.cast_zero] at hv
    have hneg : ¬ ((recs.length : Int) < 0) := by omega
    simp only [hgt, if_true, vec_resize, hneg, if_false, Flow.mem, bind, Flow.bind, pure,
      Int.toNat_ofNat, hv, Flow.within]
  · obtain ⟨v, hv, -, -, hrec⟩ := for_loop_record_3d_wire recs [] 0
      ⟨recs.length, st.act_marker.vec⟩ (by simp only [Nat.zero_add]; omega)
    refine ⟨v, ?_, fun k hk => by simpa using hrec k hk⟩
    simp only [List.append_nil, Nat.cast_zero] at hv
    simp only [hgt, if_false, bind, Flow.bind, pure, Int.toNat_ofNat, hv, Flow.within]

theorem wire_3d_lineChar (n : IntTok) (recs : List MarkerWire) :
    ∀ c ∈ wire_3d n recs, lineChar c = true := by
  have hall : ∀ t ∈ MarkerWire.all_tokens recs, ∀ c ∈ t, tokChar c = true := by
    induction recs with
    | nil => simp [MarkerWire.all_tokens]
    | cons r recs ih =>
      intro t ht
      simp only [MarkerWire.all_tokens, MarkerWire.tokens, List.cons_append, List.mem_cons,
        List.mem_append, List.mem_map] at ht
      rcases ht with rfl | rfl | ⟨d, -, rfl⟩ | ht
      · exact (intOfToken_ok _ _ r.id.ok).2
      · exact (dblOfToken_ok _ _ r.quality.ok).2
      · exact (dblOfToken_ok _ _ d.ok).2
      · exact ih t ht
  intro c hc
  simp only [wire_3d, List.mem_cons] at hc
  rcases hc with rfl | rfl | hc
  · decide
  · decide
  · refine render_lineChar _ ?_ c hc
    intro t ht
    rcases List.mem_cons.1 ht with rfl | ht
    · exact (intOfToken_ok _ _ n.ok).2
    · exact hall t ht

/-- The decoder on a packet whose line loop stops at line `l` behind the lines `ls1`. -/
theorem receive_fail_at (st : DTrackSDK) (udp : UdpResult) (ls1 ls2 : List (List Char))
    (l : List Char) (lc1 : Locals) (st1 stF : DTrackSDK) (w : Stop)
    (hport : st.isLocalDataPortValid = true) (hlen : 0 < udp.len)
    (hsplit : string_lines udp.text = ls1 ++ l :: ls2)
    (hpre : line_loop ls1 Locals.defaults st.frame_start = .next (lc1, st1))
    (hfail : line_body l lc1 st1 = .fail w stF) :
    st.receive udp = .ret false stF ∧ stF.lastDataError = .ERR_PARSE := by
  have hloop : line_loop (string_lines udp.text) Locals.defaults st.frame_start =
      .fail w stF := by
    rw [hsplit, line_loop_append, hpre]
    simp only [line_loop, hfail]
  have hses := (line_loop_session _ _ _).2 _ _ hloop
  simp only [DTrackSDK.session, Session.mk.injEq] at hses
  refine ⟨?_, hses.2.2.2.1.trans rfl⟩
  unfold DTrackSDK.receive
  simp only [DTrackSDK.isLocalDataPortValid] at hport
  have h1 : ¬ udp.len = -1 := by omega
  have h2 : ¬ udp.len ≤ 0 := by omega
  simp only [DTrackSDK.isLocalDataPortValid, hport, Bool.not_true, Bool.false_eq_true,
    if_false, h1, h2, decode, hloop]

/-- C3, as stated, fails: the line `6d 1 0 1.0 ..` gives body 0 the quality 1; when the
truncated line `6d 1 0` follows it in the same packet, `receive` returns false and body 0
has quality -1, not the value the preceding line gave it. -/
theorem C3_counterexample_failing_line_overwrites :
    (fresh.receive (.packet pkt_6d_one)).returned = some true ∧
    ((fresh.receive (.packet pkt_6d_one)).state.bind (·.getBody 0)).map (·.quality)
      = some 1 ∧
    (fresh.receive (.packet pkt_6d_one_then_cut)).returned = some false ∧
    ((fresh.receive (.packet pkt_6d_one_then_cut)).state.bind (·.getBody 0)).map (·.quality)
      = some Dbl.minusOne := by
  decide

/-- What the `return false` of a line can have changed: only the member that the line's
keyword addresses. -/
theorem line_body_fail_frame (l : List Char) (lc : Locals) (st stF : DTrackSDK) (w : Stop)
    (h : line_body l lc st = .fail w stF) :
    (strncmp_eq l kw_fr = false → stF.act_framecounter = st.act_framecounter) ∧
    (strncmp_eq l kw_ts = false → stF.act_timestamp = st.act_timestamp) ∧
    (strncmp_eq l kw_6d = false → stF.act_body = st.act_body) ∧
    (strncmp_eq l kw_6df = false → strncmp_eq l kw_6df2 = false →
      stF.act_flystick = st.act_flystick) ∧
    (strncmp_eq l kw_6dmt = false → stF.act_meatool = st.act_meatool) ∧
    (strncmp_eq l kw_6dmtr = false → stF.act_mearef = st.act_mearef) ∧
    (strncmp_eq l kw_gl = false → stF.act_hand = st.act_hand) ∧
    (strncmp_eq l kw_6dj = false → stF.act_human = st.act_human) ∧
    (strncmp_eq l kw_3d = false → stF.act_marker = st.act_marker) := by
  revert h
  refine line_body_cases (fun r => r = .fail w stF → _) l lc st
    ?h_fr ?h_ts ?h_6dcal ?h_6d ?h_6df ?h_6df2 ?h_6dmt ?h_6dmtr ?h_glcal ?h_gl ?h_6dj ?h_3d ?h_other
  case h_glcal =>
    intro _ h
    rw [line_glcal_tail_eq] at h
    cases hg : string_get_i (l.drop 6) with
    | none =>
      rw [hg] at h
      simp only [Flow.fail.injEq] at h
      obtain ⟨-, rfl⟩ := h
      simp
    | some p => rw [hg] at h; simp at h
  case h_other => intro h; simp at h
  all_goals
    intro hk h
    obtain ⟨t, -, rfl⟩ := Flow.within_fail h
    simp [hk, DTrackSDK.set_framecounter, DTrackSDK.set_timestamp, DTrackSDK.set_body,
      DTrackSDK.set_flystick, DTrackSDK.set_meatool, DTrackSDK.set_mearef, DTrackSDK.set_hand,
      DTrackSDK.set_human, DTrackSDK.set_marker]

/-- C3, amended: when decoding fails at a line, `receive` returns false in the state that
the preceding lines produced and the failing line itself changed up to its `return false`;
nothing is rolled back, and every member that the failing line's keyword does not address
(frame counter, timestamp, each entity table with its count) holds exactly the value the
preceding lines gave it. -/
theorem C3_failure_keeps_other_members (st : DTrackSDK) (udp : UdpResult)
    (ls1 ls2 : List (List Char)) (l : List Char) (lc1 : Locals) (st1 stF : DTrackSDK)
    (w : Stop) (hport : st.isLocalDataPortValid = true) (hlen : 0 < udp.len)
    (hsplit : string_lines udp.text = ls1 ++ l :: ls2)
    (hpre : line_loop ls1 Locals.defaults st.frame_start = .next (lc1, st1))
    (hfail : line_body l lc1 st1 = .fail w stF) :
    st.receive udp = .ret false stF ∧
    (strncmp_eq l kw_fr = false → stF.act_framecounter = st1.act_framecounter) ∧
    (strncmp_eq l kw_ts = false → stF.act_timestamp = st1.act_timestamp) ∧
    (strncmp_eq l kw_6d = false → stF.act_body = st1.act_body) ∧
    (strncmp_eq l kw_6df = false → strncmp_eq l kw_6df2 = false →
      stF.act_flystick = st1.act_flystick) ∧
    (strncmp_eq l kw_6dmt = false → stF.act_meatool = st1.act_meatool) ∧
    (strncmp_eq l kw_6dmtr = false → stF.act_mearef = st1.act_mearef) ∧
    (strncmp_eq l kw_gl = false → stF.act_hand = st1.act_hand) ∧
    (strncmp_eq l kw_6dj = false → stF.act_human = st1.act_human) ∧
    (strncmp_eq l kw_3d = false → stF.act_marker = st1.act_marker) :=
  ⟨(receive_fail_at st udp ls1 ls2 l lc1 st1 stF w hport hlen hsplit hpre hfail).1,
    line_body_fail_frame l lc1 st1 stF w hfail⟩


/-- C3 (amended) at a concrete input: in the packet `"3d 1 7 0.5 1 2 3\n6d 1 0\n"` the
marker line is decoded, the truncated body line fails, and the marker table (like every
member but the body table) is what the marker line made it. -/
theorem C3_failure_keeps_other_members_witness :
    fresh.receive (.packet pkt_3d_then_cut) = .ret false st_marker7 ∧
    (strncmp_eq "6d 1 0".toList kw_fr = false →
      st_marker7.act_framecounter = st_marker7.act_framecounter) ∧
    (strncmp_eq "6d 1 0".toList kw_ts = false →
      st_marker7.act_timestamp = st_marker7.act_timestamp) ∧
    (strncmp_eq "6d 1 0".toList kw_6d = false → st_marker7.act_body = st_marker7.act_body) ∧
    (strncmp_eq "6d 1 0".toList kw_6df = false → strncmp_eq "6d 1 0".toList kw_6df2 = false →
      st_marker7.act_flystick = st_marker7.act_flystick) ∧
    (strncmp_eq "6d 1 0".toList kw_6dmt = false →
      st_marker7.act_meatool = st_marker7.act_meatool) ∧
    (strncmp_eq "6d 1 0".toList kw_6dmtr = false →
      st_marker7.act_mearef = st_marker7.act_mearef) ∧
    (strncmp_eq "6d 1 0".toList kw_gl = false → st_marker7.act_hand = st_marker7.act_hand) ∧
    (strncmp_eq "6d 1 0".toList kw_6dj = false →
      st_marker7.act_human = st_marker7.act_human) ∧
    (strncmp_eq "6d 1 0".toList kw_3d = false →
      st_marker7.act_marker = st_marker7.act_marker) :=
  C3_failure_keeps_other_members fresh (.packet pkt_3d_then_cut) ["3d 1 7 0.5 1 2 3".toList]
    [[]] "6d 1 0".toList Locals.defaults st_marker7 st_marker7 .number
    (by decide) (by decide) (by decide) (by decide) (by decide)

/-! ## Receiving the same packet twice (C8) -/

/-- C8 fails on the code at this input: on a fresh session the packet
`"6df 1 ..\n6d 1 0 ..\n6dcal 0\n"` is decoded with result true and leaves the body count
`0 - 1 - 0 = -1`; the second `receive` of the same packet then runs the growth loop of the
`6d ` record from `j = -1` and writes `act_body[-1]`: it has no defined behaviour, so there
is no second return value and no second snapshot to compare. -/
theorem C8_second_receive_out_of_range :
    (fresh.receive (.packet pkt_cal_below_flysticks)).returned = some true ∧
    (fresh.receive (.packet pkt_cal_below_flysticks)).state.map (·.getNumBody) = some (-1) ∧
    (fresh.receive (.packet pkt_cal_below_flysticks)).then_receive
      (.packet pkt_cal_below_flysticks) = .undefined := by
  decide

/-! ## The end of a frame and the counts of bodies and hands (C6, C7, C10) -/

theorem frame_end_ret {lc : Locals} {st st1 : DTrackSDK} {b : Bool}
    (h : frame_end lc st = .ret b st1) :
    b = true ∧ ∃ tb th, reconcile_body lc st.act_body = .next tb ∧
      reconcile_hand lc st.act_hand = .next th ∧
      st1 = { (st.set_body tb).set_hand th with lastDataError := .ERR_NONE } := by
  unfold frame_end at h
  cases hb : reconcile_body lc st.act_body with
  | next tb =>
    rw [hb] at h
    simp only at h
    cases hh : reconcile_hand lc st.act_hand with
    | next th =>
      rw [hh] at h
      simp only [Outcome.ret.injEq] at h
      exact ⟨h.1.symm, tb, th, rfl, rfl, h.2.symm⟩
    | fail w t => rw [hh] at h; simp at h
    | undefined => rw [hh] at h; simp at h
  | fail w t => rw [hb] at h; simp at h
  | undefined => rw [hb] at h; simp at h

/-- The ways `receive` returns: without touching a table, or from the decoder. -/
theorem receive_ret_cases (st : DTrackSDK) (udp : UdpResult) (b : Bool) (st1 : DTrackSDK)
    (h : st.receive udp = .ret b st1) :
    (b = false ∧ st1.tables = st.tables) ∨
    decode (string_lines udp.text) st.frame_start = .ret b st1 := by
  unfold DTrackSDK.receive at h
  simp only at h
  split at h
  · simp only [Outcome.ret.injEq] at h
    obtain ⟨rfl, rfl⟩ := h
    exact Or.inl ⟨rfl, rfl⟩
  · split at h
    · simp only [Outcome.ret.injEq] at h
      obtain ⟨rfl, rfl⟩ := h
      exact Or.inl ⟨rfl, rfl⟩
    · split at h
      · simp only [Outcome.ret.injEq] at h
        obtain ⟨rfl, rfl⟩ := h
        exact Or.inl ⟨rfl, rfl⟩
      · exact Or.inr h

theorem decode_ret_cases (ls : List (List Char)) (st : DTrackSDK) (b : Bool) (st1 : DTrackSDK)
    (h : decode ls st = .ret b st1) :
    (b = false ∧ ∃ w, line_loop ls Locals.defaults st = .fail w st1) ∨
    (b = true ∧ ∃ lc st2, line_loop ls Locals.defaults st = .next (lc, st2) ∧
      frame_end lc st2 = .ret true st1) := by
  unfold decode at h
  cases hl : line_loop ls Locals.defaults st with
  | next r =>
    obtain ⟨lc, st2⟩ := r
    rw [hl] at h
    simp only at h
    have := (frame_end_ret h).1
    subst this
    exact Or.inr ⟨rfl, lc, st2, rfl, h⟩
  | fail w s =>
    rw [hl] at h
    simp only [Outcome.ret.injEq] at h
    obtain ⟨rfl, rfl⟩ := h
    exact Or.inl ⟨rfl, w, rfl⟩
  | undefined => rw [hl] at h; simp at h

theorem Table.Covered.vacuous {α : Type} (d : Int → α → Prop) (ids : List Int) (t : Table α) :
    Table.Covered d t.num ids t := by
  intro j h1 h2
  omega

theorem reconcile_body_next {lc : Locals} {t t1 : Table DTrack_Body_Type_d}
    (h : reconcile_body lc t = .next t1) {lo : Int} {ids : List Int}
    (hc : Table.Covered body_untracked lo ids t) :
    Table.Covered body_untracked lo ids t1 ∧
    (0 ≤ lc.loc_num_bodycal →
      t1.num = lc.loc_num_bodycal - lc.loc_num_flystick1 - lc.loc_num_meatool) ∧
    (lc.loc_num_bodycal < 0 → t1 = t) := by
  unfold reconcile_body at h
  split at h
  · rename_i hge
    obtain ⟨hn, hc1⟩ := Table.reconcile_next body_disabled_untracked h hc
    exact ⟨hc1, fun _ => hn, fun hlt => absurd hlt (by omega)⟩
  · rename_i hlt
    simp only [pure, Flow.next.injEq] at h
    subst h
    exact ⟨hc, fun hge => absurd hge (by omega), fun _ => rfl⟩

theorem reconcile_hand_next {lc : Locals} {t t1 : Table DTrack_Hand_Type_d}
    (h : reconcile_hand lc t = .next t1) {lo : Int} {ids : List Int}
    (hc : Table.Covered hand_untracked lo ids t) :
    Table.Covered hand_untracked lo ids t1 ∧
    (0 ≤ lc.loc_num_handcal → t1.num = lc.loc_num_handcal) ∧
    (lc.loc_num_handcal < 0 → t1 = t) := by
  unfold reconcile_hand at h
  split at h
  · rename_i hge
    obtain ⟨hn, hc1⟩ := Table.reconcile_next hand_disabled_untracked h hc
    exact ⟨hc1, fun _ => hn, fun hlt => absurd hlt (by omega)⟩
  · rename_i hlt
    simp only [pure, Flow.next.injEq] at h
    subst h
    exact ⟨hc, fun hge => absurd hge (by omega), fun _ => rfl⟩

theorem line_body_6d_all (l : List Char) (h : strncmp_eq l kw_6d = true) (lc : Locals)
    (st : DTrackSDK) (lo : Int) :
    Flow.Ends (fun st1 => Table.Covered body_untracked lo (ids_6d_line (l.drop 3)) st1.act_body)
      Prod.snd (line_body l lc st) := by
  have hl := strncmp_eq_split l kw_6d h
  have hd : l.drop 3 = l.drop kw_6d.length := rfl
  rw [hd]
  generalize l.drop kw_6d.length = x at hl ⊢
  subst hl
  have h' : strncmp_eq (kw_6d ++ x) kw_6d = true := h
  rw [show kw_6d ++ x = '6' :: 'd' :: ' ' :: x from rfl] at h' ⊢
  rw [line_body_kw_6d]
  have := line_6d_ends x st.act_body lo
  refine Flow.within_ends _ _ _ _ ?_ ?_
  · intro a ha
    rw [ha] at this
    exact this.2
  · intro w t ht
    rw [ht] at this
    exact this.2

theorem line_body_gl_all (l : List Char) (h : strncmp_eq l kw_gl = true) (lc : Locals)
    (st : DTrackSDK) (lo : Int) :
    Flow.Ends (fun st1 => Table.Covered hand_untracked lo (ids_gl_line (l.drop 3)) st1.act_hand)
      Prod.snd (line_body l lc st) := by
  have hl := strncmp_eq_split l kw_gl h
  have hd : l.drop 3 = l.drop kw_gl.length := rfl
  rw [hd]
  generalize l.drop kw_gl.length = x at hl ⊢
  subst hl
  have h' : strncmp_eq (kw_gl ++ x) kw_gl = true := h
  rw [show kw_gl ++ x = 'g' :: 'l' :: ' ' :: x from rfl] at h' ⊢
  rw [line_body_kw_gl]
  have := line_gl_ends x st.act_hand lo
  refine Flow.within_ends _ _ _ _ ?_ ?_
  · intro a ha
    rw [ha] at this
    exact this.2
  · intro w t ht
    rw [ht] at this
    exact this.2

/-- Once a packet had a `6d ` line, every body slot is "not tracked" or described by one of
the packet's body records. -/
theorem line_loop_body_all (ls : List (List Char)) (lc : Locals) (st : DTrackSDK)
    (h6d : ∃ l ∈ ls, strncmp_eq l kw_6d = true) (lc1 : Locals) (st1 : DTrackSDK)
    (h : line_loop ls lc st = .next (lc1, st1)) :
    Table.Covered body_untracked 0 (body_ids ls) st1.act_body := by
  induction ls generalizing lc st with
  | nil => simp at h6d
  | cons l ls ih =>
    unfold line_loop at h
    cases hb : line_body l lc st with
    | next r =>
      obtain ⟨lc2, st2⟩ := r
      rw [hb] at h
      simp only at h
      by_cases hk : strncmp_eq l kw_6d = true
      · have h1 := line_body_6d_all l hk lc st 0
        rw [hb] at h1
        have h2 := line_loop_body_ends ls lc2 st2 0 _ h1
        rw [h] at h2
        simp only [body_ids, hk, if_true]
        exact h2.2
      · have hf : strncmp_eq l kw_6d = false := by simpa using hk
        obtain ⟨l0, hm, h0⟩ := h6d
        rcases List.mem_cons.1 hm with rfl | hm
        · rw [hf] at h0
          cases h0
        · simp only [body_ids, hf, Bool.false_eq_true, if_false, List.nil_append]
          exact ih lc2 st2 ⟨l0, hm, h0⟩ h
    | fail w s => rw [hb] at h; simp at h
    | undefined => rw [hb] at h; simp at h

/-- Once a packet had a `gl ` line, every hand slot is "not tracked" or described by one of
the packet's hand records. -/
theorem line_loop_hand_all (ls : List (List Char)) (lc : Locals) (st : DTrackSDK)
    (hgl : ∃ l ∈ ls, strncmp_eq l kw_gl = true) (lc1 : Locals) (st1 : DTrackSDK)
    (h : line_loop ls lc st = .next (lc1, st1)) :
    Table.Covered hand_untracked 0 (hand_ids ls) st1.act_hand := by
  induction ls generalizing lc st with
  | nil => simp at hgl
  | cons l ls ih =>
    unfold line_loop at h
    cases hb : line_body l lc st with
    | next r =>
      obtain ⟨lc2, st2⟩ := r
      rw [hb] at h
      simp only at h
      by_cases hk : strncmp_eq l kw_gl = true
      · have h1 := line_body_gl_all l hk lc st 0
        rw [hb] at h1
        have h2 := line_loop_hand_ends ls lc2 st2 0 _ h1
        rw [h] at h2
        simp only [hand_ids, hk, if_true]
        exact h2.2
      · have hf : strncmp_eq l kw_gl = false := by simpa using hk
        obtain ⟨l0, hm, h0⟩ := hgl
        rcases List.mem_cons.1 hm with rfl | hm
        · rw [hf] at h0
          cases h0
        · simp only [hand_ids, hf, Bool.false_eq_true, if_false, List.nil_append]
          exact ih lc2 st2 ⟨l0, hm, h0⟩ h
    | fail w s => rw [hb] at h; simp at h
    | undefined => rw [hb] at h; simp at h

theorem Table.Covered.at {α : Type} {d : Int → α → Prop} {lo : Int} {ids : List Int}
    {t : Table α} (hc : Table.Covered d lo ids t) (j : Nat) (h1 : lo ≤ (j : Int))
    (h2 : (j : Int) < t.num) (h3 : (j : Int) ∉ ids) : ∃ b, t.at j = some b ∧ d j b := by
  obtain ⟨b, hb, hd⟩ := hc j h1 h2
  rcases hd with hd | hd
  · refine ⟨b, ?_, hd⟩
    unfold Table.at
    rw [if_pos ⟨by omega, h2⟩]
    simpa using hb
  · exact absurd hd h3

theorem last_count_none (kw : List Char) (ls : List (List Char))
    (h : ∀ l ∈ ls, strncmp_eq l kw = false) : last_count kw ls = none := by
  induction ls with
  | nil => rfl
  | cons l ls ih =>
    rw [last_count_cons]
    have h1 := h l (List.mem_cons_self _ _)
    have h2 := ih (fun x hx => h x (List.mem_cons_of_mem _ hx))
    simp [h1, h2]

/-- C7, as stated, fails: a session whose body 0 is tracked (quality 1) decodes the packet
`"6dcal 1\n"` with result true; the count is 1, the packet has no body record, and body
0 still has the quality 1 of the frame before. -/
theorem C7_counterexample_count_line_alone_keeps_slots :
    (st_6d_one.receive (.packet pkt_cal1)).returned = some true ∧
    (st_6d_one.receive (.packet pkt_cal1)).state.map (·.getNumBody) = some 1 ∧
    body_ids (string_lines (UdpResult.packet pkt_cal1).text) = [] ∧
    ((st_6d_one.receive (.packet pkt_cal1)).state.bind (·.getBody 0)).map (·.quality)
      = some 1 := by
  decide

/-- C7, amended: after a successful `receive` of a packet that has a `6d ` line (a `gl `
line), with or without a count line, every body (hand) slot below the resulting count whose
index is the id of no body (hand) record of the packet is "not tracked": its `quality` is
exactly -1 and its `id` is the index. A count line alone resets no slot. -/
theorem C7_undescribed_slots_not_tracked (st : DTrackSDK) (udp : UdpResult) (st1 : DTrackSDK)
    (h : st.receive udp = .ret true st1) :
    ((∃ l ∈ string_lines udp.text, strncmp_eq l kw_6d = true) →
      ∀ j : Nat, (j : Int) < st1.getNumBody → (j : Int) ∉ body_ids (string_lines udp.text) →
        ∃ b, st1.getBody j = some b ∧ b.id = j ∧ b.quality = Dbl.minusOne) ∧
    ((∃ l ∈ string_lines udp.text, strncmp_eq l kw_gl = true) →
      ∀ j : Nat, (j : Int) < st1.getNumHand → (j : Int) ∉ hand_ids (string_lines udp.text) →
        ∃ h, st1.getHand j = some h ∧ h.id = j ∧ h.quality = Dbl.minusOne) := by
  rcases receive_ret_cases st udp true st1 h with ⟨hf, -⟩ | hd
  · cases hf
  rcases decode_ret_cases _ _ _ _ hd with ⟨hf, -⟩ | ⟨-, lc, st2, hl, he⟩
  · cases hf
  obtain ⟨-, tb, th, hb, hh, rfl⟩ := frame_end_ret he
  constructor
  · intro h6d j hj hn
    have hc := line_loop_body_all _ _ _ h6d _ _ hl
    have rb := (reconcile_body_next hb hc).1
    exact rb.at j (by omega) hj hn
  · intro hgl j hj hn
    have hc := line_loop_hand_all _ _ _ hgl _ _ hl
    have rh := (reconcile_hand_next hh hc).1
    exact rh.at j (by omega) hj hn

/-- C7 (amended) at a concrete input: the packet `"6d 1 4 ..\n6dcal 2\n"` on a fresh
session, whose slots 0 and 1 are "not tracked". -/
theorem C7_undescribed_slots_not_tracked_witness :
    ((∃ l ∈ string_lines (UdpResult.packet pkt_body4_cal2).text, strncmp_eq l kw_6d = true) →
      ∀ j : Nat, (j : Int) < st_body4_cal2.getNumBody →
        (j : Int) ∉ body_ids (string_lines (UdpResult.packet pkt_body4_cal2).text) →
        ∃ b, st_body4_cal2.getBody j = some b ∧ b.id = j ∧ b.quality = Dbl.minusOne) ∧
    ((∃ l ∈ string_lines (UdpResult.packet pkt_body4_cal2).text, strncmp_eq l kw_gl = true) →
      ∀ j : Nat, (j : Int) < st_body4_cal2.getNumHand →
        (j : Int) ∉ hand_ids (string_lines (UdpResult.packet pkt_body4_cal2).text) →
        ∃ h, st_body4_cal2.getHand j = some h ∧ h.id = j ∧ h.quality = Dbl.minusOne) :=
  C7_undescribed_slots_not_tracked fresh (.packet pkt_body4_cal2) st_body4_cal2 (by decide)

/-- C10: when `receive` returns and the packet has no calibrated-body-count line, the
body count has not fallen, and every slot from the old count up to the new one exists and,
unless its index is the id of a body record of the packet, has quality -1 and an id equal
to the index; likewise hands without a calibrated-hand-count line. -/
theorem C10_growth_without_count_line (st : DTrackSDK) (udp : UdpResult) (b : Bool)
    (st1 : DTrackSDK) (h : st.receive udp = .ret b st1) :
    ((∀ l ∈ string_lines udp.text, strncmp_eq l kw_6dcal = false) →
      st.getNumBody ≤ st1.getNumBody ∧
      ∀ j : Nat, st.getNumBody ≤ (j : Int) → (j : Int) < st1.getNumBody →
        (j : Int) ∉ body_ids (string_lines udp.text) →
        ∃ bd, st1.getBody j = some bd ∧ bd.id = j ∧ bd.quality = Dbl.minusOne) ∧
    ((∀ l ∈ string_lines udp.text, strncmp_eq l kw_glcal = false) →
      st.getNumHand ≤ st1.getNumHand ∧
      ∀ j : Nat, st.getNumHand ≤ (j : Int) → (j : Int) < st1.getNumHand →
        (j : Int) ∉ hand_ids (string_lines udp.text) →
        ∃ h, st1.getHand j = some h ∧ h.id = j ∧ h.quality = Dbl.minusOne) := by
  rcases receive_ret_cases st udp b st1 h with ⟨-, ht⟩ | hd
  · have e1 : st1.act_body = st.act_body := congrArg Tables.body ht
    have e2 : st1.act_hand = st.act_hand := congrArg Tables.hand ht
    simp only [DTrackSDK.getNumBody, DTrackSDK.getNumHand, e1, e2]
    exact ⟨fun _ => ⟨le_refl _, fun j h1 h2 => by omega⟩,
      fun _ => ⟨le_refl _, fun j h1 h2 => by omega⟩⟩
  have hb0 := line_loop_body_ends (string_lines udp.text) Locals.defaults st.frame_start
    st.act_body.num [] (Table.Covered.vacuous body_untracked [] st.act_body)
  have hh0 := line_loop_hand_ends (string_lines udp.text) Locals.defaults st.frame_start
    st.act_hand.num [] (Table.Covered.vacuous hand_untracked [] st.act_hand)
  simp only [List.nil_append] at hb0 hh0
  rcases decode_ret_cases _ _ _ _ hd with ⟨-, w, hl⟩ | ⟨-, lc, st2, hl, he⟩
  · rw [hl] at hb0 hh0
    constructor
    · intro _
      exact ⟨hb0.1, fun j h1 h2 h3 => hb0.2.at j h1 h2 h3⟩
    · intro _
      exact ⟨hh0.1, fun j h1 h2 h3 => hh0.2.at j h1 h2 h3⟩
  · rw [hl] at hb0 hh0
    obtain ⟨l1, -, -, l4⟩ := line_loop_locals _ _ _ _ _ hl
    obtain ⟨-, tb, th, hb, hh, rfl⟩ := frame_end_ret he
    constructor
    · intro hno
      rw [last_count_none _ _ hno] at l1
      have e := (reconcile_body_next hb hb0.2).2.2 (by rw [l1]; decide)
      subst e
      exact ⟨hb0.1, fun j h1 h2 h3 => hb0.2.at j h1 h2 h3⟩
    · intro hno
      rw [last_count_none _ _ hno] at l4
      have e := (reconcile_hand_next hh hh0.2).2.2 (by rw [l4]; decide)
      subst e
      exact ⟨hh0.1, fun j h1 h2 h3 => hh0.2.at j h1 h2 h3⟩

/-- C10 at a concrete input: the packet `"6d 1 4 ..\n"` on a fresh session, which grows
the body table from 0 to 5 slots. -/
theorem C10_growth_without_count_line_witness :
    ((∀ l ∈ string_lines (UdpResult.packet pkt_body4).text, strncmp_eq l kw_6dcal = false) →
      fresh.getNumBody ≤ st_body4.getNumBody ∧
      ∀ j : Nat, fresh.getNumBody ≤ (j : Int) → (j : Int) < st_body4.getNumBody →
        (j : Int) ∉ body_ids (string_lines (UdpResult.packet pkt_body4).text) →
        ∃ bd, st_body4.getBody j = some bd ∧ bd.id = j ∧ bd.quality = Dbl.minusOne) ∧
    ((∀ l ∈ string_lines (UdpResult.packet pkt_body4).text, strncmp_eq l kw_glcal = false) →
      fresh.getNumHand ≤ st_body4.getNumHand ∧
      ∀ j : Nat, fresh.getNumHand ≤ (j : Int) → (j : Int) < st_body4.getNumHand →
        (j : Int) ∉ hand_ids (string_lines (UdpResult.packet pkt_body4).text) →
        ∃ h, st_body4.getHand j = some h ∧ h.id = j ∧ h.quality = Dbl.minusOne) :=
  C10_growth_without_count_line fresh (.packet pkt_body4) true st_body4 (by decide)


/-! ## Pieces of the decoder that run to their end -/

theorem Flow.Succeeds.weaken {σ α : Type} {R Q : α → Prop} {x : Flow σ α}
    (h : Flow.Succeeds R x) (hq : ∀ a, R a → Q a) : Flow.Succeeds Q x := by
  obtain ⟨a, ha, hr⟩ := h
  exact ⟨a, ha, hq a hr⟩

theorem Flow.Succeeds.pure {σ α : Type} {R : α → Prop} (a : α) (h : R a) :
    Flow.Succeeds R (pure a : Flow σ α) :=
  ⟨a, rfl, h⟩

theorem Flow.Succeeds.bind {σ α β : Type} {R : α → Prop} {Q : β → Prop} {x : Flow σ α}
    {f : α → Flow σ β} (hx : Flow.Succeeds R x) (hf : ∀ a, R a → Flow.Succeeds Q (f a)) :
    Flow.Succeeds Q (x >>= f) := by
  obtain ⟨a, ha, hr⟩ := hx
  obtain ⟨b, hb, hq⟩ := hf a hr
  refine ⟨b, ?_, hq⟩
  rw [ha]
  exact hb

/-- Reading a block of well-formed tokens with the format of their kinds goes on with the
values read and the cursor behind them. -/
theorem Flow.Succeeds.bind_block {σ β : Type} {Q : β → Prop} (toks : List Tok)
    (ts : List (List Char)) (fmt : List Char) (hfmt : toks.map Tok.fmt = fmt) (t : σ)
    (f : List Int × List Dbl × List Char → Flow σ β)
    (hf : Flow.Succeeds Q (f (Tok.ints toks, Tok.dbls toks, render ts))) :
    Flow.Succeeds Q
      (Flow.parse (string_get_block (render (toks.map Tok.text ++ ts)) fmt) t >>= f) := by
  subst hfmt
  rw [string_get_block_render]
  exact hf

theorem Flow.Succeeds.bind_int {σ β : Type} {Q : β → Prop} (n : IntTok)
    (ts : List (List Char)) (t : σ) (f : Int × List Char → Flow σ β)
    (hf : Flow.Succeeds Q (f (n.val, render ts))) :
    Flow.Succeeds Q (Flow.parse (string_get_i (n.text ++ render ts)) t >>= f) := by
  rw [(string_get_i_tok n ts).1]
  exact hf

theorem Dbls.fmt {n : Nat} (d : Dbls n) : d.tokens.map Tok.fmt = List.replicate n 'd' := by
  rw [Dbls.tokens, Tok.map_d_fmt, d.len]

theorem vec_update_ok {α : Type} (v : List α) (i : Int) (f : α → α) (h0 : 0 ≤ i)
    (h1 : i < v.length) : ∃ v1, vec_update v i f = some v1 ∧ v1.length = v.length := by
  unfold vec_update
  have : 0 ≤ i ∧ i.toNat < v.length := ⟨h0, by omega⟩
  rw [dif_pos this]
  exact ⟨_, rfl, by simp⟩

/-- A write into an existing slot goes on with a table of the same count and length. -/
theorem Flow.Succeeds.bind_update {α β : Type} {Q : β → Prop} (t : Table α) (i : Int)
    (g : α → α) (f : Table α → Flow (Table α) β) (h0 : 0 ≤ i) (h1 : i < t.vec.length)
    (hf : ∀ t1 : Table α, t1.num = t.num → t1.vec.length = t.vec.length →
      Flow.Succeeds Q (f t1)) :
    Flow.Succeeds Q (t.update i g >>= f) := by
  obtain ⟨v, hv, hl⟩ := vec_update_ok t.vec i g h0 h1
  have e : t.update i g = .next { t with vec := v } := by
    rw [Table.update, hv]
    rfl
  rw [e]
  exact hf _ rfl hl

theorem fill_loop_ok {α : Type} (mk : Int → α → α) (k : Nat) (j : Int) (v : List α)
    (h0 : 0 ≤ j) (h1 : j + k ≤ v.length) :
    ∃ v1, fill_loop mk k j v = some v1 ∧ v1.length = v.length := by
  induction k generalizing j v with
  | zero => exact ⟨v, rfl, rfl⟩
  | succ k ih =>
    obtain ⟨v1, hv1, hl1⟩ := vec_update_ok v j (mk j) h0 (by push_cast at h1; omega)
    obtain ⟨v2, hv2, hl2⟩ := ih (j + 1) v1 (by omega) (by rw [hl1]; push_cast at h1; omega)
    refine ⟨v2, ?_, hl2.trans hl1⟩
    simp only [fill_loop, hv1, hv2]

theorem vec_resize_ok {α : Type} (z : α) (v : List α) (n : Int) (h : 0 ≤ n) :
    ∃ v1, vec_resize z v n = some v1 ∧ (v1.length : Int) = n := by
  unfold vec_resize
  rw [if_neg (by omega)]
  refine ⟨_, rfl, ?_⟩
  simp only [List.length_append, List.length_take, List.length_replicate]
  omega

/-- The adjustment of a table whose vector has the counted length to a count `n >= 0` goes
on with a table of count and length `n`. -/
theorem Flow.Succeeds.bind_adjust {α β : Type} {Q : β → Prop} (z : α) (n : Int)
    (t : Table α) (f : Table α → Flow (Table α) β) (hn : 0 ≤ n)
    (ht : (t.vec.length : Int) = t.num)
    (hf : ∀ t1 : Table α, t1.num = n → (t1.vec.length : Int) = n → Flow.Succeeds Q (f t1)) :
    Flow.Succeeds Q (t.adjust z n >>= f) := by
  unfold Table.adjust
  by_cases h : n ≠ t.num
  · obtain ⟨v, hv, hl⟩ := vec_resize_ok z t.vec n hn
    rw [if_pos h]
    have e : (Flow.mem (vec_resize z t.vec n) >>= fun v =>
        (Pure.pure { t with vec := v, num := n } : Flow (Table α) (Table α))) =
        .next { t with vec := v, num := n } := by
      rw [hv]
      rfl
    rw [e]
    exact hf _ rfl hl
  · rw [if_neg h]
    have hn' : t.num = n := by
      by_contra hc
      exact h (fun e => hc e.symm)
    exact hf t hn' (by rw [ht, hn'])

/-- The "disable all existing data" loop goes on with a table of the same count and
length. -/
theorem Flow.Succeeds.bind_disable_all {α β : Type} {Q : β → Prop} (d : Int → α → α)
    (t : Table α) (f : Table α → Flow (Table α) β) (ht : t.num ≤ t.vec.length)
    (hf : ∀ t1 : Table α, t1.num = t.num → t1.vec.length = t.vec.length →
      Flow.Succeeds Q (f t1)) :
    Flow.Succeeds Q (t.disable_all d >>= f) := by
  obtain ⟨v, hv, hl⟩ := fill_loop_ok d t.num.toNat 0 t.vec (le_refl _) (by omega)
  have e : t.disable_all d = .next { t with vec := v } := by
    rw [Table.disable_all, hv]
    rfl
  rw [e]
  exact hf _ rfl hl

/-- The growth for an id `>= 0` goes on with a table whose count is the larger of the old
count and `id + 1`, within its vector. -/
theorem Flow.Succeeds.bind_grow {α β : Type} {Q : β → Prop} (z : α) (d : Int → α → α) (id : Int)
    (t : Table α) (f : Table α → Flow (Table α) β) (hid : 0 ≤ id) (h0 : 0 ≤ t.num)
    (ht : t.num ≤ t.vec.length)
    (hf : ∀ t1 : Table α, t1.num = max t.num (id + 1) → t1.num ≤ t1.vec.length →
      Flow.Succeeds Q (f t1)) :
    Flow.Succeeds Q (t.grow z d id >>= f) := by
  unfold Table.grow
  by_cases h : id ≥ t.num
  · obtain ⟨v, hv, hl⟩ := vec_resize_ok z t.vec (id + 1) (by omega)
    obtain ⟨v1, hv1, hl1⟩ := fill_loop_ok d (id + 1 - t.num).toNat t.num v h0 (by omega)
    rw [if_pos h]
    have e : (Flow.mem (vec_resize z t.vec (id + 1)) >>= fun v =>
        Flow.mem (fill_loop d (id + 1 - t.num).toNat t.num v) >>= fun v =>
        (Pure.pure { t with vec := v, num := id + 1 } : Flow (Table α) (Table α))) =
        .next { t with vec := v1, num := id + 1 } := by
      rw [hv]
      show (Flow.mem (fill_loop d (id + 1 - t.num).toNat t.num v) >>= fun v =>
        (Pure.pure { t with vec := v, num := id + 1 } : Flow (Table α) (Table α))) = _
      rw [hv1]
      rfl
    rw [e]
    refine hf _ ?_ ?_
    · simp only [ge_iff_le] at h ⊢
      rw [max_eq_right (by omega)]
    · simp only
      omega
  · rw [if_neg h]
    refine hf t ?_ ht
    rw [max_eq_left (by omega)]

theorem all_from_of_all {ρ : Type} (P : ρ → Bool) (recs : List ρ) (i : Nat)
    (h : recs.all P = true) : all_from (fun _ r => P r) i recs = true := by
  induction recs generalizing i with
  | nil => rfl
  | cons r rs ih =>
    simp only [List.all_cons, Bool.and_eq_true] at h
    simp only [all_from, Bool.and_eq_true]
    exact ⟨h.1, ih (i + 1) h.2⟩

theorem all_from_lt {ρ : Type} (n : Nat) (recs : List ρ) (i : Nat) (h : i + recs.length ≤ n) :
    all_from (fun k (_ : ρ) => decide (k < n)) i recs = true := by
  induction recs generalizing i with
  | nil => rfl
  | cons r rs ih =>
    simp only [List.length_cons] at h
    simp only [all_from, Bool.and_eq_true, decide_eq_true_eq]
    exact ⟨by omega, ih (i + 1) (by omega)⟩

/-- A loop over well-formed records runs to its end when each round does; `I` is kept, with
a value `g` that every record updates by `upd`. -/
theorem for_loop_succeeds {σ ρ γ : Type} (body : Int → List Char → σ → Flow σ (List Char × σ))
    (toks : ρ → List Tok) (P : Nat → ρ → Bool) (I : γ → σ → Prop) (upd : γ → ρ → γ)
    (hstep : ∀ (k : Nat) (r : ρ) (ts : List (List Char)) (t : σ) (g : γ), P k r = true →
      I g t → Flow.Succeeds (fun a => a.1 = render ts ∧ I (upd g r) a.2)
        (body k (render ((toks r).map Tok.text ++ ts)) t))
    (recs : List ρ) (i : Nat) (hP : all_from P i recs = true) (ts : List (List Char)) (t : σ)
    (g : γ) (hI : I g t) :
    Flow.Succeeds (fun a => a.1 = render ts ∧ I (recs.foldl upd g) a.2)
      (for_loop body recs.length i (render ((Tok.all toks recs).map Tok.text ++ ts)) t) := by
  induction recs generalizing i t g with
  | nil => exact ⟨(render ts, t), rfl, rfl, hI⟩
  | cons r rs ih =>
    simp only [all_from, Bool.and_eq_true] at hP
    obtain ⟨a, ha, hs, hi⟩ := hstep i r ((Tok.all toks rs).map Tok.text ++ ts) t g hP.1 hI
    obtain ⟨s1, t1⟩ := a
    simp only at hs hi
    subst hs
    have := ih (i + 1) hP.2 t1 (upd g r) hi
    simp only [List.length_cons, for_loop, Tok.all, List.map_append, List.append_assoc, ha,
      List.foldl_cons]
    have e : ((i : Int) + 1) = ((i + 1 : Nat) : Int) := by omega
    rw [e]
    exact this


/-! ## Well-formed records run to their end -/

theorem Dbls.fmt3 (d : Dbls 3) : d.tokens.map Tok.fmt = fmt_ddd := d.fmt
theorem Dbls.fmt6 (d : Dbls 6) : d.tokens.map Tok.fmt = fmt_dddddd := d.fmt
theorem Dbls.fmt9 (d : Dbls 9) : d.tokens.map Tok.fmt = fmt_ddddddddd := d.fmt

/-- A record that fills an existing slot keeps count and length of its table. -/
theorem record_6df_succeeds (k : Nat) (r : ButtonWire) (ts : List (List Char))
    (t : Table DTrack_FlyStick_Type_d) (hid : r.id.val = k) (hk : k < t.vec.length) :
    Flow.Succeeds (fun a => a.1 = render ts ∧ a.2.num = t.num ∧
        a.2.vec.length = t.vec.length)
      (record_6df k (render (r.tokens.map Tok.text ++ ts)) t) := by
  have e : render (r.tokens.map Tok.text ++ ts) =
      render ([Tok.i r.id, .d r.quality, .i r.bits].map Tok.text ++
        (r.loc.tokens.map Tok.text ++ (r.rot.tokens.map Tok.text ++ ts))) := by
    simp only [ButtonWire.tokens, List.map_append, List.append_assoc]
  rw [e]
  unfold record_6df
  refine Flow.Succeeds.bind_block _ _ _ rfl _ _ ?_
  have hne : ¬ (Tok.ints [Tok.i r.id, .d r.quality, .i r.bits]).getD 0 0 ≠ (k : Int) := by
    simpa [Tok.ints] using hid
  dsimp only
  rw [if_neg hne]
  refine Flow.Succeeds.bind_update _ _ _ _ (by omega) (by omega) (fun t1 n1 l1 => ?_)
  refine Flow.Succeeds.bind_block _ _ _ r.loc.fmt3 _ _ ?_
  dsimp only
  refine Flow.Succeeds.bind_update _ _ _ _ (by omega) (by omega) (fun t2 n2 l2 => ?_)
  refine Flow.Succeeds.bind_block _ _ _ r.rot.fmt9 _ _ ?_
  dsimp only
  refine Flow.Succeeds.bind_update _ _ _ _ (by omega) (by omega) (fun t3 n3 l3 => ?_)
  exact Flow.Succeeds.pure _ ⟨rfl, n3.trans (n2.trans n1), l3.trans (l2.trans l1)⟩

theorem record_6dmt_succeeds (k : Nat) (r : ButtonWire) (ts : List (List Char))
    (t : Table DTrack_MeaTool_Type_d) (hid : r.id.val = k) (hk : k < t.vec.length) :
    Flow.Succeeds (fun a => a.1 = render ts ∧ a.2.num = t.num ∧
        a.2.vec.length = t.vec.length)
      (record_6dmt k (render (r.tokens.map Tok.text ++ ts)) t) := by
  have e : render (r.tokens.map Tok.text ++ ts) =
      render ([Tok.i r.id, .d r.quality, .i r.bits].map Tok.text ++
        (r.loc.tokens.map Tok.text ++ (r.rot.tokens.map Tok.text ++ ts))) := by
    simp only [ButtonWire.tokens, List.map_append, List.append_assoc]
  rw [e]
  unfold record_6dmt
  refine Flow.Succeeds.bind_block _ _ _ rfl _ _ ?_
  have hne : ¬ (Tok.ints [Tok.i r.id, .d r.quality, .i r.bits]).getD 0 0 ≠ (k : Int) := by
    simpa [Tok.ints] using hid
  dsimp only
  rw [if_neg hne]
  refine Flow.Succeeds.bind_update _ _ _ _ (by omega) (by omega) (fun t1 n1 l1 => ?_)
  refine Flow.Succeeds.bind_block _ _ _ r.loc.fmt3 _ _ ?_
  dsimp only
  refine Flow.Succeeds.bind_update _ _ _ _ (by omega) (by omega) (fun t2 n2 l2 => ?_)
  refine Flow.Succeeds.bind_block _ _ _ r.rot.fmt9 _ _ ?_
  dsimp only
  refine Flow.Succeeds.bind_update _ _ _ _ (by omega) (by omega) (fun t3 n3 l3 => ?_)
  exact Flow.Succeeds.pure _ ⟨rfl, n3.trans (n2.trans n1), l3.trans (l2.trans l1)⟩

theorem record_6dmtr_succeeds (k : Nat) (r : PoseWire) (ts : List (List Char))
    (t : Table DTrack_MeaRef_Type_d) (hk : k < t.vec.length) :
    Flow.Succeeds (fun a => a.1 = render ts ∧ a.2.num = t.num ∧
        a.2.vec.length = t.vec.length)
      (record_6dmtr k (render (r.tokens.map Tok.text ++ ts)) t) := by
  have e : render (r.tokens.map Tok.text ++ ts) =
      render ([Tok.i r.id, .d r.quality].map Tok.text ++
        (r.loc.tokens.map Tok.text ++ (r.rot.tokens.map Tok.text ++ ts))) := by
    simp only [PoseWire.tokens, List.map_append, List.append_assoc]
  rw [e]
  unfold record_6dmtr
  refine Flow.Succeeds.bind_block _ _ _ rfl _ _ ?_
  dsimp only
  refine Flow.Succeeds.bind_update _ _ _ _ (by omega) (by omega) (fun t1 n1 l1 => ?_)
  refine Flow.Succeeds.bind_block _ _ _ r.loc.fmt3 _ _ ?_
  dsimp only
  refine Flow.Succeeds.bind_update _ _ _ _ (by omega) (by omega) (fun t2 n2 l2 => ?_)
  refine Flow.Succeeds.bind_block _ _ _ r.rot.fmt9 _ _ ?_
  dsimp only
  refine Flow.Succeeds.bind_update _ _ _ _ (by omega) (by omega) (fun t3 n3 l3 => ?_)
  exact Flow.Succeeds.pure _ ⟨rfl, n3.trans (n2.trans n1), l3.trans (l2.trans l1)⟩

/-- A body record with an id `>= 0`: the count becomes the larger of the old count and
`id + 1`. -/
theorem record_6d_succeeds (k : Nat) (r : PoseWire) (ts : List (List Char))
    (t : Table DTrack_Body_Type_d) (hid : 0 ≤ r.id.val) (h0 : 0 ≤ t.num)
    (ht : t.num ≤ t.vec.length) :
    Flow.Succeeds (fun a => a.1 = render ts ∧ a.2.num = max t.num (r.id.val + 1) ∧
        a.2.num ≤ a.2.vec.length)
      (record_6d k (render (r.tokens.map Tok.text ++ ts)) t) := by
  have e : render (r.tokens.map Tok.text ++ ts) =
      render ([Tok.i r.id, .d r.quality].map Tok.text ++
        (r.loc.tokens.map Tok.text ++ (r.rot.tokens.map Tok.text ++ ts))) := by
    simp only [PoseWire.tokens, List.map_append, List.append_assoc]
  rw [e]
  unfold record_6d
  refine Flow.Succeeds.bind_block _ _ _ rfl _ _ ?_
  have hv : (Tok.ints [Tok.i r.id, .d r.quality]).getD 0 0 = r.id.val := rfl
  dsimp only
  rw [hv]
  refine Flow.Succeeds.bind_grow _ _ _ _ _ hid h0 ht (fun t0 n0 l0 => ?_)
  have hlt : r.id.val < t0.vec.length := by
    have := le_max_right t.num (r.id.val + 1)
    omega
  refine Flow.Succeeds.bind_update _ _ _ _ hid hlt (fun t1 n1 l1 => ?_)
  refine Flow.Succeeds.bind_block _ _ _ r.loc.fmt3 _ _ ?_
  dsimp only
  refine Flow.Succeeds.bind_update _ _ _ _ hid (by omega) (fun t2 n2 l2 => ?_)
  refine Flow.Succeeds.bind_block _ _ _ r.rot.fmt9 _ _ ?_
  dsimp only
  refine Flow.Succeeds.bind_update _ _ _ _ hid (by omega) (fun t3 n3 l3 => ?_)
  refine Flow.Succeeds.pure _ ⟨rfl, ?_, ?_⟩
  · exact (n3.trans (n2.trans n1)).trans n0
  · show t3.num ≤ t3.vec.length
    omega
theorem Tok.map_i_fmt (ws : List IntTok) :
    (ws.map Tok.i).map Tok.fmt = List.replicate ws.length 'i' := by
  induction ws with
  | nil => rfl
  | cons a ws ih =>
    simp only [List.map_cons, List.length_cons, List.replicate_succ, Tok.fmt, ih]

theorem record_6df2_succeeds (k : Nat) (r : Fly2Wire) (ts : List (List Char))
    (t : Table DTrack_FlyStick_Type_d) (hid : r.id.val = k) (hwf : r.wf = true)
    (hk : k < t.vec.length) :
    Flow.Succeeds (fun a => a.1 = render ts ∧ a.2.num = t.num ∧
        a.2.vec.length = t.vec.length)
      (record_6df2 k (render (r.tokens.map Tok.text ++ ts)) t) := by
  simp only [Fly2Wire.wf, Bool.and_eq_true, decide_eq_true_eq] at hwf
  obtain ⟨⟨⟨⟨⟨hb0, hb8⟩, hj0⟩, hj8⟩, hw⟩, hj⟩ := hwf
  have e : render (r.tokens.map Tok.text ++ ts) =
      render ([Tok.i r.id, .d r.quality, .i r.num_button, .i r.num_joystick].map Tok.text ++
        (r.loc.tokens.map Tok.text ++ (r.rot.tokens.map Tok.text ++
          ((r.words.map Tok.i ++ r.joysticks.map Tok.d).map Tok.text ++ ts)))) := by
    simp only [Fly2Wire.tokens, List.map_append, List.append_assoc]
  rw [e]
  unfold record_6df2
  refine Flow.Succeeds.bind_block _ _ _ rfl _ _ ?_
  have h0 : (Tok.ints [Tok.i r.id, .d r.quality, .i r.num_button, .i r.num_joystick]).getD 0 0
      = r.id.val := rfl
  have h1 : (Tok.ints [Tok.i r.id, .d r.quality, .i r.num_button, .i r.num_joystick]).getD 1 0
      = r.num_button.val := rfl
  have h2 : (Tok.ints [Tok.i r.id, .d r.quality, .i r.num_button, .i r.num_joystick]).getD 2 0
      = r.num_joystick.val := rfl
  dsimp only
  rw [h0, h1, h2, if_neg (by simpa using hid)]
  refine Flow.Succeeds.bind_update _ _ _ _ (by omega) (by omega) (fun t0 n0 l0 => ?_)
  rw [if_neg (by simp only [DTRACK_FLYSTICK_MAX_BUTTON, DTRACK_FLYSTICK_MAX_JOYSTICK]; omega)]
  refine Flow.Succeeds.bind_update _ _ _ _ (by omega) (by omega) (fun t1 n1 l1 => ?_)
  refine Flow.Succeeds.bind_block _ _ _ r.loc.fmt3 _ _ ?_
  dsimp only
  refine Flow.Succeeds.bind_update _ _ _ _ (by omega) (by omega) (fun t2 n2 l2 => ?_)
  refine Flow.Succeeds.bind_block _ _ _ r.rot.fmt9 _ _ ?_
  dsimp only
  have hfmt : (r.words.map Tok.i ++ r.joysticks.map Tok.d).map Tok.fmt =
      sfmt_6df2 r.num_button.val r.num_joystick.val := by
    rw [List.map_append, Tok.map_i_fmt, Tok.map_d_fmt, hw, hj]
    rfl
  have hlen : ¬ ((sfmt_6df2 r.num_button.val r.num_joystick.val).length ≥ 20 ∨
      r.num_joystick.val > DTRACK_FLYSTICK_MAX_JOYSTICK) := by
    simp only [sfmt_6df2, List.length_append, List.length_replicate,
      DTRACK_FLYSTICK_MAX_JOYSTICK]
    omega
  refine Flow.Succeeds.bind_update _ _ _ _ (by omega) (by omega) (fun t3 n3 l3 => ?_)
  rw [if_neg hlen]
  refine Flow.Succeeds.bind_block _ _ _ hfmt _ _ ?_
  dsimp only
  refine Flow.Succeeds.bind_update _ _ _ _ (by omega) (by omega) (fun t4 n4 l4 => ?_)
  exact Flow.Succeeds.pure _ ⟨rfl, n4.trans (n3.trans (n2.trans (n1.trans n0))),
    l4.trans (l3.trans (l2.trans (l1.trans l0)))⟩
theorem finger_gl_succeeds (id : Int) (k : Nat) (f : FingerWire) (ts : List (List Char))
    (t : Table DTrack_Hand_Type_d) (h0 : 0 ≤ id) (h1 : id < t.vec.length) :
    Flow.Succeeds (fun a => a.1 = render ts ∧ a.2.num = t.num ∧
        a.2.vec.length = t.vec.length)
      (finger_gl id k (render (f.tokens.map Tok.text ++ ts)) t) := by
  have e : render (f.tokens.map Tok.text ++ ts) =
      render (f.loc.tokens.map Tok.text ++ (f.rot.tokens.map Tok.text ++
        (f.six.tokens.map Tok.text ++ ts))) := by
    simp only [FingerWire.tokens, List.map_append, List.append_assoc]
  rw [e]
  unfold finger_gl
  refine Flow.Succeeds.bind_block _ _ _ f.loc.fmt3 _ _ ?_
  dsimp only
  refine Flow.Succeeds.bind_update _ _ _ _ h0 h1 (fun t1 n1 l1 => ?_)
  refine Flow.Succeeds.bind_block _ _ _ f.rot.fmt9 _ _ ?_
  dsimp only
  refine Flow.Succeeds.bind_update _ _ _ _ h0 (by omega) (fun t2 n2 l2 => ?_)
  refine Flow.Succeeds.bind_block _ _ _ f.six.fmt6 _ _ ?_
  dsimp only
  refine Flow.Succeeds.bind_update _ _ _ _ h0 (by omega) (fun t3 n3 l3 => ?_)
  exact Flow.Succeeds.pure _ ⟨rfl, n3.trans (n2.trans n1), l3.trans (l2.trans l1)⟩

/-- A hand record with an id `>= 0` and its fingers: the count becomes the larger of the old
count and `id + 1`. -/
theorem record_gl_succeeds (k : Nat) (r : HandWire) (ts : List (List Char))
    (t : Table DTrack_Hand_Type_d) (hwf : r.wf = true) (h0 : 0 ≤ t.num)
    (ht : t.num ≤ t.vec.length) :
    Flow.Succeeds (fun a => a.1 = render ts ∧ a.2.num = max t.num (r.id.val + 1) ∧
        a.2.num ≤ a.2.vec.length)
      (record_gl k (render (r.tokens.map Tok.text ++ ts)) t) := by
  simp only [HandWire.wf, Bool.and_eq_true, decide_eq_true_eq] at hwf
  obtain ⟨⟨hid, hnf⟩, hn5⟩ := hwf
  have e : render (r.tokens.map Tok.text ++ ts) =
      render ([Tok.i r.id, .d r.quality, .i r.lr, .i r.nfinger].map Tok.text ++
        (r.loc.tokens.map Tok.text ++ (r.rot.tokens.map Tok.text ++
          ((Tok.all FingerWire.tokens r.fingers).map Tok.text ++ ts)))) := by
    simp only [HandWire.tokens, List.map_append, List.append_assoc]
  rw [e]
  unfold record_gl
  refine Flow.Succeeds.bind_block _ _ _ rfl _ _ ?_
  have hv0 : (Tok.ints [Tok.i r.id, .d r.quality, .i r.lr, .i r.nfinger]).getD 0 0
      = r.id.val := rfl
  have hv2 : (Tok.ints [Tok.i r.id, .d r.quality, .i r.lr, .i r.nfinger]).getD 2 0
      = r.nfinger.val := rfl
  dsimp only
  rw [hv0, hv2]
  refine Flow.Succeeds.bind_grow _ _ _ _ _ hid h0 ht (fun t0 n0 l0 => ?_)
  have hlt : r.id.val < t0.vec.length := by
    have := le_max_right t.num (r.id.val + 1)
    omega
  refine Flow.Succeeds.bind_update _ _ _ _ hid hlt (fun t1 n1 l1 => ?_)
  rw [if_neg (by simp only [DTRACK_HAND_MAX_FINGER]; omega)]
  refine Flow.Succeeds.bind_update _ _ _ _ hid (by omega) (fun t2 n2 l2 => ?_)
  refine Flow.Succeeds.bind_block _ _ _ r.loc.fmt3 _ _ ?_
  dsimp only
  refine Flow.Succeeds.bind_update _ _ _ _ hid (by omega) (fun t3 n3 l3 => ?_)
  refine Flow.Succeeds.bind_block _ _ _ r.rot.fmt9 _ _ ?_
  dsimp only
  refine Flow.Succeeds.bind_update _ _ _ _ hid (by omega) (fun t4 n4 l4 => ?_)
  have hloop := for_loop_succeeds (finger_gl r.id.val) FingerWire.tokens (fun _ _ => true)
    (fun (_ : Unit) (x : Table DTrack_Hand_Type_d) =>
      x.num = t4.num ∧ x.vec.length = t4.vec.length) (fun g _ => g)
    (fun j f ts1 x g _ hx => by
      have := finger_gl_succeeds r.id.val j f ts1 x hid (by rw [hx.2]; omega)
      exact this.weaken (fun a ha => ⟨ha.1, ha.2.1.trans hx.1, ha.2.2.trans hx.2⟩))
    r.fingers 0 (all_from_of_all _ _ _ (by simp)) ts t4 () ⟨rfl, rfl⟩
  have hcnt : r.nfinger.val.toNat = r.fingers.length := by omega
  rw [hcnt]
  refine hloop.weaken (fun a ha => ⟨ha.1, ?_, ?_⟩)
  · rw [ha.2.1]
    exact (n4.trans (n3.trans (n2.trans n1))).trans n0
  · rw [ha.2.1, ha.2.2]
    omega

theorem joint_6dj_succeeds (id : Int) (k : Nat) (j : JointWire) (ts : List (List Char))
    (t : Table DTrack_Human_Type) (hk : k < 20) (h0 : 0 ≤ id) (h1 : id < t.vec.length) :
    Flow.Succeeds (fun a => a.1 = render ts ∧ a.2.num = t.num ∧
        a.2.vec.length = t.vec.length)
      (joint_6dj id k (render (j.tokens.map Tok.text ++ ts)) t) := by
  have e : render (j.tokens.map Tok.text ++ ts) =
      render ([Tok.i j.id, .d j.quality].map Tok.text ++ (j.six.tokens.map Tok.text ++
        (j.rot.tokens.map Tok.text ++ ts))) := by
    simp only [JointWire.tokens, List.map_append, List.append_assoc]
  rw [e]
  unfold joint_6dj
  refine Flow.Succeeds.bind_block _ _ _ rfl _ _ ?_
  dsimp only
  rw [if_neg (by simp only [DTRACK_HUMAN_MAX_JOINTS]; omega)]
  refine Flow.Succeeds.bind_update _ _ _ _ h0 h1 (fun t1 n1 l1 => ?_)
  refine Flow.Succeeds.bind_block _ _ _ j.six.fmt6 _ _ ?_
  dsimp only
  refine Flow.Succeeds.bind_update _ _ _ _ h0 (by omega) (fun t2 n2 l2 => ?_)
  refine Flow.Succeeds.bind_block _ _ _ j.rot.fmt9 _ _ ?_
  dsimp only
  refine Flow.Succeeds.bind_update _ _ _ _ h0 (by omega) (fun t3 n3 l3 => ?_)
  exact Flow.Succeeds.pure _ ⟨rfl, n3.trans (n2.trans n1), l3.trans (l2.trans l1)⟩

theorem record_6dj_succeeds (k : Nat) (r : HumanWire) (ts : List (List Char))
    (t : Table DTrack_Human_Type) (hwf : r.wf t.num = true)
    (ht : (t.vec.length : Int) = t.num) :
    Flow.Succeeds (fun a => a.1 = render ts ∧ a.2.num = t.num ∧
        a.2.vec.length = t.vec.length)
      (record_6dj k (render (r.tokens.map Tok.text ++ ts)) t) := by
  simp only [HumanWire.wf, Bool.and_eq_true, decide_eq_true_eq] at hwf
  obtain ⟨⟨⟨hid, hlt⟩, hnj⟩, hn20⟩ := hwf
  have e : render (r.tokens.map Tok.text ++ ts) =
      render ([Tok.i r.id, .i r.num_joints].map Tok.text ++
        ((Tok.all JointWire.tokens r.joints).map Tok.text ++ ts)) := by
    simp only [HumanWire.tokens, List.map_append, List.append_assoc]
  rw [e]
  unfold record_6dj
  refine Flow.Succeeds.bind_block _ _ _ rfl _ _ ?_
  have hv0 : (Tok.ints [Tok.i r.id, .i r.num_joints]).getD 0 0 = r.id.val := rfl
  have hv1 : (Tok.ints [Tok.i r.id, .i r.num_joints]).getD 1 0 = r.num_joints.val := rfl
  dsimp only
  rw [hv0, hv1, if_neg (by omega)]
  refine Flow.Succeeds.bind_update _ _ _ _ hid (by omega) (fun t1 n1 l1 => ?_)
  have hloop := for_loop_succeeds (joint_6dj r.id.val) JointWire.tokens
    (fun i _ => decide (i < 20))
    (fun (_ : Unit) (x : Table DTrack_Human_Type) =>
      x.num = t1.num ∧ x.vec.length = t1.vec.length) (fun g _ => g)
    (fun i j ts1 x g hi hx => by
      have := joint_6dj_succeeds r.id.val i j ts1 x (by simpa using hi) hid
        (by rw [hx.2]; omega)
      exact this.weaken (fun a ha => ⟨ha.1, ha.2.1.trans hx.1, ha.2.2.trans hx.2⟩))
    r.joints 0 (all_from_lt 20 _ 0 (by omega)) ts t1 () ⟨rfl, rfl⟩
  have hcnt : r.num_joints.val.toNat = r.joints.length := by omega
  rw [hcnt]
  exact hloop.weaken (fun a ha => ⟨ha.1, ha.2.1.trans n1, ha.2.2.trans l1⟩)

/-! ## Well-formed lines run to their end -/

theorem all_from_and {ρ : Type} (P Q : Nat → ρ → Bool) (recs : List ρ) (i : Nat)
    (hp : all_from P i recs = true) (hq : all_from Q i recs = true) :
    all_from (fun k r => P k r && Q k r) i recs = true := by
  induction recs generalizing i with
  | nil => rfl
  | cons r rs ih =>
    simp only [all_from, Bool.and_eq_true] at hp hq ⊢
    exact ⟨⟨hp.1, hq.1⟩, ih (i + 1) hp.2 hq.2⟩

/-- A loop over records that fill the slots `0 .. recs.length - 1` of a table that has
them. -/
theorem for_loop_indexed {ρ α : Type}
    (body : Int → List Char → Table α → Flow (Table α) (List Char × Table α))
    (toks : ρ → List Tok) (P : Nat → ρ → Bool)
    (hrec : ∀ (k : Nat) (r : ρ) (ts : List (List Char)) (t : Table α), P k r = true →
      k < t.vec.length →
      Flow.Succeeds (fun a => a.1 = render ts ∧ a.2.num = t.num ∧
        a.2.vec.length = t.vec.length) (body k (render ((toks r).map Tok.text ++ ts)) t))
    (recs : List ρ) (hP : all_from P 0 recs = true) (t : Table α)
    (hlen : recs.length ≤ t.vec.length) :
    Flow.Succeeds (fun a => a.2.num = t.num ∧ a.2.vec.length = t.vec.length)
      (for_loop body recs.length 0 (render ((Tok.all toks recs).map Tok.text)) t) := by
  have h := for_loop_succeeds body toks
    (fun k r => P k r && decide (k < t.vec.length))
    (fun (_ : Unit) (x : Table α) => x.num = t.num ∧ x.vec.length = t.vec.length)
    (fun g _ => g)
    (fun k r ts x g hk hx => by
      simp only [Bool.and_eq_true, decide_eq_true_eq] at hk
      have := hrec k r ts x hk.1 (by rw [hx.2]; exact hk.2)
      exact this.weaken (fun a ha => ⟨ha.1, ha.2.1.trans hx.1, ha.2.2.trans hx.2⟩))
    recs 0 (all_from_and _ _ _ _ hP (all_from_lt _ _ 0 (by omega))) [] t () ⟨rfl, rfl⟩
  rw [List.append_nil] at h
  exact h.weaken (fun a ha => ha.2)

theorem line_6df_succeeds (n : IntTok) (recs : List ButtonWire)
    (hwf : (WireLine.flystick1 n recs).wf = true) (t : Table DTrack_FlyStick_Type_d)
    (ht : (t.vec.length : Int) = t.num) :
    Flow.Succeeds (fun a => a.1 = n.val ∧ a.2.num = n.val ∧ (a.2.vec.length : Int) = n.val)
      (line_6df (n.text ++ render ((Tok.all ButtonWire.tokens recs).map Tok.text)) t) := by
  simp only [WireLine.wf, Bool.and_eq_true, decide_eq_true_eq] at hwf
  obtain ⟨hn, hids⟩ := hwf
  unfold line_6df
  refine Flow.Succeeds.bind_int _ _ _ _ ?_
  dsimp only
  refine Flow.Succeeds.bind_adjust _ _ _ _ (by omega) ht (fun t1 n1 l1 => ?_)
  have hcnt : n.val.toNat = recs.length := by omega
  rw [hcnt]
  refine Flow.Succeeds.bind (for_loop_indexed record_6df ButtonWire.tokens _
    (fun k r ts x hk hx => record_6df_succeeds k r ts x (by simpa using hk) hx)
    recs hids t1 (by omega)) (fun a ha => ?_)
  exact Flow.Succeeds.pure _ ⟨rfl, ha.1.trans n1, by rw [ha.2]; exact l1⟩

theorem line_6dmt_succeeds (n : IntTok) (recs : List ButtonWire)
    (hwf : (WireLine.meatool n recs).wf = true) (t : Table DTrack_MeaTool_Type_d)
    (ht : (t.vec.length : Int) = t.num) :
    Flow.Succeeds (fun a => a.1 = n.val ∧ a.2.num = n.val ∧ (a.2.vec.length : Int) = n.val)
      (line_6dmt (n.text ++ render ((Tok.all ButtonWire.tokens recs).map Tok.text)) t) := by
  simp only [WireLine.wf, Bool.and_eq_true, decide_eq_true_eq] at hwf
  obtain ⟨hn, hids⟩ := hwf
  unfold line_6dmt
  refine Flow.Succeeds.bind_int _ _ _ _ ?_
  dsimp only
  refine Flow.Succeeds.bind_adjust _ _ _ _ (by omega) ht (fun t1 n1 l1 => ?_)
  have hcnt : n.val.toNat = recs.length := by omega
  rw [hcnt]
  refine Flow.Succeeds.bind (for_loop_indexed record_6dmt ButtonWire.tokens _
    (fun k r ts x hk hx => record_6dmt_succeeds k r ts x (by simpa using hk) hx)
    recs hids t1 (by omega)) (fun a ha => ?_)
  exact Flow.Succeeds.pure _ ⟨rfl, ha.1.trans n1, by rw [ha.2]; exact l1⟩

theorem line_6df2_succeeds (n1 n2 : IntTok) (recs : List Fly2Wire)
    (hwf : (WireLine.flystick2 n1 n2 recs).wf = true) (t : Table DTrack_FlyStick_Type_d)
    (ht : (t.vec.length : Int) = t.num) :
    Flow.Succeeds (fun a => a.num = n1.val ∧ (a.vec.length : Int) = n1.val)
      (line_6df2 (n1.text ++ render (n2.text :: (Tok.all Fly2Wire.tokens recs).map Tok.text))
        t) := by
  simp only [WireLine.wf, Bool.and_eq_true, decide_eq_true_eq] at hwf
  obtain ⟨⟨hn, hle⟩, hids⟩ := hwf
  unfold line_6df2
  refine Flow.Succeeds.bind_int _ _ _ _ ?_
  dsimp only
  refine Flow.Succeeds.bind_adjust _ _ _ _ (by omega) ht (fun t1 m1 l1 => ?_)
  rw [render]
  refine Flow.Succeeds.bind_int _ _ _ _ ?_
  dsimp only
  have hcnt : n2.val.toNat = recs.length := by omega
  rw [hcnt]
  refine Flow.Succeeds.bind (for_loop_indexed record_6df2 Fly2Wire.tokens _
    (fun k r ts x hk hx => by
      simp only [Bool.and_eq_true, decide_eq_true_eq] at hk
      exact record_6df2_succeeds k r ts x hk.1 hk.2 hx)
    recs hids t1 (by omega)) (fun a ha => ?_)
  exact Flow.Succeeds.pure _ ⟨ha.1.trans m1, by rw [ha.2]; exact l1⟩

theorem line_6dmtr_succeeds (n1 n2 : IntTok) (recs : List PoseWire)
    (hwf : (WireLine.mearef n1 n2 recs).wf = true) (t : Table DTrack_MeaRef_Type_d)
    (ht : (t.vec.length : Int) = t.num) :
    Flow.Succeeds (fun a => a.num = n2.val ∧ (a.vec.length : Int) = n2.val)
      (line_6dmtr (n1.text ++ render (n2.text :: (Tok.all PoseWire.tokens recs).map Tok.text))
        t) := by
  simp only [WireLine.wf, decide_eq_true_eq] at hwf
  unfold line_6dmtr
  refine Flow.Succeeds.bind_int _ _ _ _ ?_
  dsimp only
  rw [render]
  refine Flow.Succeeds.bind_int _ _ _ _ ?_
  dsimp only
  refine Flow.Succeeds.bind_adjust _ _ _ _ (by omega) ht (fun t1 m1 l1 => ?_)
  have hcnt : n2.val.toNat = recs.length := by omega
  rw [hcnt]
  refine Flow.Succeeds.bind (for_loop_indexed record_6dmtr PoseWire.tokens (fun _ _ => true)
    (fun k r ts x _ hx => record_6dmtr_succeeds k r ts x hx)
    recs (all_from_of_all _ _ _ (by simp)) t1 (by omega)) (fun a ha => ?_)
  exact Flow.Succeeds.pure _ ⟨ha.1.trans m1, by rw [ha.2]; exact l1⟩

theorem line_6d_succeeds (n : IntTok) (recs : List PoseWire)
    (hwf : (WireLine.body n recs).wf = true) (t : Table DTrack_Body_Type_d)
    (h0 : 0 ≤ t.num) (ht : t.num ≤ t.vec.length) :
    Flow.Succeeds (fun a => a.num = (WireLine.body n recs).body_top t.num ∧ 0 ≤ a.num ∧
        a.num ≤ a.vec.length)
      (line_6d (n.text ++ render ((Tok.all PoseWire.tokens recs).map Tok.text)) t) := by
  simp only [WireLine.wf, Bool.and_eq_true, decide_eq_true_eq] at hwf
  obtain ⟨hn, hids⟩ := hwf
  unfold line_6d
  refine Flow.Succeeds.bind_disable_all _ _ _ ht (fun t1 m1 l1 => ?_)
  refine Flow.Succeeds.bind_int _ _ _ _ ?_
  dsimp only
  have hcnt : n.val.toNat = recs.length := by omega
  rw [hcnt]
  have h := for_loop_succeeds record_6d PoseWire.tokens (fun _ r => decide (0 ≤ r.id.val))
    (fun (g : Int) (x : Table DTrack_Body_Type_d) =>
      x.num = g ∧ 0 ≤ x.num ∧ x.num ≤ x.vec.length)
    (fun g r => max g (r.id.val + 1))
    (fun k r ts x g hk hx => by
      have := record_6d_succeeds k r ts x (by simpa using hk) hx.2.1 hx.2.2
      refine this.weaken (fun a ha => ⟨ha.1, ?_, ?_, ha.2.2⟩)
      · rw [ha.2.1, hx.1]
      · rw [ha.2.1]
        exact le_trans hx.2.1 (le_max_left _ _))
    recs 0 (all_from_of_all _ _ _ hids) [] t1 t1.num ⟨rfl, by omega, by omega⟩
  rw [List.append_nil] at h
  refine Flow.Succeeds.bind h (fun a ha => ?_)
  refine Flow.Succeeds.pure _ ⟨?_, ha.2.2.1, ha.2.2.2⟩
  rw [ha.2.1, m1]
  rfl

theorem line_gl_succeeds (n : IntTok) (recs : List HandWire)
    (hwf : (WireLine.hand n recs).wf = true) (t : Table DTrack_Hand_Type_d)
    (h0 : 0 ≤ t.num) (ht : t.num ≤ t.vec.length) :
    Flow.Succeeds (fun a => a.num = (WireLine.hand n recs).hand_top t.num ∧ 0 ≤ a.num ∧
        a.num ≤ a.vec.length)
      (line_gl (n.text ++ render ((Tok.all HandWire.tokens recs).map Tok.text)) t) := by
  simp only [WireLine.wf, Bool.and_eq_true, decide_eq_true_eq] at hwf
  obtain ⟨hn, hids⟩ := hwf
  unfold line_gl
  refine Flow.Succeeds.bind_disable_all _ _ _ ht (fun t1 m1 l1 => ?_)
  refine Flow.Succeeds.bind_int _ _ _ _ ?_
  dsimp only
  have hcnt : n.val.toNat = recs.length := by omega
  rw [hcnt]
  have h := for_loop_succeeds record_gl HandWire.tokens (fun _ r => r.wf)
    (fun (g : Int) (x : Table DTrack_Hand_Type_d) =>
      x.num = g ∧ 0 ≤ x.num ∧ x.num ≤ x.vec.length)
    (fun g r => max g (r.id.val + 1))
    (fun k r ts x g hk hx => by
      have := record_gl_succeeds k r ts x hk hx.2.1 hx.2.2
      refine this.weaken (fun a ha => ⟨ha.1, ?_, ?_, ha.2.2⟩)
      · rw [ha.2.1, hx.1]
      · rw [ha.2.1]
        exact le_trans hx.2.1 (le_max_left _ _))
    recs 0 (all_from_of_all _ _ _ hids) [] t1 t1.num ⟨rfl, by omega, by omega⟩
  rw [List.append_nil] at h
  refine Flow.Succeeds.bind h (fun a ha => ?_)
  refine Flow.Succeeds.pure _ ⟨?_, ha.2.2.1, ha.2.2.2⟩
  rw [ha.2.1, m1]
  rfl

theorem line_6dj_succeeds (n1 n2 : IntTok) (recs : List HumanWire)
    (hwf : (WireLine.human n1 n2 recs).wf = true) (t : Table DTrack_Human_Type)
    (ht : (t.vec.length : Int) = t.num) :
    Flow.Succeeds (fun a => a.num = n1.val ∧ (a.vec.length : Int) = n1.val)
      (line_6dj (n1.text ++ render (n2.text :: (Tok.all HumanWire.tokens recs).map Tok.text))
        t) := by
  simp only [WireLine.wf, Bool.and_eq_true, decide_eq_true_eq] at hwf
  obtain ⟨⟨h0, hn⟩, hids⟩ := hwf
  unfold line_6dj
  refine Flow.Succeeds.bind_int _ _ _ _ ?_
  dsimp only
  refine Flow.Succeeds.bind_adjust _ _ _ _ h0 ht (fun t1 m1 l1 => ?_)
  refine Flow.Succeeds.bind_disable_all _ _ _ (by omega) (fun t2 m2 l2 => ?_)
  rw [render]
  refine Flow.Succeeds.bind_int _ _ _ _ ?_
  dsimp only
  have hcnt : n2.val.toNat = recs.length := by omega
  rw [hcnt]
  have h := for_loop_succeeds record_6dj HumanWire.tokens (fun _ r => r.wf n1.val)
    (fun (_ : Unit) (x : Table DTrack_Human_Type) =>
      x.num = n1.val ∧ (x.vec.length : Int) = n1.val)
    (fun g _ => g)
    (fun k r ts x g hk hx => by
      have := record_6dj_succeeds k r ts x (by rw [hx.1]; exact hk) (by rw [hx.2, hx.1])
      exact this.weaken (fun a ha => ⟨ha.1, ha.2.1.trans hx.1, by rw [ha.2.2]; exact hx.2⟩))
    recs 0 (all_from_of_all _ _ _ hids) [] t2 () ⟨m2.trans m1, by rw [l2]; exact l1⟩
  rw [List.append_nil] at h
  refine Flow.Succeeds.bind h (fun a ha => ?_)
  exact Flow.Succeeds.pure _ ha.2
theorem Flow.Succeeds.within {σ α : Type} {R : α → Prop} {x : Flow σ α}
    (h : Flow.Succeeds R x) (put : σ → DTrackSDK) (upd : α → Locals × DTrackSDK) :
    Flow.Succeeds (fun r => ∃ a, R a ∧ r = upd a) (x.within put upd) := by
  obtain ⟨a, ha, hr⟩ := h
  exact ⟨upd a, by rw [ha]; rfl, a, hr, rfl⟩

/-- Every well-formed line runs to its end on a session whose tables are in step with their
counts, keeps them in step, and changes the counts as its kind says. -/
theorem line_body_wire (l : WireLine) (hwf : l.wf = true) (lc : Locals) (st : DTrackSDK)
    (hinv : st.in_step) : Flow.Succeeds (l.Step lc st) (line_body l.text lc st) := by
  obtain ⟨hb, hh, hf, hm, hr, hu⟩ := hinv
  cases l with
  | fr n =>
    exact ⟨_, line_body_wire_fr n lc st, ⟨hb, hh, hf, hm, hr, hu⟩, rfl, rfl, rfl, rfl, rfl,
      rfl, rfl, rfl, rfl, rfl, rfl⟩
  | ts t =>
    exact ⟨_, line_body_wire_ts t lc st, ⟨hb, hh, hf, hm, hr, hu⟩, rfl, rfl, rfl, rfl, rfl,
      rfl, rfl, rfl, rfl, rfl, rfl⟩
  | bodycal n =>
    refine ⟨({ lc with loc_num_bodycal := n.val }, st), ?_, ⟨hb, hh, hf, hm, hr, hu⟩, rfl, rfl,
      rfl, rfl, rfl, rfl, rfl, rfl, rfl, rfl, rfl⟩
    show line_body ('6' :: 'd' :: 'c' :: 'a' :: 'l' :: ' ' :: (n.text ++ render [])) lc st = _
    rw [line_body_kw_6dcal, line_6dcal, (string_get_i_tok n []).1]
    rfl
  | handcal n =>
    refine ⟨({ lc with loc_num_handcal := n.val }, st), ?_, ⟨hb, hh, hf, hm, hr, hu⟩, rfl, rfl,
      rfl, rfl, rfl, rfl, rfl, rfl, rfl, rfl, rfl⟩
    show line_body ('g' :: 'l' :: 'c' :: 'a' :: 'l' :: ' ' :: (n.text ++ render [])) lc st = _
    rw [line_body_kw_glcal, line_glcal_tail_eq, (string_get_i_tok n []).1]
  | marker n recs =>
    simp only [WireLine.wf, decide_eq_true_eq] at hwf
    obtain ⟨v, hv, -⟩ := line_body_wire_3d n recs hwf lc st
    exact ⟨_, hv, ⟨hb, hh, hf, hm, hr, hu⟩, rfl, rfl, rfl, rfl, rfl, rfl, rfl, rfl, rfl, rfl,
      rfl⟩
  | body n recs =>
    have h := (line_6d_succeeds n recs hwf st.act_body hb.1 hb.2).within st.set_body
      (fun t => (lc, st.set_body t))
    show Flow.Succeeds _ (line_body ('6' :: 'd' :: ' ' ::
      (n.text ++ render ((Tok.all PoseWire.tokens recs).map Tok.text))) lc st)
    rw [line_body_kw_6d]
    refine h.weaken ?_
    rintro _ ⟨a, ⟨h1, h2, h3⟩, rfl⟩
    exact ⟨⟨⟨h2, h3⟩, hh, hf, hm, hr, hu⟩, rfl, rfl, rfl, rfl, h1, rfl, rfl, rfl, rfl, rfl, rfl⟩
  | hand n recs =>
    have h := (line_gl_succeeds n recs hwf st.act_hand hh.1 hh.2).within st.set_hand
      (fun t => (lc, st.set_hand t))
    show Flow.Succeeds _ (line_body ('g' :: 'l' :: ' ' ::
      (n.text ++ render ((Tok.all HandWire.tokens recs).map Tok.text))) lc st)
    rw [line_body_kw_gl]
    refine h.weaken ?_
    rintro _ ⟨a, ⟨h1, h2, h3⟩, rfl⟩
    exact ⟨⟨hb, ⟨h2, h3⟩, hf, hm, hr, hu⟩, rfl, rfl, rfl, rfl, rfl, h1, rfl, rfl, rfl, rfl, rfl⟩
  | flystick1 n recs =>
    have h := (line_6df_succeeds n recs hwf st.act_flystick hf).within st.set_flystick
      (fun r => ({ lc with loc_num_flystick1 := r.1 }, st.set_flystick r.2))
    show Flow.Succeeds _ (line_body ('6' :: 'd' :: 'f' :: ' ' ::
      (n.text ++ render ((Tok.all ButtonWire.tokens recs).map Tok.text))) lc st)
    rw [line_body_kw_6df]
    refine h.weaken ?_
    rintro _ ⟨a, ⟨h1, h2, h3⟩, rfl⟩
    exact ⟨⟨hb, hh, h3.trans h2.symm, hm, hr, hu⟩, rfl, rfl, h1, rfl, rfl, rfl, h2, rfl, rfl,
      rfl, rfl⟩
  | meatool n recs =>
    have h := (line_6dmt_succeeds n recs hwf st.act_meatool hm).within st.set_meatool
      (fun r => ({ lc with loc_num_meatool := r.1 }, st.set_meatool r.2))
    show Flow.Succeeds _ (line_body ('6' :: 'd' :: 'm' :: 't' :: ' ' ::
      (n.text ++ render ((Tok.all ButtonWire.tokens recs).map Tok.text))) lc st)
    rw [line_body_kw_6dmt]
    refine h.weaken ?_
    rintro _ ⟨a, ⟨h1, h2, h3⟩, rfl⟩
    exact ⟨⟨hb, hh, hf, h3.trans h2.symm, hr, hu⟩, rfl, rfl, rfl, h1, rfl, rfl, rfl, h2, rfl,
      rfl, rfl⟩
  | flystick2 n1 n2 recs =>
    have h := (line_6df2_succeeds n1 n2 recs hwf st.act_flystick hf).within st.set_flystick
      (fun t => (lc, st.set_flystick t))
    show Flow.Succeeds _ (line_body ('6' :: 'd' :: 'f' :: '2' :: ' ' ::
      (n1.text ++ render (n2.text :: (Tok.all Fly2Wire.tokens recs).map Tok.text))) lc st)
    rw [line_body_kw_6df2]
    refine h.weaken ?_
    rintro _ ⟨a, ⟨h2, h3⟩, rfl⟩
    exact ⟨⟨hb, hh, h3.trans h2.symm, hm, hr, hu⟩, rfl, rfl, rfl, rfl, rfl, rfl, h2, rfl, rfl,
      rfl, rfl⟩
  | mearef n1 n2 recs =>
    have h := (line_6dmtr_succeeds n1 n2 recs hwf st.act_mearef hr).within st.set_mearef
      (fun t => (lc, st.set_mearef t))
    show Flow.Succeeds _ (line_body ('6' :: 'd' :: 'm' :: 't' :: 'r' :: ' ' ::
      (n1.text ++ render (n2.text :: (Tok.all PoseWire.tokens recs).map Tok.text))) lc st)
    rw [line_body_kw_6dmtr]
    refine h.weaken ?_
    rintro _ ⟨a, ⟨h2, h3⟩, rfl⟩
    exact ⟨⟨hb, hh, hf, hm, h3.trans h2.symm, hu⟩, rfl, rfl, rfl, rfl, rfl, rfl, rfl, rfl, h2,
      rfl, rfl⟩
  | human n1 n2 recs =>
    have h := (line_6dj_succeeds n1 n2 recs hwf st.act_human hu).within st.set_human
      (fun t => (lc, st.set_human t))
    show Flow.Succeeds _ (line_body ('6' :: 'd' :: 'j' :: ' ' ::
      (n1.text ++ render (n2.text :: (Tok.all HumanWire.tokens recs).map Tok.text))) lc st)
    rw [line_body_kw_6dj]
    refine h.weaken ?_
    rintro _ ⟨a, ⟨h2, h3⟩, rfl⟩
    exact ⟨⟨hb, hh, hf, hm, hr, h3.trans h2.symm⟩, rfl, rfl, rfl, rfl, rfl, rfl, rfl, rfl, rfl,
      h2, rfl⟩
theorem Tok.text_tokChar (t : Tok) : ∀ c ∈ t.text, tokChar c = true := by
  cases t with
  | i t => exact (intOfToken_ok _ _ t.ok).2
  | d t => exact (dblOfToken_ok _ _ t.ok).2

theorem render_toks_lineChar (kw : List Char) (hkw : ∀ c ∈ kw, lineChar c = true)
    (ns : List IntTok) (toks : List Tok) :
    ∀ c ∈ kw ++ render (ns.map (·.text) ++ toks.map Tok.text), lineChar c = true := by
  intro c hc
  rcases List.mem_append.1 hc with hc | hc
  · exact hkw c hc
  · refine render_lineChar _ ?_ c hc
    intro t ht
    rcases List.mem_append.1 ht with ht | ht
    · obtain ⟨n, -, rfl⟩ := List.mem_map.1 ht
      exact (intOfToken_ok _ _ n.ok).2
    · obtain ⟨k, -, rfl⟩ := List.mem_map.1 ht
      exact k.text_tokChar

/-- The text of a line has neither a newline nor a NUL in it. -/
theorem WireLine.text_lineChar (l : WireLine) : ∀ c ∈ l.text, lineChar c = true := by
  cases l with
  | fr n =>
    intro c hc
    simp only [WireLine.text, WireLine.keyword, WireLine.texts, List.cons_append,
      List.nil_append, List.mem_cons] at hc
    rcases hc with rfl | rfl | hc
    · decide
    · decide
    · exact render_lineChar _ (by
        intro t ht
        simp only [List.mem_singleton] at ht
        subst ht
        exact (uintOfToken_ok _ _ n.ok).2) c hc
  | ts t =>
    intro c hc
    simp only [WireLine.text, WireLine.keyword, WireLine.texts, List.cons_append,
      List.nil_append, List.mem_cons] at hc
    rcases hc with rfl | rfl | hc
    · decide
    · decide
    · exact render_lineChar _ (by
        intro t' ht
        simp only [List.mem_singleton] at ht
        subst ht
        exact (dblOfToken_ok _ _ t.ok).2) c hc
  | marker n recs => exact wire_3d_lineChar n recs
  | bodycal n => exact render_toks_lineChar _ (by simp only [WireLine.keyword]; decide) [n] []
  | handcal n => exact render_toks_lineChar _ (by simp only [WireLine.keyword]; decide) [n] []
  | body n recs => exact render_toks_lineChar _ (by simp only [WireLine.keyword]; decide) [n] _
  | hand n recs => exact render_toks_lineChar _ (by simp only [WireLine.keyword]; decide) [n] _
  | flystick1 n recs => exact render_toks_lineChar _ (by simp only [WireLine.keyword]; decide) [n] _
  | meatool n recs => exact render_toks_lineChar _ (by simp only [WireLine.keyword]; decide) [n] _
  | flystick2 n1 n2 recs => exact render_toks_lineChar _ (by simp only [WireLine.keyword]; decide) [n1, n2] _
  | mearef n1 n2 recs => exact render_toks_lineChar _ (by simp only [WireLine.keyword]; decide) [n1, n2] _
  | human n1 n2 recs => exact render_toks_lineChar _ (by simp only [WireLine.keyword]; decide) [n1, n2] _

/-- A packet of well-formed lines runs through the line loop; the variables that outlive a
line hold what the last declaring line declared, and the counts are those of the last
declaring line or the greatest id + 1. -/
theorem line_loop_wire (ls : List WireLine) (hwf : ls.all WireLine.wf = true) (lc : Locals)
    (st : DTrackSDK) (hinv : st.in_step) :
    Flow.Succeeds (fun a => a.2.in_step ∧
      a.1.loc_num_bodycal = last_of WireLine.body_cal ls lc.loc_num_bodycal ∧
      a.1.loc_num_handcal = last_of WireLine.hand_cal ls lc.loc_num_handcal ∧
      a.1.loc_num_flystick1 = last_of WireLine.flystick1_count ls lc.loc_num_flystick1 ∧
      a.1.loc_num_meatool = last_of WireLine.meatool_count ls lc.loc_num_meatool ∧
      a.2.act_body.num = top_of WireLine.body_top ls st.act_body.num ∧
      a.2.act_hand.num = top_of WireLine.hand_top ls st.act_hand.num ∧
      a.2.act_flystick.num = last_of WireLine.flystick_count ls st.act_flystick.num ∧
      a.2.act_meatool.num = last_of WireLine.meatool_count ls st.act_meatool.num ∧
      a.2.act_mearef.num = last_of WireLine.mearef_count ls st.act_mearef.num ∧
      a.2.act_human.num = last_of WireLine.human_count ls st.act_human.num ∧
      a.2.act_marker.num = last_of WireLine.marker_count ls st.act_marker.num)
      (line_loop (ls.map WireLine.text ++ [[]]) lc st) := by
  induction ls generalizing lc st with
  | nil =>
    exact ⟨(lc, st), rfl, hinv, rfl, rfl, rfl, rfl, rfl, rfl, rfl, rfl, rfl, rfl, rfl⟩
  | cons l ls ih =>
    simp only [List.all_cons, Bool.and_eq_true] at hwf
    obtain ⟨⟨lc1, st1⟩, h1, s0, s1, s2, s3, s4, s5, s6, s7, s8, s9, s10, s11⟩ :=
      line_body_wire l hwf.1 lc st hinv
    obtain ⟨a, ha, e0, e1, e2, e3, e4, e5, e6, e7, e8, e9, e10, e11⟩ := ih hwf.2 lc1 st1 s0
    simp only at s1 s2 s3 s4 s5 s6 s7 s8 s9 s10 s11
    refine ⟨a, ?_, e0, ?_, ?_, ?_, ?_, ?_, ?_, ?_, ?_, ?_, ?_, ?_⟩
    · simp only [List.map_cons, List.cons_append, line_loop, h1]
      exact ha
    · rw [e1, s1]; rfl
    · rw [e2, s2]; rfl
    · rw [e3, s3]; rfl
    · rw [e4, s4]; rfl
    · rw [e5, s5]; rfl
    · rw [e6, s6]; rfl
    · rw [e7, s7]; rfl
    · rw [e8, s8]; rfl
    · rw [e9, s9]; rfl
    · rw [e10, s10]; rfl
    · rw [e11, s11]; rfl

/-- The reconciliation of a table with a count `>= 0` runs to its end and sets the
count. -/
theorem Table.reconcile_ok {α : Type} (z : α) (d : Int → α → α) (n : Int) (t : Table α)
    (h0 : 0 ≤ t.num) : Flow.Succeeds (fun t1 => t1.num = n) (t.reconcile z d n) := by
  unfold Table.reconcile
  by_cases h : n > t.num
  · obtain ⟨v, hv, hl⟩ := vec_resize_ok z t.vec n (by omega)
    obtain ⟨v1, hv1, hl1⟩ := fill_loop_ok d (n - t.num).toNat t.num v h0 (by omega)
    rw [if_pos h, hv]
    refine ⟨{ t with vec := v1, num := n }, ?_, rfl⟩
    show ((Flow.mem (fill_loop d (n - t.num).toNat t.num v) >>= fun v =>
        (Pure.pure { t with vec := v } : Flow (Table α) (Table α))) >>= fun t =>
        (Pure.pure { t with num := n } : Flow (Table α) (Table α))) = _
    rw [hv1]
    rfl
  · rw [if_neg h]
    exact ⟨{ t with num := n }, rfl, rfl⟩

/-- The end of a frame on a session whose tables are in step: the result is true, the body
and hand counts are reconciled, the other counts stay. -/
theorem frame_end_ok (lc : Locals) (st : DTrackSDK) (hinv : st.in_step) :
    ∃ st1, frame_end lc st = .ret true st1 ∧
      st1.act_body.num = (if 0 ≤ lc.loc_num_bodycal then
          lc.loc_num_bodycal - lc.loc_num_flystick1 - lc.loc_num_meatool
        else st.act_body.num) ∧
      st1.act_hand.num = (if 0 ≤ lc.loc_num_handcal then lc.loc_num_handcal
        else st.act_hand.num) ∧
      st1.act_flystick = st.act_flystick ∧ st1.act_meatool = st.act_meatool ∧
      st1.act_mearef = st.act_mearef ∧ st1.act_human = st.act_human ∧
      st1.act_marker = st.act_marker := by
  obtain ⟨hb, hh, -⟩ := hinv
  have hB : Flow.Succeeds (fun t1 => t1.num = (if 0 ≤ lc.loc_num_bodycal then
      lc.loc_num_bodycal - lc.loc_num_flystick1 - lc.loc_num_meatool else st.act_body.num))
      (reconcile_body lc st.act_body) := by
    unfold reconcile_body
    by_cases h : lc.loc_num_bodycal ≥ 0
    · rw [if_pos h, if_pos h]
      exact Table.reconcile_ok _ _ _ _ hb.1
    · rw [if_neg h, if_neg h]
      exact ⟨_, rfl, rfl⟩
  have hH : Flow.Succeeds (fun t1 => t1.num = (if 0 ≤ lc.loc_num_handcal then
      lc.loc_num_handcal else st.act_hand.num)) (reconcile_hand lc st.act_hand) := by
    unfold reconcile_hand
    by_cases h : lc.loc_num_handcal ≥ 0
    · rw [if_pos h, if_pos h]
      exact Table.reconcile_ok _ _ _ _ hh.1
    · rw [if_neg h, if_neg h]
      exact ⟨_, rfl, rfl⟩
  obtain ⟨tb, htb, nb⟩ := hB
  obtain ⟨th, hth, nh⟩ := hH
  refine ⟨{ (st.set_body tb).set_hand th with lastDataError := .ERR_NONE }, ?_, nb, nh, rfl,
    rfl, rfl, rfl, rfl⟩
  unfold frame_end
  rw [htb, hth]

/-! ## The counts after a packet of well-formed lines (C9) -/

theorem post_weaken {σ α : Type} {F F1 : σ → Prop} {N N1 : α → Prop} {x : Flow σ α}
    (h : Flow.Post F N x) (hF : ∀ s, F s → F1 s) (hN : ∀ a, N a → N1 a) :
    Flow.Post F1 N1 x := by
  cases x with
  | next a => exact hN a h
  | fail w s => exact hF s h
  | undefined => trivial

theorem post_pure {σ α : Type} {F : σ → Prop} {N : α → Prop} (a : α) (h : N a) :
    Flow.Post F N (pure a : Flow σ α) :=
  h

theorem post_fail {σ α : Type} {F : σ → Prop} {N : α → Prop} (w : Stop) (s : σ) (h : F s) :
    Flow.Post F N (Flow.fail w s : Flow σ α) :=
  h

theorem post_bind {σ α β : Type} {F : σ → Prop} {N : α → Prop} {M : β → Prop}
    {x : Flow σ α} {f : α → Flow σ β} (hx : Flow.Post F N x)
    (hf : ∀ a, N a → Flow.Post F M (f a)) : Flow.Post F M (x >>= f) := by
  cases x with
  | next a => exact hf a hx
  | fail w s => exact hx
  | undefined => trivial

/-- A piece that runs to its end with `R` satisfies every postcondition that `R` implies. -/
theorem post_of_succeeds {σ α : Type} {F : σ → Prop} {R : α → Prop} {x : Flow σ α}
    (h : Flow.Succeeds R x) : Flow.Post F R x := by
  obtain ⟨a, ha, hr⟩ := h
  rw [ha]
  exact hr

/-- Reading a block of well-formed tokens goes on with the values read. -/
theorem post_block {σ β : Type} {F : σ → Prop} {M : β → Prop} (toks : List Tok)
    (ts : List (List Char)) (fmt : List Char) (hfmt : toks.map Tok.fmt = fmt) (t : σ)
    (f : List Int × List Dbl × List Char → Flow σ β)
    (hf : Flow.Post F M (f (Tok.ints toks, Tok.dbls toks, render ts))) :
    Flow.Post F M
      (Flow.parse (string_get_block (render (toks.map Tok.text ++ ts)) fmt) t >>= f) := by
  subst hfmt
  rw [string_get_block_render]
  exact hf

theorem post_int {σ β : Type} {F : σ → Prop} {M : β → Prop} (n : IntTok)
    (ts : List (List Char)) (t : σ) (f : Int × List Char → Flow σ β)
    (hf : Flow.Post F M (f (n.val, render ts))) :
    Flow.Post F M (Flow.parse (string_get_i (n.text ++ render ts)) t >>= f) := by
  rw [(string_get_i_tok n ts).1]
  exact hf

/-- Reading from any text: a `return false` in the state at hand, or the values read. -/
theorem post_parse {σ α β : Type} {F : σ → Prop} {M : β → Prop} (o : Option α) (t : σ)
    (f : α → Flow σ β) (hF : F t) (hf : ∀ v, o = some v → Flow.Post F M (f v)) :
    Flow.Post F M (Flow.parse o t >>= f) := by
  cases o with
  | none => exact hF
  | some v => exact hf v rfl

/-- A write into a slot goes on with the table in which that slot is changed. -/
theorem post_update {α β : Type} {F : Table α → Prop} {M : β → Prop} (t : Table α) (i : Int)
    (g : α → α) (f : Table α → Flow (Table α) β)
    (hf : ∀ t1 : Table α, Table.Wrote i g t t1 → Flow.Post F M (f t1)) :
    Flow.Post F M (t.update i g >>= f) := by
  unfold Table.update
  cases hu : vec_update t.vec i g with
  | none => trivial
  | some v =>
    obtain ⟨h0, hlt, hlen, hat, hoth⟩ := vec_update_some hu
    have e : (Flow.mem (some v) >>= fun v =>
        (pure { t with vec := v } : Flow (Table α) (Table α))) = .next { t with vec := v } :=
      rfl
    rw [e]
    refine hf _ ⟨rfl, hlen, h0, ?_, hoth⟩
    exact ⟨t.vec[i.toNat], List.getElem?_eq_getElem hlt, hat _ (List.getElem?_eq_getElem hlt)⟩

theorem Table.Wrote.after {α : Type} {i : Int} {g1 g2 : α → α} {t t1 t2 : Table α}
    (h1 : Table.Wrote i g1 t t1) (h2 : Table.Wrote i g2 t1 t2) :
    Table.Wrote i (fun a => g2 (g1 a)) t t2 := by
  obtain ⟨n1, l1, h0, ⟨a, ha, ha1⟩, o1⟩ := h1
  obtain ⟨n2, l2, -, ⟨b, hb, hb2⟩, o2⟩ := h2
  refine ⟨n2.trans n1, l2.trans l1, h0, ⟨a, ha, ?_⟩, fun j hj => (o2 j hj).trans (o1 j hj)⟩
  rw [ha1] at hb
  cases hb
  exact hb2

/-- A property of all elements is kept by a write that keeps it. -/
theorem Table.Wrote.all {α : Type} {i : Int} {g : α → α} {t t1 : Table α}
    (h : Table.Wrote i g t t1) (S : α → Prop) (hg : ∀ a, S a → S (g a))
    (hall : ∀ x ∈ t.vec, S x) : ∀ x ∈ t1.vec, S x := by
  obtain ⟨-, -, h0, ⟨a, ha, ha1⟩, hoth⟩ := h
  intro x hx
  obtain ⟨j, hj, rfl⟩ := List.getElem_of_mem hx
  by_cases hji : (j : Int) = i
  · have e : i.toNat = j := by omega
    rw [e] at ha ha1
    have : t1.vec[j]? = some t1.vec[j] := List.getElem?_eq_getElem hj
    rw [ha1] at this
    rw [← Option.some.inj this]
    exact hg a (hall a (List.getElem?_mem ha))
  · have h1 := hoth j hji
    rw [List.getElem?_eq_getElem hj] at h1
    exact hall _ (List.getElem?_mem h1.symm)

/-- The "disable all existing data" loop goes on with a table of the same count and length
whose slots are those of the old table, disabled where the loop ran. -/
theorem post_disable_all {α β : Type} {F : Table α → Prop} {M : β → Prop} (d : Int → α → α)
    (t : Table α) (f : Table α → Flow (Table α) β)
    (hf : ∀ t1 : Table α, t1.num = t.num → t1.vec.length = t.vec.length →
      (∀ x ∈ t1.vec, x ∈ t.vec ∨ ∃ j a, a ∈ t.vec ∧ x = d j a) → Flow.Post F M (f t1)) :
    Flow.Post F M (t.disable_all d >>= f) := by
  unfold Table.disable_all
  cases hfl : fill_loop d t.num.toNat 0 t.vec with
  | none => trivial
  | some v =>
    have e : (Flow.mem (some v) >>= fun v =>
        (pure { t with vec := v } : Flow (Table α) (Table α))) = .next { t with vec := v } :=
      rfl
    rw [e]
    obtain ⟨hlen, hin, hout⟩ := fill_loop_some d _ _ _ _ hfl
    refine hf _ rfl hlen ?_
    intro x hx
    obtain ⟨j, hj, rfl⟩ := List.getElem_of_mem hx
    simp only at hj
    by_cases hjn : (j : Int) < 0 + (t.num.toNat : Int)
    · obtain ⟨a, hmem, ha⟩ := hin j (by omega) hjn
      right
      refine ⟨j, a, List.getElem?_mem hmem, ?_⟩
      have : v[j]? = some v[j] := List.getElem?_eq_getElem hj
      rw [ha] at this
      exact (Option.some.inj this).symm
    · left
      have h1 := hout j (Or.inr (by omega))
      rw [List.getElem?_eq_getElem hj] at h1
      exact List.getElem?_mem h1.symm
/-- The adjustment of a table to a count `n` goes on with a table of count `n` whose slots
are old ones or value-initialised. -/
theorem post_adjust {α β : Type} {F : Table α → Prop} {M : β → Prop} (z : α) (n : Int)
    (t : Table α) (f : Table α → Flow (Table α) β)
    (hf : ∀ t1 : Table α, t1.num = n →
      ((t.vec.length : Int) = t.num → (t1.vec.length : Int) = n) →
      (∀ x ∈ t1.vec, x ∈ t.vec ∨ x = z) → Flow.Post F M (f t1)) :
    Flow.Post F M (t.adjust z n >>= f) := by
  unfold Table.adjust
  by_cases h : n ≠ t.num
  · rw [if_pos h]
    cases hr : vec_resize z t.vec n with
    | none => trivial
    | some v =>
      have e : (Flow.mem (some v) >>= fun v =>
          (pure { t with vec := v, num := n } : Flow (Table α) (Table α))) =
          .next { t with vec := v, num := n } := rfl
      rw [e]
      obtain ⟨h0, hlen, -⟩ := vec_resize_some hr
      refine hf _ rfl (fun _ => by simp only [hlen]; omega) ?_
      intro x hx
      unfold vec_resize at hr
      rw [if_neg (by omega)] at hr
      simp only [Option.some.injEq] at hr
      subst hr
      rcases List.mem_append.1 hx with hx | hx
      · exact Or.inl (List.mem_of_mem_take hx)
      · exact Or.inr (List.eq_of_mem_replicate hx)
  · rw [if_neg h]
    have hn : t.num = n := by
      by_contra hc
      exact h (fun e => hc e.symm)
    exact hf t hn (fun e => by rw [e, hn]) (fun x hx => Or.inl hx)

/-- The growth for a record id goes on with a table in which the id is below the count and
the slots below the old count are the old ones. -/
theorem post_grow {α β : Type} {F : Table α → Prop} {M : β → Prop} (z : α) (d : Int → α → α)
    (id : Int) (t : Table α) (f : Table α → Flow (Table α) β)
    (hf : ∀ t1 : Table α, t.num ≤ t1.num → id < t1.num →
      (t.num ≤ t.vec.length → t1.num ≤ t1.vec.length) →
      (∀ j : Nat, (j : Int) < t.num → j < t.vec.length → t1.vec[j]? = t.vec[j]?) →
      (∀ x ∈ t1.vec, ∃ a, (a ∈ t.vec ∨ a = z) ∧ (x = a ∨ ∃ j, x = d j a)) →
      Flow.Post F M (f t1)) :
    Flow.Post F M (t.grow z d id >>= f) := by
  unfold Table.grow
  by_cases h : id ≥ t.num
  · rw [if_pos h]
    cases hr : vec_resize z t.vec (id + 1) with
    | none => trivial
    | some v =>
      cases hfl : fill_loop d (id + 1 - t.num).toNat t.num v with
      | none =>
        have e : (Flow.mem (some v) >>= fun v =>
          Flow.mem (fill_loop d (id + 1 - t.num).toNat t.num v) >>= fun v =>
          (pure { t with vec := v, num := id + 1 } : Flow (Table α) (Table α))) =
          .undefined := by
          show (Flow.mem (fill_loop d (id + 1 - t.num).toNat t.num v) >>= fun v =>
            (pure { t with vec := v, num := id + 1 } : Flow (Table α) (Table α))) = _
          rw [hfl]
          rfl
        rw [e]
        trivial
      | some v2 =>
        have e : (Flow.mem (some v) >>= fun v =>
          Flow.mem (fill_loop d (id + 1 - t.num).toNat t.num v) >>= fun v =>
          (pure { t with vec := v, num := id + 1 } : Flow (Table α) (Table α))) =
          .next { t with vec := v2, num := id + 1 } := by
          show (Flow.mem (fill_loop d (id + 1 - t.num).toNat t.num v) >>= fun v =>
            (pure { t with vec := v, num := id + 1 } : Flow (Table α) (Table α))) = _
          rw [hfl]
          rfl
        rw [e]
        obtain ⟨hn, hlen, hkeep⟩ := vec_resize_some hr
        obtain ⟨flen, fin, fout⟩ := fill_loop_some d _ _ _ _ hfl
        have hv : ∀ x ∈ v, x ∈ t.vec ∨ x = z := by
          intro x hx
          unfold vec_resize at hr
          rw [if_neg (by omega)] at hr
          simp only [Option.some.injEq] at hr
          subst hr
          rcases List.mem_append.1 hx with hx | hx
          · exact Or.inl (List.mem_of_mem_take hx)
          · exact Or.inr (List.eq_of_mem_replicate hx)
        refine hf _ (by simp only; omega) (by simp only; omega)
          (fun _ => by simp only [flen, hlen]; omega) ?_ ?_
        · intro j h1 h2
          simp only
          rw [fout j (Or.inl h1), hkeep j (by omega) h2]
        · intro x hx
          obtain ⟨j, hj, rfl⟩ := List.getElem_of_mem hx
          simp only at hj
          by_cases hjn : t.num ≤ (j : Int) ∧ (j : Int) < t.num + ((id + 1 - t.num).toNat : Int)
          · obtain ⟨a, hmem, ha⟩ := fin j hjn.1 hjn.2
            refine ⟨a, hv a (List.getElem?_mem hmem), Or.inr ⟨j, ?_⟩⟩
            have : v2[j]? = some v2[j] := List.getElem?_eq_getElem hj
            rw [ha] at this
            exact (Option.some.inj this).symm
          · have h1 := fout j (by omega)
            rw [List.getElem?_eq_getElem hj] at h1
            exact ⟨v2[j], hv _ (List.getElem?_mem h1.symm), Or.inl rfl⟩
  · rw [if_neg h]
    exact hf t (le_refl _) (by omega) (fun e => e) (fun _ _ _ => rfl)
      (fun x hx => ⟨x, Or.inl hx, Or.inl rfl⟩)

/-- A loop keeps what each round keeps, at its end and at a `return false`. -/
theorem for_loop_keeps {σ : Type} (body : Int → List Char → σ → Flow σ (List Char × σ))
    (F I : σ → Prop)
    (hbody : ∀ i s t, I t → Flow.Post F (fun a => I a.2) (body i s t))
    (k : Nat) (i : Int) (s : List Char) (t : σ) (h : I t) :
    Flow.Post F (fun a => I a.2) (for_loop body k i s t) := by
  induction k generalizing i s t with
  | zero => exact h
  | succ k ih =>
    have hb := hbody i s t h
    unfold for_loop
    cases hx : body i s t with
    | next a =>
      obtain ⟨s1, t1⟩ := a
      rw [hx] at hb
      exact ih (i + 1) s1 t1 hb
    | fail w t1 =>
      rw [hx] at hb
      exact hb
    | undefined => trivial

/-- A loop over well-formed records, with an invariant `I` of the records done so far. -/
theorem for_loop_post {σ ρ : Type} (body : Int → List Char → σ → Flow σ (List Char × σ))
    (toks : ρ → List Tok) (F : σ → Prop) (I : List ρ → σ → Prop) (recs : List ρ) (i0 : Nat)
    (hstep : ∀ (done : List ρ) (r : ρ) (rest : List ρ) (ts : List (List Char)) (t : σ),
      recs = done ++ r :: rest → I done t →
      Flow.Post F (fun a => a.1 = render ts ∧ I (done ++ [r]) a.2)
        (body ((i0 + done.length : Nat) : Int) (render ((toks r).map Tok.text ++ ts)) t))
    (ts : List (List Char)) (t : σ) (h0 : I [] t) :
    Flow.Post F (fun a => a.1 = render ts ∧ I recs a.2)
      (for_loop body recs.length (i0 : Int) (render ((Tok.all toks recs).map Tok.text ++ ts))
        t) := by
  have key : ∀ (rest done : List ρ) (t : σ), recs = done ++ rest → I done t →
      Flow.Post F (fun a => a.1 = render ts ∧ I recs a.2)
        (for_loop body rest.length ((i0 + done.length : Nat) : Int)
          (render ((Tok.all toks rest).map Tok.text ++ ts)) t) := by
    intro rest
    induction rest with
    | nil =>
      intro done t hr hi
      rw [List.append_nil] at hr
      subst hr
      exact ⟨rfl, hi⟩
    | cons r rest ih =>
      intro done t hr hi
      have hb := hstep done r rest ((Tok.all toks rest).map Tok.text ++ ts) t hr hi
      simp only [List.length_cons, for_loop, Tok.all, List.map_append, List.append_assoc]
      cases hx : body ((i0 + done.length : Nat) : Int)
          (render ((toks r).map Tok.text ++ ((Tok.all toks rest).map Tok.text ++ ts))) t with
      | next a =>
        obtain ⟨s1, t1⟩ := a
        rw [hx] at hb
        obtain ⟨hs, hi1⟩ := hb
        simp only at hs hi1 ⊢
        subst hs
        have := ih (done ++ [r]) t1 (by rw [hr]; simp) hi1
        simp only [List.length_append, List.length_singleton] at this
        have e : (((i0 + done.length : Nat) : Int) + 1) =
            ((i0 + (done.length + 1) : Nat) : Int) := by omega
        rw [e]
        exact this
      | fail w t1 =>
        rw [hx] at hb
        exact hb
      | undefined => trivial
  have := key recs [] t rfl h0
  simpa using this

/-- A loop of `a + b` rounds is the loop of `a` rounds followed by the loop of `b`. -/
theorem for_loop_add {σ : Type} (body : Int → List Char → σ → Flow σ (List Char × σ))
    (a b : Nat) (i : Int) (s : List Char) (t : σ) :
    for_loop body (a + b) i s t =
      (match for_loop body a i s t with
        | .next (s1, t1) => for_loop body b (i + a) s1 t1
        | .fail w t1 => .fail w t1
        | .undefined => .undefined) := by
  induction a generalizing i s t with
  | zero => simp [for_loop]
  | succ a ih =>
    rw [show a + 1 + b = (a + b) + 1 by omega]
    simp only [for_loop]
    cases hx : body i s t with
    | next r =>
      obtain ⟨s1, t1⟩ := r
      simp only
      rw [ih]
      have e : i + 1 + (a : Int) = i + ((a + 1 : Nat) : Int) := by push_cast; omega
      rw [e]
    | fail w t1 => rfl
    | undefined => rfl

theorem all_from_at {ρ : Type} (P : Nat → ρ → Bool) (recs : List ρ) (i : Nat)
    (h : all_from P i recs = true) (done : List ρ) (r : ρ) (rest : List ρ)
    (hr : recs = done ++ r :: rest) : P (i + done.length) r = true := by
  subst hr
  induction done generalizing i with
  | nil =>
    simp only [List.nil_append, all_from, Bool.and_eq_true] at h
    simpa using h.1
  | cons d done ih =>
    simp only [List.cons_append, all_from, Bool.and_eq_true] at h
    have := ih (i + 1) h.2
    simp only [List.length_cons]
    rw [show i + (done.length + 1) = i + 1 + done.length by omega]
    exact this

/-! ## What the records of a line leave in their table -/

theorem Dbls.dbls {n : Nat} (d : Dbls n) : Tok.dbls d.tokens = d.vals := by
  rw [Dbls.tokens, Tok.map_d_dbls]
  rfl

theorem Dbls.vals_length {n : Nat} (d : Dbls n) : d.vals.length = n := by
  rw [Dbls.vals, List.length_map, d.len]

/-- What a body record leaves: its slot holds the body it describes, below the count, and
the slots below the old count are the old ones. -/
theorem record_6d_post (k : Int) (r : PoseWire) (ts : List (List Char))
    (t : Table DTrack_Body_Type_d) :
    Flow.Post (fun _ => False) (fun a => a.1 = render ts ∧ t.num ≤ a.2.num ∧
        0 ≤ r.id.val ∧ r.id.val < a.2.num ∧ a.2.vec[r.id.val.toNat]? = some r.body ∧
        ∀ j : Nat, (j : Int) ≠ r.id.val → (j : Int) < t.num → j < t.vec.length →
          a.2.vec[j]? = t.vec[j]?)
      (record_6d k (render (r.tokens.map Tok.text ++ ts)) t) := by
  have e : render (r.tokens.map Tok.text ++ ts) =
      render ([Tok.i r.id, .d r.quality].map Tok.text ++
        (r.loc.tokens.map Tok.text ++ (r.rot.tokens.map Tok.text ++ ts))) := by
    simp only [PoseWire.tokens, List.map_append, List.append_assoc]
  rw [e]
  unfold record_6d
  refine post_block _ _ _ rfl _ _ ?_
  have hv : (Tok.ints [Tok.i r.id, .d r.quality]).getD 0 0 = r.id.val := rfl
  have hq : (Tok.dbls [Tok.i r.id, .d r.quality]).getD 0 0 = r.quality.val := rfl
  dsimp only
  rw [hv, hq]
  refine post_grow _ _ _ _ _ (fun t0 n0 i0 _ k0 _ => ?_)
  refine post_update _ _ _ _ (fun t1 w1 => ?_)
  refine post_block _ _ _ r.loc.fmt3 _ _ ?_
  dsimp only
  refine post_update _ _ _ _ (fun t2 w2 => ?_)
  refine post_block _ _ _ r.rot.fmt9 _ _ ?_
  dsimp only
  refine post_update _ _ _ _ (fun t3 w3 => ?_)
  have w := (w1.after w2).after w3
  obtain ⟨wn, wl, w0, ⟨a, ha, ha3⟩, wo⟩ := w
  refine post_pure _ ⟨rfl, ?_, w0, ?_, ?_, ?_⟩
  · show t.num ≤ t3.num
    omega
  · show r.id.val < t3.num
    omega
  · show t3.vec[r.id.val.toNat]? = some r.body
    rw [ha3, r.loc.dbls, r.rot.dbls]
    rfl
  · intro j hj h1 h2
    show t3.vec[j]? = t.vec[j]?
    rw [wo j hj, k0 j h1 h2]
/-- What a well-formed `6d ` line with distinct ids leaves: every record's slot holds the
body the record describes, below the count. -/
theorem line_6d_post (n : IntTok) (recs : List PoseWire)
    (hwf : (WireLine.body n recs).wf = true) (hd : (recs.map (·.id.val)).Nodup)
    (t : Table DTrack_Body_Type_d) :
    Flow.Post (fun _ => False)
      (fun t1 => ∀ r ∈ recs, 0 ≤ r.id.val ∧ r.id.val < t1.num ∧
        t1.vec[r.id.val.toNat]? = some r.body)
      (line_6d (n.text ++ render ((Tok.all PoseWire.tokens recs).map Tok.text)) t) := by
  simp only [WireLine.wf, Bool.and_eq_true, decide_eq_true_eq] at hwf
  obtain ⟨hn, -⟩ := hwf
  unfold line_6d
  refine post_disable_all _ _ _ (fun t1 _ _ _ => ?_)
  refine post_int _ _ _ _ ?_
  dsimp only
  have hcnt : n.val.toNat = recs.length := by omega
  rw [hcnt]
  have h := for_loop_post record_6d PoseWire.tokens (fun _ => False)
    (fun (done : List PoseWire) (x : Table DTrack_Body_Type_d) =>
      ∀ r ∈ done, 0 ≤ r.id.val ∧ r.id.val < x.num ∧ x.vec[r.id.val.toNat]? = some r.body)
    recs 0
    (fun done r rest ts x hr hx => by
      refine post_weaken (record_6d_post _ r ts x) (fun _ hf => hf) ?_
      rintro ⟨s1, x1⟩ ⟨hs, hle, h0, hlt, hval, hoth⟩
      refine ⟨hs, ?_⟩
      intro r1 hr1
      rcases List.mem_append.1 hr1 with hr1 | hr1
      · obtain ⟨g0, g1, g2⟩ := hx r1 hr1
        have hne : r1.id.val ≠ r.id.val := by
          rw [hr, List.map_append, List.map_cons] at hd
          have hd2 := List.nodup_append.1 hd
          intro heq
          exact hd2.2.2 (List.mem_map_of_mem _ hr1)
            (by rw [heq]; exact List.mem_cons_self _ _)
        refine ⟨g0, by simp only at hle ⊢; omega, ?_⟩
        simp only at hoth ⊢
        rw [hoth r1.id.val.toNat (by omega) (by omega)
          (List.getElem?_eq_some_iff.1 g2).1]
        exact g2
      · simp only [List.mem_singleton] at hr1
        subst hr1
        exact ⟨h0, hlt, hval⟩)
    [] t1 (fun _ hr => absurd hr (List.not_mem_nil _))
  rw [List.append_nil] at h
  refine post_bind h ?_
  rintro ⟨s1, x1⟩ ⟨-, hx⟩
  exact post_pure _ hx
/-- The line loop changes at most the members that the keywords of its lines address,
whether it runs to its end or stops. -/
theorem line_loop_frame (ls : List (List Char)) (lc : Locals) (st : DTrackSDK) :
    Flow.Ends (fun st1 =>
      ((∀ l ∈ ls, strncmp_eq l kw_fr = false) → st1.act_framecounter = st.act_framecounter) ∧
      ((∀ l ∈ ls, strncmp_eq l kw_ts = false) → st1.act_timestamp = st.act_timestamp) ∧
      ((∀ l ∈ ls, strncmp_eq l kw_6d = false) → st1.act_body = st.act_body) ∧
      ((∀ l ∈ ls, strncmp_eq l kw_6df = false ∧ strncmp_eq l kw_6df2 = false) →
        st1.act_flystick = st.act_flystick) ∧
      ((∀ l ∈ ls, strncmp_eq l kw_6dmt = false) → st1.act_meatool = st.act_meatool) ∧
      ((∀ l ∈ ls, strncmp_eq l kw_6dmtr = false) → st1.act_mearef = st.act_mearef) ∧
      ((∀ l ∈ ls, strncmp_eq l kw_gl = false) → st1.act_hand = st.act_hand) ∧
      ((∀ l ∈ ls, strncmp_eq l kw_6dj = false) → st1.act_human = st.act_human) ∧
      ((∀ l ∈ ls, strncmp_eq l kw_3d = false) → st1.act_marker = st.act_marker)) Prod.snd
      (line_loop ls lc st) := by
  induction ls generalizing lc st with
  | nil =>
    exact ⟨fun _ => rfl, fun _ => rfl, fun _ => rfl, fun _ => rfl, fun _ => rfl, fun _ => rfl,
      fun _ => rfl, fun _ => rfl, fun _ => rfl⟩
  | cons l ls ih =>
    have hb := line_body_frame l lc st
    unfold line_loop
    cases h : line_body l lc st with
    | next r =>
      obtain ⟨lc1, st1⟩ := r
      rw [h] at hb
      obtain ⟨b1, b2, b3, b4, b5, b6, b7, b8, b9⟩ := hb
      have hi := ih lc1 st1
      cases hl : line_loop ls lc1 st1 with
      | next r2 =>
        rw [hl] at hi
        obtain ⟨i1, i2, i3, i4, i5, i6, i7, i8, i9⟩ := hi
        simp only [hl, Flow.Ends, List.mem_cons, forall_eq_or_imp] at i1 i2 i3 i4 i5 i6 i7 i8 i9 ⊢
        exact ⟨fun g => (i1 g.2).trans (b1 g.1), fun g => (i2 g.2).trans (b2 g.1),
          fun g => (i3 g.2).trans (b3 g.1), fun g => (i4 g.2).trans (b4 g.1.1 g.1.2),
          fun g => (i5 g.2).trans (b5 g.1), fun g => (i6 g.2).trans (b6 g.1),
          fun g => (i7 g.2).trans (b7 g.1), fun g => (i8 g.2).trans (b8 g.1),
          fun g => (i9 g.2).trans (b9 g.1)⟩
      | fail w st2 =>
        rw [hl] at hi
        obtain ⟨i1, i2, i3, i4, i5, i6, i7, i8, i9⟩ := hi
        simp only [hl, Flow.Ends, List.mem_cons, forall_eq_or_imp] at i1 i2 i3 i4 i5 i6 i7 i8 i9 ⊢
        exact ⟨fun g => (i1 g.2).trans (b1 g.1), fun g => (i2 g.2).trans (b2 g.1),
          fun g => (i3 g.2).trans (b3 g.1), fun g => (i4 g.2).trans (b4 g.1.1 g.1.2),
          fun g => (i5 g.2).trans (b5 g.1), fun g => (i6 g.2).trans (b6 g.1),
          fun g => (i7 g.2).trans (b7 g.1), fun g => (i8 g.2).trans (b8 g.1),
          fun g => (i9 g.2).trans (b9 g.1)⟩
      | undefined =>
        simp only [hl, Flow.Ends]
    | fail w st1 =>
      rw [h] at hb
      obtain ⟨b1, b2, b3, b4, b5, b6, b7, b8, b9⟩ := hb
      simp only [Flow.Ends, List.mem_cons, forall_eq_or_imp]
      exact ⟨fun g => b1 g.1, fun g => b2 g.1, fun g => b3 g.1, fun g => b4 g.1.1 g.1.2,
        fun g => b5 g.1, fun g => b6 g.1, fun g => b7 g.1, fun g => b8 g.1, fun g => b9 g.1⟩
    | undefined => trivial

/-- The reconciliation leaves the slots below the old count as they are. -/
theorem Table.reconcile_keeps {α : Type} {z : α} {d : Int → α → α} {t t1 : Table α} {n : Int}
    (h : t.reconcile z d n = .next t1) :
    ∀ j : Nat, (j : Int) < t.num → j < t.vec.length → t1.vec[j]? = t.vec[j]? := by
  unfold Table.reconcile at h
  split at h
  · rename_i hgt
    cases hr : vec_resize z t.vec n with
    | none => rw [hr] at h; simp [Flow.mem, bind, Flow.bind] at h
    | some v =>
      rw [hr] at h
      simp only [Flow.mem, bind, Flow.bind] at h
      cases hf : fill_loop d (n - t.num).toNat t.num v with
      | none => rw [hf] at h; simp at h
      | some v2 =>
        rw [hf] at h
        simp only [pure, Flow.next.injEq] at h
        subst h
        obtain ⟨hn, hlen, hkeep⟩ := vec_resize_some hr
        obtain ⟨flen, fin, fout⟩ := fill_loop_some d _ _ _ _ hf
        intro j h1 h2
        simp only
        rw [fout j (Or.inl h1), hkeep j (by omega) h2]
  · simp only [pure, bind, Flow.bind, Flow.next.injEq] at h
    subst h
    intro j _ _
    rfl

/-- The ids read off a well-formed `6d ` line are the ids of its records. -/
theorem ids_6d_wire (recs : List PoseWire) (ts : List (List Char)) :
    ids_6d recs.length (render ((Tok.all PoseWire.tokens recs).map Tok.text ++ ts)) =
      recs.map (·.id.val) := by
  induction recs with
  | nil => rfl
  | cons r recs ih =>
    have e : render ((Tok.all PoseWire.tokens (r :: recs)).map Tok.text ++ ts) =
        render ([Tok.i r.id, .d r.quality].map Tok.text ++
          (r.loc.tokens.map Tok.text ++ (r.rot.tokens.map Tok.text ++
            ((Tok.all PoseWire.tokens recs).map Tok.text ++ ts)))) := by
      simp only [Tok.all, PoseWire.tokens, List.map_append, List.append_assoc]
    rw [e]
    simp only [List.length_cons, ids_6d]
    have h1 := string_get_block_render [Tok.i r.id, .d r.quality]
      (r.loc.tokens.map Tok.text ++ (r.rot.tokens.map Tok.text ++
            ((Tok.all PoseWire.tokens recs).map Tok.text ++ ts)))
    have h2 := string_get_block_render r.loc.tokens (r.rot.tokens.map Tok.text ++
            ((Tok.all PoseWire.tokens recs).map Tok.text ++ ts))
    have h3 := string_get_block_render r.rot.tokens
      ((Tok.all PoseWire.tokens recs).map Tok.text ++ ts)
    rw [r.loc.fmt3] at h2
    rw [r.rot.fmt9] at h3
    rw [show fmt_id = [Tok.i r.id, .d r.quality].map Tok.fmt from rfl, h1]
    simp only [h2, h3, ih]
    rfl

theorem ids_6d_line_wire (n : IntTok) (recs : List PoseWire) (hn : n.val = recs.length) :
    ids_6d_line (n.text ++ render ((Tok.all PoseWire.tokens recs).map Tok.text)) =
      recs.map (·.id.val) := by
  unfold ids_6d_line
  rw [(string_get_i_tok n _).1]
  have hcnt : n.val.toNat = recs.length := by omega
  simp only [hcnt]
  have := ids_6d_wire recs []
  rw [List.append_nil] at this
  exact this

theorem body_ids_append (ls1 ls2 : List (List Char)) :
    body_ids (ls1 ++ ls2) = body_ids ls1 ++ body_ids ls2 := by
  induction ls1 with
  | nil => rfl
  | cons l ls ih =>
    show _ ++ body_ids (ls ++ ls2) = (_ ++ body_ids ls) ++ body_ids ls2
    rw [ih, List.append_assoc]

theorem body_ids_none (ls : List (List Char)) (h : ∀ l ∈ ls, strncmp_eq l kw_6d = false) :
    body_ids ls = [] := by
  induction ls with
  | nil => rfl
  | cons l ls ih =>
    simp only [body_ids, h l (List.mem_cons_self _ _), Bool.false_eq_true, if_false,
      List.nil_append]
    exact ih (fun x hx => h x (List.mem_cons_of_mem _ hx))

/-! ## C11: what a body line leaves in the body table -/

/-- A line loop that ran to its end ran through each of its lines. -/
theorem line_loop_split {ls1 ls2 : List (List Char)} {l : List Char} {lc lc2 : Locals}
    {st st2 : DTrackSDK} (h : line_loop (ls1 ++ l :: ls2) lc st = .next (lc2, st2)) :
    ∃ lcA stA lcB stB, line_loop ls1 lc st = .next (lcA, stA) ∧
      line_body l lcA stA = .next (lcB, stB) ∧ line_loop ls2 lcB stB = .next (lc2, st2) := by
  rw [line_loop_append] at h
  cases h1 : line_loop ls1 lc st with
  | next r =>
    obtain ⟨lcA, stA⟩ := r
    rw [h1] at h
    simp only [line_loop] at h
    cases h2 : line_body l lcA stA with
    | next r2 =>
      obtain ⟨lcB, stB⟩ := r2
      rw [h2] at h
      exact ⟨lcA, stA, lcB, stB, rfl, h2, h⟩
    | fail w s => rw [h2] at h; simp at h
    | undefined => rw [h2] at h; simp at h
  | fail w s => rw [h1] at h; simp at h
  | undefined => rw [h1] at h; simp at h

/-- A successful `receive` ran the line loop to its end and then the end of the frame. -/
theorem receive_true {st st1 : DTrackSDK} {udp : UdpResult}
    (h : st.receive udp = .ret true st1) :
    ∃ lc st2, line_loop (string_lines udp.text) Locals.defaults st.frame_start =
        .next (lc, st2) ∧
      ∃ tb th, reconcile_body lc st2.act_body = .next tb ∧
        reconcile_hand lc st2.act_hand = .next th ∧
        st1 = { (st2.set_body tb).set_hand th with lastDataError := .ERR_NONE } := by
  rcases receive_ret_cases st udp true st1 h with ⟨hf, -⟩ | hd
  · cases hf
  rcases decode_ret_cases _ _ _ _ hd with ⟨hf, -⟩ | ⟨-, lc, st2, hl, he⟩
  · cases hf
  obtain ⟨-, tb, th, hb, hh, e⟩ := frame_end_ret he
  exact ⟨lc, st2, hl, tb, th, hb, hh, e⟩

theorem reconcile_body_keeps {lc : Locals} {t t1 : Table DTrack_Body_Type_d}
    (h : reconcile_body lc t = .next t1) :
    ∀ j : Nat, (j : Int) < t.num → j < t.vec.length → t1.vec[j]? = t.vec[j]? := by
  unfold reconcile_body at h
  split at h
  · exact Table.reconcile_keeps h
  · simp only [pure, Flow.next.injEq] at h
    subst h
    intro _ _ _
    rfl

/-- C11, as stated, fails: the packet `"6d 1 4 ..\n6dcal 2\n"` has one `6d ` line, which
lists the id 4, and is decoded with result true on a fresh session; but the count line
sets the count to 2, so `getBody(4)` returns no record at all. -/
theorem C11_counterexample_listed_body_beyond_count :
    string_lines (UdpResult.packet pkt_body4_cal2).text =
      ["6d 1 4 1.0 1 2 3 1 0 0 0 1 0 0 0 1".toList, "6dcal 2".toList, []] ∧
    (fresh.receive (.packet pkt_body4_cal2)).returned = some true ∧
    st_body4_cal2.getNumBody = 2 ∧ st_body4_cal2.getBody 4 = none := by
  decide

/-- C11, amended: after a successful `receive` of a packet with exactly one `6d ` line, a
well-formed one that lists records with distinct ids `>= 0`, the slot of every listed id
below `getNumBody()` carries exactly the listed id, quality, location and rotation (a
listed id at or above the count, which a `6dcal ` line of the packet can bring about, has no
record), and every other slot below `getNumBody()` has quality -1. -/
theorem C11_body_line_stored (st : DTrackSDK) (udp : UdpResult) (st1 : DTrackSDK)
    (ls1 ls2 : List (List Char)) (n : IntTok) (recs : List PoseWire)
    (hwf : (WireLine.body n recs).wf = true) (hdist : (recs.map (·.id.val)).Nodup)
    (hsplit : string_lines udp.text = ls1 ++ (WireLine.body n recs).text :: ls2)
    (hone : ∀ l ∈ ls1 ++ ls2, strncmp_eq l kw_6d = false)
    (h : st.receive udp = .ret true st1) :
    (∀ r ∈ recs, r.id.val < st1.getNumBody → st1.getBody r.id.val = some r.body) ∧
    (∀ j : Nat, (j : Int) < st1.getNumBody → (∀ r ∈ recs, r.id.val ≠ j) →
      ∃ b, st1.getBody j = some b ∧ b.quality = Dbl.minusOne) := by
  obtain ⟨lc, st2, hl, tb, th, hb, hh, rfl⟩ := receive_true h
  have hl0 := hl
  rw [hsplit] at hl
  obtain ⟨lcA, stA, lcB, stB, h1, h2, h3⟩ := line_loop_split hl
  have hwf0 := hwf
  simp only [WireLine.wf, Bool.and_eq_true, decide_eq_true_eq] at hwf0
  constructor
  · -- the slots of the listed ids
    have htext : (WireLine.body n recs).text = '6' :: 'd' :: ' ' ::
        (n.text ++ render ((Tok.all PoseWire.tokens recs).map Tok.text)) := rfl
    rw [htext, line_body_kw_6d] at h2
    obtain ⟨t1, ht1, e⟩ := Flow.within_next h2
    have hp := line_6d_post n recs hwf hdist stA.act_body
    rw [ht1] at hp
    have hB : stB.act_body = t1 := by
      have := congrArg Prod.snd e
      simp only at this
      rw [this]
      rfl
    have hfr := line_loop_frame ls2 lcB stB
    rw [h3] at hfr
    have hbody : st2.act_body = t1 := by
      rw [← hB]
      exact hfr.2.2.1 (fun l hl => hone l (List.mem_append_right _ hl))
    intro r hr hlt
    obtain ⟨g0, g1, g2⟩ := hp r hr
    have hk := reconcile_body_keeps hb r.id.val.toNat (by rw [hbody]; omega)
      (by rw [hbody]; exact (List.getElem?_eq_some_iff.1 g2).1)
    simp only [DTrackSDK.getBody, DTrackSDK.getNumBody, DTrackSDK.set_body,
      DTrackSDK.set_hand, Table.at] at hlt ⊢
    rw [if_pos ⟨g0, hlt⟩, hk, hbody]
    exact g2
  · -- the other slots
    intro j hj hn
    have hkw : strncmp_eq (WireLine.body n recs).text kw_6d = true := by
      have htext : (WireLine.body n recs).text = '6' :: 'd' :: ' ' ::
          (n.text ++ render ((Tok.all PoseWire.tokens recs).map Tok.text)) := rfl
      rw [htext]
      simp [strncmp_eq, kw_6d]
    have h6d : ∃ l ∈ string_lines udp.text, strncmp_eq l kw_6d = true := by
      refine ⟨(WireLine.body n recs).text, ?_, hkw⟩
      rw [hsplit]
      exact List.mem_append_right _ (List.mem_cons_self _ _)
    have hc := line_loop_body_all _ _ _ h6d _ _ hl0
    have rb := (reconcile_body_next hb hc).1
    have hids : body_ids (string_lines udp.text) = recs.map (·.id.val) := by
      rw [hsplit, body_ids_append,
        body_ids_none ls1 (fun l hl => hone l (List.mem_append_left _ hl))]
      rw [List.nil_append]
      show (if strncmp_eq (WireLine.body n recs).text kw_6d = true
        then ids_6d_line ((WireLine.body n recs).text.drop 3) else []) ++ body_ids ls2 = _
      rw [body_ids_none ls2 (fun l hl => hone l (List.mem_append_right _ hl)),
        List.append_nil, if_pos hkw]
      exact ids_6d_line_wire n recs hwf0.1
    obtain ⟨b, hb1, hb2⟩ := rb.at j (by omega) hj (by
      rw [hids]
      intro hm
      obtain ⟨r, hr, he⟩ := List.mem_map.1 hm
      exact hn r hr he)
    exact ⟨b, hb1, hb2.2⟩

/-- C11 (amended) at a concrete input: a session in which body 0 is tracked receives the
packet `6d 1 1 0.900 1.0 2.0 3.0 1 0 0 0 1 0 0 0 1`; body 1 then carries the record and body
0 has quality -1. -/
theorem C11_body_line_stored_witness :
    (∀ r ∈ [body_rec_1], r.id.val < st_6d_one_body1.getNumBody →
      st_6d_one_body1.getBody r.id.val = some r.body) ∧
    (∀ j : Nat, (j : Int) < st_6d_one_body1.getNumBody → (∀ r ∈ [body_rec_1], r.id.val ≠ j) →
      ∃ b, st_6d_one_body1.getBody j = some b ∧ b.quality = Dbl.minusOne) :=
  C11_body_line_stored st_6d_one udp_body1 st_6d_one_body1 [] [[]] tok_1 [body_rec_1]
    (by decide) (by decide) (by decide) (by decide) (by decide)

/-! ## What every call keeps: counts within the vectors, member arrays of declared size -/

theorem inv_wrote {α : Type} {P : α → Prop} {i : Int} {g : α → α} {t t1 : Table α}
    (h : Table.Inv P t) (w : Table.Wrote i g t t1) (hg : ∀ a, P a → P (g a)) :
    Table.Inv P t1 := by
  refine ⟨?_, w.all P hg h.2⟩
  obtain ⟨wn, wl, -⟩ := w
  rw [wn, wl]
  exact h.1

theorem inv_update {α β : Type} {P : α → Prop} {M : β → Prop} (t : Table α) (i : Int)
    (g : α → α) (f : Table α → Flow (Table α) β) (h : Table.Inv P t)
    (hg : ∀ a, P a → P (g a))
    (hf : ∀ t1 : Table α, Table.Inv P t1 → Flow.Post (Table.Inv P) M (f t1)) :
    Flow.Post (Table.Inv P) M (t.update i g >>= f) :=
  post_update t i g f (fun t1 w => hf t1 (inv_wrote h w hg))

theorem inv_adjust {α β : Type} {P : α → Prop} {M : β → Prop} (z : α) (n : Int)
    (t : Table α) (f : Table α → Flow (Table α) β) (h : Table.Inv P t) (hz : P z)
    (hf : ∀ t1 : Table α, Table.Inv P t1 → Flow.Post (Table.Inv P) M (f t1)) :
    Flow.Post (Table.Inv P) M (t.adjust z n >>= f) := by
  unfold Table.adjust
  by_cases hn : n ≠ t.num
  · rw [if_pos hn]
    cases hr : vec_resize z t.vec n with
    | none => trivial
    | some v =>
      have e : (Flow.mem (some v) >>= fun v =>
          (pure { t with vec := v, num := n } : Flow (Table α) (Table α))) =
          .next { t with vec := v, num := n } := rfl
      rw [e]
      obtain ⟨h0, hlen, -⟩ := vec_resize_some hr
      refine hf _ ⟨by simp only [hlen]; omega, ?_⟩
      intro x hx
      unfold vec_resize at hr
      rw [if_neg (by omega)] at hr
      simp only [Option.some.injEq] at hr
      subst hr
      rcases List.mem_append.1 hx with hx | hx
      · exact h.2 x (List.mem_of_mem_take hx)
      · rw [List.eq_of_mem_replicate hx]
        exact hz
  · rw [if_neg hn]
    exact hf t h

theorem inv_grow {α β : Type} {P : α → Prop} {M : β → Prop} (z : α) (d : Int → α → α)
    (id : Int) (t : Table α) (f : Table α → Flow (Table α) β) (h : Table.Inv P t) (hz : P z)
    (hd : ∀ j a, P a → P (d j a))
    (hf : ∀ t1 : Table α, Table.Inv P t1 → Flow.Post (Table.Inv P) M (f t1)) :
    Flow.Post (Table.Inv P) M (t.grow z d id >>= f) := by
  refine post_grow z d id t f (fun t1 _ _ hl _ hp => hf t1 ⟨hl h.1, ?_⟩)
  intro x hx
  obtain ⟨a, ha, hxa⟩ := hp x hx
  have hpa : P a := by
    rcases ha with ha | ha
    · exact h.2 a ha
    · rw [ha]
      exact hz
  rcases hxa with rfl | ⟨j, rfl⟩
  · exact hpa
  · exact hd j a hpa

theorem inv_disable_all {α β : Type} {P : α → Prop} {M : β → Prop} (d : Int → α → α)
    (t : Table α) (f : Table α → Flow (Table α) β) (h : Table.Inv P t)
    (hd : ∀ j a, P a → P (d j a))
    (hf : ∀ t1 : Table α, Table.Inv P t1 → Flow.Post (Table.Inv P) M (f t1)) :
    Flow.Post (Table.Inv P) M (t.disable_all d >>= f) := by
  refine post_disable_all d t f (fun t1 hn hl hp => hf t1 ⟨?_, ?_⟩)
  · rw [hn, hl]
    exact h.1
  · intro x hx
    rcases hp x hx with hx1 | ⟨j, a, ha, rfl⟩
    · exact h.2 x hx1
    · exact hd j a (h.2 a ha)

theorem inv_reconcile {α : Type} {P : α → Prop} (z : α) (d : Int → α → α) (n : Int)
    (t : Table α) (h : Table.Inv P t) (hz : P z) (hd : ∀ j a, P a → P (d j a)) :
    Flow.Post (Table.Inv P) (Table.Inv P) (t.reconcile z d n) := by
  unfold Table.reconcile
  by_cases hn : n > t.num
  · rw [if_pos hn]
    cases hr : vec_resize z t.vec n with
    | none => trivial
    | some v =>
      obtain ⟨h0, hlen, -⟩ := vec_resize_some hr
      have hv : ∀ x ∈ v, P x := by
        intro x hx
        unfold vec_resize at hr
        rw [if_neg (by omega)] at hr
        simp only [Option.some.injEq] at hr
        subst hr
        rcases List.mem_append.1 hx with hx | hx
        · exact h.2 x (List.mem_of_mem_take hx)
        · rw [List.eq_of_mem_replicate hx]
          exact hz
      cases hfl : fill_loop d (n - t.num).toNat t.num v with
      | none =>
        have e : ((Flow.mem (some v) >>= fun v =>
          Flow.mem (fill_loop d (n - t.num).toNat t.num v) >>= fun v =>
          (pure { t with vec := v } : Flow (Table α) (Table α))) >>= fun t =>
          (pure { t with num := n } : Flow (Table α) (Table α))) = .undefined := by
          show ((Flow.mem (fill_loop d (n - t.num).toNat t.num v) >>= fun v =>
            (pure { t with vec := v } : Flow (Table α) (Table α))) >>= fun t =>
            (pure { t with num := n } : Flow (Table α) (Table α))) = _
          rw [hfl]
          rfl
        rw [e]
        trivial
      | some v2 =>
        have e : ((Flow.mem (some v) >>= fun v =>
          Flow.mem (fill_loop d (n - t.num).toNat t.num v) >>= fun v =>
          (pure { t with vec := v } : Flow (Table α) (Table α))) >>= fun t =>
          (pure { t with num := n } : Flow (Table α) (Table α))) =
            .next { t with vec := v2, num := n } := by
          show ((Flow.mem (fill_loop d (n - t.num).toNat t.num v) >>= fun v =>
            (pure { t with vec := v } : Flow (Table α) (Table α))) >>= fun t =>
            (pure { t with num := n } : Flow (Table α) (Table α))) = _
          rw [hfl]
          rfl
        rw [e]
        obtain ⟨flen, fin, fout⟩ := fill_loop_some d _ _ _ _ hfl
        refine ⟨by simp only [flen, hlen]; omega, ?_⟩
        intro x hx
        obtain ⟨j, hj, rfl⟩ := List.getElem_of_mem hx
        simp only at hj
        by_cases hjn : t.num ≤ (j : Int) ∧ (j : Int) < t.num + ((n - t.num).toNat : Int)
        · obtain ⟨a, hmem, ha⟩ := fin j hjn.1 hjn.2
          have : v2[j]? = some v2[j] := List.getElem?_eq_getElem hj
          rw [ha] at this
          show P v2[j]
          rw [← Option.some.inj this]
          exact hd _ _ (hv a (List.getElem?_mem hmem))
        · have h1 := fout j (by omega)
          rw [List.getElem?_eq_getElem hj] at h1
          exact hv _ (List.getElem?_mem h1.symm)
  · rw [if_neg hn]
    exact ⟨le_trans (by show n ≤ t.num; omega) h.1, h.2⟩

theorem vec_update_getD_length {α : Type} (v : List α) (j : Int) (f : α → α) :
    ((vec_update v j f).getD v).length = v.length := by
  unfold vec_update
  split
  · simp
  · rfl

theorem arr_set_length {α : Type} (arr : List α) (j : Int) (x : α) :
    (arr_set arr j x).length = arr.length :=
  vec_update_getD_length arr j _

theorem buttons_6df_length (cnt j : Nat) (k : Int) (b : List Int) :
    (buttons_6df cnt j k b).length = b.length := by
  induction cnt generalizing j k b with
  | zero => rfl
  | succ cnt ih =>
    unfold buttons_6df
    rw [ih, arr_set_length]

theorem buttons_6df2_length (cnt j : Nat) (iarr : List Int) (k l : Nat) (b : List Int) :
    (buttons_6df2 cnt j iarr k l b).length = b.length := by
  induction cnt generalizing j iarr k l b with
  | zero => rfl
  | succ cnt ih =>
    unfold buttons_6df2
    dsimp only
    split
    · rw [ih, arr_set_length]
    · rw [ih, arr_set_length]

theorem store_joysticks_length (ds : List Dbl) (j : Nat) (js : List Dbl) :
    (store_joysticks ds j js).length = js.length := by
  induction ds generalizing j js with
  | nil => rfl
  | cons d ds ih =>
    unfold store_joysticks
    rw [ih, arr_set_length]

theorem memset_hand_shaped (h : DTrack_Hand_Type_d) (hs : hand_shaped h) :
    hand_shaped (memset_hand h) := by
  unfold hand_shaped at hs ⊢
  unfold memset_hand
  simp only [List.length_append, List.length_map, List.length_take]
  have hd : (h.finger.drop 2).length = 3 := by
    rw [List.length_drop, hs]
  cases hf : h.finger.drop 2 with
  | nil => rw [hf] at hd; simp at hd
  | cons f fs =>
    rw [hf] at hd
    simp only [List.length_cons] at hd ⊢
    omega

theorem hand_disabled_shaped (j : Int) (h : DTrack_Hand_Type_d) (hs : hand_shaped h) :
    hand_shaped (hand_disabled j h) :=
  memset_hand_shaped h hs

theorem record_6d_inv (i : Int) (s : List Char) (t : Table DTrack_Body_Type_d)
    (h : Table.Inv (fun _ => True) t) :
    Flow.Post (Table.Inv (fun _ => True)) (fun a => Table.Inv (fun _ => True) a.2)
      (record_6d i s t) := by
  unfold record_6d
  refine post_parse _ _ _ h (fun v _ => ?_)
  obtain ⟨is, ds, s1⟩ := v
  dsimp only
  refine inv_grow _ _ _ _ _ h trivial (fun _ _ _ => trivial) (fun t1 h1 => ?_)
  refine inv_update _ _ _ _ h1 (fun _ _ => trivial) (fun t2 h2 => ?_)
  refine post_parse _ _ _ h2 (fun v _ => ?_)
  obtain ⟨is2, ds2, s2⟩ := v
  dsimp only
  refine inv_update _ _ _ _ h2 (fun _ _ => trivial) (fun t3 h3 => ?_)
  refine post_parse _ _ _ h3 (fun v _ => ?_)
  obtain ⟨is3, ds3, s3⟩ := v
  dsimp only
  refine inv_update _ _ _ _ h3 (fun _ _ => trivial) (fun t4 h4 => ?_)
  exact post_pure _ h4

theorem line_6d_inv (s : List Char) (t : Table DTrack_Body_Type_d)
    (h : Table.Inv (fun _ => True) t) :
    Flow.Post (Table.Inv (fun _ => True)) (Table.Inv (fun _ => True)) (line_6d s t) := by
  unfold line_6d
  refine inv_disable_all _ _ _ h (fun _ _ _ => trivial) (fun t1 h1 => ?_)
  refine post_parse _ _ _ h1 (fun v _ => ?_)
  obtain ⟨n, s1⟩ := v
  dsimp only
  refine post_bind (for_loop_keeps _ _ _ (fun i s t ht => record_6d_inv i s t ht) _ _ _ _ h1)
    (fun a ha => ?_)
  obtain ⟨s2, t2⟩ := a
  exact post_pure _ ha

theorem record_6df_inv (i : Int) (s : List Char) (t : Table DTrack_FlyStick_Type_d)
    (h : Table.Inv flystick_shaped t) :
    Flow.Post (Table.Inv flystick_shaped) (fun a => Table.Inv flystick_shaped a.2)
      (record_6df i s t) := by
  unfold record_6df
  refine post_parse _ _ _ h (fun v _ => ?_)
  obtain ⟨is, ds, s1⟩ := v
  dsimp only
  split
  · exact post_fail _ _ h
  refine inv_update _ _ _ _ h (fun a ha => ?_) (fun t2 h2 => ?_)
  · unfold flystick_shaped at ha ⊢
    dsimp only
    rw [buttons_6df_length, arr_set_length, arr_set_length]
    exact ha
  refine post_parse _ _ _ h2 (fun v _ => ?_)
  obtain ⟨is2, ds2, s2⟩ := v
  dsimp only
  refine inv_update _ _ _ _ h2 (fun _ ha => ha) (fun t3 h3 => ?_)
  refine post_parse _ _ _ h3 (fun v _ => ?_)
  obtain ⟨is3, ds3, s3⟩ := v
  dsimp only
  refine inv_update _ _ _ _ h3 (fun _ ha => ha) (fun t4 h4 => ?_)
  exact post_pure _ h4

theorem line_6df_inv (s : List Char) (t : Table DTrack_FlyStick_Type_d)
    (h : Table.Inv flystick_shaped t) :
    Flow.Post (Table.Inv flystick_shaped) (fun a => Table.Inv flystick_shaped a.2)
      (line_6df s t) := by
  unfold line_6df
  refine post_parse _ _ _ h (fun v _ => ?_)
  obtain ⟨n, s1⟩ := v
  dsimp only
  refine inv_adjust _ _ _ _ h ⟨rfl, rfl⟩ (fun t1 h1 => ?_)
  refine post_bind (for_loop_keeps _ _ _ (fun i s t ht => record_6df_inv i s t ht) _ _ _ _ h1)
    (fun a ha => ?_)
  obtain ⟨s2, t2⟩ := a
  exact post_pure _ ha

theorem record_6df2_inv (i : Int) (s : List Char) (t : Table DTrack_FlyStick_Type_d)
    (h : Table.Inv flystick_shaped t) :
    Flow.Post (Table.Inv flystick_shaped) (fun a => Table.Inv flystick_shaped a.2)
      (record_6df2 i s t) := by
  unfold record_6df2
  refine post_parse _ _ _ h (fun v _ => ?_)
  obtain ⟨is, ds, s1⟩ := v
  dsimp only
  split
  · exact post_fail _ _ h
  refine inv_update _ _ _ _ h (fun _ ha => ha) (fun t2 h2 => ?_)
  split
  · exact post_fail _ _ h2
  refine inv_update _ _ _ _ h2 (fun _ ha => ha) (fun t3 h3 => ?_)
  refine post_parse _ _ _ h3 (fun v _ => ?_)
  obtain ⟨is2, ds2, s2⟩ := v
  dsimp only
  refine inv_update _ _ _ _ h3 (fun _ ha => ha) (fun t4 h4 => ?_)
  refine post_parse _ _ _ h4 (fun v _ => ?_)
  obtain ⟨is3, ds3, s3⟩ := v
  dsimp only
  refine inv_update _ _ _ _ h4 (fun _ ha => ha) (fun t5 h5 => ?_)
  split
  · trivial
  refine post_parse _ _ _ h5 (fun v _ => ?_)
  obtain ⟨is4, ds4, s4⟩ := v
  dsimp only
  refine inv_update _ _ _ _ h5 (fun a ha => ?_) (fun t6 h6 => ?_)
  · unfold flystick_shaped at ha ⊢
    dsimp only
    rw [buttons_6df2_length, store_joysticks_length]
    exact ha
  exact post_pure _ h6

theorem line_6df2_inv (s : List Char) (t : Table DTrack_FlyStick_Type_d)
    (h : Table.Inv flystick_shaped t) :
    Flow.Post (Table.Inv flystick_shaped) (Table.Inv flystick_shaped) (line_6df2 s t) := by
  unfold line_6df2
  refine post_parse _ _ _ h (fun v _ => ?_)
  obtain ⟨n, s1⟩ := v
  dsimp only
  refine inv_adjust _ _ _ _ h ⟨rfl, rfl⟩ (fun t1 h1 => ?_)
  refine post_parse _ _ _ h1 (fun v _ => ?_)
  obtain ⟨n2, s2⟩ := v
  dsimp only
  refine post_bind (for_loop_keeps _ _ _ (fun i s t ht => record_6df2_inv i s t ht) _ _ _ _ h1)
    (fun a ha => ?_)
  obtain ⟨s3, t3⟩ := a
  exact post_pure _ ha

theorem record_6dmt_inv (i : Int) (s : List Char) (t : Table DTrack_MeaTool_Type_d)
    (h : Table.Inv meatool_shaped t) :
    Flow.Post (Table.Inv meatool_shaped) (fun a => Table.Inv meatool_shaped a.2)
      (record_6dmt i s t) := by
  unfold record_6dmt
  refine post_parse _ _ _ h (fun v _ => ?_)
  obtain ⟨is, ds, s1⟩ := v
  dsimp only
  split
  · exact post_fail _ _ h
  refine inv_update _ _ _ _ h (fun a ha => ?_) (fun t2 h2 => ?_)
  · unfold meatool_shaped at ha ⊢
    dsimp only
    rw [arr_set_length]
    exact ha
  refine post_parse _ _ _ h2 (fun v _ => ?_)
  obtain ⟨is2, ds2, s2⟩ := v
  dsimp only
  refine inv_update _ _ _ _ h2 (fun _ ha => ha) (fun t3 h3 => ?_)
  refine post_parse _ _ _ h3 (fun v _ => ?_)
  obtain ⟨is3, ds3, s3⟩ := v
  dsimp only
  refine inv_update _ _ _ _ h3 (fun _ ha => ha) (fun t4 h4 => ?_)
  exact post_pure _ h4

theorem line_6dmt_inv (s : List Char) (t : Table DTrack_MeaTool_Type_d)
    (h : Table.Inv meatool_shaped t) :
    Flow.Post (Table.Inv meatool_shaped) (fun a => Table.Inv meatool_shaped a.2)
      (line_6dmt s t) := by
  unfold line_6dmt
  refine post_parse _ _ _ h (fun v _ => ?_)
  obtain ⟨n, s1⟩ := v
  dsimp only
  refine inv_adjust _ _ _ _ h rfl (fun t1 h1 => ?_)
  refine post_bind (for_loop_keeps _ _ _ (fun i s t ht => record_6dmt_inv i s t ht) _ _ _ _ h1)
    (fun a ha => ?_)
  obtain ⟨s2, t2⟩ := a
  exact post_pure _ ha

theorem record_6dmtr_inv (i : Int) (s : List Char) (t : Table DTrack_MeaRef_Type_d)
    (h : Table.Inv (fun _ => True) t) :
    Flow.Post (Table.Inv (fun _ => True)) (fun a => Table.Inv (fun _ => True) a.2)
      (record_6dmtr i s t) := by
  unfold record_6dmtr
  refine post_parse _ _ _ h (fun v _ => ?_)
  obtain ⟨is, ds, s1⟩ := v
  dsimp only
  refine inv_update _ _ _ _ h (fun _ _ => trivial) (fun t2 h2 => ?_)
  refine post_parse _ _ _ h2 (fun v _ => ?_)
  obtain ⟨is2, ds2, s2⟩ := v
  dsimp only
  refine inv_update _ _ _ _ h2 (fun _ _ => trivial) (fun t3 h3 => ?_)
  refine post_parse _ _ _ h3 (fun v _ => ?_)
  obtain ⟨is3, ds3, s3⟩ := v
  dsimp only
  refine inv_update _ _ _ _ h3 (fun _ _ => trivial) (fun t4 h4 => ?_)
  exact post_pure _ h4

theorem line_6dmtr_inv (s : List Char) (t : Table DTrack_MeaRef_Type_d)
    (h : Table.Inv (fun _ => True) t) :
    Flow.Post (Table.Inv (fun _ => True)) (Table.Inv (fun _ => True)) (line_6dmtr s t) := by
  unfold line_6dmtr
  refine post_parse _ _ _ h (fun v _ => ?_)
  obtain ⟨n0, s0⟩ := v
  dsimp only
  refine post_parse _ _ _ h (fun v _ => ?_)
  obtain ⟨n, s1⟩ := v
  dsimp only
  refine inv_adjust _ _ _ _ h trivial (fun t1 h1 => ?_)
  refine post_bind (for_loop_keeps _ _ _ (fun i s t ht => record_6dmtr_inv i s t ht) _ _ _ _ h1)
    (fun a ha => ?_)
  obtain ⟨s2, t2⟩ := a
  exact post_pure _ ha

theorem hand_shaped_finger (h : DTrack_Hand_Type_d) (j : Int)
    (g : DTrack_Finger_d → DTrack_Finger_d) (hs : hand_shaped h) :
    hand_shaped { h with finger := (vec_update h.finger j g).getD h.finger } := by
  unfold hand_shaped at hs ⊢
  dsimp only
  rw [vec_update_getD_length]
  exact hs

theorem finger_gl_inv (id j : Int) (s : List Char) (t : Table DTrack_Hand_Type_d)
    (h : Table.Inv hand_shaped t) :
    Flow.Post (Table.Inv hand_shaped) (fun a => Table.Inv hand_shaped a.2)
      (finger_gl id j s t) := by
  unfold finger_gl
  refine post_parse _ _ _ h (fun v _ => ?_)
  obtain ⟨is, ds, s1⟩ := v
  dsimp only
  refine inv_update _ _ _ _ h (fun a ha => hand_shaped_finger a j _ ha) (fun t2 h2 => ?_)
  refine post_parse _ _ _ h2 (fun v _ => ?_)
  obtain ⟨is2, ds2, s2⟩ := v
  dsimp only
  refine inv_update _ _ _ _ h2 (fun a ha => hand_shaped_finger a j _ ha) (fun t3 h3 => ?_)
  refine post_parse _ _ _ h3 (fun v _ => ?_)
  obtain ⟨is3, ds3, s3⟩ := v
  dsimp only
  refine inv_update _ _ _ _ h3 (fun a ha => hand_shaped_finger a j _ ha) (fun t4 h4 => ?_)
  exact post_pure _ h4

theorem record_gl_inv (i : Int) (s : List Char) (t : Table DTrack_Hand_Type_d)
    (h : Table.Inv hand_shaped t) :
    Flow.Post (Table.Inv hand_shaped) (fun a => Table.Inv hand_shaped a.2)
      (record_gl i s t) := by
  unfold record_gl
  refine post_parse _ _ _ h (fun v _ => ?_)
  obtain ⟨is, ds, s1⟩ := v
  dsimp only
  refine inv_grow _ _ _ _ _ h rfl hand_disabled_shaped (fun t1 h1 => ?_)
  refine inv_update _ _ _ _ h1 (fun _ ha => ha) (fun t2 h2 => ?_)
  split
  · exact post_fail _ _ h2
  refine inv_update _ _ _ _ h2 (fun _ ha => ha) (fun t3 h3 => ?_)
  refine post_parse _ _ _ h3 (fun v _ => ?_)
  obtain ⟨is2, ds2, s2⟩ := v
  dsimp only
  refine inv_update _ _ _ _ h3 (fun _ ha => ha) (fun t4 h4 => ?_)
  refine post_parse _ _ _ h4 (fun v _ => ?_)
  obtain ⟨is3, ds3, s3⟩ := v
  dsimp only
  refine inv_update _ _ _ _ h4 (fun _ ha => ha) (fun t5 h5 => ?_)
  exact for_loop_keeps _ _ _ (fun j s t ht => finger_gl_inv _ j s t ht) _ _ _ _ h5

theorem line_gl_inv (s : List Char) (t : Table DTrack_Hand_Type_d)
    (h : Table.Inv hand_shaped t) :
    Flow.Post (Table.Inv hand_shaped) (Table.Inv hand_shaped) (line_gl s t) := by
  unfold line_gl
  refine inv_disable_all _ _ _ h hand_disabled_shaped (fun t1 h1 => ?_)
  refine post_parse _ _ _ h1 (fun v _ => ?_)
  obtain ⟨n, s1⟩ := v
  dsimp only
  refine post_bind (for_loop_keeps _ _ _ (fun i s t ht => record_gl_inv i s t ht) _ _ _ _ h1)
    (fun a ha => ?_)
  obtain ⟨s2, t2⟩ := a
  exact post_pure _ ha

theorem human_shaped_joint (h : DTrack_Human_Type) (j : Int)
    (g : DTrack_Joint_d → DTrack_Joint_d) (hs : human_shaped h) :
    human_shaped { h with joint := (vec_update h.joint j g).getD h.joint } := by
  unfold human_shaped at hs ⊢
  dsimp only
  rw [vec_update_getD_length]
  exact hs

theorem joint_6dj_inv (id j : Int) (s : List Char) (t : Table DTrack_Human_Type)
    (h : Table.Inv human_shaped t) :
    Flow.Post (Table.Inv human_shaped) (fun a => Table.Inv human_shaped a.2)
      (joint_6dj id j s t) := by
  unfold joint_6dj
  refine post_parse _ _ _ h (fun v _ => ?_)
  obtain ⟨is, ds, s1⟩ := v
  dsimp only
  split
  · trivial
  refine inv_update _ _ _ _ h (fun a ha => human_shaped_joint a j _ ha) (fun t2 h2 => ?_)
  refine post_parse _ _ _ h2 (fun v _ => ?_)
  obtain ⟨is2, ds2, s2⟩ := v
  dsimp only
  refine inv_update _ _ _ _ h2 (fun a ha => human_shaped_joint a j _ ha) (fun t3 h3 => ?_)
  refine post_parse _ _ _ h3 (fun v _ => ?_)
  obtain ⟨is3, ds3, s3⟩ := v
  dsimp only
  refine inv_update _ _ _ _ h3 (fun a ha => human_shaped_joint a j _ ha) (fun t4 h4 => ?_)
  exact post_pure _ h4

theorem record_6dj_inv (i : Int) (s : List Char) (t : Table DTrack_Human_Type)
    (h : Table.Inv human_shaped t) :
    Flow.Post (Table.Inv human_shaped) (fun a => Table.Inv human_shaped a.2)
      (record_6dj i s t) := by
  unfold record_6dj
  refine post_parse _ _ _ h (fun v _ => ?_)
  obtain ⟨is, ds, s1⟩ := v
  dsimp only
  split
  · exact post_fail _ _ h
  refine inv_update _ _ _ _ h (fun _ ha => ha) (fun t2 h2 => ?_)
  exact for_loop_keeps _ _ _ (fun j s t ht => joint_6dj_inv _ j s t ht) _ _ _ _ h2

theorem line_6dj_inv (s : List Char) (t : Table DTrack_Human_Type)
    (h : Table.Inv human_shaped t) :
    Flow.Post (Table.Inv human_shaped) (Table.Inv human_shaped) (line_6dj s t) := by
  unfold line_6dj
  refine post_parse _ _ _ h (fun v _ => ?_)
  obtain ⟨n, s1⟩ := v
  dsimp only
  refine inv_adjust _ _ _ _ h rfl (fun t1 h1 => ?_)
  refine inv_disable_all _ _ _ h1 (fun _ _ _ => rfl) (fun t2 h2 => ?_)
  refine post_parse _ _ _ h2 (fun v _ => ?_)
  obtain ⟨n2, s2⟩ := v
  dsimp only
  refine post_bind (for_loop_keeps _ _ _ (fun i s t ht => record_6dj_inv i s t ht) _ _ _ _ h2)
    (fun a ha => ?_)
  obtain ⟨s3, t3⟩ := a
  exact post_pure _ ha

theorem record_3d_inv (i : Int) (s : List Char) (t : Table DTrack_Marker_Type_d)
    (h : Table.Inv (fun _ => True) t) :
    Flow.Post (Table.Inv (fun _ => True)) (fun a => Table.Inv (fun _ => True) a.2)
      (record_3d i s t) := by
  unfold record_3d
  refine post_parse _ _ _ h (fun v _ => ?_)
  obtain ⟨is, ds, s1⟩ := v
  dsimp only
  refine inv_update _ _ _ _ h (fun _ _ => trivial) (fun t2 h2 => ?_)
  refine post_parse _ _ _ h2 (fun v _ => ?_)
  obtain ⟨is2, ds2, s2⟩ := v
  dsimp only
  refine inv_update _ _ _ _ h2 (fun _ _ => trivial) (fun t3 h3 => ?_)
  exact post_pure _ h3

theorem line_3d_inv (s : List Char) (t : Table DTrack_Marker_Type_d) :
    Flow.Post (Table.Inv (fun _ => True)) (Table.Inv (fun _ => True)) (line_3d s t) := by
  unfold line_3d
  cases hs : string_get_i s with
  | none =>
    refine ⟨?_, fun _ _ => trivial⟩
    show (0 : Int) ≤ (t.vec.length : Int)
    omega
  | some v =>
    obtain ⟨n, s1⟩ := v
    dsimp only
    have key : ∀ t1 : Table DTrack_Marker_Type_d, Table.Inv (fun _ => True) t1 →
        Flow.Post (Table.Inv (fun _ => True)) (Table.Inv (fun _ => True))
          (for_loop record_3d t1.num.toNat 0 s1 t1 >>= fun x =>
            match x with
            | (_, t) => (pure t : Flow (Table DTrack_Marker_Type_d) _)) := by
      intro t1 h1
      refine post_bind (for_loop_keeps _ _ _ (fun i s t ht => record_3d_inv i s t ht)
        _ _ _ _ h1) (fun a ha => ?_)
      obtain ⟨s2, t2⟩ := a
      exact post_pure _ ha
    by_cases hn : n > (t.vec.length : Int)
    · rw [if_pos hn]
      cases hr : vec_resize marker_zero t.vec n with
      | none => trivial
      | some v =>
        obtain ⟨h0, hlen, -⟩ := vec_resize_some hr
        refine key { num := n, vec := v } ⟨?_, fun _ _ => trivial⟩
        show n ≤ (v.length : Int)
        rw [hlen]
        omega
    · rw [if_neg hn]
      refine key { num := n, vec := t.vec } ⟨?_, fun _ _ => trivial⟩
      show n ≤ (t.vec.length : Int)
      omega

theorem post_within {σ α : Type} {F : σ → Prop} {N : α → Prop} {G : DTrackSDK → Prop}
    {K : Locals × DTrackSDK → Prop} {x : Flow σ α} {put : σ → DTrackSDK}
    {upd : α → Locals × DTrackSDK} (h : Flow.Post F N x) (hF : ∀ s, F s → G (put s))
    (hN : ∀ a, N a → K (upd a)) : Flow.Post G K (x.within put upd) := by
  cases x with
  | next a => exact hN a h
  | fail w s => exact hF s h
  | undefined => trivial

theorem post_any {σ α : Type} (x : Flow σ α) :
    Flow.Post (fun _ => True) (fun _ => True) x := by
  cases x <;> trivial

theorem line_tail_inv (s : List Char) (lc : Locals) (st : DTrackSDK) (h : st.Inv) :
    Flow.Post DTrackSDK.Inv (fun a => a.2.Inv) (line_tail s lc st) := by
  obtain ⟨h1, h2, h3, h4, h5, h6, h7⟩ := h
  unfold line_tail
  split
  · exact post_within (line_gl_inv _ _ h5) (fun t ht => ⟨h1, h2, h3, h4, ht, h6, h7⟩)
      (fun t ht => ⟨h1, h2, h3, h4, ht, h6, h7⟩)
  split
  · exact post_within (line_6dj_inv _ _ h6) (fun t ht => ⟨h1, h2, h3, h4, h5, ht, h7⟩)
      (fun t ht => ⟨h1, h2, h3, h4, h5, ht, h7⟩)
  split
  · exact post_within (line_3d_inv _ _) (fun t ht => ⟨h1, h2, h3, h4, h5, h6, ht⟩)
      (fun t ht => ⟨h1, h2, h3, h4, h5, h6, ht⟩)
  exact ⟨h1, h2, h3, h4, h5, h6, h7⟩

theorem line_body_inv (s : List Char) (lc : Locals) (st : DTrackSDK) (h : st.Inv) :
    Flow.Post DTrackSDK.Inv (fun a => a.2.Inv) (line_body s lc st) := by
  have h0 := h
  obtain ⟨h1, h2, h3, h4, h5, h6, h7⟩ := h
  unfold line_body
  split
  · exact post_within (post_any _) (fun _ _ => h0) (fun _ _ => h0)
  split
  · exact post_within (post_any _) (fun _ _ => h0) (fun _ _ => h0)
  split
  · exact post_within (post_any _) (fun _ _ => h0) (fun _ _ => h0)
  split
  · exact post_within (line_6d_inv _ _ h1) (fun t ht => ⟨ht, h2, h3, h4, h5, h6, h7⟩)
      (fun t ht => ⟨ht, h2, h3, h4, h5, h6, h7⟩)
  split
  · exact post_within (line_6df_inv _ _ h2) (fun t ht => ⟨h1, ht, h3, h4, h5, h6, h7⟩)
      (fun t ht => ⟨h1, ht, h3, h4, h5, h6, h7⟩)
  split
  · exact post_within (line_6df2_inv _ _ h2) (fun t ht => ⟨h1, ht, h3, h4, h5, h6, h7⟩)
      (fun t ht => ⟨h1, ht, h3, h4, h5, h6, h7⟩)
  split
  · exact post_within (line_6dmt_inv _ _ h3) (fun t ht => ⟨h1, h2, ht, h4, h5, h6, h7⟩)
      (fun t ht => ⟨h1, h2, ht, h4, h5, h6, h7⟩)
  split
  · exact post_within (line_6dmtr_inv _ _ h4) (fun t ht => ⟨h1, h2, h3, ht, h5, h6, h7⟩)
      (fun t ht => ⟨h1, h2, h3, ht, h5, h6, h7⟩)
  split
  · unfold line_glcal_tail
    cases line_glcal (s.drop 6) with
    | next a =>
      obtain ⟨v, s1⟩ := a
      exact line_tail_inv _ _ _ h0
    | fail w u => exact h0
    | undefined => trivial
  exact line_tail_inv _ _ _ h0

theorem line_loop_inv (ls : List (List Char)) (lc : Locals) (st : DTrackSDK) (h : st.Inv) :
    Flow.Post DTrackSDK.Inv (fun a => a.2.Inv) (line_loop ls lc st) := by
  induction ls generalizing lc st with
  | nil => exact h
  | cons l ls ih =>
    unfold line_loop
    have hb := line_body_inv l lc st h
    cases hl : line_body l lc st with
    | next a =>
      obtain ⟨lc1, st1⟩ := a
      rw [hl] at hb
      exact ih lc1 st1 hb
    | fail w s =>
      rw [hl] at hb
      exact hb
    | undefined => trivial

theorem reconcile_body_inv (lc : Locals) (t : Table DTrack_Body_Type_d)
    (h : Table.Inv (fun _ => True) t) :
    Flow.Post (Table.Inv (fun _ => True)) (Table.Inv (fun _ => True))
      (reconcile_body lc t) := by
  unfold reconcile_body
  split
  · exact inv_reconcile _ _ _ _ h trivial (fun _ _ _ => trivial)
  · exact h

theorem reconcile_hand_inv (lc : Locals) (t : Table DTrack_Hand_Type_d)
    (h : Table.Inv hand_shaped t) :
    Flow.Post (Table.Inv hand_shaped) (Table.Inv hand_shaped) (reconcile_hand lc t) := by
  unfold reconcile_hand
  split
  · exact inv_reconcile _ _ _ _ h rfl hand_disabled_shaped
  · exact h

theorem inv_of_tables {st st1 : DTrackSDK} (hs : st1.tables = st.tables) (h : st.Inv) :
    st1.Inv := by
  obtain ⟨h1, h2, h3, h4, h5, h6, h7⟩ := h
  have e1 : st1.act_body = st.act_body := congrArg Tables.body hs
  have e2 : st1.act_flystick = st.act_flystick := congrArg Tables.flystick hs
  have e3 : st1.act_meatool = st.act_meatool := congrArg Tables.meatool hs
  have e4 : st1.act_mearef = st.act_mearef := congrArg Tables.mearef hs
  have e5 : st1.act_hand = st.act_hand := congrArg Tables.hand hs
  have e6 : st1.act_human = st.act_human := congrArg Tables.human hs
  have e7 : st1.act_marker = st.act_marker := congrArg Tables.marker hs
  unfold DTrackSDK.Inv
  rw [e1, e2, e3, e4, e5, e6, e7]
  exact ⟨h1, h2, h3, h4, h5, h6, h7⟩

/-- A call of `receive` that returns leaves every count within its vector and every member
array at its declared size. -/
theorem receive_inv {st st1 : DTrackSDK} {udp : UdpResult} {b : Bool} (h : st.Inv)
    (hr : st.receive udp = .ret b st1) : st1.Inv := by
  rcases receive_ret_cases st udp b st1 hr with ⟨-, hs⟩ | hd
  · exact inv_of_tables hs h
  · have h0 : st.frame_start.Inv := h
    have hl := line_loop_inv (string_lines udp.text) Locals.defaults st.frame_start h0
    unfold decode at hd
    cases hll : line_loop (string_lines udp.text) Locals.defaults st.frame_start with
    | next a =>
      obtain ⟨lc, st2⟩ := a
      rw [hll] at hl hd
      obtain ⟨-, tb, th, hb, hh, rfl⟩ := frame_end_ret hd
      obtain ⟨h1, h2, h3, h4, h5, h6, h7⟩ := hl
      have ib := reconcile_body_inv lc _ h1
      rw [hb] at ib
      have ih := reconcile_hand_inv lc _ h5
      rw [hh] at ih
      exact ⟨ib, h2, h3, h4, ih, h6, h7⟩
    | fail w s =>
      rw [hll] at hl hd
      simp only [Outcome.ret.injEq] at hd
      rw [← hd.2]
      exact hl
    | undefined =>
      rw [hll] at hd
      simp at hd

/-- A call of `sendDTrack2Command` leaves the tables as they are. -/
theorem sendDTrack2Command_tables {st st1 : DTrackSDK} {cmd : List Char}
    {answer answer1 : Option (List Char)} {w : TcpWire} {code : Int}
    (h : st.sendDTrack2Command cmd answer w = .ret code st1 answer1) :
    st1.tables = st.tables := by
  unfold DTrackSDK.sendDTrack2Command at h
  dsimp only at h
  split at h
  · simp only [CmdOutcome.ret.injEq] at h
    rw [← h.2.1]
  split at h
  · simp only [CmdOutcome.ret.injEq] at h
    rw [← h.2.1]
    rfl
  split at h
  · simp only [CmdOutcome.ret.injEq] at h
    rw [← h.2.1]
    rfl
  split at h
  · simp only [CmdOutcome.ret.injEq] at h
    rw [← h.2.1]
    rfl
  split at h
  · simp only [CmdOutcome.ret.injEq] at h
    rw [← h.2.1]
    split
    · rfl
    split
    · rfl
    · rfl
  split at h
  · simp at h
  split at h
  · simp only [CmdOutcome.ret.injEq] at h
    rw [← h.2.1]
    rfl
  split at h
  · split at h
    · simp only [CmdOutcome.ret.injEq] at h
      rw [← h.2.1]
      rfl
    · split at h
      · simp only [CmdOutcome.ret.injEq] at h
        rw [← h.2.1]
        rfl
      · simp only [CmdOutcome.ret.injEq] at h
        rw [← h.2.1]
        rfl
  · simp only [CmdOutcome.ret.injEq] at h
    rw [← h.2.1]
    rfl

/-- A call of `sendDTrack2Command` leaves the data socket as it is. -/
theorem sendDTrack2Command_data_port {st st1 : DTrackSDK} {cmd : List Char}
    {answer answer1 : Option (List Char)} {w : TcpWire} {code : Int}
    (h : st.sendDTrack2Command cmd answer w = .ret code st1 answer1) :
    st1.d_udpsock = st.d_udpsock := by
  unfold DTrackSDK.sendDTrack2Command at h
  dsimp only at h
  split at h
  · simp only [CmdOutcome.ret.injEq] at h
    rw [← h.2.1]
  split at h
  · simp only [CmdOutcome.ret.injEq] at h
    rw [← h.2.1]
    rfl
  split at h
  · simp only [CmdOutcome.ret.injEq] at h
    rw [← h.2.1]
    rfl
  split at h
  · simp only [CmdOutcome.ret.injEq] at h
    rw [← h.2.1]
    rfl
  split at h
  · simp only [CmdOutcome.ret.injEq] at h
    rw [← h.2.1]
    split
    · rfl
    split
    · rfl
    · rfl
  split at h
  · simp at h
  split at h
  · simp only [CmdOutcome.ret.injEq] at h
    rw [← h.2.1]
    rfl
  split at h
  · split at h
    · simp only [CmdOutcome.ret.injEq] at h
      rw [← h.2.1]
      rfl
    · split at h
      · simp only [CmdOutcome.ret.injEq] at h
        rw [← h.2.1]
        rfl
      · simp only [CmdOutcome.ret.injEq] at h
        rw [← h.2.1]
        rfl
  · simp only [CmdOutcome.ret.injEq] at h
    rw [← h.2.1]
    rfl

/-- What a returning call of `receive` does to the members outside the snapshot: system type,
sockets and the DTrack2 error are kept, `lastServerError` is `ERR_NONE`. -/
theorem receive_session {st st1 : DTrackSDK} {udp : UdpResult} {b : Bool}
    (h : st.receive udp = .ret b st1) :
    st1.rsType = st.rsType ∧ st1.d_udpsock = st.d_udpsock ∧ st1.d_tcpsock = st.d_tcpsock ∧
    st1.lastServerError = .ERR_NONE ∧ st1.lastDTrackError = st.lastDTrackError ∧
    st1.lastDTrackErrorString = st.lastDTrackErrorString := by
  have key : ∀ st2 : DTrackSDK, st2.session = st.frame_start.session →
      st2.rsType = st.rsType ∧ st2.d_udpsock = st.d_udpsock ∧ st2.d_tcpsock = st.d_tcpsock ∧
      st2.lastServerError = .ERR_NONE ∧ st2.lastDTrackError = st.lastDTrackError ∧
      st2.lastDTrackErrorString = st.lastDTrackErrorString := by
    intro st2 hs
    simp only [DTrackSDK.session, DTrackSDK.frame_start, Session.mk.injEq] at hs
    exact ⟨hs.1, hs.2.1, hs.2.2.1, hs.2.2.2.2.1, hs.2.2.2.2.2.1, hs.2.2.2.2.2.2⟩
  unfold DTrackSDK.receive at h
  simp only at h
  split at h
  · simp only [Outcome.ret.injEq] at h
    obtain ⟨-, rfl⟩ := h
    exact ⟨rfl, rfl, rfl, rfl, rfl, rfl⟩
  split at h
  · simp only [Outcome.ret.injEq] at h
    obtain ⟨-, rfl⟩ := h
    exact ⟨rfl, rfl, rfl, rfl, rfl, rfl⟩
  split at h
  · simp only [Outcome.ret.injEq] at h
    obtain ⟨-, rfl⟩ := h
    exact ⟨rfl, rfl, rfl, rfl, rfl, rfl⟩
  rcases decode_ret_cases _ _ _ _ h with ⟨-, w, hl⟩ | ⟨-, lc, st2, hl, he⟩
  · exact key _ ((line_loop_session _ _ _).2 _ _ hl)
  · have h2 := (line_loop_session _ _ _).1 _ _ hl
    obtain ⟨-, tb, th, -, -, rfl⟩ := frame_end_ret he
    have := key st2 h2
    exact this

theorem init_inv (rs : RemoteSystemType) (tcp : Bool) (u : Unassigned) :
    (DTrackSDK.init rs true tcp u).Inv := by
  have e : Table.Inv (fun _ : DTrack_Body_Type_d => True) Table.empty :=
    ⟨le_refl _, fun x hx => by cases hx⟩
  refine ⟨e, ⟨le_refl _, fun x hx => by cases hx⟩, ⟨le_refl _, fun x hx => by cases hx⟩,
    ⟨le_refl _, fun x hx => by cases hx⟩, ⟨le_refl _, fun x hx => by cases hx⟩,
    ⟨le_refl _, fun x hx => by cases hx⟩, ⟨le_refl _, fun x hx => by cases hx⟩⟩

/-- Every session reached from `init` whose data port is valid has its counts within its
vectors and its member arrays at their declared sizes.  (After an `init` that could not set
up the data socket the counts were never assigned, and `receive` changes nothing.) -/
theorem reachable_inv {st : DTrackSDK} (h : st.Reachable)
    (hport : st.isLocalDataPortValid = true) : st.Inv := by
  induction h with
  | init rs udp tcp u =>
    cases udp with
    | true => exact init_inv rs tcp u
    | false => exact absurd hport (by simp [DTrackSDK.isLocalDataPortValid, DTrackSDK.init])
  | receive udp b _ hr ih =>
    refine receive_inv (ih ?_) hr
    have := (receive_session hr).2.1
    simp only [DTrackSDK.isLocalDataPortValid] at hport ⊢
    rw [← this]
    exact hport
  | command cmd answer answer1 w code _ hc ih =>
    refine inv_of_tables (sendDTrack2Command_tables hc) (ih ?_)
    have := sendDTrack2Command_data_port hc
    simp only [DTrackSDK.isLocalDataPortValid] at hport ⊢
    rw [← this]
    exact hport

/-! ## C18: the accessors -/

theorem Table.Inv.answers {α : Type} {P : α → Prop} {t : Table α} (h : t.Inv P) :
    t.Answers t.num t.at := by
  intro id
  constructor
  · intro hid
    have hlt : id.toNat < t.vec.length := by
      have := h.1
      omega
    refine ⟨t.vec[id.toNat], List.getElem?_eq_getElem hlt, ?_⟩
    unfold Table.at
    rw [if_pos hid]
    exact List.getElem?_eq_getElem hlt
  · intro hid
    unfold Table.at
    rw [if_neg hid]

/-- In every session with a valid data port reached from `init` by calls of `receive` and
`sendDTrack2Command`, each of the seven accessors `getBody`, `getFlyStick`, `getMeaTool`,
`getMeaRef`, `getHand`, `getHuman`, `getMarker` returns, for an id with
`0 <= id < getNum<X>()`, the id-th entry of its vector (which exists, so `.at(id)` does not
throw), and `NULL` for every other id.  The accessors are functions of the session that
return nothing but this value, so none of them changes the snapshot. -/
theorem accessors_in_range (st : DTrackSDK) (h : st.Reachable)
    (hport : st.isLocalDataPortValid = true) :
    st.act_body.Answers st.getNumBody st.getBody ∧
    st.act_flystick.Answers st.getNumFlyStick st.getFlyStick ∧
    st.act_meatool.Answers st.getNumMeaTool st.getMeaTool ∧
    st.act_mearef.Answers st.getNumMeaRef st.getMeaRef ∧
    st.act_hand.Answers st.getNumHand st.getHand ∧
    st.act_human.Answers st.getNumHuman st.getHuman ∧
    st.act_marker.Answers st.getNumMarker st.getMarker := by
  obtain ⟨h1, h2, h3, h4, h5, h6, h7⟩ := reachable_inv h hport
  exact ⟨h1.answers, h2.answers, h3.answers, h4.answers, h5.answers, h6.answers, h7.answers⟩

/-- C18: the code departs from the claim after an `init` that could not open the data
socket.  `init` returns at line 146 before it assigns the counts (lines 183-184), so
`getNumBody()` is whatever the memory held, here 1, while the vector `act_body` is empty:
for the id 0, which satisfies `0 <= 0 < getNumBody()`, the vector has no entry (`.at(0)`
throws) and the accessor returns no record.  A call of `receive` returns false at the test
of the data port and leaves the count and the vector as they are. -/
theorem C18_accessor_after_failed_init :
    failed.isLocalDataPortValid = false ∧ failed.getNumBody = 1 ∧
    failed.act_body.vec[0]? = none ∧ failed.getBody 0 = none ∧
    ¬ failed.act_body.Answers failed.getNumBody failed.getBody ∧
    (failed.receive (.packet pkt_6d_one)).returned = some false ∧
    ((failed.receive (.packet pkt_6d_one)).state_or fresh).getNumBody = 1 ∧
    ((failed.receive (.packet pkt_6d_one)).state_or fresh).getBody 0 = none := by
  refine ⟨by decide, by decide, by decide, by decide, ?_, by decide, by decide, by decide⟩
  intro h
  obtain ⟨r, hr, -⟩ := (h 0).1 (by decide)
  have e : failed.act_body.vec = [] := by decide
  rw [e] at hr
  cases hr


/-! ## C19, C20: the answers of the command channel -/

/-- What `sendDTrack2Command` does once the command is sent and an answer with the C string
`r` is received: the tests of the answer, in source order. -/
theorem sendDTrack2Command_answer (st : DTrackSDK) (cmd r : List Char)
    (answer : Option (List Char)) (w : TcpWire)
    (hrs : st.rsType = .SYS_DTRACK_2) (hlen : (cmd.length : Int) ≤ DTRACK_PROT_MAXLEN)
    (htcp : st.isCommandInterfaceValid = true)
    (hsend : tcp_send w.send_select w.send_nbytes (cmd.length + 1) = 0)
    (hrecv : 0 ≤ tcp_receive w.recv_select w.recv_nbytes DTRACK_PROT_MAXLEN)
    (hans : w.ans = some r) :
    st.sendDTrack2Command cmd answer w =
      (if r = ans_ok then .ret 1 (st.setLastDTrackError 0 []) answer else
       if strncmp_eq r ans_err then
         match string_get_i (r.drop 12) with
         | none =>
           .ret (-1100) { (st.setLastDTrackError 0 []).setLastDTrackError (-1100)
              sdk_error_1100 with lastServerError := .ERR_PARSE } answer
         | some (i, s) =>
           match string_get_quoted_text s with
           | none =>
             .ret (-1101) { (st.setLastDTrackError 0 []).setLastDTrackError (-1100)
                sdk_error_1100 with lastServerError := .ERR_PARSE } answer
           | some (qt, _) =>
             .ret 2 { st.setLastDTrackError 0 [] with
                      lastDTrackError := i, lastDTrackErrorString := qt } answer
       else .ret 0 { st.setLastDTrackError 0 [] with lastServerError := .ERR_NONE }
              (answer.map fun _ => r)) := by
  unfold DTrackSDK.sendDTrack2Command
  have h1 : ¬ st.rsType ≠ .SYS_DTRACK_2 := fun h => h hrs
  have h3 : ¬ ((!(st.setLastDTrackError 0 []).isCommandInterfaceValid) = true) := by
    have : (st.setLastDTrackError 0 []).isCommandInterfaceValid = true := htcp
    rw [this]
    decide
  rw [if_neg h1]
  dsimp only
  rw [if_neg (by omega), if_neg h3, if_neg (fun h => h hsend), if_neg (by omega), hans]

/-- C19, as stated, fails: the reply `dtrack2 err abc` is neither the OK reply nor the
error prefix followed by an integer and a quoted string (no integer follows the prefix), but
the result is -1100, not 0; and the reply `dtrack2 err 5`, where no quoted string follows the
integer, gives -1101.  In both cases the caller's answer buffer is left as it was. -/
theorem C19_counterexample_malformed_error_reply :
    wire_err_abc.ans = some "dtrack2 err abc".toList ∧
    string_get_i ("dtrack2 err abc".toList.drop 12) = none ∧
    (fresh2.sendDTrack2Command cmd_get (some []) wire_err_abc).code = some (-1100) ∧
    (fresh2.sendDTrack2Command cmd_get (some []) wire_err_abc).answer = some [] ∧
    wire_err_5.ans = some "dtrack2 err 5".toList ∧
    string_get_i ("dtrack2 err 5".toList.drop 12) = some (5, []) ∧
    string_get_quoted_text [] = none ∧
    (fresh2.sendDTrack2Command cmd_get (some []) wire_err_5).code = some (-1101) ∧
    (fresh2.sendDTrack2Command cmd_get (some []) wire_err_5).answer = some [] := by
  decide

/-- C19, amended: for every reply `r` received by `sendDTrack2Command` on a DTrack2
session, the call returns, and its result is 1 exactly when `r` is `dtrack2 ok`; when `r`
begins with `dtrack2 err ` the result is -1100 if no integer follows, -1101 if an integer
but no quoted string follows, and 2 if an integer and a quoted string follow; for every
other reply the result is 0 and the caller's answer buffer (if given) receives `r`
verbatim. -/
theorem C19_reply_classification (st : DTrackSDK) (cmd r : List Char)
    (answer : Option (List Char)) (w : TcpWire)
    (hrs : st.rsType = .SYS_DTRACK_2) (hlen : (cmd.length : Int) ≤ DTRACK_PROT_MAXLEN)
    (htcp : st.isCommandInterfaceValid = true)
    (hsend : tcp_send w.send_select w.send_nbytes (cmd.length + 1) = 0)
    (hrecv : 0 ≤ tcp_receive w.recv_select w.recv_nbytes DTRACK_PROT_MAXLEN)
    (hans : w.ans = some r) :
    ∃ code st1 answer1, st.sendDTrack2Command cmd answer w = .ret code st1 answer1 ∧
      (code = 1 ↔ r = ans_ok) ∧
      (strncmp_eq r ans_err = true →
        (string_get_i (r.drop 12) = none → code = -1100) ∧
        (∀ i s, string_get_i (r.drop 12) = some (i, s) →
          string_get_quoted_text s = none → code = -1101) ∧
        (∀ i s q s2, string_get_i (r.drop 12) = some (i, s) →
          string_get_quoted_text s = some (q, s2) → code = 2)) ∧
      (r ≠ ans_ok → strncmp_eq r ans_err = false →
        code = 0 ∧ answer1 = answer.map (fun _ => r)) := by
  rw [sendDTrack2Command_answer st cmd r answer w hrs hlen htcp hsend hrecv hans]
  by_cases hok : r = ans_ok
  · rw [if_pos hok]
    refine ⟨_, _, _, rfl, ⟨fun _ => hok, fun _ => rfl⟩, ?_, fun h => absurd hok h⟩
    intro hp
    rw [hok] at hp
    exact absurd hp (by decide)
  rw [if_neg hok]
  by_cases hp : strncmp_eq r ans_err = true
  · rw [if_pos hp]
    cases hi : string_get_i (r.drop 12) with
    | none =>
      refine ⟨_, _, _, rfl, ⟨fun h => absurd h (by decide), fun h => absurd h hok⟩, ?_, ?_⟩
      · intro _
        exact ⟨fun _ => rfl, fun i s h => (by cases h), fun i s q s2 h => (by cases h)⟩
      · intro _ h
        rw [hp] at h
        cases h
    | some v =>
      obtain ⟨i, s⟩ := v
      dsimp only
      cases hq : string_get_quoted_text s with
      | none =>
        refine ⟨_, _, _, rfl, ⟨fun h => absurd h (by decide), fun h => absurd h hok⟩, ?_, ?_⟩
        · intro _
          refine ⟨fun h => (by cases h), fun i1 s1 h _ => rfl, fun i1 s1 q s2 h h2 => ?_⟩
          cases h
          rw [hq] at h2
          cases h2
        · intro _ h
          rw [hp] at h
          cases h
      | some v2 =>
        obtain ⟨q, s2⟩ := v2
        refine ⟨_, _, _, rfl, ⟨fun h => absurd h (by decide), fun h => absurd h hok⟩, ?_, ?_⟩
        · intro _
          refine ⟨fun h => (by cases h), fun i1 s1 h h2 => ?_, fun i1 s1 q s2 h h2 => rfl⟩
          cases h
          rw [hq] at h2
          cases h2
        · intro _ h
          rw [hp] at h
          cases h
  · rw [if_neg hp]
    refine ⟨_, _, _, rfl, ⟨fun h => absurd h (by decide), fun h => absurd h hok⟩,
      fun h => absurd h hp, fun _ _ => ⟨rfl, rfl⟩⟩

/-- C19 (amended) at a concrete input: the reply `dtrack2 status active mea` to a command
of a DTrack2 session with a valid command interface. -/
theorem C19_reply_classification_witness :
    ∃ code st1 answer1, fresh2.sendDTrack2Command cmd_get (some []) wire_status =
        .ret code st1 answer1 ∧
      (code = 1 ↔ "dtrack2 status active mea".toList = ans_ok) ∧
      (strncmp_eq "dtrack2 status active mea".toList ans_err = true →
        (string_get_i ("dtrack2 status active mea".toList.drop 12) = none → code = -1100) ∧
        (∀ i s, string_get_i ("dtrack2 status active mea".toList.drop 12) = some (i, s) →
          string_get_quoted_text s = none → code = -1101) ∧
        (∀ i s q s2, string_get_i ("dtrack2 status active mea".toList.drop 12) = some (i, s) →
          string_get_quoted_text s = some (q, s2) → code = 2)) ∧
      ("dtrack2 status active mea".toList ≠ ans_ok →
        strncmp_eq "dtrack2 status active mea".toList ans_err = false →
        code = 0 ∧
          answer1 = (some ([] : List Char)).map (fun _ => "dtrack2 status active mea".toList)) :=
  C19_reply_classification fresh2 cmd_get "dtrack2 status active mea".toList (some [])
    wire_status (by decide) (by decide) (by decide) (by decide) (by decide) (by decide)

theorem wrote_congr {α : Type} {i : Int} {g g1 : α → α} {t t1 : Table α}
    (h : Table.Wrote i g t t1) (hg : ∀ a, g a = g1 a) : Table.Wrote i g1 t t1 := by
  obtain ⟨h1, h2, h3, ⟨a, ha, ha1⟩, h5⟩ := h
  exact ⟨h1, h2, h3, ⟨a, ha, by rw [ha1, hg]⟩, h5⟩

/-- A `6df ` record with the expected id rewrites its slot, and nothing else. -/
theorem record_6df_post (k : Nat) (r : ButtonWire) (ts : List (List Char))
    (t : Table DTrack_FlyStick_Type_d) (hid : r.id.val = k) :
    Flow.Post (fun _ => False) (fun a => a.1 = render ts ∧ Table.Wrote k r.flystick t a.2)
      (record_6df k (render (r.tokens.map Tok.text ++ ts)) t) := by
  have e : render (r.tokens.map Tok.text ++ ts) =
      render ([Tok.i r.id, .d r.quality, .i r.bits].map Tok.text ++
        (r.loc.tokens.map Tok.text ++ (r.rot.tokens.map Tok.text ++ ts))) := by
    simp only [ButtonWire.tokens, List.map_append, List.append_assoc]
  rw [e]
  unfold record_6df
  refine post_block _ _ _ rfl _ _ ?_
  have hv : (Tok.ints [Tok.i r.id, .d r.quality, .i r.bits]).getD 0 0 = r.id.val := rfl
  have hb : (Tok.ints [Tok.i r.id, .d r.quality, .i r.bits]).getD 1 0 = r.bits.val := rfl
  have hq : (Tok.dbls [Tok.i r.id, .d r.quality, .i r.bits]).getD 0 0 = r.quality.val := rfl
  dsimp only
  rw [hv, hb, hq, if_neg (fun h => h hid)]
  refine post_update _ _ _ _ (fun t1 w1 => ?_)
  refine post_block _ _ _ r.loc.fmt3 _ _ ?_
  dsimp only
  refine post_update _ _ _ _ (fun t2 w2 => ?_)
  refine post_block _ _ _ r.rot.fmt9 _ _ ?_
  dsimp only
  refine post_update _ _ _ _ (fun t3 w3 => ?_)
  have w := (w1.after w2).after w3
  refine post_pure _ ⟨rfl, ?_⟩
  refine wrote_congr w (fun a => ?_)
  unfold ButtonWire.flystick
  dsimp only
  rw [r.loc.dbls, r.rot.dbls]

/-- A loop over records that each rewrite the slot of their index leaves, in slot `i`, what
record `i` makes of the old slot, and the slots behind the records as they were. -/
theorem for_loop_wrote {ρ α : Type}
    (body : Int → List Char → Table α → Flow (Table α) (List Char × Table α))
    (toks : ρ → List Tok) (dec : ρ → α → α) (P : Nat → ρ → Bool)
    (hrec : ∀ (k : Nat) (r : ρ) (ts : List (List Char)) (t : Table α), P k r = true →
      Flow.Post (fun _ => False) (fun a => a.1 = render ts ∧ Table.Wrote k (dec r) t a.2)
        (body k (render ((toks r).map Tok.text ++ ts)) t))
    (recs : List ρ) (hP : all_from P 0 recs = true) (ts : List (List Char)) (t : Table α) :
    Flow.Post (fun _ => False)
      (fun a => a.1 = render ts ∧ a.2.num = t.num ∧ a.2.vec.length = t.vec.length ∧
        (∀ (i : Nat) (r : ρ), recs[i]? = some r →
          ∃ y, t.vec[i]? = some y ∧ a.2.vec[i]? = some (dec r y)) ∧
        ∀ j : Nat, recs.length ≤ j → a.2.vec[j]? = t.vec[j]?)
      (for_loop body recs.length 0
        (render ((Tok.all toks recs).map Tok.text ++ ts)) t) := by
  have h := for_loop_post body toks (fun _ => False)
    (fun (done : List ρ) (x : Table α) => x.num = t.num ∧ x.vec.length = t.vec.length ∧
      (∀ (i : Nat) (r : ρ), done[i]? = some r →
        ∃ y, t.vec[i]? = some y ∧ x.vec[i]? = some (dec r y)) ∧
      ∀ j : Nat, done.length ≤ j → x.vec[j]? = t.vec[j]?)
    recs 0
    (fun done r rest ts1 x hr hx => by
      have hp := all_from_at P recs 0 hP done r rest hr
      refine post_weaken (hrec _ r ts1 x hp) (fun _ hf => hf) ?_
      rintro ⟨s1, x1⟩ ⟨hs, wn, wl, -, ⟨y, hy, hy1⟩, wo⟩
      obtain ⟨xn, xl, xd, xo⟩ := hx
      have hidx : ((0 + done.length : Nat) : Int).toNat = done.length := by omega
      rw [hidx] at hy hy1
      refine ⟨hs, wn.trans xn, wl.trans xl, ?_, ?_⟩
      · intro i r1 hi
        by_cases hlt : i < done.length
        · rw [List.getElem?_append_left hlt] at hi
          obtain ⟨y1, h1, h2⟩ := xd i r1 hi
          refine ⟨y1, h1, ?_⟩
          show x1.vec[i]? = _
          rw [wo i (by omega)]
          exact h2
        · have hile : i < (done ++ [r]).length := by
            by_contra hc
            rw [List.getElem?_eq_none (by omega)] at hi
            cases hi
          simp only [List.length_append, List.length_singleton] at hile
          have hie : i = done.length := by omega
          subst hie
          rw [List.getElem?_append_right (le_refl _)] at hi
          simp only [Nat.sub_self, List.getElem?_cons_zero, Option.some.injEq] at hi
          subst hi
          refine ⟨y, ?_, hy1⟩
          rw [← xo done.length (le_refl _)]
          exact hy
      · intro j hj
        simp only [List.length_append, List.length_singleton] at hj
        show x1.vec[j]? = _
        rw [wo j (by omega)]
        exact xo j (by omega))
    ts t ⟨rfl, rfl, fun i r hi => by simp at hi, fun _ _ => rfl⟩
  exact h

theorem mem_adjusted {α : Type} {P : α → Prop} {z : α} {t t1 : Table α}
    (hP : ∀ x ∈ t.vec, P x) (hz : P z) (hm : ∀ x ∈ t1.vec, x ∈ t.vec ∨ x = z) {i : Nat}
    {y : α} (hy : t1.vec[i]? = some y) : P y := by
  rcases hm y (List.getElem?_mem hy) with h | h
  · exact hP y h
  · rw [h]
    exact hz

/-- What a well-formed `6df ` line leaves: the count it declares and, in slot `i`, what its
record `i` makes of a slot of declared array sizes. -/
theorem line_6df_post (n : IntTok) (recs : List ButtonWire)
    (hwf : (WireLine.flystick1 n recs).wf = true) (t : Table DTrack_FlyStick_Type_d)
    (ht : ∀ x ∈ t.vec, flystick_shaped x) :
    Flow.Post (fun _ => False)
      (fun a => a.2.num = n.val ∧ ∀ (i : Nat) (r : ButtonWire), recs[i]? = some r →
        ∃ y, flystick_shaped y ∧ a.2.vec[i]? = some (r.flystick y))
      (line_6df (n.text ++ render ((Tok.all ButtonWire.tokens recs).map Tok.text)) t) := by
  simp only [WireLine.wf, Bool.and_eq_true, decide_eq_true_eq] at hwf
  obtain ⟨hn, hids⟩ := hwf
  unfold line_6df
  refine post_int _ _ _ _ ?_
  dsimp only
  refine post_adjust _ _ _ _ (fun t1 n1 _ hm => ?_)
  have hcnt : n.val.toNat = recs.length := by omega
  rw [hcnt]
  have h := for_loop_wrote record_6df ButtonWire.tokens ButtonWire.flystick _
    (fun k r ts x hp => record_6df_post k r ts x (by simpa using hp)) recs hids [] t1
  rw [List.append_nil] at h
  refine post_bind h ?_
  rintro ⟨s1, x1⟩ ⟨-, hnum, -, hv, -⟩
  refine post_pure _ ⟨hnum.trans n1, fun i r hi => ?_⟩
  obtain ⟨y, hy, hy1⟩ := hv i r hi
  exact ⟨y, mem_adjusted ht (show flystick_shaped flystick_zero from ⟨rfl, rfl⟩) hm hy, hy1⟩

theorem arr_set_get {α : Type} (arr : List α) (j : Nat) (x : α) (i : Nat)
    (hj : j < arr.length) :
    (arr_set arr (j : Int) x)[i]? = if i = j then some x else arr[i]? := by
  unfold arr_set vec_update
  have h : 0 ≤ (j : Int) ∧ (j : Int).toNat < arr.length := ⟨by omega, by simpa using hj⟩
  rw [dif_pos h]
  simp only [Option.getD_some, Int.toNat_ofNat]
  rw [List.getElem?_set]
  by_cases hij : i = j
  · subst hij
    simp [hj]
  · rw [if_neg (fun e => hij e.symm), if_neg hij]

theorem ediv_half (k m : Int) (hm : 0 < m) : k / 2 / m = k / (2 * m) := by
  have h1 := Int.emod_add_ediv k (2 * m)
  have h2 := Int.emod_nonneg k (show 2 * m ≠ 0 by omega)
  have h3 := Int.emod_lt_of_pos k (show 0 < 2 * m by omega)
  rw [mul_assoc] at h1
  generalize k / (2 * m) = q at h1 ⊢
  generalize k % (2 * m) = r at h1 h2 h3
  have key := (Int.ediv_emod_unique hm (a := k / 2) (r := k / 2 - m * q) (q := q)).2
    ⟨by ring, by generalize m * q = X at h1 ⊢; omega, by generalize m * q = X at h1 ⊢; omega⟩
  exact key.1

/-- The loop over the button bits: slot `i` of the rounds done holds bit `i - j` of the
word, the other slots are as they were. -/
theorem buttons_6df_get (cnt j : Nat) (k : Int) (b : List Int) (h : j + cnt ≤ b.length)
    (i : Nat) :
    (buttons_6df cnt j k b)[i]? =
      if j ≤ i ∧ i < j + cnt then some ((k / 2 ^ (i - j)) % 2) else b[i]? := by
  induction cnt generalizing j k b with
  | zero =>
    rw [if_neg (by omega)]
    rfl
  | succ cnt ih =>
    unfold buttons_6df
    rw [ih (j + 1) (k / 2) _ (by rw [arr_set_length]; omega)]
    by_cases h1 : j + 1 ≤ i ∧ i < j + 1 + cnt
    · rw [if_pos h1, if_pos (by omega)]
      have e : i - j = (i - (j + 1)) + 1 := by omega
      rw [e, pow_succ, ediv_half _ _ (by positivity), mul_comm]
    · rw [if_neg h1, arr_set_get _ _ _ _ (by omega)]
      by_cases h2 : i = j
      · subst h2
        rw [if_pos rfl, if_pos (by omega)]
        simp [low_bit]
      · rw [if_neg h2, if_neg (by omega)]

/-- The buttons and the joystick values of a Flystick decoded from a `6df ` record into a
slot of declared array sizes. -/
theorem flystick_6df_values (r : ButtonWire) (y : DTrack_FlyStick_Type_d)
    (hy : flystick_shaped y) :
    (r.flystick y).num_button = 8 ∧
    (∀ j : Nat, j < 8 → (r.flystick y).button[j]? = some ((r.bits.val / 2 ^ j) % 2)) ∧
    (r.flystick y).num_joystick = 2 ∧
    (r.flystick y).joystick[0]? = some
      (if test_bit r.bits.val 5 then Dbl.minusOne
       else if test_bit r.bits.val 7 then 1 else 0) ∧
    (r.flystick y).joystick[1]? = some
      (if test_bit r.bits.val 4 then Dbl.minusOne
       else if test_bit r.bits.val 6 then 1 else 0) := by
  obtain ⟨hb, hj⟩ := hy
  refine ⟨rfl, ?_, rfl, ?_, ?_⟩
  · intro j hj8
    unfold ButtonWire.flystick
    dsimp only
    rw [buttons_6df_get 8 0 _ _ (by omega), if_pos (by omega)]
    simp
  · unfold ButtonWire.flystick
    dsimp only
    have h1 := arr_set_get (arr_set y.joystick 0 (if test_bit r.bits.val 5 then Dbl.minusOne
       else if test_bit r.bits.val 7 then 1 else 0)) 1
       (if test_bit r.bits.val 4 then Dbl.minusOne
       else if test_bit r.bits.val 6 then 1 else 0) 0 (by rw [arr_set_length]; omega)
    have h0 := arr_set_get y.joystick 0 (if test_bit r.bits.val 5 then Dbl.minusOne
       else if test_bit r.bits.val 7 then 1 else 0) 0 (by omega)
    simp only [Nat.cast_one, Nat.cast_zero, zero_ne_one, if_false, if_true] at h1 h0
    rw [h1, h0]
  · unfold ButtonWire.flystick
    dsimp only
    have h1 := arr_set_get (arr_set y.joystick 0 (if test_bit r.bits.val 5 then Dbl.minusOne
       else if test_bit r.bits.val 7 then 1 else 0)) 1
       (if test_bit r.bits.val 4 then Dbl.minusOne
       else if test_bit r.bits.val 6 then 1 else 0) 1 (by rw [arr_set_length]; omega)
    simp only [Nat.cast_one, if_true] at h1
    exact h1

theorem line_loop_blank (ls : List (List Char)) (lc : Locals) (st : DTrackSDK) :
    line_loop (ls ++ [[]]) lc st = line_loop ls lc st := by
  rw [line_loop_append]
  cases line_loop ls lc st with
  | next a =>
    obtain ⟨lc1, st1⟩ := a
    rfl
  | fail w s => rfl
  | undefined => rfl

/-- A packet of well-formed lines, seen from one of its lines `w`: the lines before `w` are
decoded, `w` is decoded, the lines behind it are decoded, and `receive` returns true. -/
theorem receive_wire_at (st : DTrackSDK) (hport : st.isLocalDataPortValid = true)
    (hstep : st.in_step) (hinv : st.Inv) (ws1 : List WireLine) (w : WireLine)
    (ws2 : List WireLine) (hwf : (ws1 ++ w :: ws2).all WireLine.wf = true) :
    ∃ lcA stA lcB stB lc st2 st1, stA.in_step ∧ stA.Inv ∧
      stA.lastDataError = .ERR_PARSE ∧
      line_loop (ws1.map WireLine.text) Locals.defaults st.frame_start = .next (lcA, stA) ∧
      line_body w.text lcA stA = .next (lcB, stB) ∧
      line_loop (ws2.map WireLine.text ++ [[]]) lcB stB = .next (lc, st2) ∧
      frame_end lc st2 = .ret true st1 ∧
      st.receive (.packet (packet_text ((ws1 ++ w :: ws2).map WireLine.text))) =
        .ret true st1 := by
  simp only [List.all_append, List.all_cons, Bool.and_eq_true] at hwf
  obtain ⟨hwf1, hw, hwf2⟩ := hwf
  have hstep0 : st.frame_start.in_step := hstep
  have hinv0 : st.frame_start.Inv := hinv
  obtain ⟨⟨lcA, stA⟩, h1, sA, -⟩ := line_loop_wire ws1 hwf1 Locals.defaults _ hstep0
  rw [line_loop_blank] at h1
  have iA := line_loop_inv (ws1.map WireLine.text) Locals.defaults _ hinv0
  rw [h1] at iA
  obtain ⟨⟨lcB, stB⟩, h2, sB, -⟩ := line_body_wire w hw lcA stA sA
  obtain ⟨⟨lc, st2⟩, h3, s2, -⟩ := line_loop_wire ws2 hwf2 lcB stB sB
  obtain ⟨st1, he, -⟩ := frame_end_ok lc st2 s2
  have hses := (line_loop_session _ _ _).1 _ _ h1
  refine ⟨lcA, stA, lcB, stB, lc, st2, st1, sA, iA, ?_, h1, h2, h3, he, ?_⟩
  · simp only [DTrackSDK.session, Session.mk.injEq] at hses
    exact hses.2.2.2.1.trans rfl
  · have hclean : ∀ l' ∈ (ws1 ++ w :: ws2).map WireLine.text, ∀ c ∈ l', lineChar c = true := by
      intro l' hl'
      obtain ⟨x, -, rfl⟩ := List.mem_map.1 hl'
      exact x.text_lineChar
    obtain ⟨l, ls, hl⟩ : ∃ l ls, (ws1 ++ w :: ws2).map WireLine.text = l :: ls := by
      cases ws1 with
      | nil => exact ⟨_, _, rfl⟩
      | cons a r => exact ⟨_, _, rfl⟩
    rw [hl] at hclean
    rw [hl, receive_packet_text st hport l ls hclean, ← hl]
    unfold decode
    have e : (ws1 ++ w :: ws2).map WireLine.text ++ [[]] =
        ws1.map WireLine.text ++ (w.text :: (ws2.map WireLine.text ++ [[]])) := by
      simp
    rw [e, line_loop_append, h1]
    simp only [line_loop, h2]
    rw [h3]
    exact he

theorem wire_not_flystick (x : WireLine) (h : x.table ≠ some 1) :
    strncmp_eq x.text kw_6df = false ∧ strncmp_eq x.text kw_6df2 = false := by
  cases x <;>
    simp [WireLine.table, WireLine.text, WireLine.keyword, WireLine.texts, render, strncmp_eq,
      List.isPrefixOf,
      kw_6df, kw_6df2] at h ⊢

/-- Lines that address other tables leave the Flystick table as it is. -/
theorem wire_later_flystick (ws2 : List WireLine) (h : ∀ x ∈ ws2, x.table ≠ some 1)
    {lcB lc : Locals} {stB st2 : DTrackSDK}
    (h3 : line_loop (ws2.map WireLine.text ++ [[]]) lcB stB = .next (lc, st2)) :
    st2.act_flystick = stB.act_flystick := by
  rw [line_loop_blank] at h3
  have hf := line_loop_frame (ws2.map WireLine.text) lcB stB
  rw [h3] at hf
  refine hf.2.2.2.1 (fun l hl => ?_)
  obtain ⟨x, hx, rfl⟩ := List.mem_map.1 hl
  exact wire_not_flystick x (h x hx)

theorem frame_end_tables {lc : Locals} {st2 st1 : DTrackSDK}
    (h : frame_end lc st2 = .ret true st1) :
    st1.act_flystick = st2.act_flystick ∧ st1.act_meatool = st2.act_meatool := by
  obtain ⟨-, tb, th, -, -, rfl⟩ := frame_end_ret h
  exact ⟨rfl, rfl⟩

/-- What a packet of well-formed lines leaves in the Flystick table when its last Flystick
line is a `6df ` line. -/
theorem receive_flystick1 (st : DTrackSDK) (hport : st.isLocalDataPortValid = true)
    (hstep : st.in_step) (hinv : st.Inv) (ws1 : List WireLine) (n : IntTok)
    (recs : List ButtonWire) (ws2 : List WireLine)
    (hwf : (ws1 ++ WireLine.flystick1 n recs :: ws2).all WireLine.wf = true)
    (hlast : ∀ x ∈ ws2, x.table ≠ some 1) :
    ∃ st1, st.receive (.packet (packet_text
        ((ws1 ++ WireLine.flystick1 n recs :: ws2).map WireLine.text))) = .ret true st1 ∧
      ∀ i (hi : i < recs.length), ∃ y, flystick_shaped y ∧
        st1.getFlyStick i = some ((recs.get ⟨i, hi⟩).flystick y) := by
  obtain ⟨lcA, stA, lcB, stB, lc, st2, st1, sA, iA, -, h1, h2, h3, he, hr⟩ :=
    receive_wire_at st hport hstep hinv ws1 _ ws2 hwf
  refine ⟨st1, hr, ?_⟩
  have hw : (WireLine.flystick1 n recs).wf = true := by
    simp only [List.all_append, List.all_cons, Bool.and_eq_true] at hwf
    exact hwf.2.1
  have htext : (WireLine.flystick1 n recs).text = '6' :: 'd' :: 'f' :: ' ' ::
      (n.text ++ render ((Tok.all ButtonWire.tokens recs).map Tok.text)) := rfl
  rw [htext, line_body_kw_6df] at h2
  obtain ⟨a, ha, e⟩ := Flow.within_next h2
  have hp := line_6df_post n recs hw stA.act_flystick iA.2.1.2
  rw [ha] at hp
  obtain ⟨hnum, hv⟩ := hp
  have hB : stB.act_flystick = a.2 := by
    have := congrArg Prod.snd e
    simp only at this
    rw [this]
    rfl
  have hfin : st1.act_flystick = a.2 := by
    rw [(frame_end_tables he).1, wire_later_flystick ws2 hlast h3, hB]
  intro i hi
  obtain ⟨y, hy, hy1⟩ := hv i (recs.get ⟨i, hi⟩) (List.getElem?_eq_getElem hi)
  refine ⟨y, hy, ?_⟩
  simp only [WireLine.wf, Bool.and_eq_true, decide_eq_true_eq] at hw
  unfold DTrackSDK.getFlyStick Table.at
  rw [hfin, if_pos ⟨by omega, by omega⟩]
  simpa using hy1

/-! ## Lines that a check of a record header stops -/

theorem flow_bind_pure {σ α : Type} (x : Flow σ α) : x >>= pure = x := by
  cases x <;> rfl

theorem fails_bind {σ α β : Type} {R : α → Prop} {x : Flow σ α} {f : α → Flow σ β}
    (hx : Flow.Succeeds R x) (hf : ∀ a, R a → Flow.Fails (f a)) : Flow.Fails (x >>= f) := by
  obtain ⟨a, rfl, ha⟩ := hx
  exact hf a ha

theorem fails_first {σ α β : Type} {x : Flow σ α} (f : α → Flow σ β) (hx : Flow.Fails x) :
    Flow.Fails (x >>= f) := by
  obtain ⟨w, s, rfl⟩ := hx
  exact ⟨w, s, rfl⟩

theorem fails_within {σ α : Type} {x : Flow σ α} (put : σ → DTrackSDK)
    (upd : α → Locals × DTrackSDK) (hx : Flow.Fails x) : Flow.Fails (x.within put upd) := by
  obtain ⟨w, s, rfl⟩ := hx
  exact ⟨w, put s, rfl⟩

theorem fails_block {σ β : Type} (toks : List Tok) (ts : List (List Char)) (fmt : List Char)
    (hfmt : toks.map Tok.fmt = fmt) (t : σ) (f : List Int × List Dbl × List Char → Flow σ β)
    (hf : Flow.Fails (f (Tok.ints toks, Tok.dbls toks, render ts))) :
    Flow.Fails (Flow.parse (string_get_block (render (toks.map Tok.text ++ ts)) fmt) t >>= f)
    := by
  rw [← hfmt, string_get_block_render]
  exact hf

theorem fails_int {σ β : Type} (n : IntTok) (ts : List (List Char)) (t : σ)
    (f : Int × List Char → Flow σ β) (hf : Flow.Fails (f (n.val, render ts))) :
    Flow.Fails (Flow.parse (string_get_i (n.text ++ render ts)) t >>= f) := by
  rw [(string_get_i_tok n ts).1]
  exact hf

/-- The adjustment of a table whose vector has the counted length to a count `n >= 0` runs
to its end. -/
theorem adjust_succeeds {α : Type} (z : α) (n : Int) (t : Table α) (hn : 0 ≤ n)
    (ht : (t.vec.length : Int) = t.num) :
    Flow.Succeeds (fun t1 => t1.num = n ∧ (t1.vec.length : Int) = n) (t.adjust z n) := by
  have h := Flow.Succeeds.bind_adjust z n t (fun t1 => (pure t1 : Flow (Table α) (Table α)))
    hn ht (Q := fun t1 => t1.num = n ∧ (t1.vec.length : Int) = n)
    (fun t1 h1 h2 => Flow.Succeeds.pure t1 ⟨h1, h2⟩)
  rw [flow_bind_pure] at h
  exact h

/-- A loop whose records `good` are taken and whose next round stops, stops. -/
theorem for_loop_stops {σ ρ : Type} (body : Int → List Char → σ → Flow σ (List Char × σ))
    (toks : ρ → List Tok) (P : Nat → ρ → Bool) (I : σ → Prop)
    (hstep : ∀ (k : Nat) (r : ρ) (ts : List (List Char)) (t : σ), P k r = true → I t →
      Flow.Succeeds (fun a => a.1 = render ts ∧ I a.2)
        (body k (render ((toks r).map Tok.text ++ ts)) t))
    (good : List ρ) (hP : all_from P 0 good = true) (tail : List (List Char))
    (hbad : ∀ t, I t → Flow.Fails (body good.length (render tail) t))
    (m : Nat) (t : σ) (hI : I t) :
    Flow.Fails (for_loop body (good.length + (m + 1)) 0
      (render ((Tok.all toks good).map Tok.text ++ tail)) t) := by
  rw [for_loop_add]
  obtain ⟨⟨s1, t1⟩, h1, hs, ht⟩ := for_loop_succeeds body toks P (fun (_ : Unit) x => I x)
    (fun _ _ => ()) (fun k r ts x _ hp hx => hstep k r ts x hp hx) good 0 hP tail t () hI
  have h1b : for_loop body good.length 0 (render ((Tok.all toks good).map Tok.text ++ tail)) t
      = .next (s1, t1) := h1
  rw [h1b]
  simp only at hs ht ⊢
  subst hs
  obtain ⟨w, s, hb⟩ := hbad t1 ht
  unfold for_loop
  rw [zero_add, hb]
  exact ⟨w, s, rfl⟩

theorem grow_succeeds {α : Type} (z : α) (d : Int → α → α) (id : Int) (t : Table α)
    (hid : 0 ≤ id) (h0 : 0 ≤ t.num) (ht : t.num ≤ t.vec.length) :
    Flow.Succeeds (fun t1 => t1.num = max t.num (id + 1) ∧ t1.num ≤ t1.vec.length)
      (t.grow z d id) := by
  have h := Flow.Succeeds.bind_grow z d id t (fun t1 => (pure t1 : Flow (Table α) (Table α)))
    hid h0 ht (Q := fun t1 => t1.num = max t.num (id + 1) ∧ t1.num ≤ t1.vec.length)
    (fun t1 h1 h2 => Flow.Succeeds.pure t1 ⟨h1, h2⟩)
  rw [flow_bind_pure] at h
  exact h

theorem update_succeeds {α : Type} (t : Table α) (i : Int) (g : α → α) (h0 : 0 ≤ i)
    (h1 : i < t.vec.length) :
    Flow.Succeeds (fun t1 => t1.num = t.num ∧ t1.vec.length = t.vec.length)
      (t.update i g) := by
  have h := Flow.Succeeds.bind_update t i g (fun t1 => (pure t1 : Flow (Table α) (Table α)))
    h0 h1 (Q := fun t1 => t1.num = t.num ∧ t1.vec.length = t.vec.length)
    (fun t1 h1 h2 => Flow.Succeeds.pure t1 ⟨h1, h2⟩)
  rw [flow_bind_pure] at h
  exact h

theorem disable_all_succeeds {α : Type} (d : Int → α → α) (t : Table α)
    (ht : t.num ≤ t.vec.length) :
    Flow.Succeeds (fun t1 => t1.num = t.num ∧ t1.vec.length = t.vec.length)
      (t.disable_all d) := by
  have h := Flow.Succeeds.bind_disable_all d t
    (fun t1 => (pure t1 : Flow (Table α) (Table α))) ht
    (Q := fun t1 => t1.num = t.num ∧ t1.vec.length = t.vec.length)
    (fun t1 h1 h2 => Flow.Succeeds.pure t1 ⟨h1, h2⟩)
  rw [flow_bind_pure] at h
  exact h

theorem fresh_reachable : fresh.Reachable := DTrackSDK.Reachable.init _ _ _ _

theorem fresh_in_step : fresh.in_step := by
  simp [DTrackSDK.in_step, fresh, DTrackSDK.init, Table.empty]

/-- C16: on a session reached from `init` whose tables are in step with their counts and
whose data port is valid, a packet of well-formed lines whose last Flystick line is a `6df `
line is decoded with result true, and for every record of that line with button word `b`
the Flystick at the record's index has `num_button = 8` and `button[j]` = bit `j` of `b` for
`j = 0..7`, `num_joystick = 2`, `joystick[0]` = -1 if bit 5 of `b` is set, else 1 if bit 7
is set, else 0, and `joystick[1]` = -1 if bit 4 is set, else 1 if bit 6 is set, else 0. -/
theorem C16_flystick1_buttons_joysticks (st : DTrackSDK) (hreach : st.Reachable)
    (hport : st.isLocalDataPortValid = true) (hstep : st.in_step) (ws1 : List WireLine)
    (n : IntTok) (recs : List ButtonWire) (ws2 : List WireLine)
    (hwf : (ws1 ++ WireLine.flystick1 n recs :: ws2).all WireLine.wf = true)
    (hlast : ∀ x ∈ ws2, x.table ≠ some 1) :
    ∃ st1, st.receive (.packet (packet_text
        ((ws1 ++ WireLine.flystick1 n recs :: ws2).map WireLine.text))) = .ret true st1 ∧
      ∀ i (hi : i < recs.length), ∃ f, st1.getFlyStick i = some f ∧
        f.num_button = 8 ∧
        (∀ j : Nat, j < 8 → f.button[j]? = some (((recs.get ⟨i, hi⟩).bits.val / 2 ^ j) % 2)) ∧
        f.num_joystick = 2 ∧
        f.joystick[0]? = some
          (if test_bit (recs.get ⟨i, hi⟩).bits.val 5 then Dbl.minusOne
           else if test_bit (recs.get ⟨i, hi⟩).bits.val 7 then 1 else 0) ∧
        f.joystick[1]? = some
          (if test_bit (recs.get ⟨i, hi⟩).bits.val 4 then Dbl.minusOne
           else if test_bit (recs.get ⟨i, hi⟩).bits.val 6 then 1 else 0) := by
  obtain ⟨st1, hr, hv⟩ := receive_flystick1 st hport hstep (reachable_inv hreach hport) ws1 n recs
    ws2 hwf hlast
  refine ⟨st1, hr, fun i hi => ?_⟩
  obtain ⟨y, hy, hf⟩ := hv i hi
  exact ⟨_, hf, flystick_6df_values _ y hy⟩

/-- C16 at a concrete input: a fresh session and the packet `6df 1 0 1.0 5 ..` with the
button word 5. -/
theorem C16_flystick1_buttons_joysticks_witness :
    ∃ st1, fresh.receive (.packet (packet_text
        (([] ++ WireLine.flystick1 tok_1 [fly_rec_0] :: []).map WireLine.text))) =
          .ret true st1 ∧
      ∀ i (hi : i < [fly_rec_0].length), ∃ f, st1.getFlyStick i = some f ∧
        f.num_button = 8 ∧
        (∀ j : Nat, j < 8 →
          f.button[j]? = some ((([fly_rec_0].get ⟨i, hi⟩).bits.val / 2 ^ j) % 2)) ∧
        f.num_joystick = 2 ∧
        f.joystick[0]? = some
          (if test_bit ([fly_rec_0].get ⟨i, hi⟩).bits.val 5 then Dbl.minusOne
           else if test_bit ([fly_rec_0].get ⟨i, hi⟩).bits.val 7 then 1 else 0) ∧
        f.joystick[1]? = some
          (if test_bit ([fly_rec_0].get ⟨i, hi⟩).bits.val 4 then Dbl.minusOne
           else if test_bit ([fly_rec_0].get ⟨i, hi⟩).bits.val 6 then 1 else 0) :=
  C16_flystick1_buttons_joysticks fresh fresh_reachable (by decide) fresh_in_step [] tok_1
    [fly_rec_0] [] (by decide) (fun x hx => absurd hx (List.not_mem_nil x))

/-! ## What a hand record leaves (C17) -/

theorem Dbls.dbls6 (d : Dbls 6) : Tok.dbls d.tokens = d.vals := d.dbls

/-- C13, where the code departs from it: the capacity check of a `6df2 ` record tests the
button count twice (`iarr[1] > DTRACK_FLYSTICK_MAX_BUTTON || iarr[1] >
DTRACK_FLYSTICK_MAX_JOYSTICK`) and never the joystick count.  The record that declares 10
buttons and 2 joystick values, both within the capacities 16 and 8, makes `receive` return
false with `ERR_PARSE`; the record that declares 8 buttons and 9 joystick values is not
rejected: the decoder goes on to read 9 values into `joystick[8]`. -/
theorem C13_capacity_check_tests_buttons_twice :
    (fresh.receive (.packet pkt_6df2_buttons10)).returned = some false ∧
    (fresh.receive (.packet pkt_6df2_buttons10)).state.map (·.getLastDataError) =
      some .ERR_PARSE ∧
    fresh.receive (.packet pkt_6df2_joysticks9) = .undefined := by
  decide

set_option maxRecDepth 100000 in
/-- C14, where the code departs from it: the joint count of a `6dj ` model is not checked
against `DTRACK_HUMAN_MAX_JOINTS`.  A model that declares 21 joints and is followed by the
data of 21 joints is not rejected: the decoder goes on to write `joint[20]`, beyond the
array `joint[20]` of the model; a model with 20 joints is decoded with result true. -/
theorem C14_joint_count_unchecked :
    fresh.receive (.packet pkt_6dj_joints21) = .undefined ∧
    (fresh.receive (.packet pkt_6dj_joints20)).returned = some true := by
  decide
/-! ## The command channel: return codes and error records (C21, C23, C27) -/

/-- The ways in which a call of `sendDTrack2Command` returns: for each, the code, the
session left behind and what led there. -/
theorem sendDTrack2Command_ret_cases {st st1 : DTrackSDK} {cmd : List Char}
    {answer answer1 : Option (List Char)} {w : TcpWire} {code : Int}
    (h : st.sendDTrack2Command cmd answer w = .ret code st1 answer1) :
    (code = -2 ∧ st.rsType ≠ .SYS_DTRACK_2 ∧ st1 = st) ∨
    (st.rsType = .SYS_DTRACK_2 ∧
      ((code = -3 ∧ (cmd.length : Int) > DTRACK_PROT_MAXLEN ∧
          st1 = { st.setLastDTrackError 0 [] with lastServerError := .ERR_NET }) ∨
       ((cmd.length : Int) ≤ DTRACK_PROT_MAXLEN ∧
        ((code = -10 ∧ st.isCommandInterfaceValid = false ∧
            st1 = { st.setLastDTrackError 0 [] with lastServerError := .ERR_NET }) ∨
         (st.isCommandInterfaceValid = true ∧
          ((code = -11 ∧ tcp_send w.send_select w.send_nbytes (cmd.length + 1) ≠ 0 ∧
              st1 = { st.setLastDTrackError 0 [] with lastServerError := .ERR_NET }) ∨
           (tcp_send w.send_select w.send_nbytes (cmd.length + 1) = 0 ∧
            ((code = tcp_receive w.recv_select w.recv_nbytes DTRACK_PROT_MAXLEN ∧ code < 0 ∧
                st1 = (if code = -1 then
                    { st.setLastDTrackError 0 [] with lastServerError := .ERR_TIMEOUT }
                  else if code = -9 then { st.setLastDTrackError 0 [] with d_tcpsock := false }
                  else { st.setLastDTrackError 0 [] with lastServerError := .ERR_NET })) ∨
             (0 ≤ tcp_receive w.recv_select w.recv_nbytes DTRACK_PROT_MAXLEN ∧
              ((code = 1 ∧ w.ans = some ans_ok ∧ st1 = st.setLastDTrackError 0 []) ∨
               ((code = -1100 ∨ code = -1101) ∧
                  st1 = { st.setLastDTrackError (-1100) sdk_error_1100 with
                    lastServerError := .ERR_PARSE }) ∨
               (code = 2 ∧ ∃ i qt, st1 = { st.setLastDTrackError 0 [] with
                  lastDTrackError := i, lastDTrackErrorString := qt }) ∨
               (code = 0 ∧ st1 = { st.setLastDTrackError 0 [] with
                  lastServerError := .ERR_NONE }))))))))))) := by
  unfold DTrackSDK.sendDTrack2Command at h
  dsimp only at h
  split at h
  · rename_i hrs
    simp only [CmdOutcome.ret.injEq] at h
    exact Or.inl ⟨h.1.symm, hrs, h.2.1.symm⟩
  rename_i hrs
  refine Or.inr ⟨not_not.mp hrs, ?_⟩
  split at h
  · rename_i hlen
    simp only [CmdOutcome.ret.injEq] at h
    exact Or.inl ⟨h.1.symm, hlen, h.2.1.symm⟩
  rename_i hlen
  refine Or.inr ⟨not_lt.mp hlen, ?_⟩
  split at h
  · rename_i hv
    simp only [CmdOutcome.ret.injEq] at h
    refine Or.inl ⟨h.1.symm, ?_, h.2.1.symm⟩
    simpa [DTrackSDK.isCommandInterfaceValid, DTrackSDK.setLastDTrackError] using hv
  rename_i hv
  refine Or.inr ⟨by
    simpa [DTrackSDK.isCommandInterfaceValid, DTrackSDK.setLastDTrackError] using hv, ?_⟩
  split at h
  · rename_i hs
    simp only [CmdOutcome.ret.injEq] at h
    exact Or.inl ⟨h.1.symm, hs, h.2.1.symm⟩
  rename_i hs
  refine Or.inr ⟨not_not.mp hs, ?_⟩
  split at h
  · rename_i hr
    simp only [CmdOutcome.ret.injEq] at h
    refine Or.inl ⟨h.1.symm, h.1 ▸ hr, ?_⟩
    rw [← h.1, ← h.2.1]
  rename_i hr
  refine Or.inr ⟨not_lt.mp hr, ?_⟩
  split at h
  · cases h
  rename_i ans hans
  split at h
  · rename_i hok
    simp only [CmdOutcome.ret.injEq] at h
    exact Or.inl ⟨h.1.symm, hok ▸ hans, h.2.1.symm⟩
  split at h
  · split at h
    · simp only [CmdOutcome.ret.injEq] at h
      exact Or.inr (Or.inl ⟨Or.inl h.1.symm, h.2.1.symm⟩)
    · split at h
      · simp only [CmdOutcome.ret.injEq] at h
        exact Or.inr (Or.inl ⟨Or.inr h.1.symm, h.2.1.symm⟩)
      · simp only [CmdOutcome.ret.injEq] at h
        exact Or.inr (Or.inr (Or.inl ⟨h.1.symm, _, _, h.2.1.symm⟩))
  · simp only [CmdOutcome.ret.injEq] at h
    exact Or.inr (Or.inr (Or.inr ⟨h.1.symm, h.2.1.symm⟩))

/-- The negative results of `tcp_receive`. -/
theorem tcp_receive_neg (sel nbytes maxlen : Int) (h : tcp_receive sel nbytes maxlen < 0) :
    tcp_receive sel nbytes maxlen = -1 ∨ tcp_receive sel nbytes maxlen = -2 ∨
    tcp_receive sel nbytes maxlen = -3 ∨ tcp_receive sel nbytes maxlen = -4 ∨
    tcp_receive sel nbytes maxlen = -9 := by
  unfold tcp_receive at h ⊢
  split
  · split
    · exact Or.inr (Or.inr (Or.inr (Or.inr rfl)))
    split
    · exact Or.inr (Or.inr (Or.inl rfl))
    split
    · exact Or.inr (Or.inr (Or.inr (Or.inl rfl)))
    · rename_i h1 h2 h3 h4
      rw [if_pos h1, if_neg h2, if_neg h3, if_neg h4] at h
      omega
  · split
    · exact Or.inl rfl
    · exact Or.inr (Or.inl rfl)

/-- C21, as stated, fails: on a DTrack2 session with a valid command connection the reply
`dtrack2 err abc` makes `sendDTrack2Command` return -1100, the reply `dtrack2 err 5` makes
it return -1101, and an answer that fills the whole buffer makes it return -4 (the result of
`tcp_receive`): three negative values that are none of the six documented codes. -/
theorem C21_counterexample_undocumented_codes :
    (fresh2.sendDTrack2Command cmd_get none wire_err_abc).code = some (-1100) ∧
    (fresh2.sendDTrack2Command cmd_get none wire_err_5).code = some (-1101) ∧
    (fresh2.sendDTrack2Command cmd_get none wire_overflow).code = some (-4) ∧
    (-1100 : Int) ∉ [-1, -2, -3, -9, -10, -11] ∧ (-1101 : Int) ∉ [-1, -2, -3, -9, -10, -11] ∧
    (-4 : Int) ∉ [-1, -2, -3, -9, -10, -11] := by
  decide

set_option maxRecDepth 100000 in
/-- C21, amended: every negative value returned by `sendDTrack2Command`, for every
command, session and transport outcome, is one of -1, -2, -3, -4, -9, -10, -11, -1100 and
-1101, and each of these nine values is returned by some call.  The value -2 stands for a
wrong system type and for a failed `select` before the answer, -3 for a command that is
too long and for a failed `recv`. -/
theorem C21_negative_codes :
    (∀ (self : DTrackSDK) (command : List Char) (answer answer1 : Option (List Char))
      (w : TcpWire) (code : Int) (st1 : DTrackSDK),
      self.sendDTrack2Command command answer w = .ret code st1 answer1 → code < 0 →
      code ∈ [-1, -2, -3, -4, -9, -10, -11, -1100, -1101]) ∧
    (∀ c ∈ [-1, -2, -3, -4, -9, -10, -11, -1100, -1101],
      ∃ (self : DTrackSDK) (command : List Char) (w : TcpWire),
        (self.sendDTrack2Command command none w).code = some c) ∧
    (∀ (self : DTrackSDK) (command : List Char) (answer : Option (List Char)) (w : TcpWire),
      (self.rsType ≠ .SYS_DTRACK_2 →
        (self.sendDTrack2Command command answer w).code = some (-2)) ∧
      (self.rsType = .SYS_DTRACK_2 → (command.length : Int) > DTRACK_PROT_MAXLEN →
        (self.sendDTrack2Command command answer w).code = some (-3)) ∧
      (self.rsType = .SYS_DTRACK_2 → (command.length : Int) ≤ DTRACK_PROT_MAXLEN →
        self.isCommandInterfaceValid = true →
        tcp_send w.send_select w.send_nbytes (command.length + 1) = 0 →
        tcp_receive w.recv_select w.recv_nbytes DTRACK_PROT_MAXLEN < 0 →
        (self.sendDTrack2Command command answer w).code =
          some (tcp_receive w.recv_select w.recv_nbytes DTRACK_PROT_MAXLEN))) := by
  refine ⟨?_, ?_, ?_⟩
  · intro self command answer answer1 w code st1 h hneg
    rcases sendDTrack2Command_ret_cases h with ⟨rfl, -, -⟩ | ⟨-, ⟨rfl, -, -⟩ |
      ⟨-, ⟨rfl, -, -⟩ | ⟨-, ⟨rfl, -, -⟩ | ⟨-, ⟨hc, hn, -⟩ | ⟨-, ⟨rfl, -, -⟩ |
        ⟨rfl | rfl, -⟩ | ⟨rfl, -⟩ | ⟨rfl, -⟩⟩⟩⟩⟩⟩
    · decide
    · decide
    · decide
    · decide
    · rw [hc] at hn ⊢
      rcases tcp_receive_neg _ _ _ hn with h1 | h1 | h1 | h1 | h1 <;> rw [h1] <;> decide
    · exact absurd hneg (by decide)
    · decide
    · decide
    · exact absurd hneg (by decide)
    · exact absurd hneg (by decide)
  · intro c hc
    simp only [List.mem_cons, List.mem_singleton, List.not_mem_nil, or_false] at hc
    rcases hc with rfl | rfl | rfl | rfl | rfl | rfl | rfl | rfl | rfl
    · exact ⟨fresh2, cmd_get, wire_timeout, by decide⟩
    · exact ⟨fresh, cmd_get, wire_ok, by decide⟩
    · exact ⟨fresh2, cmd_long, wire_ok, by decide⟩
    · exact ⟨fresh2, cmd_get, wire_overflow, by decide⟩
    · exact ⟨fresh2, cmd_get, wire_broken, by decide⟩
    · exact ⟨fresh2_no_tcp, cmd_get, wire_ok, by decide⟩
    · exact ⟨fresh2, cmd_get, wire_not_sent, by decide⟩
    · exact ⟨fresh2, cmd_get, wire_err_abc, by decide⟩
    · exact ⟨fresh2, cmd_get, wire_err_5, by decide⟩
  · intro self command answer w
    refine ⟨?_, ?_, ?_⟩
    · intro hrs
      unfold DTrackSDK.sendDTrack2Command
      rw [if_pos hrs]
      rfl
    · intro hrs hlen
      unfold DTrackSDK.sendDTrack2Command
      dsimp only
      rw [if_neg (not_not.mpr hrs), if_pos hlen]
      rfl
    · intro hrs hlen hv hs hr
      unfold DTrackSDK.sendDTrack2Command
      dsimp only
      have hv1 : (!(self.setLastDTrackError 0 []).isCommandInterfaceValid) = false := by
        simpa [DTrackSDK.isCommandInterfaceValid, DTrackSDK.setLastDTrackError] using hv
      rw [if_neg (not_not.mpr hrs), if_neg (not_lt.mpr hlen), hv1, if_neg (by simp),
        if_neg (not_not.mpr hs), if_pos hr]
      rfl

/-- C21 (amended) at concrete inputs: the reply `dtrack2 err abc` (result -1100), and a
failed `select` before the answer on a DTrack2 session (result -2). -/
theorem C21_negative_codes_witness :
    (-1100 : Int) ∈ [-1, -2, -3, -4, -9, -10, -11, -1100, -1101] ∧
    (fresh2.sendDTrack2Command cmd_get none wire_select_error).code =
      some (tcp_receive wire_select_error.recv_select wire_select_error.recv_nbytes
        DTRACK_PROT_MAXLEN) ∧
    tcp_receive wire_select_error.recv_select wire_select_error.recv_nbytes
        DTRACK_PROT_MAXLEN = -2 :=
  ⟨C21_negative_codes.1 fresh2 cmd_get none none wire_err_abc (-1100)
      ((fresh2.sendDTrack2Command cmd_get none wire_err_abc).state_or fresh2)
      (by decide) (by decide),
    (C21_negative_codes.2.2 fresh2 cmd_get none wire_select_error).2.2 (by decide) (by decide)
      (by decide) (by decide) (by decide),
    by decide⟩

/-- C23, as stated, fails: `receive` does not leave `getLastServerError()` unchanged.  The
DTrack2 session whose last command ran into the timeout has the command-path error
`ERR_TIMEOUT`; after a `receive` on it, whether the packet `"fr 10\n"` is decoded or the
transport reports a timeout, `getLastServerError()` is `ERR_NONE`. -/
theorem C23_counterexample_receive_clears_server_error :
    st_timeout.getLastServerError = .ERR_TIMEOUT ∧
    (st_timeout.receive (.packet pkt_fr10)).returned = some true ∧
    (st_timeout.receive (.packet pkt_fr10)).state.map (·.getLastServerError) =
      some .ERR_NONE ∧
    (st_timeout.receive udp_timeout).returned = some false ∧
    (st_timeout.receive udp_timeout).state.map (·.getLastServerError) = some .ERR_NONE := by
  decide

/-- C23, amended: for every state, `sendDTrack2Command` leaves `getLastDataError()`
unchanged, whereas `receive` sets the command-path error to `ERR_NONE`, whatever it was
and whatever `receive` returns: what `receive` leaves unchanged of the command path is the
DTrack2 error (`getLastDTrackError()` with its description) and the state of the command
connection. -/
theorem C23_error_paths (st st1 : DTrackSDK) :
    (∀ (udp : UdpResult) (b : Bool), st.receive udp = .ret b st1 →
      st1.getLastServerError = .ERR_NONE ∧
      st1.getLastDTrackError = st.getLastDTrackError ∧
      st1.getLastDTrackErrorDescription = st.getLastDTrackErrorDescription ∧
      st1.isCommandInterfaceValid = st.isCommandInterfaceValid) ∧
    (∀ (command : List Char) (answer answer1 : Option (List Char)) (w : TcpWire) (code : Int),
      st.sendDTrack2Command command answer w = .ret code st1 answer1 →
      st1.getLastDataError = st.getLastDataError ∧
      st1.isLocalDataPortValid = st.isLocalDataPortValid) := by
  constructor
  · intro udp b h
    obtain ⟨-, -, h3, h4, h5, h6⟩ := receive_session h
    exact ⟨h4, h5, h6, h3⟩
  · intro command answer answer1 w code h
    rcases sendDTrack2Command_ret_cases h with ⟨-, -, rfl⟩ | ⟨-, ⟨-, -, rfl⟩ |
      ⟨-, ⟨-, -, rfl⟩ | ⟨-, ⟨-, -, rfl⟩ | ⟨-, ⟨-, -, rfl⟩ | ⟨-, ⟨-, -, rfl⟩ |
        ⟨-, rfl⟩ | ⟨-, i, qt, rfl⟩ | ⟨-, rfl⟩⟩⟩⟩⟩⟩
    · exact ⟨rfl, rfl⟩
    · exact ⟨rfl, rfl⟩
    · exact ⟨rfl, rfl⟩
    · exact ⟨rfl, rfl⟩
    · split
      · exact ⟨rfl, rfl⟩
      split
      · exact ⟨rfl, rfl⟩
      · exact ⟨rfl, rfl⟩
    · exact ⟨rfl, rfl⟩
    · exact ⟨rfl, rfl⟩
    · exact ⟨rfl, rfl⟩
    · exact ⟨rfl, rfl⟩

/-- C23 (amended) at concrete inputs: `receive` of the packet `"fr 10\n"` on the session
whose last command timed out, and a command answered with `dtrack2 ok` on the session whose
last `receive` timed out. -/
theorem C23_error_paths_witness :
    (st_timeout_fr10.getLastServerError = .ERR_NONE ∧
      st_timeout_fr10.getLastDTrackError = st_timeout.getLastDTrackError ∧
      st_timeout_fr10.getLastDTrackErrorDescription = st_timeout.getLastDTrackErrorDescription ∧
      st_timeout_fr10.isCommandInterfaceValid = st_timeout.isCommandInterfaceValid) ∧
    (st2_data_timeout_ok.getLastDataError = st2_data_timeout.getLastDataError ∧
      st2_data_timeout_ok.isLocalDataPortValid = st2_data_timeout.isLocalDataPortValid) ∧
    st2_data_timeout.getLastDataError = .ERR_TIMEOUT :=
  ⟨(C23_error_paths st_timeout st_timeout_fr10).1 (.packet pkt_fr10) true (by decide),
    (C23_error_paths st2_data_timeout st2_data_timeout_ok).2 cmd_get none none wire_ok 1
      (by decide),
    by decide⟩

/-- What a returning call of `sendDTrack2Command` does to `lastServerError` on its three
exits with a reply of the controller: the exit with the result 0 assigns `ERR_NONE`
(line 1179); the exits with the results 1 and 2 (lines 1149-1150 and 1152-1173) have no
assignment to it. -/
theorem sendDTrack2Command_server_error (st st1 : DTrackSDK) (command : List Char)
    (answer answer1 : Option (List Char)) (w : TcpWire) (code : Int)
    (h : st.sendDTrack2Command command answer w = .ret code st1 answer1) :
    (code = 0 → st1.getLastServerError = .ERR_NONE) ∧
    (code = 1 → st1.getLastServerError = st.getLastServerError) ∧
    (code = 2 → st1.getLastServerError = st.getLastServerError) := by
  rcases sendDTrack2Command_ret_cases h with ⟨rfl, -, -⟩ | ⟨-, ⟨rfl, -, -⟩ |
    ⟨-, ⟨rfl, -, -⟩ | ⟨-, ⟨rfl, -, -⟩ | ⟨-, ⟨-, hn, -⟩ | ⟨-, ⟨rfl, -, rfl⟩ |
      ⟨rfl | rfl, -⟩ | ⟨rfl, i, qt, rfl⟩ | ⟨rfl, rfl⟩⟩⟩⟩⟩⟩
  · exact ⟨fun h => absurd h (by decide), fun h => absurd h (by decide),
      fun h => absurd h (by decide)⟩
  · exact ⟨fun h => absurd h (by decide), fun h => absurd h (by decide),
      fun h => absurd h (by decide)⟩
  · exact ⟨fun h => absurd h (by decide), fun h => absurd h (by decide),
      fun h => absurd h (by decide)⟩
  · exact ⟨fun h => absurd h (by decide), fun h => absurd h (by decide),
      fun h => absurd h (by decide)⟩
  · exact ⟨fun h => absurd hn (by omega), fun h => absurd hn (by omega),
      fun h => absurd hn (by omega)⟩
  · exact ⟨fun h => absurd h (by decide), fun _ => rfl, fun h => absurd h (by decide)⟩
  · exact ⟨fun h => absurd h (by decide), fun h => absurd h (by decide),
      fun h => absurd h (by decide)⟩
  · exact ⟨fun h => absurd h (by decide), fun h => absurd h (by decide),
      fun h => absurd h (by decide)⟩
  · exact ⟨fun h => absurd h (by decide), fun h => absurd h (by decide), fun _ => rfl⟩
  · exact ⟨fun _ => rfl, fun h => absurd h (by decide), fun h => absurd h (by decide)⟩

/-- C27: the code departs from the claim at the result 1.  On the DTrack2 session whose last
command ran into the timeout (result -1, `getLastServerError()` is `ERR_TIMEOUT`), a
command answered with `dtrack2 ok` returns 1 and `getLastServerError()` is still
`ERR_TIMEOUT`: the exit at lines 1149-1150 has no `lastServerError = ERR_NONE`.  The same
command answered with `dtrack2 status active mea` returns 0 and leaves `ERR_NONE`, by the
assignment at line 1179. -/
theorem C27_ok_reply_keeps_server_error :
    (fresh2.sendDTrack2Command cmd_get none wire_timeout).code = some (-1) ∧
    st_timeout.getLastServerError = .ERR_TIMEOUT ∧
    (st_timeout.sendDTrack2Command cmd_get none wire_ok).code = some 1 ∧
    ((st_timeout.sendDTrack2Command cmd_get none wire_ok).state_or fresh2).getLastServerError
      = .ERR_TIMEOUT ∧
    (st_timeout.sendDTrack2Command cmd_get none wire_status).code = some 0 ∧
    st_timeout_status.getLastServerError = .ERR_NONE := by
  decide
/-! ## A broken command connection stays broken (C22) -/

/-- What a returning call of `sendDTrack2Command` does to the system type and the command
connection: the type is kept, and the connection is not valid afterwards unless it was
before. -/
theorem sendDTrack2Command_connection {st st1 : DTrackSDK} {cmd : List Char}
    {answer answer1 : Option (List Char)} {w : TcpWire} {code : Int}
    (h : st.sendDTrack2Command cmd answer w = .ret code st1 answer1) :
    st1.rsType = st.rsType ∧ (st1.d_tcpsock = true → st.d_tcpsock = true) := by
  rcases sendDTrack2Command_ret_cases h with ⟨-, -, rfl⟩ | ⟨-, ⟨-, -, rfl⟩ |
    ⟨-, ⟨-, -, rfl⟩ | ⟨-, ⟨-, -, rfl⟩ | ⟨-, ⟨-, -, rfl⟩ | ⟨-, ⟨-, -, rfl⟩ |
      ⟨-, rfl⟩ | ⟨-, i, qt, rfl⟩ | ⟨-, rfl⟩⟩⟩⟩⟩⟩
  · exact ⟨rfl, id⟩
  · exact ⟨rfl, id⟩
  · exact ⟨rfl, id⟩
  · exact ⟨rfl, id⟩
  · split
    · exact ⟨rfl, id⟩
    split
    · exact ⟨rfl, fun h => by cases h⟩
    · exact ⟨rfl, id⟩
  · exact ⟨rfl, id⟩
  · exact ⟨rfl, id⟩
  · exact ⟨rfl, id⟩
  · exact ⟨rfl, id⟩

/-- The same for the end of `sendCommand`. -/
theorem sendCommand_udp_connection {st st1 : DTrackSDK} {cmd : List Char} {net : CmdNet}
    {calls calls1 : List NetCall} {b : Bool}
    (h : st.sendCommand_udp cmd net calls = .ret b st1 calls1) :
    st1.rsType = st.rsType ∧ (st1.d_tcpsock = true → st.d_tcpsock = true) := by
  unfold DTrackSDK.sendCommand_udp at h
  dsimp only at h
  split at h
  · simp only [SendOutcome.ret.injEq] at h
    obtain ⟨-, rfl, -⟩ := h
    exact ⟨rfl, id⟩
  split at h
  · simp only [SendOutcome.ret.injEq] at h
    obtain ⟨-, rfl, -⟩ := h
    exact ⟨rfl, id⟩
  · simp only [SendOutcome.ret.injEq] at h
    obtain ⟨-, rfl, -⟩ := h
    exact ⟨rfl, id⟩

/-- The same for `1 == sendDTrack2Command(..)`. -/
theorem tracking_command_connection {st st1 : DTrackSDK} {cmd : List Char} {net : CmdNet}
    {calls calls1 : List NetCall} {b : Bool}
    (h : st.tracking_command cmd net calls = .ret b st1 calls1) :
    st1.rsType = st.rsType ∧ (st1.d_tcpsock = true → st.d_tcpsock = true) := by
  unfold DTrackSDK.tracking_command at h
  split at h
  · rename_i code st2 a hc
    simp only [SendOutcome.ret.injEq] at h
    obtain ⟨-, rfl, -⟩ := h
    exact sendDTrack2Command_connection hc
  · cases h

/-- The same for `sendCommand`, `startMeasurement` and `stopMeasurement`. -/
theorem measurement_connection (depth : Nat) :
    (∀ (st st1 : DTrackSDK) (cmd : List Char) (net : CmdNet) (calls calls1 : List NetCall)
      (b : Bool), st.sendCommand cmd net calls depth = .ret b st1 calls1 →
      st1.rsType = st.rsType ∧ (st1.d_tcpsock = true → st.d_tcpsock = true)) ∧
    (∀ (st st1 : DTrackSDK) (net : CmdNet) (calls calls1 : List NetCall)
      (b : Bool), st.startMeasurement net calls depth = .ret b st1 calls1 →
      st1.rsType = st.rsType ∧ (st1.d_tcpsock = true → st.d_tcpsock = true)) ∧
    (∀ (st st1 : DTrackSDK) (net : CmdNet) (calls calls1 : List NetCall)
      (b : Bool), st.stopMeasurement net calls depth = .ret b st1 calls1 →
      st1.rsType = st.rsType ∧ (st1.d_tcpsock = true → st.d_tcpsock = true)) := by
  induction depth with
  | zero =>
    refine ⟨?_, ?_, ?_⟩
    · intro st st1 cmd net calls calls1 b h
      simp [DTrackSDK.sendCommand] at h
    · intro st st1 net calls calls1 b h
      simp [DTrackSDK.startMeasurement] at h
    · intro st st1 net calls calls1 b h
      simp [DTrackSDK.stopMeasurement] at h
  | succ d ih =>
    obtain ⟨ih1, ih2, ih3⟩ := ih
    refine ⟨?_, ?_, ?_⟩
    · intro st st1 cmd net calls calls1 b h
      unfold DTrackSDK.sendCommand at h
      dsimp only at h
      split at h
      · simp only [SendOutcome.ret.injEq] at h
        obtain ⟨-, rfl, -⟩ := h
        exact ⟨rfl, id⟩
      split at h
      · split at h
        · split at h
          · exact ih2 { st with lastDataError := .ERR_NONE } _ _ _ _ _ h
          split at h
          · exact ih3 { st with lastDataError := .ERR_NONE } _ _ _ _ _ h
          · simp only [SendOutcome.ret.injEq] at h
            obtain ⟨-, rfl, -⟩ := h
            exact ⟨rfl, id⟩
        · exact @sendCommand_udp_connection { st with lastDataError := .ERR_NONE } _ _ _ _ _ _ h
      · exact @sendCommand_udp_connection { st with lastDataError := .ERR_NONE } _ _ _ _ _ _ h
    · intro st st1 net calls calls1 b h
      unfold DTrackSDK.startMeasurement at h
      split at h
      · split at h
        · rename_i st2 c2 h1
          obtain ⟨a1, a2⟩ := ih1 _ _ _ _ _ _ _ h1
          obtain ⟨b1, b2⟩ := ih1 _ _ _ _ _ _ _ h
          exact ⟨b1.trans a1, fun x => a2 (b2 x)⟩
        · exact ih1 _ _ _ _ _ _ _ h
      · exact tracking_command_connection h
    · intro st st1 net calls calls1 b h
      unfold DTrackSDK.stopMeasurement at h
      split at h
      · split at h
        · rename_i st2 c2 h1
          obtain ⟨a1, a2⟩ := ih1 _ _ _ _ _ _ _ h1
          obtain ⟨b1, b2⟩ := ih1 _ _ _ _ _ _ _ h
          exact ⟨b1.trans a1, fun x => a2 (b2 x)⟩
        · exact ih1 _ _ _ _ _ _ _ h
      · exact tracking_command_connection h

/-- Later calls keep the system type and never make the command connection valid. -/
theorem later_connection {st st1 : DTrackSDK} (h : st.Later st1) :
    st1.rsType = st.rsType ∧ (st1.d_tcpsock = true → st.d_tcpsock = true) := by
  induction h with
  | same => exact ⟨rfl, id⟩
  | receive udp b _ h ih =>
    obtain ⟨a1, -, a3, -⟩ := receive_session h
    exact ⟨a1.trans ih.1, fun x => ih.2 (a3 ▸ x)⟩
  | command cmd answer answer1 w code _ h ih =>
    obtain ⟨a1, a2⟩ := sendDTrack2Command_connection h
    exact ⟨a1.trans ih.1, fun x => ih.2 (a2 x)⟩
  | sendCommand cmd net calls calls1 depth b _ h ih =>
    obtain ⟨a1, a2⟩ := (measurement_connection depth).1 _ _ _ _ _ _ _ h
    exact ⟨a1.trans ih.1, fun x => ih.2 (a2 x)⟩
  | startMeasurement net calls calls1 depth b _ h ih =>
    obtain ⟨a1, a2⟩ := (measurement_connection depth).2.1 _ _ _ _ _ _ h
    exact ⟨a1.trans ih.1, fun x => ih.2 (a2 x)⟩
  | stopMeasurement net calls calls1 depth b _ h ih =>
    obtain ⟨a1, a2⟩ := (measurement_connection depth).2.2 _ _ _ _ _ _ h
    exact ⟨a1.trans ih.1, fun x => ih.2 (a2 x)⟩
  | getParam _ ih => exact ⟨ih.1, ih.2⟩

set_option maxRecDepth 100000 in
/-- C22, as stated, fails: after the call that found the connection broken, a later
`sendDTrack2Command` call with a command of 201 characters returns -3, not -10; the check of
the command length comes before the check of the connection (a command of at most 200
characters gets -10). -/
theorem C22_counterexample_long_command_after_break :
    (fresh2.sendDTrack2Command cmd_get none wire_broken).code = some (-9) ∧
    st_broken.isCommandInterfaceValid = false ∧
    (st_broken.sendDTrack2Command cmd_long none wire_ok).code = some (-3) ∧
    (st_broken.sendDTrack2Command cmd_get none wire_ok).code = some (-10) := by
  decide

/-- C22, amended: when a `sendDTrack2Command` call returns -9, `tcp_receive` gave the
broken-connection signal, and `isCommandInterfaceValid()` is false from then on, whatever
member functions are called later (`receive`, `sendDTrack2Command`, `sendCommand`,
`startMeasurement`, `stopMeasurement`, the parameter functions): no operation opens the
command connection again.  Every later `sendDTrack2Command` call makes no transport call
and returns -10, or -3 when its command is longer than 200 characters, with
`lastServerError = ERR_NET` and the caller's answer buffer untouched. -/
theorem C22_broken_connection_stays (st st1 : DTrackSDK) (cmd : List Char)
    (answer answer1 : Option (List Char)) (w : TcpWire)
    (h : st.sendDTrack2Command cmd answer w = .ret (-9) st1 answer1) :
    tcp_receive w.recv_select w.recv_nbytes DTRACK_PROT_MAXLEN = -9 ∧
    st1.isCommandInterfaceValid = false ∧
    ∀ st2, st1.Later st2 →
      st2.isCommandInterfaceValid = false ∧
      ∀ (cmd2 : List Char) (answer2 : Option (List Char)) (w2 : TcpWire),
        st2.sendDTrack2Command cmd2 answer2 w2 =
          .ret (if (cmd2.length : Int) > DTRACK_PROT_MAXLEN then -3 else -10)
            { st2.setLastDTrackError 0 [] with lastServerError := .ERR_NET } answer2 ∧
        st2.sendDTrack2Command_calls cmd2 w2 = [] := by
  have hrs1 := (sendDTrack2Command_connection h).1
  rcases sendDTrack2Command_ret_cases h with ⟨h1, -, -⟩ | ⟨hrs, ⟨h1, -, -⟩ |
    ⟨-, ⟨h1, -, -⟩ | ⟨-, ⟨h1, -, -⟩ | ⟨-, ⟨hc, -, hst⟩ | ⟨-, ⟨h1, -, -⟩ |
      ⟨h1 | h1, -⟩ | ⟨h1, -⟩ | ⟨h1, -⟩⟩⟩⟩⟩⟩
  · exact absurd h1 (by decide)
  · exact absurd h1 (by decide)
  · exact absurd h1 (by decide)
  · exact absurd h1 (by decide)
  · rw [if_neg (by decide), if_pos rfl] at hst
    have hv1 : st1.d_tcpsock = false := by rw [hst]
    refine ⟨hc.symm, hv1, ?_⟩
    intro st2 hl
    obtain ⟨hrs2, hv2⟩ := later_connection hl
    have hv : st2.d_tcpsock = false := by
      cases hx : st2.d_tcpsock with
      | false => rfl
      | true => rw [hv2 hx] at hv1; cases hv1
    have hr : st2.rsType = .SYS_DTRACK_2 := by rw [hrs2, hrs1, hrs]
    refine ⟨hv, ?_⟩
    intro cmd2 answer2 w2
    have hi : (!(st2.setLastDTrackError 0 []).isCommandInterfaceValid) = true := by
      simp [DTrackSDK.isCommandInterfaceValid, DTrackSDK.setLastDTrackError, hv]
    have hi2 : (!st2.isCommandInterfaceValid) = true := by
      simp [DTrackSDK.isCommandInterfaceValid, hv]
    constructor
    · unfold DTrackSDK.sendDTrack2Command
      dsimp only
      rw [if_neg (not_not.mpr hr)]
      by_cases hlen : (cmd2.length : Int) > DTRACK_PROT_MAXLEN
      · rw [if_pos hlen, if_pos hlen]
      · rw [if_neg hlen, if_neg hlen, hi, if_pos rfl]
    · unfold DTrackSDK.sendDTrack2Command_calls
      rw [if_neg (not_not.mpr hr)]
      by_cases hlen : (cmd2.length : Int) > DTRACK_PROT_MAXLEN
      · rw [if_pos hlen]
      · rw [if_neg hlen, hi2, if_pos rfl]
  · exact absurd h1 (by decide)
  · exact absurd h1 (by decide)
  · exact absurd h1 (by decide)
  · exact absurd h1 (by decide)
  · exact absurd h1 (by decide)

/-- C22 (amended) at a concrete input: the DTrack2 session whose command found the
connection broken, seen after a later `receive` of the packet `"fr 10\n"`. -/
theorem C22_broken_connection_stays_witness :
    tcp_receive wire_broken.recv_select wire_broken.recv_nbytes DTRACK_PROT_MAXLEN = -9 ∧
    st_broken.isCommandInterfaceValid = false ∧
    ∀ st2, st_broken.Later st2 →
      st2.isCommandInterfaceValid = false ∧
      ∀ (cmd2 : List Char) (answer2 : Option (List Char)) (w2 : TcpWire),
        st2.sendDTrack2Command cmd2 answer2 w2 =
          .ret (if (cmd2.length : Int) > DTRACK_PROT_MAXLEN then -3 else -10)
            { st2.setLastDTrackError 0 [] with lastServerError := .ERR_NET } answer2 ∧
        st2.sendDTrack2Command_calls cmd2 w2 = [] :=
  C22_broken_connection_stays fresh2 st_broken cmd_get none none wire_broken (by decide)
/-! ## `sendCommand`, `startMeasurement`, `stopMeasurement` (C24, C25) -/

/-- A call of `sendDTrack2Command` returns unless an answer without terminator is read. -/
theorem sendDTrack2Command_returns (st : DTrackSDK) (cmd : List Char)
    (answer : Option (List Char)) (w : TcpWire) (hans : w.ans ≠ none) :
    ∃ code st1 answer1, st.sendDTrack2Command cmd answer w = .ret code st1 answer1 := by
  cases h : st.sendDTrack2Command cmd answer w with
  | ret code st1 answer1 => exact ⟨_, _, _, rfl⟩
  | undefined =>
    exfalso
    unfold DTrackSDK.sendDTrack2Command at h
    dsimp only at h
    split at h
    · cases h
    split at h
    · cases h
    split at h
    · cases h
    split at h
    · cases h
    split at h
    · cases h
    split at h
    · rename_i h1
      exact hans h1
    split at h
    · cases h
    split at h
    · split at h
      · cases h
      · split at h
        · cases h
        · cases h
    · cases h

/-- The result 1 of `sendDTrack2Command` means: sent and answered with `dtrack2 ok`. -/
theorem sendDTrack2Command_one {st st1 : DTrackSDK} {cmd : List Char}
    {answer answer1 : Option (List Char)} {w : TcpWire} {code : Int}
    (h : st.sendDTrack2Command cmd answer w = .ret code st1 answer1) :
    code = 1 ↔ st.answered_ok cmd w := by
  constructor
  · intro hc
    subst hc
    rcases sendDTrack2Command_ret_cases h with ⟨h1, -, -⟩ | ⟨hrs, ⟨h1, -, -⟩ |
      ⟨hlen, ⟨h1, -, -⟩ | ⟨hv, ⟨h1, -, -⟩ | ⟨hs, ⟨hc, hn, -⟩ | ⟨hr, ⟨-, ha, -⟩ |
        ⟨h1 | h1, -⟩ | ⟨h1, -⟩ | ⟨h1, -⟩⟩⟩⟩⟩⟩
    · exact absurd h1 (by decide)
    · exact absurd h1 (by decide)
    · exact absurd h1 (by decide)
    · exact absurd h1 (by decide)
    · exact absurd hn (by decide)
    · exact ⟨hrs, hlen, hv, hs, hr, ha⟩
    · exact absurd h1 (by decide)
    · exact absurd h1 (by decide)
    · exact absurd h1 (by decide)
    · exact absurd h1 (by decide)
  · rintro ⟨hrs, hlen, hv, hs, hr, ha⟩
    rw [sendDTrack2Command_answer st cmd ans_ok answer w hrs hlen hv hs hr ha, if_pos rfl] at h
    simp only [CmdOutcome.ret.injEq] at h
    exact h.1.symm

/-- The transport calls of `sendDTrack2Command`: the command with its terminator is sent at
most once, and an answer is read at most once, behind it. -/
theorem sendDTrack2Command_calls_bound (st : DTrackSDK) (cmd : List Char) (w : TcpWire) :
    st.sendDTrack2Command_calls cmd w <+:
      [.tcp_send (c_str_bytes cmd) (cmd.length + 1), .tcp_receive DTRACK_PROT_MAXLEN] := by
  unfold DTrackSDK.sendDTrack2Command_calls
  split
  · exact List.nil_prefix
  split
  · exact List.nil_prefix
  split
  · exact List.nil_prefix
  split
  · exact ⟨[.tcp_receive DTRACK_PROT_MAXLEN], rfl⟩
  · exact List.prefix_refl _

/-- The return `1 == sendDTrack2Command(command)`. -/
theorem tracking_command_spec (self : DTrackSDK) (cmd : List Char) (net : CmdNet)
    (calls : List NetCall) :
    (net.tcp.ans ≠ none → ∃ b st1, self.tracking_command cmd net calls =
      .ret b st1 (calls ++ self.sendDTrack2Command_calls cmd net.tcp)) ∧
    (∀ b st1 calls1, self.tracking_command cmd net calls = .ret b st1 calls1 →
      (b = true ↔ self.answered_ok cmd net.tcp) ∧
      calls1 = calls ++ self.sendDTrack2Command_calls cmd net.tcp) := by
  unfold DTrackSDK.tracking_command
  constructor
  · intro hans
    obtain ⟨code, st1, a1, h⟩ := sendDTrack2Command_returns self cmd none net.tcp hans
    rw [h]
    exact ⟨_, _, rfl⟩
  · intro b st1 calls1 h
    split at h
    · rename_i code st2 a hc
      simp only [SendOutcome.ret.injEq] at h
      obtain ⟨rfl, -, rfl⟩ := h
      refine ⟨?_, rfl⟩
      rw [← sendDTrack2Command_one hc]
      simp
    · cases h

/-- What `sendCommand` does with a command that is not redirected: on a session that is not
of type DTrack2, or with a command that does not start with `dtrack `. -/
theorem sendCommand_plain (self : DTrackSDK) (command : List Char) (net : CmdNet)
    (calls : List NetCall) (depth : Nat)
    (h : self.rsType ≠ .SYS_DTRACK_2 ∨ strncmp_eq command kw_dtrack = false) :
    self.sendCommand command net calls (depth + 1) =
      (if self.isLocalDataPortValid = false then .ret false self calls
       else if udp_send (net.udp calls.length).send_select (net.udp calls.length).send_nbytes
           (command.length + 1) ≠ 0 then
         .ret false { self with lastDataError := .ERR_NET }
           (calls ++ [.udp_send (c_str_bytes command) (command.length + 1)])
       else if c_str command = cmd_dtrack_10_3 then
         .ret true { self with lastDataError := .ERR_NONE }
           (calls ++ [.udp_send (c_str_bytes command) (command.length + 1), .sleep])
       else .ret true { self with lastDataError := .ERR_NONE }
           (calls ++ [.udp_send (c_str_bytes command) (command.length + 1)])) := by
  unfold DTrackSDK.sendCommand
  dsimp only
  cases hp : self.isLocalDataPortValid with
  | false => simp
  | true =>
    simp only [Bool.not_true, Bool.false_eq_true, if_false]
    have hu : ({ self with lastDataError := .ERR_NONE } : DTrackSDK).sendCommand_udp command
        net calls =
        (if udp_send (net.udp calls.length).send_select (net.udp calls.length).send_nbytes
           (command.length + 1) ≠ 0 then
         .ret false { self with lastDataError := .ERR_NET }
           (calls ++ [.udp_send (c_str_bytes command) (command.length + 1)])
       else if c_str command = cmd_dtrack_10_3 then
         .ret true { self with lastDataError := .ERR_NONE }
           (calls ++ [.udp_send (c_str_bytes command) (command.length + 1), .sleep])
       else .ret true { self with lastDataError := .ERR_NONE }
           (calls ++ [.udp_send (c_str_bytes command) (command.length + 1)])) := by
      unfold DTrackSDK.sendCommand_udp
      dsimp only
      split
      · rfl
      split
      · simp
      · rfl
    rcases h with h | h
    · rw [if_neg h]
      exact hu
    · rw [h]
      simp only [Bool.false_eq_true, if_false]
      split
      · exact hu
      · exact hu

/-- The two datagrams of a legacy `startMeasurement` / `stopMeasurement`: the pattern
`sendCommand(c1) && sendCommand(c2)` on a session that is not of type DTrack2. -/
theorem sendCommand_pair (self : DTrackSDK) (c1 c2 : List Char) (net : CmdNet)
    (calls : List NetCall) (depth : Nat) (hrs : self.rsType ≠ .SYS_DTRACK_2) :
    (match self.sendCommand c1 net calls (depth + 1) with
      | .ret true st calls1 => st.sendCommand c2 net calls1 (depth + 1)
      | r => r) =
    (if self.isLocalDataPortValid = false then .ret false self calls
     else if udp_send (net.udp calls.length).send_select (net.udp calls.length).send_nbytes
         (c1.length + 1) ≠ 0 then
       .ret false { self with lastDataError := .ERR_NET }
         (calls ++ [.udp_send (c_str_bytes c1) (c1.length + 1)])
     else
       ({ self with lastDataError := .ERR_NONE } : DTrackSDK).sendCommand c2 net
         (if c_str c1 = cmd_dtrack_10_3 then
            calls ++ [.udp_send (c_str_bytes c1) (c1.length + 1), .sleep]
          else calls ++ [.udp_send (c_str_bytes c1) (c1.length + 1)]) (depth + 1)) := by
  rw [sendCommand_plain self c1 net calls depth (Or.inl hrs)]
  by_cases hp : self.isLocalDataPortValid = false
  · rw [if_pos hp, if_pos hp]
  rw [if_neg hp, if_neg hp]
  by_cases hu : udp_send (net.udp calls.length).send_select (net.udp calls.length).send_nbytes
      (c1.length + 1) ≠ 0
  · rw [if_pos hu, if_pos hu]
  rw [if_neg hu, if_neg hu]
  by_cases hc : c_str c1 = cmd_dtrack_10_3
  · rw [if_pos hc, if_pos hc]
  · rw [if_neg hc, if_neg hc]

/-- C24: on a legacy session (`SYS_DTRACK`) `startMeasurement` hands `dtrack 10 3` with its
terminator to `udp_send`, sleeps, and hands over `dtrack 31`, the second only when the
first `udp_send` succeeded; `stopMeasurement` does the same with `dtrack 32` and
`dtrack 10 0` (without sleeping); each returns true exactly when both calls of `udp_send`
returned 0, and makes no other transport call: no answer is read (without a data socket
nothing is sent and the result is false).  On every other session type each makes only the
calls of one `sendDTrack2Command`, that is at most one `tcp_send` of
`dtrack2 tracking start` resp. `dtrack2 tracking stop` and one `tcp_receive` behind it, and
returns true exactly when the command was sent and answered with `dtrack2 ok`; it returns
whenever the answer read has a terminator. -/
theorem C24_measurement_commands (self : DTrackSDK) (net : CmdNet) (calls : List NetCall)
    (depth : Nat) :
    (self.rsType = .SYS_DTRACK →
      self.startMeasurement net calls (depth + 2) =
        (if self.isLocalDataPortValid = false then .ret false self calls
         else if udp_send (net.udp calls.length).send_select
             (net.udp calls.length).send_nbytes (cmd_dtrack_10_3.length + 1) ≠ 0 then
           .ret false { self with lastDataError := .ERR_NET }
             (calls ++ [.udp_send (c_str_bytes cmd_dtrack_10_3) (cmd_dtrack_10_3.length + 1)])
         else if udp_send (net.udp (calls.length + 2)).send_select
             (net.udp (calls.length + 2)).send_nbytes (cmd_dtrack_31.length + 1) ≠ 0 then
           .ret false { self with lastDataError := .ERR_NET }
             (calls ++ [.udp_send (c_str_bytes cmd_dtrack_10_3) (cmd_dtrack_10_3.length + 1),
               .sleep, .udp_send (c_str_bytes cmd_dtrack_31) (cmd_dtrack_31.length + 1)])
         else .ret true { self with lastDataError := .ERR_NONE }
             (calls ++ [.udp_send (c_str_bytes cmd_dtrack_10_3) (cmd_dtrack_10_3.length + 1),
               .sleep, .udp_send (c_str_bytes cmd_dtrack_31) (cmd_dtrack_31.length + 1)])) ∧
      self.stopMeasurement net calls (depth + 2) =
        (if self.isLocalDataPortValid = false then .ret false self calls
         else if udp_send (net.udp calls.length).send_select
             (net.udp calls.length).send_nbytes (cmd_dtrack_32.length + 1) ≠ 0 then
           .ret false { self with lastDataError := .ERR_NET }
             (calls ++ [.udp_send (c_str_bytes cmd_dtrack_32) (cmd_dtrack_32.length + 1)])
         else if udp_send (net.udp (calls.length + 1)).send_select
             (net.udp (calls.length + 1)).send_nbytes (cmd_dtrack_10_0.length + 1) ≠ 0 then
           .ret false { self with lastDataError := .ERR_NET }
             (calls ++ [.udp_send (c_str_bytes cmd_dtrack_32) (cmd_dtrack_32.length + 1),
               .udp_send (c_str_bytes cmd_dtrack_10_0) (cmd_dtrack_10_0.length + 1)])
         else .ret true { self with lastDataError := .ERR_NONE }
             (calls ++ [.udp_send (c_str_bytes cmd_dtrack_32) (cmd_dtrack_32.length + 1),
               .udp_send (c_str_bytes cmd_dtrack_10_0) (cmd_dtrack_10_0.length + 1)]))) ∧
    (self.rsType ≠ .SYS_DTRACK →
      ((net.tcp.ans ≠ none → ∃ b st1, self.startMeasurement net calls (depth + 2) =
          .ret b st1 (calls ++ self.sendDTrack2Command_calls cmd_tracking_start net.tcp)) ∧
        (∀ b st1 calls1, self.startMeasurement net calls (depth + 2) = .ret b st1 calls1 →
          (b = true ↔ self.answered_ok cmd_tracking_start net.tcp) ∧
          calls1 = calls ++ self.sendDTrack2Command_calls cmd_tracking_start net.tcp) ∧
        self.sendDTrack2Command_calls cmd_tracking_start net.tcp <+:
          [.tcp_send (c_str_bytes cmd_tracking_start) (cmd_tracking_start.length + 1),
            .tcp_receive DTRACK_PROT_MAXLEN]) ∧
      ((net.tcp.ans ≠ none → ∃ b st1, self.stopMeasurement net calls (depth + 2) =
          .ret b st1 (calls ++ self.sendDTrack2Command_calls cmd_tracking_stop net.tcp)) ∧
        (∀ b st1 calls1, self.stopMeasurement net calls (depth + 2) = .ret b st1 calls1 →
          (b = true ↔ self.answered_ok cmd_tracking_stop net.tcp) ∧
          calls1 = calls ++ self.sendDTrack2Command_calls cmd_tracking_stop net.tcp) ∧
        self.sendDTrack2Command_calls cmd_tracking_stop net.tcp <+:
          [.tcp_send (c_str_bytes cmd_tracking_stop) (cmd_tracking_stop.length + 1),
            .tcp_receive DTRACK_PROT_MAXLEN])) := by
  constructor
  · intro hrs
    have hrs2 : self.rsType ≠ .SYS_DTRACK_2 := by rw [hrs]; decide
    have hrs3 : ({ self with lastDataError := .ERR_NONE } : DTrackSDK).rsType ≠ .SYS_DTRACK_2 :=
      hrs2
    constructor
    · unfold DTrackSDK.startMeasurement
      rw [if_pos hrs]
      refine Eq.trans (sendCommand_pair self cmd_dtrack_10_3 cmd_dtrack_31 net calls depth hrs2) ?_
      split
      · rfl
      rename_i hp
      split
      · rfl
      rw [if_pos (by decide), sendCommand_plain _ _ net _ depth (Or.inl hrs3)]
      have hp2 : ¬ (({ self with lastDataError := .ERR_NONE } : DTrackSDK).isLocalDataPortValid
          = false) := hp
      rw [if_neg hp2]
      simp only [List.length_append, List.length_cons, List.length_nil, List.append_assoc,
        List.cons_append, List.nil_append]
      split
      · rfl
      · rw [if_neg (by decide)]
    · unfold DTrackSDK.stopMeasurement
      rw [if_pos hrs]
      refine Eq.trans (sendCommand_pair self cmd_dtrack_32 cmd_dtrack_10_0 net calls depth hrs2) ?_
      split
      · rfl
      rename_i hp
      split
      · rfl
      rw [if_neg (by decide), sendCommand_plain _ _ net _ depth (Or.inl hrs3)]
      have hp2 : ¬ (({ self with lastDataError := .ERR_NONE } : DTrackSDK).isLocalDataPortValid
          = false) := hp
      rw [if_neg hp2]
      simp only [List.length_append, List.length_cons, List.length_nil, List.append_assoc,
        List.cons_append, List.nil_append]
      split
      · rfl
      · rw [if_neg (by decide)]
  · intro hrs
    have h1 : self.startMeasurement net calls (depth + 2) =
        self.tracking_command cmd_tracking_start net calls := by
      unfold DTrackSDK.startMeasurement
      rw [if_neg hrs]
    have h2 : self.stopMeasurement net calls (depth + 2) =
        self.tracking_command cmd_tracking_stop net calls := by
      unfold DTrackSDK.stopMeasurement
      rw [if_neg hrs]
    rw [h1, h2]
    exact ⟨⟨(tracking_command_spec self _ net calls).1, (tracking_command_spec self _ net calls).2,
        sendDTrack2Command_calls_bound self _ _⟩,
      ⟨(tracking_command_spec self _ net calls).1, (tracking_command_spec self _ net calls).2,
        sendDTrack2Command_calls_bound self _ _⟩⟩

/-- C24 at concrete inputs: `startMeasurement` on a fresh legacy session when both
datagrams are sent and when only the first is, and on a fresh DTrack2 session whose command
is answered with `dtrack2 ok`. -/
theorem C24_measurement_commands_witness :
    fresh1.startMeasurement net_ok [] 2 =
      .ret true fresh1 [.udp_send (c_str_bytes cmd_dtrack_10_3) 12, .sleep,
        .udp_send (c_str_bytes cmd_dtrack_31) 10] ∧
    fresh1.startMeasurement net_first_only [] 2 =
      .ret false { fresh1 with lastDataError := .ERR_NET }
        [.udp_send (c_str_bytes cmd_dtrack_10_3) 12, .sleep,
          .udp_send (c_str_bytes cmd_dtrack_31) 10] ∧
    fresh2.answered_ok cmd_tracking_start net_ok.tcp ∧
    fresh2.startMeasurement net_ok [] 2 =
      .ret true fresh2 [.tcp_send (c_str_bytes cmd_tracking_start) 23, .tcp_receive 200] :=
  ⟨((C24_measurement_commands fresh1 net_ok [] 0).1 (by decide)).1.trans (by decide),
    ((C24_measurement_commands fresh1 net_first_only [] 0).1 (by decide)).1.trans (by decide),
    (((C24_measurement_commands fresh2 net_ok [] 0).2 (by decide)).1.2.1 true fresh2
      [.tcp_send (c_str_bytes cmd_tracking_start) 23, .tcp_receive 200] (by decide)).1.mp rfl,
    by decide⟩

/-- C25, as stated, fails on a session of type DTrack2 with a valid data port: the command
`dtrack 31` makes `sendCommand` return true without any transport call, so the text is
not written; the command `dtrack 10 3` is not written either: `dtrack2 tracking start` goes
over the command connection, an answer is read and parsed, and with the answer
`dtrack2 err 5 "busy"` the result is false although everything was sent. -/
theorem C25_counterexample_redirected_commands :
    fresh2.isLocalDataPortValid = true ∧
    fresh2.sendCommand cmd_dtrack_31 net_ok [] 2 = .ret true fresh2 [] ∧
    fresh2.sendCommand cmd_dtrack_10_3 net_ok [] 2 =
      .ret true fresh2 [.tcp_send (c_str_bytes cmd_tracking_start) 23, .tcp_receive 200] ∧
    (fresh2.sendCommand cmd_dtrack_10_3 net_err [] 2).returned = some false ∧
    (fresh2.sendCommand cmd_dtrack_10_3 net_err [] 2).calls =
      some [.tcp_send (c_str_bytes cmd_tracking_start) 23, .tcp_receive 200] ∧
    ((fresh2.sendCommand cmd_dtrack_10_3 net_err [] 2).state_or fresh2).getLastDTrackError
      = 5 := by
  decide

/-- What `sendCommand` does on a session of type DTrack2 with a command that starts with
`dtrack `: nothing goes to the data socket. -/
theorem sendCommand_redirected (self : DTrackSDK) (command : List Char) (net : CmdNet)
    (calls : List NetCall) (depth : Nat) (hport : self.isLocalDataPortValid = true)
    (hrs : self.rsType = .SYS_DTRACK_2) (hkw : strncmp_eq command kw_dtrack = true) :
    self.sendCommand command net calls (depth + 2) =
      (if strncmp_eq (command.drop 7) kw_10_3 = true then
        ({ self with lastDataError := .ERR_NONE } : DTrackSDK).tracking_command
          cmd_tracking_start net calls
      else if (strncmp_eq (command.drop 7) kw_10_0 || strncmp_eq (command.drop 7) kw_10_1)
          = true then
        ({ self with lastDataError := .ERR_NONE } : DTrackSDK).tracking_command
          cmd_tracking_stop net calls
      else .ret true { self with lastDataError := .ERR_NONE } calls) := by
  have hne : ¬ (({ self with lastDataError := .ERR_NONE } : DTrackSDK).rsType = .SYS_DTRACK) := by
    show ¬ (self.rsType = .SYS_DTRACK)
    rw [hrs]
    decide
  have hs : ({ self with lastDataError := .ERR_NONE } : DTrackSDK).rsType = .SYS_DTRACK_2 := hrs
  unfold DTrackSDK.sendCommand
  dsimp only
  rw [hport]
  simp only [Bool.not_true, Bool.false_eq_true, if_false]
  rw [if_pos hrs, if_pos hkw]
  split
  · unfold DTrackSDK.startMeasurement
    rw [if_neg hne]
  split
  · unfold DTrackSDK.stopMeasurement
    rw [if_neg hne]
  · rfl

/-- C25, amended: on a session with a valid data port that is not of type DTrack2, and
for a command that does not start with `dtrack ` on any session with a valid data port,
`sendCommand` hands the text with its terminator to `udp_send` and returns true exactly
when `udp_send` returned 0; behind the command `dtrack 10 3` it sleeps; it makes no other
transport call, so no answer is read.  On a session of type DTrack2 a command that starts
with `dtrack ` is not written: for `dtrack 10 3..` the result and the transport calls are
those of `startMeasurement`, for `dtrack 10 0..` and `dtrack 10 1..` those of
`stopMeasurement` (a command over the command connection whose answer is read), and for
every other such command the result is true without any transport call. -/
theorem C25_sendCommand_writes (self : DTrackSDK) (command : List Char) (net : CmdNet)
    (calls : List NetCall) (depth : Nat) (hport : self.isLocalDataPortValid = true) :
    (self.rsType ≠ .SYS_DTRACK_2 ∨ strncmp_eq command kw_dtrack = false →
      ∃ calls1, self.sendCommand command net calls (depth + 2) =
        .ret (decide (udp_send (net.udp calls.length).send_select
            (net.udp calls.length).send_nbytes (command.length + 1) = 0))
          (if udp_send (net.udp calls.length).send_select
              (net.udp calls.length).send_nbytes (command.length + 1) = 0
            then { self with lastDataError := .ERR_NONE }
            else { self with lastDataError := .ERR_NET }) calls1 ∧
        (calls1 = calls ++ [.udp_send (c_str_bytes command) (command.length + 1)] ∨
         (c_str command = cmd_dtrack_10_3 ∧
          calls1 = calls ++ [.udp_send (c_str_bytes command) (command.length + 1), .sleep]))) ∧
    (self.rsType = .SYS_DTRACK_2 → strncmp_eq command kw_dtrack = true →
      (net.tcp.ans ≠ none →
        ∃ b st1 calls1, self.sendCommand command net calls (depth + 2) = .ret b st1 calls1) ∧
      ∀ b st1 calls1, self.sendCommand command net calls (depth + 2) = .ret b st1 calls1 →
        (strncmp_eq (command.drop 7) kw_10_3 = true →
          (b = true ↔ self.answered_ok cmd_tracking_start net.tcp) ∧
          calls1 = calls ++ self.sendDTrack2Command_calls cmd_tracking_start net.tcp) ∧
        (strncmp_eq (command.drop 7) kw_10_3 = false →
          (strncmp_eq (command.drop 7) kw_10_0 || strncmp_eq (command.drop 7) kw_10_1) = true →
          (b = true ↔ self.answered_ok cmd_tracking_stop net.tcp) ∧
          calls1 = calls ++ self.sendDTrack2Command_calls cmd_tracking_stop net.tcp) ∧
        (strncmp_eq (command.drop 7) kw_10_3 = false →
          (strncmp_eq (command.drop 7) kw_10_0 || strncmp_eq (command.drop 7) kw_10_1) = false →
          b = true ∧ calls1 = calls ∧ st1 = { self with lastDataError := .ERR_NONE })) := by
  constructor
  · intro h
    rw [sendCommand_plain self command net calls (depth + 1) h]
    have hp : ¬ (self.isLocalDataPortValid = false) := by rw [hport]; decide
    rw [if_neg hp]
    by_cases hu : udp_send (net.udp calls.length).send_select
        (net.udp calls.length).send_nbytes (command.length + 1) = 0
    · rw [if_neg (not_not.mpr hu), if_pos hu]
      by_cases hc : c_str command = cmd_dtrack_10_3
      · rw [if_pos hc]
        exact ⟨_, by simp [hu], Or.inr ⟨hc, rfl⟩⟩
      · rw [if_neg hc]
        exact ⟨_, by simp [hu], Or.inl rfl⟩
    · rw [if_pos hu, if_neg hu]
      exact ⟨_, by simp [hu], Or.inl rfl⟩
  · intro hrs hkw
    rw [sendCommand_redirected self command net calls depth hport hrs hkw]
    constructor
    · intro hans
      split
      · obtain ⟨b, st1, h⟩ := (tracking_command_spec
          ({ self with lastDataError := .ERR_NONE } : DTrackSDK) cmd_tracking_start net calls).1 hans
        exact ⟨_, _, _, h⟩
      split
      · obtain ⟨b, st1, h⟩ := (tracking_command_spec
          ({ self with lastDataError := .ERR_NONE } : DTrackSDK) cmd_tracking_stop net calls).1 hans
        exact ⟨_, _, _, h⟩
      · exact ⟨_, _, _, rfl⟩
    · intro b st1 calls1 h
      by_cases h1 : strncmp_eq (command.drop 7) kw_10_3 = true
      · rw [if_pos h1] at h
        refine ⟨fun _ => ?_, fun h2 => ?_, fun h2 => ?_⟩
        · exact (tracking_command_spec
            ({ self with lastDataError := .ERR_NONE } : DTrackSDK) cmd_tracking_start net calls).2
              b st1 calls1 h
        · rw [h1] at h2; cases h2
        · rw [h1] at h2; cases h2
      · rw [if_neg h1] at h
        by_cases h3 : (strncmp_eq (command.drop 7) kw_10_0 ||
            strncmp_eq (command.drop 7) kw_10_1) = true
        · rw [if_pos h3] at h
          refine ⟨fun h2 => absurd h2 h1, fun _ _ => ?_, fun _ h4 => ?_⟩
          · exact (tracking_command_spec
              ({ self with lastDataError := .ERR_NONE } : DTrackSDK) cmd_tracking_stop net calls).2
                b st1 calls1 h
          · rw [h3] at h4; cases h4
        · rw [if_neg h3] at h
          simp only [SendOutcome.ret.injEq] at h
          exact ⟨fun h2 => absurd h2 h1, fun _ h4 => absurd h4 h3,
            fun _ _ => ⟨h.1.symm, h.2.2.symm, h.2.1.symm⟩⟩

/-- C25 (amended) at concrete inputs: the command `dtrack 31` on a fresh legacy session,
and the command `dtrack 10 3` on a fresh DTrack2 session. -/
theorem C25_sendCommand_writes_witness :
    (∃ calls1, fresh1.sendCommand cmd_dtrack_31 net_ok [] 2 =
        .ret (decide (udp_send (net_ok.udp 0).send_select (net_ok.udp 0).send_nbytes
            (cmd_dtrack_31.length + 1) = 0))
          (if udp_send (net_ok.udp 0).send_select (net_ok.udp 0).send_nbytes
              (cmd_dtrack_31.length + 1) = 0
            then { fresh1 with lastDataError := .ERR_NONE }
            else { fresh1 with lastDataError := .ERR_NET }) calls1 ∧
        (calls1 = [] ++ [.udp_send (c_str_bytes cmd_dtrack_31) (cmd_dtrack_31.length + 1)] ∨
         (c_str cmd_dtrack_31 = cmd_dtrack_10_3 ∧
          calls1 = [] ++ [.udp_send (c_str_bytes cmd_dtrack_31) (cmd_dtrack_31.length + 1),
            .sleep]))) ∧
    ((true = true ↔ fresh2.answered_ok cmd_tracking_start net_ok.tcp) ∧
      [NetCall.tcp_send (c_str_bytes cmd_tracking_start) 23, NetCall.tcp_receive 200] =
        [] ++ fresh2.sendDTrack2Command_calls cmd_tracking_start net_ok.tcp) :=
  ⟨(C25_sendCommand_writes fresh1 cmd_dtrack_31 net_ok [] 0 (by decide)).1
      (Or.inl (by decide)),
    ((((C25_sendCommand_writes fresh2 cmd_dtrack_10_3 net_ok [] 0 (by decide)).2
      (by decide) (by decide)).2 true fresh2
        [.tcp_send (c_str_bytes cmd_tracking_start) 23, .tcp_receive 200] (by decide)).1
          (by decide))⟩
/-! ## Lines with an unrecognized keyword (C26) -/

theorem string_lines_ne_nil (s : List Char) : string_lines s ≠ [] := by
  cases s with
  | nil => simp [string_lines]
  | cons c cs =>
    unfold string_lines
    split
    · simp
    · split <;> simp

theorem string_lines_cons (c : Char) (cs : List Char) :
    string_lines (c :: cs) =
      if c = '\n' then [] :: string_lines cs
      else match string_lines cs with
        | [] => [[c]]
        | l :: ls => (c :: l) :: ls := by
  rfl

/-- The lines of a text that is cut at a newline. -/
theorem string_lines_newline (a b : List Char) :
    string_lines (a ++ '\n' :: b) = string_lines a ++ string_lines b := by
  induction a with
  | nil =>
    rw [List.nil_append, string_lines_cons, if_pos rfl]
    rfl
  | cons c a ih =>
    rw [List.cons_append, string_lines_cons, string_lines_cons c a, ih]
    by_cases hc : c = '\n'
    · rw [if_pos hc, if_pos hc]
      rfl
    · rw [if_neg hc, if_neg hc]
      cases h : string_lines a with
      | nil => exact absurd h (string_lines_ne_nil a)
      | cons l ls => rfl

/-- A text without newline is one line. -/
theorem string_lines_single (u : List Char) (hu : ∀ c ∈ u, lineChar c = true) :
    string_lines u = [u] := by
  induction u with
  | nil => rfl
  | cons c u ih =>
    have hc : c ≠ '\n' := by
      have := hu c (List.mem_cons_self _ _)
      simp only [lineChar, Bool.and_eq_true, bne_iff_ne, ne_eq] at this
      exact this.1
    unfold string_lines
    rw [if_neg hc, ih (fun c hc => hu c (List.mem_cons_of_mem _ hc))]

/-- The loop body does nothing with a line that starts with none of the line
identifiers. -/
theorem line_body_unrecognized (u : List Char) (lc : Locals) (st : DTrackSDK)
    (h : unrecognized u = true) : line_body u lc st = .next (lc, st) := by
  simp only [unrecognized, keywords, List.all_cons, List.all_nil, Bool.and_true,
    Bool.and_eq_true, Bool.not_eq_true'] at h
  obtain ⟨h1, h2, h3, h4, h5, h6, h7, h8, h9, h10, h11, h12⟩ := h
  unfold line_body line_tail
  simp [h1, h2, h3, h4, h5, h6, h7, h8, h9, h10, h11, h12]

/-- A line on which the loop body does nothing can be taken out of the packet. -/
theorem line_loop_insert (l1 l2 : List (List Char)) (u : List Char)
    (hu : ∀ lc st, line_body u lc st = .next (lc, st)) (lc : Locals) (st : DTrackSDK) :
    line_loop (l1 ++ u :: l2) lc st = line_loop (l1 ++ l2) lc st := by
  rw [line_loop_append, line_loop_append]
  cases line_loop l1 lc st with
  | next r =>
    obtain ⟨lc1, st1⟩ := r
    simp only [line_loop, hu]
  | fail w s => rfl
  | undefined => rfl

/-- The C string the decoder sees of a packet. -/
theorem packet_seen (t : List Char) :
    (UdpResult.packet t).text = t.takeWhile (fun c => c != Char.ofNat 0) := by
  unfold UdpResult.text UdpResult.packet
  simp only [Int.toNat_ofNat, List.take_length]

/-- What `receive` does with a packet that is not empty. -/
theorem receive_packet (st : DTrackSDK) (t : List Char) (ht : t ≠ []) :
    st.receive (.packet t) =
      if st.isLocalDataPortValid = false then
        .ret false { st with lastDataError := .ERR_NET, lastServerError := .ERR_NONE }
      else decode (string_lines (t.takeWhile (fun c => c != Char.ofNat 0))) st.frame_start := by
  have hlen : 0 < (UdpResult.packet t).len := by
    cases t with
    | nil => exact absurd rfl ht
    | cons c cs =>
      simp only [UdpResult.packet, List.length_cons]
      omega
  unfold DTrackSDK.receive
  rw [packet_seen]
  dsimp only
  cases hp : st.isLocalDataPortValid with
  | false =>
    simp only [DTrackSDK.isLocalDataPortValid] at hp
    simp [DTrackSDK.isLocalDataPortValid, hp]
  | true =>
    simp only [DTrackSDK.isLocalDataPortValid] at hp
    have h1 : ¬ (UdpResult.packet t).len = -1 := by omega
    have h2 : ¬ (UdpResult.packet t).len ≤ 0 := by omega
    simp [DTrackSDK.isLocalDataPortValid, hp, h1, h2]

theorem takeWhile_append_of_all {α : Type} (p : α → Bool) (a b : List α)
    (h : ∀ c ∈ a, p c = true) : (a ++ b).takeWhile p = a ++ b.takeWhile p := by
  induction a with
  | nil => rfl
  | cons c a ih =>
    simp only [List.cons_append, List.takeWhile_cons, h c (List.mem_cons_self _ _), if_true]
    rw [ih (fun c hc => h c (List.mem_cons_of_mem _ hc))]

theorem takeWhile_append_of_stop {α : Type} (p : α → Bool) (a b : List α)
    (h : ∃ c ∈ a, p c = false) : (a ++ b).takeWhile p = a.takeWhile p := by
  induction a with
  | nil =>
    obtain ⟨c, hc, -⟩ := h
    cases hc
  | cons c a ih =>
    simp only [List.cons_append, List.takeWhile_cons]
    cases hc : p c with
    | false => rfl
    | true =>
      simp only [if_true]
      rw [ih]
      obtain ⟨d, hd, hpd⟩ := h
      rcases List.mem_cons.1 hd with rfl | hd
      · rw [hc] at hpd; cases hpd
      · exact ⟨d, hd, hpd⟩

/-- The lines the decoder sees of a packet with the line `u` put in at a line boundary
are those of the packet with `u` added at some place of the sequence. -/
theorem string_lines_insert (a b u : List Char) (ha : a = [] ∨ ∃ a1, a = a1 ++ ['\n'])
    (hu : ∀ c ∈ u, lineChar c = true)  :
    string_lines ((a ++ (u ++ '\n' :: b)).takeWhile (fun c => c != Char.ofNat 0)) =
        string_lines ((a ++ b).takeWhile (fun c => c != Char.ofNat 0)) ∨
    ∃ l1 l2, string_lines ((a ++ b).takeWhile (fun c => c != Char.ofNat 0)) = l1 ++ l2 ∧
      string_lines ((a ++ (u ++ '\n' :: b)).takeWhile (fun c => c != Char.ofNat 0)) =
        l1 ++ u :: l2 := by
  have hun : ∀ c ∈ u, (fun c => c != Char.ofNat 0) c = true := by
    intro c hc
    have := hu c hc
    simp only [lineChar, Bool.and_eq_true] at this
    exact this.2
  by_cases hz : ∃ c ∈ a, (fun c => c != Char.ofNat 0) c = false
  · left
    rw [takeWhile_append_of_stop _ a _ hz, takeWhile_append_of_stop _ a _ hz]
  · right
    have hall : ∀ c ∈ a, (fun c => c != Char.ofNat 0) c = true := by
      intro c hc
      cases h : (fun c => c != Char.ofNat 0) c with
      | true => rfl
      | false => exact absurd ⟨c, hc, h⟩ hz
    rw [takeWhile_append_of_all _ a _ hall, takeWhile_append_of_all _ a _ hall,
      takeWhile_append_of_all _ u _ hun]
    have hnl : (('\n' :: b).takeWhile (fun c => c != Char.ofNat 0)) =
        '\n' :: b.takeWhile (fun c => c != Char.ofNat 0) := by
      rw [List.takeWhile_cons, if_pos (by decide)]
    rw [hnl]
    rcases ha with rfl | ⟨a1, rfl⟩
    · refine ⟨[], string_lines (b.takeWhile (fun c => c != Char.ofNat 0)), rfl, ?_⟩
      simp only [List.nil_append]
      rw [string_lines_line u _ hu]
    · refine ⟨string_lines a1, string_lines (b.takeWhile (fun c => c != Char.ofNat 0)), ?_, ?_⟩
      · rw [List.append_assoc, List.singleton_append, string_lines_newline]
      · rw [List.append_assoc, List.singleton_append, string_lines_newline,
          string_lines_line u _ hu]

/-- The decoder on a sequence of lines with a line put in on which the loop body does
nothing. -/
theorem decode_insert (l1 l2 : List (List Char)) (u : List Char)
    (hk : unrecognized u = true) (st : DTrackSDK) :
    decode (l1 ++ u :: l2) st = decode (l1 ++ l2) st := by
  unfold decode
  rw [line_loop_insert l1 l2 u (fun lc st => line_body_unrecognized u lc st hk)]

/-- C26, as stated, fails for the empty packet: `receive` of a datagram of 0 bytes returns
false with the data error `ERR_NET`; with the line `xyz 1 2`, which starts with none of
the line identifiers, put in at its only line boundary, `receive` returns true. -/
theorem C26_counterexample_empty_packet :
    unrecognized line_xyz = true ∧
    fresh.receive (.packet []) = .ret false { fresh with lastDataError := .ERR_NET } ∧
    (fresh.receive (.packet ([] ++ (line_xyz ++ '\n' :: [])))).returned = some true ∧
    (fresh.receive (.packet ([] ++ (line_xyz ++ '\n' :: [])))).state.map
      (·.getLastDataError) = some .ERR_NONE := by
  decide

/-- C26, amended: for every session, every packet `p` that is not empty and every line
`u` (without newline and NUL) that starts with none of the line identifiers, `receive`
on `p` with `u` put in at a line boundary, that is at the start of `p` or behind one of
its newlines, or added behind `p` as a further line, does what `receive` on `p` does: the
same return value and the same session state, snapshot and errors, or in both cases no
defined behaviour. -/
theorem C26_unrecognized_line_skipped (st : DTrackSDK) (p u : List Char) (hp : p ≠ [])
    (hu : ∀ c ∈ u, lineChar c = true) (hk : unrecognized u = true) :
    (∀ a b, p = a ++ b → (a = [] ∨ ∃ a1, a = a1 ++ ['\n']) →
      st.receive (.packet (a ++ (u ++ '\n' :: b))) = st.receive (.packet p)) ∧
    st.receive (.packet (p ++ '\n' :: u)) = st.receive (.packet p) := by
  constructor
  · intro a b hab ha
    subst hab
    have hne : a ++ (u ++ '\n' :: b) ≠ [] := by simp
    rw [receive_packet st _ hne, receive_packet st _ hp]
    rcases string_lines_insert a b u ha hu with h | ⟨l1, l2, h1, h2⟩
    · rw [h]
    · rw [h1, h2, decode_insert l1 l2 u hk]
  · have hne : p ++ '\n' :: u ≠ [] := by simp
    rw [receive_packet st _ hne, receive_packet st _ hp]
    have hun : ∀ c ∈ u, (fun c => c != Char.ofNat 0) c = true := by
      intro c hc
      have := hu c hc
      simp only [lineChar, Bool.and_eq_true] at this
      exact this.2
    by_cases hz : ∃ c ∈ p, (fun c => c != Char.ofNat 0) c = false
    · rw [takeWhile_append_of_stop _ p _ hz]
    · have hall : ∀ c ∈ p, (fun c => c != Char.ofNat 0) c = true := by
        intro c hc
        cases h : (fun c => c != Char.ofNat 0) c with
        | true => rfl
        | false => exact absurd ⟨c, hc, h⟩ hz
      have hnl : (('\n' :: u).takeWhile (fun c => c != Char.ofNat 0)) = '\n' :: u := by
        rw [List.takeWhile_cons, if_pos (by decide), List.takeWhile_eq_self_iff.2 hun]
      rw [takeWhile_append_of_all _ p _ hall, hnl, string_lines_newline,
        string_lines_single u hu, List.takeWhile_eq_self_iff.2 hall]
      have := decode_insert (string_lines p) [] u hk st.frame_start
      rw [List.append_nil] at this
      rw [this]

/-- C26 (amended) at a concrete input: the line `xyz 1 2` put in behind the line `fr 10`
of the packet `"fr 10\n"`. -/
theorem C26_unrecognized_line_skipped_witness :
    (∀ a b, pkt_fr10 = a ++ b → (a = [] ∨ ∃ a1, a = a1 ++ ['\n']) →
      fresh.receive (.packet (a ++ (line_xyz ++ '\n' :: b))) = fresh.receive (.packet pkt_fr10)) ∧
    fresh.receive (.packet (pkt_fr10 ++ '\n' :: line_xyz)) = fresh.receive (.packet pkt_fr10) :=
  C26_unrecognized_line_skipped fresh pkt_fr10 line_xyz (by decide) (by decide) (by decide)
/-! ## The body count after a calibrated-body-count line (C28) -/

theorem indexed_wrote {α : Type} {idof : α → Int} {i : Int} {g : α → α} {t t1 : Table α}
    (h : t.Indexed idof) (w : Table.Wrote i g t t1)
    (hg : ∀ a, idof (g a) = idof a ∨ idof (g a) = i) : t1.Indexed idof := by
  obtain ⟨wn, -, h0, ⟨a, ha, ha1⟩, hoth⟩ := w
  intro j hj
  rw [wn] at hj
  obtain ⟨x, hx, hid⟩ := h j hj
  by_cases hji : (j : Int) = i
  · have e : i.toNat = j := by omega
    rw [e] at ha ha1
    rw [hx] at ha
    cases ha
    refine ⟨g a, ha1, ?_⟩
    rcases hg a with h1 | h1
    · rw [h1, hid]
    · rw [h1, hji]
  · exact ⟨x, (hoth j hji).trans hx, hid⟩

theorem indexed_update {α β : Type} {idof : α → Int} {M : β → Prop} (t : Table α) (i : Int)
    (g : α → α) (f : Table α → Flow (Table α) β) (h : t.Indexed idof)
    (hg : ∀ a, idof (g a) = idof a ∨ idof (g a) = i)
    (hf : ∀ t1 : Table α, t1.Indexed idof → Flow.Post (Table.Indexed idof) M (f t1)) :
    Flow.Post (Table.Indexed idof) M (t.update i g >>= f) :=
  post_update t i g f (fun t1 w => hf t1 (indexed_wrote h w hg))

/-- The slots a fill loop went over hold their index, the slots before it are kept. -/
theorem indexed_filled {α : Type} {idof : α → Int} (d : Int → α → α)
    (hd : ∀ j a, idof (d j a) = j) {t : Table α} (h : t.Indexed idof) {v v2 : List α}
    {k : Nat} (hkeep : ∀ j : Nat, (j : Int) < t.num → v[j]? = t.vec[j]?)
    (hfl : fill_loop d k t.num v = some v2) :
    Table.Indexed idof { num := t.num + k, vec := v2 } := by
  obtain ⟨-, fin, fout⟩ := fill_loop_some d _ _ _ _ hfl
  intro j hj
  simp only at hj
  by_cases hjn : (j : Int) < t.num
  · obtain ⟨x, hx, hid⟩ := h j hjn
    refine ⟨x, ?_, hid⟩
    show v2[j]? = some x
    rw [fout j (Or.inl hjn), hkeep j hjn, hx]
  · obtain ⟨a, -, ha⟩ := fin j (by omega) hj
    exact ⟨d j a, ha, hd j a⟩

theorem indexed_grow {α β : Type} {idof : α → Int} {M : β → Prop} (z : α) (d : Int → α → α)
    (id : Int) (t : Table α) (f : Table α → Flow (Table α) β) (h : t.Indexed idof)
    (hd : ∀ j a, idof (d j a) = j)
    (hf : ∀ t1 : Table α, t1.Indexed idof → Flow.Post (Table.Indexed idof) M (f t1)) :
    Flow.Post (Table.Indexed idof) M (t.grow z d id >>= f) := by
  unfold Table.grow
  by_cases hge : id ≥ t.num
  · rw [if_pos hge]
    cases hr : vec_resize z t.vec (id + 1) with
    | none => trivial
    | some v =>
      cases hfl : fill_loop d (id + 1 - t.num).toNat t.num v with
      | none =>
        have e : (Flow.mem (some v) >>= fun v =>
          Flow.mem (fill_loop d (id + 1 - t.num).toNat t.num v) >>= fun v =>
          (pure { t with vec := v, num := id + 1 } : Flow (Table α) (Table α))) =
          .undefined := by
          show (Flow.mem (fill_loop d (id + 1 - t.num).toNat t.num v) >>= fun v =>
            (pure { t with vec := v, num := id + 1 } : Flow (Table α) (Table α))) = _
          rw [hfl]
          rfl
        rw [e]
        trivial
      | some v2 =>
        have e : (Flow.mem (some v) >>= fun v =>
          Flow.mem (fill_loop d (id + 1 - t.num).toNat t.num v) >>= fun v =>
          (pure { t with vec := v, num := id + 1 } : Flow (Table α) (Table α))) =
          .next { t with vec := v2, num := id + 1 } := by
          show (Flow.mem (fill_loop d (id + 1 - t.num).toNat t.num v) >>= fun v =>
            (pure { t with vec := v, num := id + 1 } : Flow (Table α) (Table α))) = _
          rw [hfl]
          rfl
        rw [e]
        obtain ⟨hn, hlen, hkeep⟩ := vec_resize_some hr
        have hk : ∀ j : Nat, (j : Int) < t.num → v[j]? = t.vec[j]? := by
          intro j hj
          obtain ⟨x, hx, -⟩ := h j hj
          have hjl : j < t.vec.length := by
            by_contra hc
            rw [List.getElem?_eq_none (by omega)] at hx
            cases hx
          exact hkeep j (by omega) hjl
        have := indexed_filled d hd h hk hfl
        have e2 : t.num + (((id + 1 - t.num).toNat : Nat) : Int) = id + 1 := by omega
        rw [e2] at this
        exact hf _ this
  · rw [if_neg hge]
    exact hf t h

theorem indexed_disable_all {α β : Type} {idof : α → Int} {M : β → Prop} (d : Int → α → α)
    (t : Table α) (f : Table α → Flow (Table α) β)
    (hd : ∀ j a, idof (d j a) = j)
    (hf : ∀ t1 : Table α, t1.Indexed idof → Flow.Post (Table.Indexed idof) M (f t1)) :
    Flow.Post (Table.Indexed idof) M (t.disable_all d >>= f) := by
  unfold Table.disable_all
  cases hfl : fill_loop d t.num.toNat 0 t.vec with
  | none => trivial
  | some v =>
    have e : (Flow.mem (some v) >>= fun v =>
        (pure { t with vec := v } : Flow (Table α) (Table α))) = .next { t with vec := v } :=
      rfl
    rw [e]
    obtain ⟨-, fin, -⟩ := fill_loop_some d _ _ _ _ hfl
    refine hf _ ?_
    intro j hj
    simp only at hj
    obtain ⟨a, -, ha⟩ := fin j (by omega) (by omega)
    exact ⟨d j a, ha, hd j a⟩

theorem indexed_reconcile {α : Type} {idof : α → Int} (z : α) (d : Int → α → α) (n : Int)
    (t : Table α) (h : t.Indexed idof) (hd : ∀ j a, idof (d j a) = j) :
    Flow.Post (Table.Indexed idof) (Table.Indexed idof) (t.reconcile z d n) := by
  unfold Table.reconcile
  by_cases hn : n > t.num
  · rw [if_pos hn]
    cases hr : vec_resize z t.vec n with
    | none => trivial
    | some v =>
      cases hfl : fill_loop d (n - t.num).toNat t.num v with
      | none =>
        have e : ((Flow.mem (some v) >>= fun v =>
          Flow.mem (fill_loop d (n - t.num).toNat t.num v) >>= fun v =>
          (pure { t with vec := v } : Flow (Table α) (Table α))) >>= fun t =>
          (pure { t with num := n } : Flow (Table α) (Table α))) = .undefined := by
          show ((Flow.mem (fill_loop d (n - t.num).toNat t.num v) >>= fun v =>
            (pure { t with vec := v } : Flow (Table α) (Table α))) >>= fun t =>
            (pure { t with num := n } : Flow (Table α) (Table α))) = _
          rw [hfl]
          rfl
        rw [e]
        trivial
      | some v2 =>
        have e : ((Flow.mem (some v) >>= fun v =>
          Flow.mem (fill_loop d (n - t.num).toNat t.num v) >>= fun v =>
          (pure { t with vec := v } : Flow (Table α) (Table α))) >>= fun t =>
          (pure { t with num := n } : Flow (Table α) (Table α))) =
            .next { t with vec := v2, num := n } := by
          show ((Flow.mem (fill_loop d (n - t.num).toNat t.num v) >>= fun v =>
            (pure { t with vec := v } : Flow (Table α) (Table α))) >>= fun t =>
            (pure { t with num := n } : Flow (Table α) (Table α))) = _
          rw [hfl]
          rfl
        rw [e]
        obtain ⟨h0, hlen, hkeep⟩ := vec_resize_some hr
        have hk : ∀ j : Nat, (j : Int) < t.num → v[j]? = t.vec[j]? := by
          intro j hj
          obtain ⟨x, hx, -⟩ := h j hj
          have hjl : j < t.vec.length := by
            by_contra hc
            rw [List.getElem?_eq_none (by omega)] at hx
            cases hx
          exact hkeep j (by omega) hjl
        have := indexed_filled d hd h hk hfl
        have e2 : t.num + (((n - t.num).toNat : Nat) : Int) = n := by omega
        rw [e2] at this
        exact this
  · rw [if_neg hn]
    intro j hj
    exact h j (by
      have : (j : Int) < n := hj
      omega)

theorem record_6d_indexed (i : Int) (s : List Char) (t : Table DTrack_Body_Type_d)
    (h : t.Indexed (·.id)) :
    Flow.Post (Table.Indexed (·.id)) (fun a => Table.Indexed (·.id) a.2)
      (record_6d i s t) := by
  unfold record_6d
  refine post_parse _ _ _ h (fun v _ => ?_)
  obtain ⟨is, ds, s1⟩ := v
  dsimp only
  refine indexed_grow _ _ _ _ _ h (fun _ _ => rfl) (fun t1 h1 => ?_)
  refine indexed_update _ _ _ _ h1 (fun _ => Or.inr rfl) (fun t2 h2 => ?_)
  refine post_parse _ _ _ h2 (fun v _ => ?_)
  obtain ⟨is2, ds2, s2⟩ := v
  dsimp only
  refine indexed_update _ _ _ _ h2 (fun _ => Or.inl rfl) (fun t3 h3 => ?_)
  refine post_parse _ _ _ h3 (fun v _ => ?_)
  obtain ⟨is3, ds3, s3⟩ := v
  dsimp only
  refine indexed_update _ _ _ _ h3 (fun _ => Or.inl rfl) (fun t4 h4 => ?_)
  exact post_pure _ h4

theorem line_6d_indexed (s : List Char) (t : Table DTrack_Body_Type_d) :
    Flow.Post (Table.Indexed (·.id)) (Table.Indexed (·.id)) (line_6d s t) := by
  unfold line_6d
  refine indexed_disable_all _ _ _ (fun _ _ => rfl) (fun t1 h1 => ?_)
  refine post_parse _ _ _ h1 (fun v _ => ?_)
  obtain ⟨n, s1⟩ := v
  dsimp only
  refine post_bind (for_loop_keeps _ _ _ (fun i s t ht => record_6d_indexed i s t ht)
    _ _ _ _ h1) (fun a ha => ?_)
  obtain ⟨s2, t2⟩ := a
  exact post_pure _ ha

theorem finger_gl_indexed (id j : Int) (s : List Char) (t : Table DTrack_Hand_Type_d)
    (h : t.Indexed (·.id)) :
    Flow.Post (Table.Indexed (·.id)) (fun a => Table.Indexed (·.id) a.2)
      (finger_gl id j s t) := by
  unfold finger_gl
  refine post_parse _ _ _ h (fun v _ => ?_)
  obtain ⟨is, ds, s1⟩ := v
  dsimp only
  refine indexed_update _ _ _ _ h (fun _ => Or.inl rfl) (fun t2 h2 => ?_)
  refine post_parse _ _ _ h2 (fun v _ => ?_)
  obtain ⟨is2, ds2, s2⟩ := v
  dsimp only
  refine indexed_update _ _ _ _ h2 (fun _ => Or.inl rfl) (fun t3 h3 => ?_)
  refine post_parse _ _ _ h3 (fun v _ => ?_)
  obtain ⟨is3, ds3, s3⟩ := v
  dsimp only
  refine indexed_update _ _ _ _ h3 (fun _ => Or.inl rfl) (fun t4 h4 => ?_)
  exact post_pure _ h4

theorem record_gl_indexed (i : Int) (s : List Char) (t : Table DTrack_Hand_Type_d)
    (h : t.Indexed (·.id)) :
    Flow.Post (Table.Indexed (·.id)) (fun a => Table.Indexed (·.id) a.2)
      (record_gl i s t) := by
  unfold record_gl
  refine post_parse _ _ _ h (fun v _ => ?_)
  obtain ⟨is, ds, s1⟩ := v
  dsimp only
  refine indexed_grow _ _ _ _ _ h (fun _ _ => rfl) (fun t1 h1 => ?_)
  refine indexed_update _ _ _ _ h1 (fun _ => Or.inr rfl) (fun t2 h2 => ?_)
  split
  · exact post_fail _ _ h2
  refine indexed_update _ _ _ _ h2 (fun _ => Or.inl rfl) (fun t3 h3 => ?_)
  refine post_parse _ _ _ h3 (fun v _ => ?_)
  obtain ⟨is2, ds2, s2⟩ := v
  dsimp only
  refine indexed_update _ _ _ _ h3 (fun _ => Or.inl rfl) (fun t4 h4 => ?_)
  refine post_parse _ _ _ h4 (fun v _ => ?_)
  obtain ⟨is3, ds3, s3⟩ := v
  dsimp only
  refine indexed_update _ _ _ _ h4 (fun _ => Or.inl rfl) (fun t5 h5 => ?_)
  exact for_loop_keeps _ _ _ (fun j s t ht => finger_gl_indexed _ j s t ht) _ _ _ _ h5

theorem line_gl_indexed (s : List Char) (t : Table DTrack_Hand_Type_d) :
    Flow.Post (Table.Indexed (·.id)) (Table.Indexed (·.id)) (line_gl s t) := by
  unfold line_gl
  refine indexed_disable_all _ _ _ (fun _ _ => rfl) (fun t1 h1 => ?_)
  refine post_parse _ _ _ h1 (fun v _ => ?_)
  obtain ⟨n, s1⟩ := v
  dsimp only
  refine post_bind (for_loop_keeps _ _ _ (fun i s t ht => record_gl_indexed i s t ht)
    _ _ _ _ h1) (fun a ha => ?_)
  obtain ⟨s2, t2⟩ := a
  exact post_pure _ ha

theorem line_tail_indexed (s : List Char) (lc : Locals) (st : DTrackSDK) (h : st.Indexed) :
    Flow.Post DTrackSDK.Indexed (fun a => a.2.Indexed) (line_tail s lc st) := by
  obtain ⟨h1, h2⟩ := h
  unfold line_tail
  split
  · exact post_within (line_gl_indexed _ _) (fun t ht => ⟨h1, ht⟩) (fun t ht => ⟨h1, ht⟩)
  split
  · exact post_within (post_any _) (fun _ _ => ⟨h1, h2⟩) (fun _ _ => ⟨h1, h2⟩)
  split
  · exact post_within (post_any _) (fun _ _ => ⟨h1, h2⟩) (fun _ _ => ⟨h1, h2⟩)
  exact ⟨h1, h2⟩

theorem line_body_indexed (s : List Char) (lc : Locals) (st : DTrackSDK) (h : st.Indexed) :
    Flow.Post DTrackSDK.Indexed (fun a => a.2.Indexed) (line_body s lc st) := by
  have h0 := h
  obtain ⟨h1, h2⟩ := h
  unfold line_body
  split
  · exact post_within (post_any _) (fun _ _ => h0) (fun _ _ => h0)
  split
  · exact post_within (post_any _) (fun _ _ => h0) (fun _ _ => h0)
  split
  · exact post_within (post_any _) (fun _ _ => h0) (fun _ _ => h0)
  split
  · exact post_within (line_6d_indexed _ _) (fun t ht => ⟨ht, h2⟩) (fun t ht => ⟨ht, h2⟩)
  split
  · exact post_within (post_any _) (fun _ _ => h0) (fun _ _ => h0)
  split
  · exact post_within (post_any _) (fun _ _ => h0) (fun _ _ => h0)
  split
  · exact post_within (post_any _) (fun _ _ => h0) (fun _ _ => h0)
  split
  · exact post_within (post_any _) (fun _ _ => h0) (fun _ _ => h0)
  split
  · unfold line_glcal_tail
    cases line_glcal (s.drop 6) with
    | next a =>
      obtain ⟨v, s1⟩ := a
      exact line_tail_indexed _ _ _ h0
    | fail w u => exact h0
    | undefined => trivial
  exact line_tail_indexed _ _ _ h0

theorem line_loop_indexed (ls : List (List Char)) (lc : Locals) (st : DTrackSDK)
    (h : st.Indexed) :
    Flow.Post DTrackSDK.Indexed (fun a => a.2.Indexed) (line_loop ls lc st) := by
  induction ls generalizing lc st with
  | nil => exact h
  | cons l ls ih =>
    unfold line_loop
    have hb := line_body_indexed l lc st h
    cases hl : line_body l lc st with
    | next a =>
      obtain ⟨lc1, st1⟩ := a
      rw [hl] at hb
      exact ih lc1 st1 hb
    | fail w s =>
      rw [hl] at hb
      exact hb
    | undefined => trivial

theorem indexed_of_tables {st st1 : DTrackSDK} (hs : st1.tables = st.tables)
    (h : st.Indexed) : st1.Indexed := by
  have e1 : st1.act_body = st.act_body := congrArg Tables.body hs
  have e5 : st1.act_hand = st.act_hand := congrArg Tables.hand hs
  unfold DTrackSDK.Indexed
  rw [e1, e5]
  exact h

/-- A call of `receive` that returns keeps the id of every body and hand slot below the
count at its index. -/
theorem receive_indexed {st st1 : DTrackSDK} {udp : UdpResult} {b : Bool} (h : st.Indexed)
    (hr : st.receive udp = .ret b st1) : st1.Indexed := by
  rcases receive_ret_cases st udp b st1 hr with ⟨-, hs⟩ | hd
  · exact indexed_of_tables hs h
  · have h0 : st.frame_start.Indexed := h
    have hl := line_loop_indexed (string_lines udp.text) Locals.defaults st.frame_start h0
    unfold decode at hd
    cases hll : line_loop (string_lines udp.text) Locals.defaults st.frame_start with
    | next a =>
      obtain ⟨lc, st2⟩ := a
      rw [hll] at hl hd
      obtain ⟨-, tb, th, hb, hh, rfl⟩ := frame_end_ret hd
      obtain ⟨h1, h2⟩ := hl
      have ib : Flow.Post (Table.Indexed (·.id)) (Table.Indexed (·.id))
          (reconcile_body lc st2.act_body) := by
        unfold reconcile_body
        split
        · exact indexed_reconcile _ _ _ _ h1 (fun _ _ => rfl)
        · exact h1
      rw [hb] at ib
      have ih : Flow.Post (Table.Indexed (·.id)) (Table.Indexed (·.id))
          (reconcile_hand lc st2.act_hand) := by
        unfold reconcile_hand
        split
        · exact indexed_reconcile _ _ _ _ h2 (fun _ _ => rfl)
        · exact h2
      rw [hh] at ih
      exact ⟨ib, ih⟩
    | fail w s =>
      rw [hll] at hl hd
      simp only [Outcome.ret.injEq] at hd
      rw [← hd.2]
      exact hl
    | undefined =>
      rw [hll] at hd
      cases hd

/-- Every session with a valid data port reached from `init` has the id of every body and
hand slot below the count at its index. -/
theorem reachable_indexed {st : DTrackSDK} (h : st.Reachable)
    (hport : st.isLocalDataPortValid = true) : st.Indexed := by
  induction h with
  | init rs udp tcp u =>
    cases udp with
    | false => exact absurd hport (by simp [DTrackSDK.isLocalDataPortValid, DTrackSDK.init])
    | true =>
      constructor
      · intro j hj
        exact absurd hj (by simp [DTrackSDK.init, Table.empty])
      · intro j hj
        exact absurd hj (by simp [DTrackSDK.init, Table.empty])
  | receive udp b _ hr ih =>
    refine receive_indexed (ih ?_) hr
    have := (receive_session hr).2.1
    simp only [DTrackSDK.isLocalDataPortValid] at hport ⊢
    rw [← this]
    exact hport
  | command cmd answer answer1 w code _ hc ih =>
    refine indexed_of_tables (sendDTrack2Command_tables hc) (ih ?_)
    have := sendDTrack2Command_data_port hc
    simp only [DTrackSDK.isLocalDataPortValid] at hport ⊢
    rw [← this]
    exact hport

/-- In every session with a valid data port reached from a fresh one by calls of `receive`
that return, with result true or false (and by calls of `sendDTrack2Command`), every `i`
with `0 <= i < getNumBody()` has `getBody(i)->id = i`, and every `i` with
`0 <= i < getNumHand()` has `getHand(i)->id = i`; both accessors give an entry there.  A
call returns on every packet whose ids and counts keep the slots written inside the
tables, among them the packets with ids that are not negative and counts that stay at or
above zero. -/
theorem id_equals_index (st : DTrackSDK) (h : st.Reachable)
    (hport : st.isLocalDataPortValid = true) :
    (∀ i : Int, 0 ≤ i → i < st.getNumBody → ∃ b, st.getBody i = some b ∧ b.id = i) ∧
    (∀ i : Int, 0 ≤ i → i < st.getNumHand → ∃ x, st.getHand i = some x ∧ x.id = i) := by
  obtain ⟨hb, hh⟩ := reachable_indexed h hport
  constructor
  · intro i h0 hi
    have hi2 : ((i.toNat : Nat) : Int) < st.act_body.num := by
      simp only [DTrackSDK.getNumBody] at hi
      omega
    obtain ⟨x, hx, hid⟩ := hb i.toNat hi2
    refine ⟨x, ?_, ?_⟩
    · simp only [DTrackSDK.getBody, Table.at]
      rw [if_pos ⟨h0, hi⟩, hx]
    · have hid2 : x.id = ((i.toNat : Nat) : Int) := hid
      omega
  · intro i h0 hi
    have hi2 : ((i.toNat : Nat) : Int) < st.act_hand.num := by
      simp only [DTrackSDK.getNumHand] at hi
      omega
    obtain ⟨x, hx, hid⟩ := hh i.toNat hi2
    refine ⟨x, ?_, ?_⟩
    · simp only [DTrackSDK.getHand, Table.at]
      rw [if_pos ⟨h0, hi⟩, hx]
    · have hid2 : x.id = ((i.toNat : Nat) : Int) := hid
      omega

/-- C29: the code departs from the claim on a fresh session whose `init` could not open the
data socket.  `init` returns at line 146 before it assigns the counts, so `getNumBody()`
and `getNumHand()` are whatever the memory held, here 1 and 2, while the vectors are empty:
for `i = 0` neither `getBody(0)` nor `getHand(0)` is a record with the id 0 (`.at(0)`
throws).  It stays so after every call of `receive`, which returns false at the test of the
data port: shown for a packet with one body record of id 0. -/
theorem C29_no_record_after_failed_init :
    failed.getNumBody = 1 ∧ failed.getBody 0 = none ∧ failed.act_body.vec[0]? = none ∧
    failed.getNumHand = 2 ∧ failed.getHand 0 = none ∧ failed.act_hand.vec[0]? = none ∧
    (failed.receive (.packet pkt_6d_one)).returned = some false ∧
    ((failed.receive (.packet pkt_6d_one)).state_or fresh).getNumBody = 1 ∧
    ((failed.receive (.packet pkt_6d_one)).state_or fresh).getBody 0 = none ∧
    ((failed.receive (.packet pkt_6d_one)).state_or fresh).getNumHand = 2 ∧
    ((failed.receive (.packet pkt_6d_one)).state_or fresh).getHand 0 = none := by
  decide
/-! ## Table slots selected by values from the wire (C30) -/

set_option maxRecDepth 100000 in
/-- C30, where the code departs from it: a slot index taken from the wire is compared with
the count from above at most.  On a session with one body (and so on a fresh one) the `6d `
record of id -1 is not rejected: `-1 >= act_num_body` is false and the decoder goes on to
write `act_body[-1]`; likewise the `gl ` record of id -1 (`act_hand[-1]`) and the `6dj `
model of id -1, which passes the check `iarr[0] > act_num_human - 1` (`act_human[-1]`),
whereas the model id 1 with one calibrated model is rejected with `ERR_PARSE`.  A `6df2 `
line for one calibrated Flystick with two records resizes the table to one slot and then
writes `act_flystick[1]`; with one record it is decoded with result true.  None of the
four packets is rejected: the decoder reaches the write outside the table. -/
theorem C30_wire_index_unchecked :
    st_6d_one.getNumBody = 1 ∧
    st_6d_one.receive (.packet pkt_6d_neg) = .undefined ∧
    fresh.receive (.packet pkt_6d_neg) = .undefined ∧
    fresh.receive (.packet pkt_gl_neg) = .undefined ∧
    fresh.receive (.packet pkt_6dj_neg) = .undefined ∧
    (fresh.receive (.packet pkt_6dj_high)).returned = some false ∧
    (fresh.receive (.packet pkt_6dj_high)).state.map (·.getLastDataError) = some .ERR_PARSE ∧
    fresh.receive (.packet pkt_6df2_two_of_one) = .undefined ∧
    (fresh.receive (.packet pkt_6df2_one_of_one)).returned = some true := by
  decide
/-! ## Lines with a missing or non-numeric token (C2) -/

/-- Where the number is required, `string_get_i` reads none: neither at the blank before the
place nor at the place itself. -/
theorem CutTail.no_int (c : CutTail) :
    string_get_i (render c.texts) = none ∧ string_get_i ((render c.texts).drop 1) = none := by
  cases c with
  | missing => exact ⟨rfl, rfl⟩
  | other t rest =>
    have hc : ∀ x ∈ t.text, tokChar x = true := List.all_eq_true.1 t.chars
    have hn := nextToken_tok t.text rest t.nonempty hc
    have e : (render (t.text :: rest)).drop 1 = t.text ++ render rest := rfl
    simp only [CutTail.texts, e]
    unfold string_get_i
    rw [hn.1, hn.2, t.no_i]
    exact ⟨rfl, rfl⟩

theorem CutTail.no_dbl (c : CutTail) :
    string_get_d (render c.texts) = none ∧ string_get_d ((render c.texts).drop 1) = none := by
  cases c with
  | missing => exact ⟨by decide, by decide⟩
  | other t rest =>
    have hc : ∀ x ∈ t.text, tokChar x = true := List.all_eq_true.1 t.chars
    have hn := nextToken_tok t.text rest t.nonempty hc
    have e : (render (t.text :: rest)).drop 1 = t.text ++ render rest := rfl
    simp only [CutTail.texts, e]
    unfold string_get_d
    rw [hn.1, hn.2, t.no_d]
    exact ⟨rfl, rfl⟩

theorem CutTail.no_uint (c : CutTail) :
    string_get_ui (render c.texts) = none ∧ string_get_ui ((render c.texts).drop 1) = none := by
  cases c with
  | missing => exact ⟨rfl, rfl⟩
  | other t rest =>
    have hc : ∀ x ∈ t.text, tokChar x = true := List.all_eq_true.1 t.chars
    have hn := nextToken_tok t.text rest t.nonempty hc
    have e : (render (t.text :: rest)).drop 1 = t.text ++ render rest := rfl
    simp only [CutTail.texts, e]
    unfold string_get_ui
    rw [hn.1, hn.2, t.no_ui]
    exact ⟨rfl, rfl⟩

/-- A block of which only the first `o` tokens stand in the text is not read. -/
theorem string_get_block_cut (toks : List Tok) (o : Nat) (ho : o < toks.length)
    (c : CutTail) :
    string_get_block (render ((toks.take o).map Tok.text ++ c.texts)) (toks.map Tok.fmt) =
      none := by
  induction toks generalizing o with
  | nil => cases ho
  | cons a toks ih =>
    cases o with
    | zero =>
      cases a with
      | i t =>
        simp only [List.take_zero, List.map_nil, List.nil_append, List.map_cons, Tok.fmt,
          string_get_block, if_true, c.no_int.1]
      | d t =>
        have : ¬ ('d' = 'i') := by decide
        simp only [List.take_zero, List.map_nil, List.nil_append, List.map_cons, Tok.fmt,
          string_get_block, this, if_false, if_true, c.no_dbl.1]
    | succ o =>
      have ho2 : o < toks.length := by simpa using ho
      cases a with
      | i t =>
        simp only [List.take_succ_cons, List.map_cons, List.cons_append, Tok.text, Tok.fmt,
          string_get_block, if_true, (string_get_i_tok t _).2, ih o ho2]
      | d t =>
        have : ¬ ('d' = 'i') := by decide
        simp only [List.take_succ_cons, List.map_cons, List.cons_append, Tok.text, Tok.fmt,
          string_get_block, this, if_false, if_true, (string_get_d_tok t _).2, ih o ho2]

/-- Reading the block `B` of a token sequence `B ++ R` of which the first `o` tokens stand in
the text: the read fails when the cut is inside `B`, and else goes on behind `B`. -/
theorem fails_block_cut {σ β : Type} (B R : List Tok) (o : Nat) (c : CutTail)
    (fmt : List Char) (hfmt : B.map Tok.fmt = fmt) (t : σ)
    (f : List Int × List Dbl × List Char → Flow σ β)
    (hf : B.length ≤ o → Flow.Fails (f (Tok.ints B, Tok.dbls B,
      render ((R.take (o - B.length)).map Tok.text ++ c.texts)))) :
    Flow.Fails (Flow.parse (string_get_block
      (render (((B ++ R).take o).map Tok.text ++ c.texts)) fmt) t >>= f) := by
  by_cases h : o < B.length
  · rw [List.take_append_of_le_length (by omega), ← hfmt, string_get_block_cut B o h c]
    exact ⟨_, _, rfl⟩
  · have e : (B ++ R).take o = B ++ R.take (o - B.length) := by
      rw [List.take_append_eq_append_take, List.take_of_length_le (by omega)]
    rw [e, List.map_append, List.append_assoc]
    exact fails_block B _ fmt hfmt t f (hf (by omega))

/-- The first `o` tokens of a sequence of records: some records in full and then a record of
which a token is absent. -/
theorem Tok.all_take {ρ : Type} (toks : ρ → List Tok) (recs : List ρ) (o : Nat)
    (ho : o < (Tok.all toks recs).length) :
    ∃ good r rest o1, recs = good ++ r :: rest ∧ o1 < (toks r).length ∧
      (Tok.all toks recs).take o = Tok.all toks good ++ (toks r).take o1 := by
  induction recs generalizing o with
  | nil => cases ho
  | cons r recs ih =>
    by_cases h : o < (toks r).length
    · refine ⟨[], r, recs, o, rfl, h, ?_⟩
      simp only [Tok.all, List.nil_append]
      rw [List.take_append_of_le_length (by omega)]
    · have ho2 : o - (toks r).length < (Tok.all toks recs).length := by
        simp only [Tok.all, List.length_append] at ho
        omega
      obtain ⟨good, r1, rest, o1, e, h1, h2⟩ := ih _ ho2
      refine ⟨r :: good, r1, rest, o1, by rw [e]; rfl, h1, ?_⟩
      simp only [Tok.all]
      rw [List.take_append_eq_append_take, List.take_of_length_le (by omega), h2,
        List.append_assoc]

theorem all_from_append {ρ : Type} (P : Nat → ρ → Bool) (i : Nat) (xs ys : List ρ)
    (h : all_from P i (xs ++ ys) = true) :
    all_from P i xs = true ∧ all_from P (i + xs.length) ys = true := by
  induction xs generalizing i with
  | nil => exact ⟨rfl, by simpa using h⟩
  | cons x xs ih =>
    simp only [List.cons_append, all_from, Bool.and_eq_true] at h ⊢
    obtain ⟨h1, h2⟩ := ih (i + 1) h.2
    refine ⟨⟨h.1, h1⟩, ?_⟩
    rw [List.length_cons, show i + (xs.length + 1) = i + 1 + xs.length by omega]
    exact h2

/-- A loop over announced records of which only the first `o` tokens stand in the text
stops: the records in full are taken, the round of the record with the absent token ends
with a `return false`. -/
theorem for_loop_cut {σ ρ : Type} (body : Int → List Char → σ → Flow σ (List Char × σ))
    (toks : ρ → List Tok) (P : Nat → ρ → Bool) (I : σ → Prop)
    (hstep : ∀ (k : Nat) (r : ρ) (ts : List (List Char)) (t : σ), P k r = true → I t →
      Flow.Succeeds (fun a => a.1 = render ts ∧ I a.2)
        (body k (render ((toks r).map Tok.text ++ ts)) t))
    (hcut : ∀ (k : Nat) (r : ρ) (o : Nat) (c : CutTail) (t : σ), P k r = true → I t →
      o < (toks r).length →
      Flow.Fails (body k (render (((toks r).take o).map Tok.text ++ c.texts)) t))
    (recs : List ρ) (hP : all_from P 0 recs = true) (o : Nat)
    (ho : o < (Tok.all toks recs).length) (c : CutTail) (t : σ) (hI : I t) :
    Flow.Fails (for_loop body recs.length 0
      (render (((Tok.all toks recs).take o).map Tok.text ++ c.texts)) t) := by
  obtain ⟨good, r, rest, o1, e, h1, h2⟩ := Tok.all_take toks recs o ho
  subst e
  obtain ⟨hg, hr⟩ := all_from_append P 0 good (r :: rest) hP
  simp only [all_from, Bool.and_eq_true, zero_add] at hr
  rw [h2, List.map_append, List.append_assoc, List.length_append, List.length_cons]
  exact for_loop_stops body toks P I hstep good hg _
    (fun x hx => hcut good.length r o1 c x hr.1 hx h1) rest.length t hI
theorem fails_block_last {σ β : Type} (B : List Tok) (o : Nat) (ho : o < B.length)
    (c : CutTail) (fmt : List Char) (hfmt : B.map Tok.fmt = fmt) (t : σ)
    (f : List Int × List Dbl × List Char → Flow σ β) :
    Flow.Fails (Flow.parse (string_get_block
      (render ((B.take o).map Tok.text ++ c.texts)) fmt) t >>= f) := by
  rw [← hfmt, string_get_block_cut B o ho c]
  exact ⟨_, _, rfl⟩

theorem Dbls.tokens_length {n : Nat} (d : Dbls n) : d.tokens.length = n := by
  simp [Dbls.tokens, d.len]

/-- A `6d ` record of which a token is absent ends with a `return false`. -/
theorem record_6d_cut (k : Nat) (r : PoseWire) (o : Nat) (c : CutTail)
    (t : Table DTrack_Body_Type_d) (hid : 0 ≤ r.id.val) (h0 : 0 ≤ t.num)
    (ht : t.num ≤ t.vec.length) (ho : o < r.tokens.length) :
    Flow.Fails (record_6d k (render ((r.tokens.take o).map Tok.text ++ c.texts)) t) := by
  simp only [PoseWire.tokens, List.length_append, List.length_cons, List.length_nil,
    Dbls.tokens_length] at ho
  unfold record_6d PoseWire.tokens
  refine fails_block_cut _ _ o c _ rfl _ _ (fun h1 => ?_)
  have hv0 : (Tok.ints [Tok.i r.id, .d r.quality]).getD 0 0 = r.id.val := rfl
  simp only [List.length_cons, List.length_nil] at h1 ⊢
  rw [hv0]
  refine fails_bind (grow_succeeds _ _ _ _ hid h0 ht) (fun t0 g0 => ?_)
  have hlt : r.id.val < t0.vec.length := by
    have := le_max_right t.num (r.id.val + 1)
    omega
  refine fails_bind (update_succeeds _ _ _ hid hlt) (fun t1 g1 => ?_)
  refine fails_block_cut _ _ _ c _ r.loc.fmt3 _ _ (fun h2 => ?_)
  simp only [Dbls.tokens_length] at h2 ⊢
  refine fails_bind (update_succeeds _ _ _ hid (by omega)) (fun t2 g2 => ?_)
  exact fails_block_last _ _ (by rw [Dbls.tokens_length]; omega) c _ r.rot.fmt9 _ _

/-- A `6df ` record of which a token is absent ends with a `return false`. -/
theorem record_6df_cut (k : Nat) (r : ButtonWire) (o : Nat) (c : CutTail)
    (t : Table DTrack_FlyStick_Type_d) (hid : r.id.val = k) (hk : k < t.vec.length)
    (ho : o < r.tokens.length) :
    Flow.Fails (record_6df k (render ((r.tokens.take o).map Tok.text ++ c.texts)) t) := by
  simp only [ButtonWire.tokens, List.length_append, List.length_cons, List.length_nil,
    Dbls.tokens_length] at ho
  unfold record_6df ButtonWire.tokens
  refine fails_block_cut _ _ o c _ rfl _ _ (fun h1 => ?_)
  have hne : ¬ (Tok.ints [Tok.i r.id, .d r.quality, .i r.bits]).getD 0 0 ≠ (k : Int) := by
    simpa [Tok.ints] using hid
  simp only [List.length_cons, List.length_nil] at h1 ⊢
  rw [if_neg hne]
  refine fails_bind (update_succeeds _ _ _ (by omega) (by omega)) (fun t1 g1 => ?_)
  refine fails_block_cut _ _ _ c _ r.loc.fmt3 _ _ (fun h2 => ?_)
  simp only [Dbls.tokens_length] at h2 ⊢
  refine fails_bind (update_succeeds _ _ _ (by omega) (by omega)) (fun t2 g2 => ?_)
  exact fails_block_last _ _ (by rw [Dbls.tokens_length]; omega) c _ r.rot.fmt9 _ _

/-- A `6dmt ` record of which a token is absent ends with a `return false`. -/
theorem record_6dmt_cut (k : Nat) (r : ButtonWire) (o : Nat) (c : CutTail)
    (t : Table DTrack_MeaTool_Type_d) (hid : r.id.val = k) (hk : k < t.vec.length)
    (ho : o < r.tokens.length) :
    Flow.Fails (record_6dmt k (render ((r.tokens.take o).map Tok.text ++ c.texts)) t) := by
  simp only [ButtonWire.tokens, List.length_append, List.length_cons, List.length_nil,
    Dbls.tokens_length] at ho
  unfold record_6dmt ButtonWire.tokens
  refine fails_block_cut _ _ o c _ rfl _ _ (fun h1 => ?_)
  have hne : ¬ (Tok.ints [Tok.i r.id, .d r.quality, .i r.bits]).getD 0 0 ≠ (k : Int) := by
    simpa [Tok.ints] using hid
  simp only [List.length_cons, List.length_nil] at h1 ⊢
  rw [if_neg hne]
  refine fails_bind (update_succeeds _ _ _ (by omega) (by omega)) (fun t1 g1 => ?_)
  refine fails_block_cut _ _ _ c _ r.loc.fmt3 _ _ (fun h2 => ?_)
  simp only [Dbls.tokens_length] at h2 ⊢
  refine fails_bind (update_succeeds _ _ _ (by omega) (by omega)) (fun t2 g2 => ?_)
  exact fails_block_last _ _ (by rw [Dbls.tokens_length]; omega) c _ r.rot.fmt9 _ _

/-- A `6dmtr ` record of which a token is absent ends with a `return false`. -/
theorem record_6dmtr_cut (k : Nat) (r : PoseWire) (o : Nat) (c : CutTail)
    (t : Table DTrack_MeaRef_Type_d) (hk : k < t.vec.length) (ho : o < r.tokens.length) :
    Flow.Fails (record_6dmtr k (render ((r.tokens.take o).map Tok.text ++ c.texts)) t) := by
  simp only [PoseWire.tokens, List.length_append, List.length_cons, List.length_nil,
    Dbls.tokens_length] at ho
  unfold record_6dmtr PoseWire.tokens
  refine fails_block_cut _ _ o c _ rfl _ _ (fun h1 => ?_)
  simp only [List.length_cons, List.length_nil] at h1 ⊢
  refine fails_bind (update_succeeds _ _ _ (by omega) (by omega)) (fun t1 g1 => ?_)
  refine fails_block_cut _ _ _ c _ r.loc.fmt3 _ _ (fun h2 => ?_)
  simp only [Dbls.tokens_length] at h2 ⊢
  refine fails_bind (update_succeeds _ _ _ (by omega) (by omega)) (fun t2 g2 => ?_)
  exact fails_block_last _ _ (by rw [Dbls.tokens_length]; omega) c _ r.rot.fmt9 _ _

/-- A `6df2 ` record of which a token is absent ends with a `return false`. -/
theorem record_6df2_cut (k : Nat) (r : Fly2Wire) (o : Nat) (c : CutTail)
    (t : Table DTrack_FlyStick_Type_d) (hid : r.id.val = k) (hwf : r.wf = true)
    (hk : k < t.vec.length) (ho : o < r.tokens.length) :
    Flow.Fails (record_6df2 k (render ((r.tokens.take o).map Tok.text ++ c.texts)) t) := by
  simp only [Fly2Wire.wf, Bool.and_eq_true, decide_eq_true_eq] at hwf
  obtain ⟨⟨⟨⟨⟨hb0, hb8⟩, hj0⟩, hj8⟩, hw⟩, hj⟩ := hwf
  simp only [Fly2Wire.tokens, List.length_append, List.length_cons, List.length_nil,
    Dbls.tokens_length, List.length_map] at ho
  unfold record_6df2 Fly2Wire.tokens
  refine fails_block_cut _ _ o c _ rfl _ _ (fun h1 => ?_)
  have v0 : (Tok.ints [Tok.i r.id, .d r.quality, .i r.num_button, .i r.num_joystick]).getD 0 0
      = r.id.val := rfl
  have v1 : (Tok.ints [Tok.i r.id, .d r.quality, .i r.num_button, .i r.num_joystick]).getD 1 0
      = r.num_button.val := rfl
  have v2 : (Tok.ints [Tok.i r.id, .d r.quality, .i r.num_button, .i r.num_joystick]).getD 2 0
      = r.num_joystick.val := rfl
  simp only [List.length_cons, List.length_nil] at h1 ⊢
  rw [v0, v1, v2, if_neg (by simpa using hid)]
  refine fails_bind (update_succeeds _ _ _ (by omega) (by omega)) (fun t0 g0 => ?_)
  rw [if_neg (by simp only [DTRACK_FLYSTICK_MAX_BUTTON, DTRACK_FLYSTICK_MAX_JOYSTICK]; omega)]
  refine fails_bind (update_succeeds _ _ _ (by omega) (by omega)) (fun t1 g1 => ?_)
  refine fails_block_cut _ _ _ c _ r.loc.fmt3 _ _ (fun h2 => ?_)
  simp only [Dbls.tokens_length] at h2 ⊢
  refine fails_bind (update_succeeds _ _ _ (by omega) (by omega)) (fun t2 g2 => ?_)
  refine fails_block_cut _ _ _ c _ r.rot.fmt9 _ _ (fun h3 => ?_)
  simp only [Dbls.tokens_length] at h3 ⊢
  have hfmt : (r.words.map Tok.i ++ r.joysticks.map Tok.d).map Tok.fmt =
      sfmt_6df2 r.num_button.val r.num_joystick.val := by
    rw [List.map_append, Tok.map_i_fmt, Tok.map_d_fmt, hw, hj]
    rfl
  have hlen : ¬ ((sfmt_6df2 r.num_button.val r.num_joystick.val).length ≥ 20 ∨
      r.num_joystick.val > DTRACK_FLYSTICK_MAX_JOYSTICK) := by
    simp only [sfmt_6df2, List.length_append, List.length_replicate,
      DTRACK_FLYSTICK_MAX_JOYSTICK]
    omega
  refine fails_bind (update_succeeds _ _ _ (by omega) (by omega)) (fun t3 g3 => ?_)
  rw [if_neg hlen]
  exact fails_block_last _ _ (by
    simp only [List.length_append, List.length_map]
    omega) c _ hfmt _ _

/-- A finger of a `gl ` record of which a token is absent ends with a `return false`. -/
theorem finger_gl_cut (id : Int) (k : Nat) (f : FingerWire) (o : Nat) (c : CutTail)
    (t : Table DTrack_Hand_Type_d) (h0 : 0 ≤ id) (h1 : id < t.vec.length)
    (ho : o < f.tokens.length) :
    Flow.Fails (finger_gl id k (render ((f.tokens.take o).map Tok.text ++ c.texts)) t) := by
  simp only [FingerWire.tokens, List.length_append, Dbls.tokens_length] at ho
  unfold finger_gl FingerWire.tokens
  refine fails_block_cut _ _ o c _ f.loc.fmt3 _ _ (fun e1 => ?_)
  simp only [Dbls.tokens_length] at e1 ⊢
  refine fails_bind (update_succeeds _ _ _ h0 h1) (fun t1 g1 => ?_)
  refine fails_block_cut _ _ _ c _ f.rot.fmt9 _ _ (fun e2 => ?_)
  simp only [Dbls.tokens_length] at e2 ⊢
  refine fails_bind (update_succeeds _ _ _ h0 (by omega)) (fun t2 g2 => ?_)
  exact fails_block_last _ _ (by rw [Dbls.tokens_length]; omega) c _ f.six.fmt6 _ _

/-- A `gl ` record of which a token is absent ends with a `return false`. -/
theorem record_gl_cut (k : Nat) (r : HandWire) (o : Nat) (c : CutTail)
    (t : Table DTrack_Hand_Type_d) (hwf : r.wf = true) (h0 : 0 ≤ t.num)
    (ht : t.num ≤ t.vec.length) (ho : o < r.tokens.length) :
    Flow.Fails (record_gl k (render ((r.tokens.take o).map Tok.text ++ c.texts)) t) := by
  simp only [HandWire.wf, Bool.and_eq_true, decide_eq_true_eq] at hwf
  obtain ⟨⟨hid, hnf⟩, hn5⟩ := hwf
  simp only [HandWire.tokens, List.length_append, List.length_cons, List.length_nil,
    Dbls.tokens_length] at ho
  unfold record_gl HandWire.tokens
  refine fails_block_cut _ _ o c _ rfl _ _ (fun e1 => ?_)
  have hv0 : (Tok.ints [Tok.i r.id, .d r.quality, .i r.lr, .i r.nfinger]).getD 0 0
      = r.id.val := rfl
  have hv2 : (Tok.ints [Tok.i r.id, .d r.quality, .i r.lr, .i r.nfinger]).getD 2 0
      = r.nfinger.val := rfl
  simp only [List.length_cons, List.length_nil] at e1 ⊢
  rw [hv0, hv2]
  refine fails_bind (grow_succeeds _ _ _ _ hid h0 ht) (fun t0 g0 => ?_)
  have hlt : r.id.val < t0.vec.length := by
    have := le_max_right t.num (r.id.val + 1)
    omega
  refine fails_bind (update_succeeds _ _ _ hid hlt) (fun t1 g1 => ?_)
  rw [if_neg (by simp only [DTRACK_HAND_MAX_FINGER]; omega)]
  refine fails_bind (update_succeeds _ _ _ hid (by omega)) (fun t2 g2 => ?_)
  refine fails_block_cut _ _ _ c _ r.loc.fmt3 _ _ (fun e2 => ?_)
  simp only [Dbls.tokens_length] at e2 ⊢
  refine fails_bind (update_succeeds _ _ _ hid (by omega)) (fun t3 g3 => ?_)
  refine fails_block_cut _ _ _ c _ r.rot.fmt9 _ _ (fun e3 => ?_)
  simp only [Dbls.tokens_length] at e3 ⊢
  refine fails_bind (update_succeeds _ _ _ hid (by omega)) (fun t4 g4 => ?_)
  have hcnt : r.nfinger.val.toNat = r.fingers.length := by omega
  rw [hcnt]
  exact for_loop_cut (finger_gl r.id.val) FingerWire.tokens (fun _ _ => true)
    (fun x => x.vec.length = t4.vec.length)
    (fun j f ts1 x _ hx => (finger_gl_succeeds r.id.val j f ts1 x hid
      (by rw [hx]; omega)).weaken (fun a ha => ⟨ha.1, ha.2.2.trans hx⟩))
    (fun j f o1 c1 x _ hx ho1 => finger_gl_cut r.id.val j f o1 c1 x hid
      (by rw [hx]; omega) ho1)
    r.fingers (all_from_of_all _ _ _ (by simp)) _ (by omega) c t4 rfl

/-- A joint of a `6dj ` model of which a token is absent ends with a `return false`. -/
theorem joint_6dj_cut (id : Int) (k : Nat) (j : JointWire) (o : Nat) (c : CutTail)
    (t : Table DTrack_Human_Type) (hk : k < 20) (h0 : 0 ≤ id) (h1 : id < t.vec.length)
    (ho : o < j.tokens.length) :
    Flow.Fails (joint_6dj id k (render ((j.tokens.take o).map Tok.text ++ c.texts)) t) := by
  simp only [JointWire.tokens, List.length_append, List.length_cons, List.length_nil,
    Dbls.tokens_length] at ho
  unfold joint_6dj JointWire.tokens
  refine fails_block_cut _ _ o c _ rfl _ _ (fun e1 => ?_)
  simp only [List.length_cons, List.length_nil] at e1 ⊢
  rw [if_neg (by simp only [DTRACK_HUMAN_MAX_JOINTS]; omega)]
  refine fails_bind (update_succeeds _ _ _ h0 h1) (fun t1 g1 => ?_)
  refine fails_block_cut _ _ _ c _ j.six.fmt6 _ _ (fun e2 => ?_)
  simp only [Dbls.tokens_length] at e2 ⊢
  refine fails_bind (update_succeeds _ _ _ h0 (by omega)) (fun t2 g2 => ?_)
  exact fails_block_last _ _ (by rw [Dbls.tokens_length]; omega) c _ j.rot.fmt9 _ _

/-- A `6dj ` model of which a token is absent ends with a `return false`. -/
theorem record_6dj_cut (k : Nat) (r : HumanWire) (o : Nat) (c : CutTail)
    (t : Table DTrack_Human_Type) (hwf : r.wf t.num = true)
    (ht : (t.vec.length : Int) = t.num) (ho : o < r.tokens.length) :
    Flow.Fails (record_6dj k (render ((r.tokens.take o).map Tok.text ++ c.texts)) t) := by
  simp only [HumanWire.wf, Bool.and_eq_true, decide_eq_true_eq] at hwf
  obtain ⟨⟨⟨hid, hlt⟩, hnj⟩, hn20⟩ := hwf
  simp only [HumanWire.tokens, List.length_append, List.length_cons, List.length_nil] at ho
  unfold record_6dj HumanWire.tokens
  refine fails_block_cut _ _ o c _ rfl _ _ (fun e1 => ?_)
  have hv0 : (Tok.ints [Tok.i r.id, .i r.num_joints]).getD 0 0 = r.id.val := rfl
  have hv1 : (Tok.ints [Tok.i r.id, .i r.num_joints]).getD 1 0 = r.num_joints.val := rfl
  simp only [List.length_cons, List.length_nil] at e1 ⊢
  rw [hv0, hv1, if_neg (by omega)]
  refine fails_bind (update_succeeds _ _ _ hid (by omega)) (fun t1 g1 => ?_)
  have hcnt : r.num_joints.val.toNat = r.joints.length := by omega
  rw [hcnt]
  exact for_loop_cut (joint_6dj r.id.val) JointWire.tokens (fun i _ => decide (i < 20))
    (fun x => x.vec.length = t1.vec.length)
    (fun i j ts1 x hi hx => (joint_6dj_succeeds r.id.val i j ts1 x (by simpa using hi) hid
      (by rw [hx]; omega)).weaken (fun a ha => ⟨ha.1, ha.2.2.trans hx⟩))
    (fun i j o1 c1 x hi hx ho1 => joint_6dj_cut r.id.val i j o1 c1 x (by simpa using hi) hid
      (by rw [hx]; omega) ho1)
    r.joints (all_from_lt 20 _ 0 (by omega)) _ (by omega) c t1 rfl

/-- The loop of a line whose records fill the slots `0, 1, ..` of a table, when only the
first `o` tokens of the records stand in the text. -/
theorem for_loop_cut_indexed {ρ α : Type}
    (body : Int → List Char → Table α → Flow (Table α) (List Char × Table α))
    (toks : ρ → List Tok) (P : Nat → ρ → Bool)
    (hrec : ∀ (k : Nat) (r : ρ) (ts : List (List Char)) (t : Table α), P k r = true →
      k < t.vec.length →
      Flow.Succeeds (fun a => a.1 = render ts ∧ a.2.num = t.num ∧
        a.2.vec.length = t.vec.length) (body k (render ((toks r).map Tok.text ++ ts)) t))
    (hcut : ∀ (k : Nat) (r : ρ) (o : Nat) (c : CutTail) (t : Table α), P k r = true →
      k < t.vec.length → o < (toks r).length →
      Flow.Fails (body k (render (((toks r).take o).map Tok.text ++ c.texts)) t))
    (recs : List ρ) (hP : all_from P 0 recs = true) (o : Nat)
    (ho : o < (Tok.all toks recs).length) (c : CutTail) (t : Table α)
    (hlen : recs.length ≤ t.vec.length) :
    Flow.Fails (for_loop body recs.length 0
      (render (((Tok.all toks recs).take o).map Tok.text ++ c.texts)) t) :=
  for_loop_cut body toks (fun k r => P k r && decide (k < t.vec.length))
    (fun x => x.vec.length = t.vec.length)
    (fun k r ts x hk hx => by
      simp only [Bool.and_eq_true, decide_eq_true_eq] at hk
      exact (hrec k r ts x hk.1 (by rw [hx]; exact hk.2)).weaken
        (fun a ha => ⟨ha.1, ha.2.2.trans hx⟩))
    (fun k r o1 c1 x hk hx ho1 => by
      simp only [Bool.and_eq_true, decide_eq_true_eq] at hk
      exact hcut k r o1 c1 x hk.1 (by rw [hx]; exact hk.2) ho1)
    recs (all_from_and _ _ _ _ hP (all_from_lt _ _ 0 (by omega))) o ho c t rfl

theorem fails_no_int {σ β : Type} (s : List Char) (h : string_get_i s = none) (t : σ)
    (f : Int × List Char → Flow σ β) :
    Flow.Fails (Flow.parse (string_get_i s) t >>= f) := by
  rw [h]
  exact ⟨_, _, rfl⟩

/-- A `6d ` line of which a record token is absent ends with a `return false`. -/
theorem line_6d_cut (n : IntTok) (recs : List PoseWire)
    (hwf : (WireLine.body n recs).wf = true) (o : Nat)
    (ho : o < (Tok.all PoseWire.tokens recs).length) (c : CutTail)
    (t : Table DTrack_Body_Type_d) (h0 : 0 ≤ t.num) (ht : t.num ≤ t.vec.length) :
    Flow.Fails (line_6d (n.text ++
      render (((Tok.all PoseWire.tokens recs).take o).map Tok.text ++ c.texts)) t) := by
  simp only [WireLine.wf, Bool.and_eq_true, decide_eq_true_eq] at hwf
  obtain ⟨hn, hids⟩ := hwf
  unfold line_6d
  refine fails_bind (disable_all_succeeds _ _ ht) (fun t1 h1 => ?_)
  refine fails_int _ _ _ _ ?_
  dsimp only
  have hcnt : n.val.toNat = recs.length := by omega
  rw [hcnt]
  refine fails_first _ ?_
  exact for_loop_cut record_6d PoseWire.tokens (fun _ r => decide (0 ≤ r.id.val))
    (fun x => 0 ≤ x.num ∧ x.num ≤ x.vec.length)
    (fun k r ts x hk hx => (record_6d_succeeds k r ts x (by simpa using hk) hx.1 hx.2).weaken
      (fun a ha => ⟨ha.1, by have := ha.2.1; omega, ha.2.2⟩))
    (fun k r o1 c1 x hk hx ho1 => record_6d_cut k r o1 c1 x (by simpa using hk) hx.1 hx.2 ho1)
    recs (all_from_of_all _ _ _ hids) o ho c t1 ⟨by omega, by omega⟩

/-- A `gl ` line of which a record token is absent ends with a `return false`. -/
theorem line_gl_cut (n : IntTok) (recs : List HandWire)
    (hwf : (WireLine.hand n recs).wf = true) (o : Nat)
    (ho : o < (Tok.all HandWire.tokens recs).length) (c : CutTail)
    (t : Table DTrack_Hand_Type_d) (h0 : 0 ≤ t.num) (ht : t.num ≤ t.vec.length) :
    Flow.Fails (line_gl (n.text ++
      render (((Tok.all HandWire.tokens recs).take o).map Tok.text ++ c.texts)) t) := by
  simp only [WireLine.wf, Bool.and_eq_true, decide_eq_true_eq] at hwf
  obtain ⟨hn, hids⟩ := hwf
  unfold line_gl
  refine fails_bind (disable_all_succeeds _ _ ht) (fun t1 h1 => ?_)
  refine fails_int _ _ _ _ ?_
  dsimp only
  have hcnt : n.val.toNat = recs.length := by omega
  rw [hcnt]
  refine fails_first _ ?_
  exact for_loop_cut record_gl HandWire.tokens (fun _ r => r.wf)
    (fun x => 0 ≤ x.num ∧ x.num ≤ x.vec.length)
    (fun k r ts x hk hx => (record_gl_succeeds k r ts x hk hx.1 hx.2).weaken
      (fun a ha => ⟨ha.1, by have := ha.2.1; omega, ha.2.2⟩))
    (fun k r o1 c1 x hk hx ho1 => record_gl_cut k r o1 c1 x hk hx.1 hx.2 ho1)
    recs (all_from_of_all _ _ _ hids) o ho c t1 ⟨by omega, by omega⟩

/-- A `6df ` line of which a record token is absent ends with a `return false`. -/
theorem line_6df_cut (n : IntTok) (recs : List ButtonWire)
    (hwf : (WireLine.flystick1 n recs).wf = true) (o : Nat)
    (ho : o < (Tok.all ButtonWire.tokens recs).length) (c : CutTail)
    (t : Table DTrack_FlyStick_Type_d) (ht : (t.vec.length : Int) = t.num) :
    Flow.Fails (line_6df (n.text ++
      render (((Tok.all ButtonWire.tokens recs).take o).map Tok.text ++ c.texts)) t) := by
  simp only [WireLine.wf, Bool.and_eq_true, decide_eq_true_eq] at hwf
  obtain ⟨hn, hids⟩ := hwf
  unfold line_6df
  refine fails_int _ _ _ _ ?_
  dsimp only
  refine fails_bind (adjust_succeeds _ _ _ (by omega) ht) (fun t1 h1 => ?_)
  have hcnt : n.val.toNat = recs.length := by omega
  rw [hcnt]
  refine fails_first _ ?_
  exact for_loop_cut_indexed record_6df ButtonWire.tokens _
    (fun k r ts x hk hx => record_6df_succeeds k r ts x (by simpa using hk) hx)
    (fun k r o1 c1 x hk hx ho1 => record_6df_cut k r o1 c1 x (by simpa using hk) hx ho1)
    recs hids o ho c t1 (by omega)

/-- A `6dmt ` line of which a record token is absent ends with a `return false`. -/
theorem line_6dmt_cut (n : IntTok) (recs : List ButtonWire)
    (hwf : (WireLine.meatool n recs).wf = true) (o : Nat)
    (ho : o < (Tok.all ButtonWire.tokens recs).length) (c : CutTail)
    (t : Table DTrack_MeaTool_Type_d) (ht : (t.vec.length : Int) = t.num) :
    Flow.Fails (line_6dmt (n.text ++
      render (((Tok.all ButtonWire.tokens recs).take o).map Tok.text ++ c.texts)) t) := by
  simp only [WireLine.wf, Bool.and_eq_true, decide_eq_true_eq] at hwf
  obtain ⟨hn, hids⟩ := hwf
  unfold line_6dmt
  refine fails_int _ _ _ _ ?_
  dsimp only
  refine fails_bind (adjust_succeeds _ _ _ (by omega) ht) (fun t1 h1 => ?_)
  have hcnt : n.val.toNat = recs.length := by omega
  rw [hcnt]
  refine fails_first _ ?_
  exact for_loop_cut_indexed record_6dmt ButtonWire.tokens _
    (fun k r ts x hk hx => record_6dmt_succeeds k r ts x (by simpa using hk) hx)
    (fun k r o1 c1 x hk hx ho1 => record_6dmt_cut k r o1 c1 x (by simpa using hk) hx ho1)
    recs hids o ho c t1 (by omega)

/-- A `6df2 ` line of which the second count or a record token is absent ends with a
`return false`. -/
theorem line_6df2_cut (n1 n2 : IntTok) (recs : List Fly2Wire)
    (hwf : (WireLine.flystick2 n1 n2 recs).wf = true) (c : CutTail)
    (t : Table DTrack_FlyStick_Type_d) (ht : (t.vec.length : Int) = t.num) :
    Flow.Fails (line_6df2 (n1.text ++ render c.texts) t) ∧
    ∀ o, o < (Tok.all Fly2Wire.tokens recs).length →
      Flow.Fails (line_6df2 (n1.text ++ render (n2.text ::
        (((Tok.all Fly2Wire.tokens recs).take o).map Tok.text ++ c.texts))) t) := by
  simp only [WireLine.wf, Bool.and_eq_true, decide_eq_true_eq] at hwf
  obtain ⟨⟨hn, hle⟩, hids⟩ := hwf
  constructor
  · unfold line_6df2
    refine fails_int _ _ _ _ ?_
    dsimp only
    refine fails_bind (adjust_succeeds _ _ _ (by omega) ht) (fun t1 h1 => ?_)
    exact fails_no_int _ c.no_int.1 _ _
  · intro o ho
    unfold line_6df2
    refine fails_int _ _ _ _ ?_
    dsimp only
    refine fails_bind (adjust_succeeds _ _ _ (by omega) ht) (fun t1 h1 => ?_)
    rw [render]
    refine fails_int _ _ _ _ ?_
    dsimp only
    have hcnt : n2.val.toNat = recs.length := by omega
    rw [hcnt]
    refine fails_first _ ?_
    exact for_loop_cut_indexed record_6df2 Fly2Wire.tokens _
      (fun k r ts x hk hx => by
        simp only [Bool.and_eq_true, decide_eq_true_eq] at hk
        exact record_6df2_succeeds k r ts x hk.1 hk.2 hx)
      (fun k r o1 c1 x hk hx ho1 => by
        simp only [Bool.and_eq_true, decide_eq_true_eq] at hk
        exact record_6df2_cut k r o1 c1 x hk.1 hk.2 hx ho1)
      recs hids o ho c t1 (by omega)

/-- A `6dmtr ` line of which the second count or a record token is absent ends with a
`return false`. -/
theorem line_6dmtr_cut (n1 n2 : IntTok) (recs : List PoseWire)
    (hwf : (WireLine.mearef n1 n2 recs).wf = true) (c : CutTail)
    (t : Table DTrack_MeaRef_Type_d) (ht : (t.vec.length : Int) = t.num) :
    Flow.Fails (line_6dmtr (n1.text ++ render c.texts) t) ∧
    ∀ o, o < (Tok.all PoseWire.tokens recs).length →
      Flow.Fails (line_6dmtr (n1.text ++ render (n2.text ::
        (((Tok.all PoseWire.tokens recs).take o).map Tok.text ++ c.texts))) t) := by
  simp only [WireLine.wf, decide_eq_true_eq] at hwf
  constructor
  · unfold line_6dmtr
    refine fails_int _ _ _ _ ?_
    dsimp only
    exact fails_no_int _ c.no_int.1 _ _
  · intro o ho
    unfold line_6dmtr
    refine fails_int _ _ _ _ ?_
    dsimp only
    rw [render]
    refine fails_int _ _ _ _ ?_
    dsimp only
    refine fails_bind (adjust_succeeds _ _ _ (by omega) ht) (fun t1 h1 => ?_)
    have hcnt : n2.val.toNat = recs.length := by omega
    rw [hcnt]
    refine fails_first _ ?_
    exact for_loop_cut_indexed record_6dmtr PoseWire.tokens (fun _ _ => true)
      (fun k r ts x _ hx => record_6dmtr_succeeds k r ts x hx)
      (fun k r o1 c1 x _ hx ho1 => record_6dmtr_cut k r o1 c1 x hx ho1)
      recs (all_from_of_all _ _ _ (by simp)) o ho c t1 (by omega)

/-- A `6dj ` line of which the second count or a model token is absent ends with a
`return false`. -/
theorem line_6dj_cut (n1 n2 : IntTok) (recs : List HumanWire)
    (hwf : (WireLine.human n1 n2 recs).wf = true) (c : CutTail)
    (t : Table DTrack_Human_Type) (ht : (t.vec.length : Int) = t.num) :
    Flow.Fails (line_6dj (n1.text ++ render c.texts) t) ∧
    ∀ o, o < (Tok.all HumanWire.tokens recs).length →
      Flow.Fails (line_6dj (n1.text ++ render (n2.text ::
        (((Tok.all HumanWire.tokens recs).take o).map Tok.text ++ c.texts))) t) := by
  simp only [WireLine.wf, Bool.and_eq_true, decide_eq_true_eq] at hwf
  obtain ⟨⟨h0, hn⟩, hids⟩ := hwf
  constructor
  · unfold line_6dj
    refine fails_int _ _ _ _ ?_
    dsimp only
    refine fails_bind (adjust_succeeds _ _ _ h0 ht) (fun t1 h1 => ?_)
    refine fails_bind (disable_all_succeeds _ _ (by omega)) (fun t2 h2 => ?_)
    exact fails_no_int _ c.no_int.1 _ _
  · intro o ho
    unfold line_6dj
    refine fails_int _ _ _ _ ?_
    dsimp only
    refine fails_bind (adjust_succeeds _ _ _ h0 ht) (fun t1 h1 => ?_)
    refine fails_bind (disable_all_succeeds _ _ (by omega)) (fun t2 h2 => ?_)
    rw [render]
    refine fails_int _ _ _ _ ?_
    dsimp only
    have hcnt : n2.val.toNat = recs.length := by omega
    rw [hcnt]
    refine fails_first _ ?_
    exact for_loop_cut record_6dj HumanWire.tokens (fun _ r => r.wf n1.val)
      (fun x => x.num = n1.val ∧ (x.vec.length : Int) = n1.val)
      (fun k r ts x hk hx => (record_6dj_succeeds k r ts x (by rw [hx.1]; exact hk)
        (by omega)).weaken (fun a ha => ⟨ha.1, by omega, by omega⟩))
      (fun k r o1 c1 x hk hx ho1 => record_6dj_cut k r o1 c1 x (by rw [hx.1]; exact hk)
        (by omega) ho1)
      recs (all_from_of_all _ _ _ hids) o ho c t2 ⟨by omega, by omega⟩

theorem MarkerWire.toks_text (r : MarkerWire) : r.toks.map Tok.text = r.tokens := by
  simp [MarkerWire.toks, MarkerWire.tokens, Tok.text, Function.comp_def]

theorem MarkerWire.all_toks (recs : List MarkerWire) :
    (Tok.all MarkerWire.toks recs).map Tok.text = MarkerWire.all_tokens recs := by
  induction recs with
  | nil => rfl
  | cons r recs ih =>
    rw [Tok.all, List.map_append, ih, r.toks_text]
    rfl

theorem record_3d_succeeds (k : Nat) (r : MarkerWire) (ts : List (List Char))
    (t : Table DTrack_Marker_Type_d) (hk : k < t.vec.length) :
    Flow.Succeeds (fun a => a.1 = render ts ∧ a.2.num = t.num ∧
        a.2.vec.length = t.vec.length)
      (record_3d k (render (r.toks.map Tok.text ++ ts)) t) := by
  rw [r.toks_text, record_3d_wire r ts k t hk]
  exact ⟨_, rfl, rfl, rfl, by simp⟩

/-- A `3d ` record of which a token is absent ends with a `return false`. -/
theorem record_3d_cut (k : Nat) (r : MarkerWire) (o : Nat) (c : CutTail)
    (t : Table DTrack_Marker_Type_d) (hk : k < t.vec.length) (ho : o < r.toks.length) :
    Flow.Fails (record_3d k (render ((r.toks.take o).map Tok.text ++ c.texts)) t) := by
  simp only [MarkerWire.toks, List.length_append, List.length_cons, List.length_nil,
    List.length_map, r.loc_len] at ho
  unfold record_3d MarkerWire.toks
  refine fails_block_cut _ _ o c _ rfl _ _ (fun h1 => ?_)
  simp only [List.length_cons, List.length_nil] at h1 ⊢
  refine fails_bind (update_succeeds _ _ _ (by omega) (by omega)) (fun t1 g1 => ?_)
  have hfmt : (r.loc.map Tok.d).map Tok.fmt = fmt_ddd := by
    rw [Tok.map_d_fmt, r.loc_len]
    rfl
  exact fails_block_last _ _ (by rw [List.length_map, r.loc_len]; omega) c _ hfmt _ _

/-- A `3d ` line of which a record token is absent ends with a `return false`. -/
theorem line_3d_cut (n : IntTok) (recs : List MarkerWire)
    (hwf : (WireLine.marker n recs).wf = true) (o : Nat)
    (ho : o < (Tok.all MarkerWire.toks recs).length) (c : CutTail)
    (t : Table DTrack_Marker_Type_d) :
    Flow.Fails (line_3d (n.text ++
      render (((Tok.all MarkerWire.toks recs).take o).map Tok.text ++ c.texts)) t) := by
  simp only [WireLine.wf, decide_eq_true_eq] at hwf
  unfold line_3d
  rw [(string_get_i_tok n _).1]
  simp only [hwf]
  have hloop : ∀ x : Table DTrack_Marker_Type_d, recs.length ≤ x.vec.length →
      Flow.Fails (for_loop record_3d recs.length 0
        (render (((Tok.all MarkerWire.toks recs).take o).map Tok.text ++ c.texts)) x) :=
    fun x hx => for_loop_cut_indexed record_3d MarkerWire.toks (fun _ _ => true)
      (fun k r ts y _ hy => record_3d_succeeds k r ts y hy)
      (fun k r o1 c1 y _ hy ho1 => record_3d_cut k r o1 c1 y hy ho1)
      recs (all_from_of_all _ _ _ (by simp)) o ho c x hx
  by_cases hgt : (recs.length : Int) > (t.vec.length : Int)
  · obtain ⟨v1, hv, hl⟩ := vec_resize_ok marker_zero t.vec (recs.length : Int) (by omega)
    simp only [hgt, if_true, hv, Flow.mem, bind, Flow.bind, pure, Int.toNat_ofNat]
    obtain ⟨w, s, hf⟩ := hloop ⟨recs.length, v1⟩ (by simp only; omega)
    rw [hf]
    exact ⟨_, _, rfl⟩
  · simp only [hgt, if_false, bind, Flow.bind, pure, Int.toNat_ofNat]
    obtain ⟨w, s, hf⟩ := hloop ⟨recs.length, t.vec⟩ (by simp only; omega)
    rw [hf]
    exact ⟨_, _, rfl⟩

/-- A line that starts as a well-formed line does and has, where the next number of that
line is required, nothing or a token that is no number: on a session whose tables are in
step with their counts the loop body ends with a `return false`. -/
theorem line_body_cut (l : WireLine) (hwf : l.wf = true) (k : Nat)
    (hk : k < l.texts.length) (c : CutTail) (lc : Locals) (st : DTrackSDK)
    (hstep : st.in_step) : Flow.Fails (line_body (l.cut k c) lc st) := by
  obtain ⟨hb, hh, hf, hm, hr, hu⟩ := hstep
  cases l with
  | fr n =>
    have hk0 : k = 0 := by simpa [WireLine.texts] using hk
    subst hk0
    show Flow.Fails (line_body ('f' :: 'r' :: ' ' :: (render c.texts).drop 1) lc st)
    rw [line_body_kw_fr]
    refine fails_within _ _ ?_
    unfold line_fr
    rw [c.no_uint.2]
    exact ⟨_, _, rfl⟩
  | ts n =>
    have hk0 : k = 0 := by simpa [WireLine.texts] using hk
    subst hk0
    show Flow.Fails (line_body ('t' :: 's' :: ' ' :: (render c.texts).drop 1) lc st)
    rw [line_body_kw_ts]
    refine fails_within _ _ ?_
    unfold line_ts
    rw [c.no_dbl.2]
    exact ⟨_, _, rfl⟩
  | bodycal n =>
    have hk0 : k = 0 := by simpa [WireLine.texts] using hk
    subst hk0
    show Flow.Fails (line_body ('6' :: 'd' :: 'c' :: 'a' :: 'l' :: ' ' ::
      (render c.texts).drop 1) lc st)
    rw [line_body_kw_6dcal]
    refine fails_within _ _ ?_
    unfold line_6dcal
    rw [c.no_int.2]
    exact ⟨_, _, rfl⟩
  | handcal n =>
    have hk0 : k = 0 := by simpa [WireLine.texts] using hk
    subst hk0
    show Flow.Fails (line_body ('g' :: 'l' :: 'c' :: 'a' :: 'l' :: ' ' ::
      (render c.texts).drop 1) lc st)
    rw [line_body_kw_glcal, line_glcal_tail_eq, c.no_int.2]
    exact ⟨_, _, rfl⟩
  | body n recs =>
    cases k with
    | zero =>
      show Flow.Fails (line_body ('6' :: 'd' :: ' ' :: (render c.texts).drop 1) lc st)
      rw [line_body_kw_6d]
      refine fails_within _ _ ?_
      unfold line_6d
      refine fails_bind (disable_all_succeeds _ _ hb.2) (fun t1 h1 => ?_)
      exact fails_no_int _ c.no_int.2 _ _
    | succ k =>
      have ho : k < (Tok.all PoseWire.tokens recs).length := by
        simpa [WireLine.texts] using hk
      have e : (WireLine.body n recs).cut (k + 1) c = '6' :: 'd' :: ' ' :: (n.text ++
          render (((Tok.all PoseWire.tokens recs).take k).map Tok.text ++ c.texts)) := by
        rw [List.map_take]
        rfl
      rw [e, line_body_kw_6d]
      exact fails_within _ _ (line_6d_cut n recs hwf k ho c _ hb.1 hb.2)
  | flystick1 n recs =>
    cases k with
    | zero =>
      show Flow.Fails (line_body ('6' :: 'd' :: 'f' :: ' ' :: (render c.texts).drop 1) lc st)
      rw [line_body_kw_6df]
      refine fails_within _ _ ?_
      unfold line_6df
      exact fails_no_int _ c.no_int.2 _ _
    | succ k =>
      have ho : k < (Tok.all ButtonWire.tokens recs).length := by
        simpa [WireLine.texts] using hk
      have e : (WireLine.flystick1 n recs).cut (k + 1) c = '6' :: 'd' :: 'f' :: ' ' ::
          (n.text ++
            render (((Tok.all ButtonWire.tokens recs).take k).map Tok.text ++ c.texts)) := by
        rw [List.map_take]
        rfl
      rw [e, line_body_kw_6df]
      exact fails_within _ _ (line_6df_cut n recs hwf k ho c _ hf)
  | meatool n recs =>
    cases k with
    | zero =>
      show Flow.Fails (line_body ('6' :: 'd' :: 'm' :: 't' :: ' ' ::
        (render c.texts).drop 1) lc st)
      rw [line_body_kw_6dmt]
      refine fails_within _ _ ?_
      unfold line_6dmt
      exact fails_no_int _ c.no_int.2 _ _
    | succ k =>
      have ho : k < (Tok.all ButtonWire.tokens recs).length := by
        simpa [WireLine.texts] using hk
      have e : (WireLine.meatool n recs).cut (k + 1) c = '6' :: 'd' :: 'm' :: 't' :: ' ' ::
          (n.text ++
            render (((Tok.all ButtonWire.tokens recs).take k).map Tok.text ++ c.texts)) := by
        rw [List.map_take]
        rfl
      rw [e, line_body_kw_6dmt]
      exact fails_within _ _ (line_6dmt_cut n recs hwf k ho c _ hm)
  | hand n recs =>
    cases k with
    | zero =>
      show Flow.Fails (line_body ('g' :: 'l' :: ' ' :: (render c.texts).drop 1) lc st)
      rw [line_body_kw_gl]
      refine fails_within _ _ ?_
      unfold line_gl
      refine fails_bind (disable_all_succeeds _ _ hh.2) (fun t1 h1 => ?_)
      exact fails_no_int _ c.no_int.2 _ _
    | succ k =>
      have ho : k < (Tok.all HandWire.tokens recs).length := by
        simpa [WireLine.texts] using hk
      have e : (WireLine.hand n recs).cut (k + 1) c = 'g' :: 'l' :: ' ' :: (n.text ++
          render (((Tok.all HandWire.tokens recs).take k).map Tok.text ++ c.texts)) := by
        rw [List.map_take]
        rfl
      rw [e, line_body_kw_gl]
      exact fails_within _ _ (line_gl_cut n recs hwf k ho c _ hh.1 hh.2)
  | marker n recs =>
    cases k with
    | zero =>
      show Flow.Fails (line_body ('3' :: 'd' :: ' ' :: (render c.texts).drop 1) lc st)
      rw [line_body_kw_3d]
      refine fails_within _ _ ?_
      unfold line_3d
      rw [c.no_int.2]
      exact ⟨_, _, rfl⟩
    | succ k =>
      have ho : k < (Tok.all MarkerWire.toks recs).length := by
        have := congrArg List.length (MarkerWire.all_toks recs)
        simp only [List.length_map] at this
        simp only [WireLine.texts, List.length_cons] at hk
        omega
      have e : (WireLine.marker n recs).cut (k + 1) c = '3' :: 'd' :: ' ' :: (n.text ++
          render (((Tok.all MarkerWire.toks recs).take k).map Tok.text ++ c.texts)) := by
        rw [List.map_take, MarkerWire.all_toks]
        rfl
      rw [e, line_body_kw_3d]
      exact fails_within _ _ (line_3d_cut n recs hwf k ho c _)
  | flystick2 n1 n2 recs =>
    obtain ⟨h1, h2⟩ := line_6df2_cut n1 n2 recs hwf c st.act_flystick hf
    match k with
    | 0 =>
      show Flow.Fails (line_body ('6' :: 'd' :: 'f' :: '2' :: ' ' ::
        (render c.texts).drop 1) lc st)
      rw [line_body_kw_6df2]
      refine fails_within _ _ ?_
      unfold line_6df2
      exact fails_no_int _ c.no_int.2 _ _
    | 1 =>
      show Flow.Fails (line_body ('6' :: 'd' :: 'f' :: '2' :: ' ' ::
        (n1.text ++ render c.texts)) lc st)
      rw [line_body_kw_6df2]
      exact fails_within _ _ h1
    | k + 2 =>
      have ho : k < (Tok.all Fly2Wire.tokens recs).length := by
        simpa [WireLine.texts] using hk
      have e : (WireLine.flystick2 n1 n2 recs).cut (k + 2) c =
          '6' :: 'd' :: 'f' :: '2' :: ' ' :: (n1.text ++ render (n2.text ::
            (((Tok.all Fly2Wire.tokens recs).take k).map Tok.text ++ c.texts))) := by
        rw [List.map_take]
        rfl
      rw [e, line_body_kw_6df2]
      exact fails_within _ _ (h2 k ho)
  | mearef n1 n2 recs =>
    obtain ⟨h1, h2⟩ := line_6dmtr_cut n1 n2 recs hwf c st.act_mearef hr
    match k with
    | 0 =>
      show Flow.Fails (line_body ('6' :: 'd' :: 'm' :: 't' :: 'r' :: ' ' ::
        (render c.texts).drop 1) lc st)
      rw [line_body_kw_6dmtr]
      refine fails_within _ _ ?_
      unfold line_6dmtr
      exact fails_no_int _ c.no_int.2 _ _
    | 1 =>
      show Flow.Fails (line_body ('6' :: 'd' :: 'm' :: 't' :: 'r' :: ' ' ::
        (n1.text ++ render c.texts)) lc st)
      rw [line_body_kw_6dmtr]
      exact fails_within _ _ h1
    | k + 2 =>
      have ho : k < (Tok.all PoseWire.tokens recs).length := by
        simpa [WireLine.texts] using hk
      have e : (WireLine.mearef n1 n2 recs).cut (k + 2) c =
          '6' :: 'd' :: 'm' :: 't' :: 'r' :: ' ' :: (n1.text ++ render (n2.text ::
            (((Tok.all PoseWire.tokens recs).take k).map Tok.text ++ c.texts))) := by
        rw [List.map_take]
        rfl
      rw [e, line_body_kw_6dmtr]
      exact fails_within _ _ (h2 k ho)
  | human n1 n2 recs =>
    obtain ⟨h1, h2⟩ := line_6dj_cut n1 n2 recs hwf c st.act_human hu
    match k with
    | 0 =>
      show Flow.Fails (line_body ('6' :: 'd' :: 'j' :: ' ' :: (render c.texts).drop 1) lc st)
      rw [line_body_kw_6dj]
      refine fails_within _ _ ?_
      unfold line_6dj
      exact fails_no_int _ c.no_int.2 _ _
    | 1 =>
      show Flow.Fails (line_body ('6' :: 'd' :: 'j' :: ' ' :: (n1.text ++ render c.texts))
        lc st)
      rw [line_body_kw_6dj]
      exact fails_within _ _ h1
    | k + 2 =>
      have ho : k < (Tok.all HumanWire.tokens recs).length := by
        simpa [WireLine.texts] using hk
      have e : (WireLine.human n1 n2 recs).cut (k + 2) c =
          '6' :: 'd' :: 'j' :: ' ' :: (n1.text ++ render (n2.text ::
            (((Tok.all HumanWire.tokens recs).take k).map Tok.text ++ c.texts))) := by
        rw [List.map_take]
        rfl
      rw [e, line_body_kw_6dj]
      exact fails_within _ _ (h2 k ho)

/-- C2: on a session with a valid data port whose tables are in step with their counts, a
packet that has, behind well-formed lines, a line with a recognised identifier in which a
number is missing or is not numeric: the line starts as a well-formed line of one of the
twelve kinds does, with the identifier and any number `k` of its tokens, and has where the
next number is required either nothing or a token that none of the tokenizer's readers takes
as a number.  For every such packet `receive` returns false and `getLastDataError()` is
`ERR_PARSE`, and no line behind that line is processed: the session left behind is the same
whatever lines follow. -/
theorem C2_missing_number_stops_decoding (st : DTrackSDK)
    (hport : st.isLocalDataPortValid = true) (hstep : st.in_step) (udp : UdpResult)
    (hlen : 0 < udp.len) (ws1 : List WireLine) (hwf1 : ws1.all WireLine.wf = true)
    (l : WireLine) (hwf : l.wf = true) (k : Nat) (hk : k < l.texts.length) (c : CutTail)
    (ls2 : List (List Char))
    (hsplit : string_lines udp.text = ws1.map WireLine.text ++ l.cut k c :: ls2) :
    ∃ stF, st.receive udp = .ret false stF ∧ stF.getLastDataError = .ERR_PARSE ∧
      ∀ (udp2 : UdpResult) (ls3 : List (List Char)), 0 < udp2.len →
        string_lines udp2.text = ws1.map WireLine.text ++ l.cut k c :: ls3 →
        st.receive udp2 = .ret false stF := by
  have hstep0 : st.frame_start.in_step := hstep
  obtain ⟨⟨lcA, stA⟩, h1, sA, -⟩ := line_loop_wire ws1 hwf1 Locals.defaults _ hstep0
  rw [line_loop_blank] at h1
  obtain ⟨w, stF, hfail⟩ := line_body_cut l hwf k hk c lcA stA sA
  obtain ⟨hr, he⟩ := receive_fail_at st udp _ ls2 (l.cut k c) lcA stA stF w hport hlen hsplit
    h1 hfail
  refine ⟨stF, hr, he, ?_⟩
  intro udp2 ls3 hlen2 hsplit2
  exact (receive_fail_at st udp2 _ ls3 (l.cut k c) lcA stA stF w hport hlen2 hsplit2 h1
    hfail).1

/-- C2 at concrete inputs on a fresh session: the packet
`"fr 10\n6d 1 0\n3d 1 7 0.5 1 2 3\n"`, whose second line ends behind the id of its record
(the quality is missing), and the packet `"fr 10\n6d 1 x 1.0\n3d 1 7 0.5 1 2 3\n"`, whose
second line has the token `x` where the id of its record is required. -/
theorem C2_missing_number_stops_decoding_witness :
    ((WireLine.body tok_1 [body_rec_0]).cut 2 .missing = "6d 1 0".toList ∧
      ∃ stF, fresh.receive (.packet pkt_fr_cut_3d) = .ret false stF ∧
        stF.getLastDataError = .ERR_PARSE ∧
        ∀ (udp2 : UdpResult) (ls3 : List (List Char)), 0 < udp2.len →
          string_lines udp2.text = [WireLine.fr tok_10].map WireLine.text ++
            (WireLine.body tok_1 [body_rec_0]).cut 2 .missing :: ls3 →
          fresh.receive udp2 = .ret false stF) ∧
    ((WireLine.body tok_1 [body_rec_0]).cut 1 (.other tok_x ["1.0".toList]) =
        "6d 1 x 1.0".toList ∧
      ∃ stF, fresh.receive (.packet pkt_fr_x_3d) = .ret false stF ∧
        stF.getLastDataError = .ERR_PARSE ∧
        ∀ (udp2 : UdpResult) (ls3 : List (List Char)), 0 < udp2.len →
          string_lines udp2.text = [WireLine.fr tok_10].map WireLine.text ++
            (WireLine.body tok_1 [body_rec_0]).cut 1 (.other tok_x ["1.0".toList]) :: ls3 →
          fresh.receive udp2 = .ret false stF) :=
  ⟨⟨by decide, C2_missing_number_stops_decoding fresh (by decide) fresh_in_step
      (.packet pkt_fr_cut_3d) (by decide) [.fr tok_10] (by decide)
      (.body tok_1 [body_rec_0]) (by decide) 2 (by decide) .missing
      ["3d 1 7 0.5 1 2 3".toList, []] (by decide)⟩,
    ⟨by decide, C2_missing_number_stops_decoding fresh (by decide) fresh_in_step
      (.packet pkt_fr_x_3d) (by decide) [.fr tok_10] (by decide)
      (.body tok_1 [body_rec_0]) (by decide) 1 (by decide) (.other tok_x ["1.0".toList])
      ["3d 1 7 0.5 1 2 3".toList, []] (by decide)⟩⟩

/-- A call of `sendDTrack2Command` leaves the frame counter as it is. -/
theorem sendDTrack2Command_counter {st st1 : DTrackSDK} {cmd : List Char}
    {answer answer1 : Option (List Char)} {w : TcpWire} {code : Int}
    (h : st.sendDTrack2Command cmd answer w = .ret code st1 answer1) :
    st1.act_framecounter = st.act_framecounter := by
  unfold DTrackSDK.sendDTrack2Command at h
  dsimp only at h
  split at h
  · simp only [CmdOutcome.ret.injEq] at h
    rw [← h.2.1]
  split at h
  · simp only [CmdOutcome.ret.injEq] at h
    rw [← h.2.1]
    rfl
  split at h
  · simp only [CmdOutcome.ret.injEq] at h
    rw [← h.2.1]
    rfl
  split at h
  · simp only [CmdOutcome.ret.injEq] at h
    rw [← h.2.1]
    rfl
  split at h
  · simp only [CmdOutcome.ret.injEq] at h
    rw [← h.2.1]
    split
    · rfl
    split
    · rfl
    · rfl
  split at h
  · simp at h
  split at h
  · simp only [CmdOutcome.ret.injEq] at h
    rw [← h.2.1]
    rfl
  split at h
  · split at h
    · simp only [CmdOutcome.ret.injEq] at h
      rw [← h.2.1]
      rfl
    · split at h
      · simp only [CmdOutcome.ret.injEq] at h
        rw [← h.2.1]
        rfl
      · simp only [CmdOutcome.ret.injEq] at h
        rw [← h.2.1]
        rfl
  · simp only [CmdOutcome.ret.injEq] at h
    rw [← h.2.1]
    rfl


/-! ## The frame counter is a number of 32 bits -/

/-- A line leaves a frame counter below `2^32`, whether it runs to its end or stops: the
line `fr ` stores the number read modulo `2^32` (or 0 when it stops), every other line
keeps the counter. -/
theorem line_body_counter (l : List Char) (lc : Locals) (st : DTrackSDK)
    (h : st.act_framecounter < 4294967296) :
    Flow.Ends (fun st1 => st1.act_framecounter < 4294967296) Prod.snd (line_body l lc st) := by
  refine line_body_cases (fun r => Flow.Ends _ Prod.snd r) l lc st
    ?h_fr ?h_ts ?h_6dcal ?h_6d ?h_6df ?h_6df2 ?h_6dmt ?h_6dmtr ?h_glcal ?h_gl ?h_6dj ?h_3d ?h_other
  case h_fr =>
    intro _
    refine Flow.within_ends _ _ _ _ ?_ ?_
    · intro a ha
      unfold line_fr at ha
      cases hs : string_get_ui (l.drop 3) with
      | none => rw [hs] at ha; cases ha
      | some p =>
        rw [hs] at ha
        simp only [Flow.next.injEq] at ha
        subst ha
        exact Nat.mod_lt _ (by decide)
    · intro w t ht
      unfold line_fr at ht
      cases hs : string_get_ui (l.drop 3) with
      | none =>
        rw [hs] at ht
        simp only [Flow.fail.injEq] at ht
        rw [← ht.2]
        show (0 : Nat) < 4294967296
        decide
      | some p => rw [hs] at ht; cases ht
  case h_glcal =>
    intro _
    rw [line_glcal_tail_eq]
    cases string_get_i (l.drop 6) with
    | none => exact h
    | some p => exact h
  case h_other => exact h
  all_goals
    intro _
    refine Flow.within_ends _ _ _ _ ?_ ?_
    · intro a _
      exact h
    · intro w t _
      exact h

theorem line_loop_counter (ls : List (List Char)) (lc : Locals) (st : DTrackSDK)
    (h : st.act_framecounter < 4294967296) :
    Flow.Ends (fun st1 => st1.act_framecounter < 4294967296) Prod.snd (line_loop ls lc st) := by
  induction ls generalizing lc st with
  | nil => exact h
  | cons l ls ih =>
    have hb := line_body_counter l lc st h
    unfold line_loop
    cases hl : line_body l lc st with
    | next r =>
      obtain ⟨lc1, st1⟩ := r
      rw [hl] at hb
      exact ih lc1 st1 hb
    | fail w s =>
      rw [hl] at hb
      exact hb
    | undefined => trivial

/-- After every returning call of `receive` the frame counter is below `2^32`, if it was
before. -/
theorem receive_counter {st st1 : DTrackSDK} {udp : UdpResult} {b : Bool}
    (h : st.receive udp = .ret b st1) (h0 : st.act_framecounter < 4294967296) :
    st1.act_framecounter < 4294967296 := by
  have hz : (0 : Nat) < 4294967296 := by decide
  unfold DTrackSDK.receive at h
  simp only at h
  split at h
  · simp only [Outcome.ret.injEq] at h
    obtain ⟨-, rfl⟩ := h
    exact h0
  split at h
  · simp only [Outcome.ret.injEq] at h
    obtain ⟨-, rfl⟩ := h
    exact hz
  split at h
  · simp only [Outcome.ret.injEq] at h
    obtain ⟨-, rfl⟩ := h
    exact hz
  have hloop := line_loop_counter (string_lines udp.text) Locals.defaults st.frame_start hz
  rcases decode_ret_cases _ _ _ _ h with ⟨-, w, hl⟩ | ⟨-, lc, st2, hl, he⟩
  · rw [hl] at hloop
    exact hloop
  · rw [hl] at hloop
    obtain ⟨-, tb, th, -, -, rfl⟩ := frame_end_ret he
    exact hloop

/-- In every session reached from `init` by calls of `receive` and `sendDTrack2Command` the
frame counter is a number of 32 bits, as the member `unsigned int act_framecounter` is. -/
theorem reachable_counter {st : DTrackSDK} (h : st.Reachable) :
    st.getFrameCounter < 4294967296 := by
  induction h with
  | init rs udp tcp u =>
    cases udp with
    | true =>
      show (0 : Nat) < 4294967296
      decide
    | false => exact Nat.mod_lt _ (by decide)
  | receive udp b _ hr ih => exact receive_counter hr ih
  | command cmd answer answer1 w code _ hc ih =>
    have e := sendDTrack2Command_counter hc
    unfold DTrackSDK.getFrameCounter at ih ⊢
    rw [e]
    exact ih

end DTrack
